import Mathlib

/-!
# Concurrent image filters of `parcial2.c`

A shallow embedding of the pixel-processing core of `src/parcial2.c`, together with
the kernel generator of `src/img_reto2.c`, and the properties proved about them.

Modelling conventions

* C `int` values are mathematical integers (`Int`); `/` and `%` on `int` are the
  truncating `Int.tdiv` and `Int.tmod`.  The sum `(int)pixel + delta` of
  `ajustarBrilloHilo`, whose operand `delta` is an argument that the function does not
  check, wraps modulo `2^32` (`envolver32`), as the 32-bit addition of the compiled
  program does.  The other `int` expressions are loop counters, indices and kernel sums
  bounded by the image dimensions; the statements cover the executions in which they
  do not overflow.
* `unsigned char` is `Fin 256`.
* `unsigned char*** pixeles` (`[alto][ancho][canales]`) is a list of rows, each a
  list of pixels, each a list of samples.  Every read and write is bounds checked:
  an access outside the allocated shape makes the embedded function return `none`.
* `float` computations have two readings.  In the real-arithmetic reading they are
  carried out exactly in a linearly ordered field `K` (`ℚ` for evaluation, `ℝ` for the
  reals); `expf`, `sqrtf`, `cosf`, `sinf` and `M_PI` come from `math.h` and are
  parameters.  In the binary32 reading (type `Flotante`; `generarKernelGauss32`,
  `aplicarConvolucionHilo32`, `aplicarConvolucionConcurrente32`, `sampleBilinear32`,
  `resizeWorker32`, `redimensionarConcurrente32`) every operation rounds its exact
  result to the nearest IEEE 754 value, ties to even, with infinities and NaN, and
  `expf` is a parameter on those values.  The Gaussian blur and the resize are embedded
  in both readings, and the statements say which one they are about.
* The decoder `stbi_load` of `stb_image.h` and the encoder `stbi_write_png` of
  `stb_image_write.h` are external and are parameters of `cargarImagen` and
  `guardarPNG`.
* `for` loops whose counter is not assigned in the body are `forLoop lo hi body`,
  which runs `body lo`, `body (lo+1)`, ... , `body (hi-1)` on an explicit state.
* The fork/join of worker threads is modelled by running the started workers one
  after another in index order; `crea i = false` means `pthread_create` failed for
  worker `i`.  `malloc` is assumed to succeed.
-/

namespace Parcial2

/-! # Definitions -/

/-! ## Constants and helpers -/

/-- Constant `MIN_HILOS` of `parcial2.c`. -/
def MIN_HILOS : Int := 1

/-- Constant `MAX_HILOS` of `parcial2.c`. -/
def MAX_HILOS : Int := 32

/-- The C type `unsigned char`. -/
abbrev UChar := Fin 256

/-- Function `clampuc`: saturate an `int` into `unsigned char`. -/
def clampuc (v : Int) : UChar :=
  if v < 0 then 0
  else if v > 255 then 255
  else Fin.ofNat v.toNat

/-- The C library function `roundf`: nearest integer, halfway cases away from zero.  The
result is used only through `(int)roundf(v)`. -/
def roundf {K : Type} [LinearOrderedField K] [FloorRing K] (v : K) : Int :=
  if 0 ≤ v then ⌊v + 1 / 2⌋ else ⌈v - 1 / 2⌉

/-! ## Memory -/

/-- A pixel matrix `unsigned char*** pixeles`, indexed `[y][x][c]`. -/
abbrev Matriz := List (List (List UChar))

/-- Bounds-checked array read `l[i]`. -/
def leerLista {α : Type} (l : List α) (i : Int) : Option α :=
  if i < 0 then none else l[i.toNat]?

/-- Bounds-checked array write `l[i] = v`. -/
def escribirLista {α : Type} (l : List α) (i : Int) (v : α) : Option (List α) :=
  if i < 0 then none
  else if i.toNat < l.length then some (l.set i.toNat v)
  else none

/-- The read `m[y][x][c]`. -/
def leer (m : Matriz) (y x c : Int) : Option UChar :=
  (leerLista m y).bind fun fila => (leerLista fila x).bind fun px => leerLista px c

/-- The write `m[y][x][c] = v`. -/
def escribir (m : Matriz) (y x c : Int) (v : UChar) : Option Matriz :=
  (leerLista m y).bind fun fila =>
    (leerLista fila x).bind fun px =>
      (escribirLista px c v).bind fun px1 =>
        (escribirLista fila x px1).bind fun fila1 => escribirLista m y fila1

/-- The struct `ImagenInfo`; `pixeles = none` is the `NULL` pointer. -/
structure ImagenInfo where
  ancho : Int
  alto : Int
  canales : Int
  pixeles : Option Matriz
deriving DecidableEq

/-- The matrix has `alto` rows of `ancho` pixels of `canales` samples. -/
def Forma (m : Matriz) (alto ancho canales : Int) : Prop :=
  (m.length : Int) = alto ∧
    ∀ fila ∈ m, (fila.length : Int) = ancho ∧ ∀ px ∈ fila, (px.length : Int) = canales

instance (m : Matriz) (alto ancho canales : Int) : Decidable (Forma m alto ancho canales) := by
  unfold Forma; infer_instance

/-- A loaded image: positive dimensions and a matrix of exactly that shape. -/
def BienFormada (info : ImagenInfo) : Prop :=
  1 ≤ info.alto ∧ 1 ≤ info.ancho ∧ 1 ≤ info.canales ∧
    match info.pixeles with
    | none => False
    | some m => Forma m info.alto info.ancho info.canales

instance (info : ImagenInfo) : Decidable (BienFormada info) := by
  unfold BienFormada
  cases info.pixeles <;> infer_instance

/-- The sample `info->pixeles[y][x][c]`. -/
def leerImagen (info : ImagenInfo) (y x c : Int) : Option UChar :=
  info.pixeles.bind fun m => leer m y x c

/-- The sample `m[y][x][c]` as a total function (`0` outside the matrix). -/
def muestra (m : Matriz) (y x c : Int) : UChar := (leer m y x c).getD 0

/-- Function `crearMatrizPixeles`: refuses non-positive dimensions, otherwise returns a
zero-filled matrix (`memset(rowBlock, 0, rowSize)` on every row). -/
def crearMatrizPixeles (alto ancho canales : Int) : Option Matriz :=
  if alto ≤ 0 ∨ ancho ≤ 0 ∨ canales ≤ 0 then none
  else some (List.replicate alto.toNat (List.replicate ancho.toNat
    (List.replicate canales.toNat (0 : UChar))))

/-! ## Loops -/

/-- Runs `body i`, `body (i+1)`, ... for `n` iterations, threading the state; a failing
iteration aborts the loop. -/
def forLoopAux {σ : Type} (body : Int → σ → Option σ) : Nat → Int → σ → Option σ
  | 0, _, s => some s
  | n + 1, i, s => (body i s).bind (forLoopAux body n (i + 1))

/-- The C loop `for (int i = lo; i < hi; i++) body`. -/
def forLoop {σ : Type} (lo hi : Int) (body : Int → σ → Option σ) (s : σ) : Option σ :=
  forLoopAux body (hi - lo).toNat lo s

/-! ## Row partition of the dispatch loops -/

/-- The clamp of `numHilos` done by every `*Concurrente` function:
`if (numHilos < MIN_HILOS) ...; if (numHilos > MAX_HILOS) ...; if (numHilos > alto) ...`. -/
def limitarHilos (numHilos alto : Int) : Int :=
  let n1 := if numHilos < MIN_HILOS then MIN_HILOS else numHilos
  let n2 := if n1 > MAX_HILOS then MAX_HILOS else n1
  if n2 > alto then alto else n2

/-- The expression `(alto + numHilos - 1) / numHilos` (`filasPor`, `filas`). -/
def filasPorHilo (alto numHilos : Int) : Int :=
  Int.tdiv (alto + numHilos - 1) numHilos

/-- The value stored in `args[i].inicio`: `i * filas`. -/
def rangoInicio (i filas : Int) : Int := i * filas

/-- The value stored in `args[i].fin`:
`((i + 1) * filas < alto) ? (i + 1) * filas : alto`. -/
def rangoFin (i filas alto : Int) : Int :=
  if (i + 1) * filas < alto then (i + 1) * filas else alto

/-- The dispatch loop shared by the five `*Concurrente` functions.  For each worker
index it computes the range, and when `inicio < fin` it tries to create the thread:
on success the worker runs on the state and `hilosCreados` is incremented, on failure
the range is skipped.  The state is paired with `hilosCreados`. -/
def despachar {σ : Type} (alto numHilos : Int) (crea : Int → Bool)
    (worker : Int → Int → Int → σ → Option σ) (s : σ) : Option (σ × Int) :=
  let filas := filasPorHilo alto numHilos
  forLoop 0 numHilos (fun i st =>
    let inicio := rangoInicio i filas
    let fin := rangoFin i filas alto
    if inicio < fin then
      if crea i then (worker i inicio fin st.1).map (fun s1 => (s1, st.2 + 1))
      else some st
    else some st) (s, 0)

/-- Every `pthread_create` succeeds. -/
def todosArrancan : Int → Bool := fun _ => true

/-- The rows written by the dispatch loop when the workers selected by `crea` start. -/
def filaAtendida (A n : Int) (crea : Int → Bool) (y : Int) : Prop :=
  ∃ j, 0 ≤ j ∧ j < n ∧ crea j = true ∧
    rangoInicio j (filasPorHilo A n) ≤ y ∧ y < rangoFin j (filasPorHilo A n) A

/-- Specification state of a pixel matrix that is being rewritten in place: inside the
shape, the positions in `hecho` hold `nuevo` and the others still hold `viejo`. -/
def Estado (A W C : Int) (viejo nuevo : Int → Int → Int → UChar)
    (hecho : Int → Int → Int → Prop) (m : Matriz) : Prop :=
  Forma m A W C ∧
    ∀ y x c, 0 ≤ y → y < A → 0 ≤ x → x < W → 0 ≤ c → c < C →
      (hecho y x c → leer m y x c = some (nuevo y x c)) ∧
      (¬ hecho y x c → leer m y x c = some (viejo y x c))

/-! ## Brightness -/

/-- The struct `BrilloArgs`; the shared pointer `pixeles` is the state the worker is run
on. -/
structure BrilloArgs where
  inicio : Int
  fin : Int
  ancho : Int
  canales : Int
  delta : Int
  hiloId : Int

/-- The value of a 32-bit `int` addition whose mathematical result is `v`: the
representative of `v` modulo `2^32` in `[-2^31, 2^31)`.  An `int` sum outside that
interval is undefined in ISO C; the compiled program wraps in two's complement, and
that is the value taken here. -/
def envolver32 (v : Int) : Int := (v + 2147483648) % 4294967296 - 2147483648

/-- Function `ajustarBrilloHilo`.  The sum `(int)pixeles[y][x][c] + delta` is a 32-bit
`int` addition. -/
def ajustarBrilloHilo (a : BrilloArgs) (pixeles : Matriz) : Option Matriz :=
  forLoop a.inicio a.fin (fun y p =>
    forLoop 0 a.ancho (fun x p =>
      forLoop 0 a.canales (fun c p =>
        (leer p y x c).bind fun old =>
          escribir p y x c (clampuc (envolver32 ((old.val : Int) + a.delta)))) p) p) pixeles

/-- Function `ajustarBrilloConcurrente`.  Returns the image after the call together with
`hilosCreados`; `none` stands for an out-of-bounds access. -/
def ajustarBrilloConcurrente (info : ImagenInfo) (delta numHilos : Int) (crea : Int → Bool) :
    Option (ImagenInfo × Int) :=
  match info.pixeles with
  | none => some (info, 0)
  | some pixeles =>
    let numHilos := limitarHilos numHilos info.alto
    (despachar info.alto numHilos crea
      (fun i inicio fin p =>
        ajustarBrilloHilo (BrilloArgs.mk inicio fin info.ancho info.canales delta i) p)
      pixeles).map
      fun r => (ImagenInfo.mk info.ancho info.alto info.canales (some r.1), r.2)

/-- The brightness case of the menu in `main`, after the prompts:
`if (delta == 0) printf(...) else ajustarBrilloConcurrente(&imagen, delta, threads)`. -/
def mainAjustarBrillo (imagen : ImagenInfo) (delta threads : Int) (crea : Int → Bool) :
    Option (ImagenInfo × Int) :=
  if delta = 0 then some (imagen, 0)
  else ajustarBrilloConcurrente imagen delta threads crea

/-- A 4x4 single-channel image with every sample equal to `v`. -/
def imagenUniforme4x4 (v : UChar) : ImagenInfo :=
  ImagenInfo.mk 4 4 1 (some (List.replicate 4 (List.replicate 4 [v])))

/-! ## Bilinear sampling -/

/-- The corner coordinates `(x0, y0, x1, y1)` of `sampleBilinear` after its four `if`s. -/
def esquinas {K : Type} [LinearOrderedField K] [FloorRing K] (srcW srcH : Int) (fx fy : K) :
    Int × Int × Int × Int :=
  let x0 : Int := ⌊fx⌋
  let y0 : Int := ⌊fy⌋
  let x1 := x0 + 1
  let y1 := y0 + 1
  let x0 := if x0 < 0 then 0 else x0
  let y0 := if y0 < 0 then 0 else y0
  let x1 := if x1 ≥ srcW then srcW - 1 else x1
  let y1 := if y1 ≥ srcH then srcH - 1 else y1
  (x0, y0, x1, y1)

/-- Function `sampleBilinear` in the real-arithmetic reading (`sampleBilinear32` is the
binary32 one); `out` is the caller's output buffer. -/
def sampleBilinear {K : Type} [LinearOrderedField K] [FloorRing K] (src : Matriz)
    (srcW srcH channels : Int) (fx fy : K) (out : List UChar) : Option (List UChar) :=
  if channels ≤ 0 then some out
  else
    let dx : K := fx - ((⌊fx⌋ : Int) : K)
    let dy : K := fy - ((⌊fy⌋ : Int) : K)
    let x0 := (esquinas srcW srcH fx fy).1
    let y0 := (esquinas srcW srcH fx fy).2.1
    let x1 := (esquinas srcW srcH fx fy).2.2.1
    let y1 := (esquinas srcW srcH fx fy).2.2.2
    forLoop 0 channels (fun c out =>
      (leer src y0 x0 c).bind fun v00 =>
      (leer src y0 x1 c).bind fun v10 =>
      (leer src y1 x0 c).bind fun v01 =>
      (leer src y1 x1 c).bind fun v11 =>
        let v0 : K := (v00.val : K) * (1 - dx) + (v10.val : K) * dx
        let v1 : K := (v01.val : K) * (1 - dx) + (v11.val : K) * dx
        let v : K := v0 * (1 - dy) + v1 * dy
        escribirLista out c (clampuc (roundf v))) out

/-- A 2x2 single-channel image. -/
def imagen2x2 : Matriz := [[[10], [20]], [[30], [40]]]

/-! ## Gaussian convolution -/

/-- The raw weight `expf(-((float)(x*x + y*y)) / denom) / (M_PI * denom)` with
`denom = 2*sigma*sigma`. -/
def pesoCrudo {K : Type} [LinearOrderedField K] (expf : K → K) (pi sigma : K) (x y : Int) : K :=
  expf (-((x * x + y * y : Int) : K) / (2 * sigma * sigma)) / (pi * (2 * sigma * sigma))

/-- Function `generarKernelGauss` in the real-arithmetic reading (`generarKernelGauss32`
is the binary32 one); `none` is the `NULL` result.  The state of the filling
loops is the pair `(kernel, sum)`. -/
def generarKernelGauss {K : Type} [LinearOrderedField K] (expf : K → K) (pi : K) (tam : Int)
    (sigma : K) : Option (List K) :=
  if Int.tmod tam 2 = 0 ∨ tam < 3 then none
  else
    let k2 := Int.tdiv tam 2
    let kernel : List K := List.replicate (tam * tam).toNat 0
    let denom : K := 2 * sigma * sigma
    (forLoop (-k2) (k2 + 1) (fun y st =>
      forLoop (-k2) (k2 + 1) (fun x st =>
        let val : K := expf (-((x * x + y * y : Int) : K) / denom) / (pi * denom)
        (escribirLista st.1 ((y + k2) * tam + (x + k2)) val).map fun k => (k, st.2 + val))
        st) (kernel, (0 : K))).bind fun st =>
      if st.2 > 0 then
        forLoop 0 (tam * tam) (fun i k =>
          (leerLista k i).bind fun w => escribirLista k i (w / st.2)) st.1
      else
        (forLoop 0 (tam * tam) (fun i k => escribirLista k i 0) st.1).bind fun k =>
          escribirLista k (k2 * tam + k2) 1

/-- Sum of the raw weights of the `tam x tam` window, in the order of the filling
loops of `generarKernelGauss` (the final value of its variable `sum`). -/
def sumaCruda {K : Type} [LinearOrderedField K] (expf : K → K) (pi sigma : K) (tam : Int) : K :=
  ∑ a in Finset.range tam.toNat, ∑ b in Finset.range tam.toNat,
    pesoCrudo expf pi sigma ((b : Int) - Int.tdiv tam 2) ((a : Int) - Int.tdiv tam 2)

/-- The weight that `generarKernelGauss` leaves in `kernel[a * tam + b]`: the normalised
raw weight when `sum > 0`, the identity kernel otherwise. -/
def pesoKernel {K : Type} [LinearOrderedField K] (expf : K → K) (pi sigma : K) (tam : Int)
    (a b : Nat) : K :=
  if sumaCruda expf pi sigma tam > 0 then
    pesoCrudo expf pi sigma ((b : Int) - Int.tdiv tam 2) ((a : Int) - Int.tdiv tam 2) /
      sumaCruda expf pi sigma tam
  else if (a : Int) = Int.tdiv tam 2 ∧ (b : Int) = Int.tdiv tam 2 then 1
  else 0

/-- The struct `ConvArgs`; the destination `dst` is the state the worker is run on. -/
structure ConvArgs (K : Type) where
  src : Matriz
  inicio : Int
  fin : Int
  ancho : Int
  alto : Int
  canales : Int
  tamKernel : Int
  kernel : List K
  hiloId : Int

/-- Function `aplicarConvolucionHilo` in the real-arithmetic reading. -/
def aplicarConvolucionHilo {K : Type} [LinearOrderedField K] [FloorRing K] (a : ConvArgs K)
    (dst : Matriz) : Option Matriz :=
  let k2 := Int.tdiv a.tamKernel 2
  forLoop a.inicio a.fin (fun y dst =>
    forLoop 0 a.ancho (fun x dst =>
      forLoop 0 a.canales (fun c dst =>
        (forLoop (-k2) (k2 + 1) (fun ky acc =>
          forLoop (-k2) (k2 + 1) (fun kx acc =>
            let yy := y + ky
            let xx := x + kx
            let yy := if yy < 0 then 0 else yy
            let yy := if yy ≥ a.alto then a.alto - 1 else yy
            let xx := if xx < 0 then 0 else xx
            let xx := if xx ≥ a.ancho then a.ancho - 1 else xx
            (leerLista a.kernel ((ky + k2) * a.tamKernel + (kx + k2))).bind fun kval =>
              (leer a.src yy xx c).map fun s => acc + kval * (s.val : K)) acc)
          (0 : K)).bind fun acc =>
          escribir dst y x c (clampuc (roundf acc))) dst) dst) dst

/-- The edge clamp applied to `yy` and `xx` in `aplicarConvolucionHilo`:
`if (v < 0) v = 0; if (v >= lim) v = lim - 1;`. -/
def recortar (v lim : Int) : Int :=
  if (if v < 0 then 0 else v) ≥ lim then lim - 1 else (if v < 0 then 0 else v)

/-- The value of `acc` after the two kernel loops of `aplicarConvolucionHilo` at
`(y, x, c)`, for a kernel whose entry `a * tam + b` is `w a b`. -/
def sumaConvolucion {K : Type} [LinearOrderedField K] (w : Nat → Nat → K) (src : Matriz)
    (alto ancho tam : Int) (y x c : Int) : K :=
  ∑ a in Finset.range tam.toNat, ∑ b in Finset.range tam.toNat,
    w a b * (((muestra src (recortar (y + ((a : Int) - Int.tdiv tam 2)) alto)
      (recortar (x + ((b : Int) - Int.tdiv tam 2)) ancho) c).val : Nat) : K)

/-- The sample stored in `dst[y][x][c]`: `clampuc((int)roundf(acc))`. -/
def valorConvolucion {K : Type} [LinearOrderedField K] [FloorRing K] (w : Nat → Nat → K)
    (src : Matriz) (alto ancho tam : Int) (y x c : Int) : UChar :=
  clampuc (roundf (sumaConvolucion w src alto ancho tam y x c))

/-- Function `aplicarConvolucionConcurrente` in the real-arithmetic reading.  Returns the
image after the call together
with `hilosCreados` (0 on the paths that return before the dispatch loop); `none` stands
for an out-of-bounds access. -/
def aplicarConvolucionConcurrente {K : Type} [LinearOrderedField K] [FloorRing K]
    (expf : K → K) (pi : K) (info : ImagenInfo) (tamKernel : Int) (sigma : K)
    (numHilos : Int) (crea : Int → Bool) : Option (ImagenInfo × Int) :=
  match info.pixeles with
  | none => some (info, 0)
  | some src =>
    if Int.tmod tamKernel 2 = 0 ∨ tamKernel < 3 then some (info, 0)
    else
      let sigma := if sigma ≤ 0 then 1 else sigma
      let numHilos := limitarHilos numHilos info.alto
      match generarKernelGauss expf pi tamKernel sigma with
      | none => some (info, 0)
      | some kernel =>
        match crearMatrizPixeles info.alto info.ancho info.canales with
        | none => some (info, 0)
        | some dst =>
          (despachar info.alto numHilos crea
            (fun i inicio fin d =>
              aplicarConvolucionHilo
                (ConvArgs.mk src inicio fin info.ancho info.alto info.canales tamKernel
                  kernel i) d)
            dst).map
            fun r => (ImagenInfo.mk info.ancho info.alto info.canales (some r.1), r.2)

/-! ## Sobel edge detection -/

/-- The constant array `gx` of `sobelWorker`. -/
def sobelGx : List (List Int) := [[-1, 0, 1], [-2, 0, 2], [-1, 0, 1]]

/-- The constant array `gy` of `sobelWorker`. -/
def sobelGy : List (List Int) := [[1, 2, 1], [0, 0, 0], [-1, -2, -1]]

/-- The struct `SobelArgs`; the destination `dst` is the state the worker is run on. -/
structure SobelArgs where
  src : Matriz
  inicio : Int
  fin : Int
  ancho : Int
  alto : Int
  canales : Int
  hiloId : Int

/-- Function `sobelWorker`.  The state of the two kernel loops is the pair
`(sumx, sumy)`; `sqrtf` comes from `math.h`; the constants `0.299f`, `0.587f`, `0.114f`
are taken as the decimal fractions they denote. -/
def sobelWorker {K : Type} [LinearOrderedField K] [FloorRing K] (sqrtf : K → K)
    (s : SobelArgs) (dst : Matriz) : Option Matriz :=
  forLoop s.inicio s.fin (fun y dst =>
    forLoop 0 s.ancho (fun x dst =>
      (forLoop (-1) (1 + 1) (fun ky st =>
        forLoop (-1) (1 + 1) (fun kx st =>
          let yy := y + ky
          let xx := x + kx
          let yy := if yy < 0 then 0 else yy
          let yy := if yy ≥ s.alto then s.alto - 1 else yy
          let xx := if xx < 0 then 0 else xx
          let xx := if xx ≥ s.ancho then s.ancho - 1 else xx
          (if s.canales ≥ 3 then
            (leer s.src yy xx 0).bind fun r =>
              (leer s.src yy xx 1).bind fun g =>
                (leer s.src yy xx 2).map fun b =>
                  (299 / 1000 : K) * ((r.val : Nat) : K) + (587 / 1000 : K) * ((g.val : Nat) : K)
                    + (114 / 1000 : K) * ((b.val : Nat) : K)
          else
            (leer s.src yy xx 0).map fun v => (((v.val : Nat) : K))).bind fun valc =>
            (leerLista sobelGx (ky + 1)).bind fun filaGx =>
              (leerLista filaGx (kx + 1)).bind fun gxv =>
                (leerLista sobelGy (ky + 1)).bind fun filaGy =>
                  (leerLista filaGy (kx + 1)).map fun gyv =>
                    (st.1 + ((gxv : Int) : K) * valc, st.2 + ((gyv : Int) : K) * valc)) st)
        ((0 : K), (0 : K))).bind fun sumas =>
        let magnitude : K := sqrtf (sumas.1 * sumas.1 + sumas.2 * sumas.2)
        escribir dst y x 0 (clampuc (roundf magnitude))) dst) dst

/-- Function `detectarBordesSobelConcurrente`.  Returns the image after the call together
with `hilosCreados`; `none` stands for an out-of-bounds access. -/
def detectarBordesSobelConcurrente {K : Type} [LinearOrderedField K] [FloorRing K]
    (sqrtf : K → K) (info : ImagenInfo) (numHilos : Int) (crea : Int → Bool) :
    Option (ImagenInfo × Int) :=
  match info.pixeles with
  | none => some (info, 0)
  | some src =>
    match crearMatrizPixeles info.alto info.ancho 1 with
    | none => some (info, 0)
    | some dst =>
      let numHilos := limitarHilos numHilos info.alto
      (despachar info.alto numHilos crea
        (fun i inicio fin d =>
          sobelWorker sqrtf
            (SobelArgs.mk src inicio fin info.ancho info.alto info.canales i) d)
        dst).map
        fun r => (ImagenInfo.mk info.ancho info.alto 1 (some r.1), r.2)

/-- The value `valc` that `sobelWorker` computes for the source pixel `(yy, xx)`. -/
def luminancia {K : Type} [LinearOrderedField K] (src : Matriz) (canales yy xx : Int) : K :=
  if canales ≥ 3 then
    (299 / 1000 : K) * (((muestra src yy xx 0).val : Nat) : K)
      + (587 / 1000 : K) * (((muestra src yy xx 1).val : Nat) : K)
      + (114 / 1000 : K) * (((muestra src yy xx 2).val : Nat) : K)
  else (((muestra src yy xx 0).val : Nat) : K)

/-- Entry `[a][b]` of a 3x3 table of integers. -/
def coef (t : List (List Int)) (a b : Nat) : Int := (t.getD a []).getD b 0

/-- The pair `(sumx, sumy)` after the two kernel loops of `sobelWorker` at `(y, x)`. -/
def sumasSobel {K : Type} [LinearOrderedField K] (src : Matriz) (alto ancho canales : Int)
    (y x : Int) : K × K :=
  ∑ a in Finset.range 3, ∑ b in Finset.range 3,
    (((coef sobelGx a b : Int) : K) *
        luminancia src canales (recortar (y + ((a : Int) - 1)) alto)
          (recortar (x + ((b : Int) - 1)) ancho),
     ((coef sobelGy a b : Int) : K) *
        luminancia src canales (recortar (y + ((a : Int) - 1)) alto)
          (recortar (x + ((b : Int) - 1)) ancho))

/-- The sample stored in `dst[y][x][0]` by `sobelWorker`. -/
def valorSobel {K : Type} [LinearOrderedField K] [FloorRing K] (sqrtf : K → K) (src : Matriz)
    (alto ancho canales : Int) (y x : Int) : UChar :=
  clampuc (roundf (sqrtf
    ((sumasSobel src alto ancho canales y x : K × K).1 *
        (sumasSobel src alto ancho canales y x : K × K).1 +
      (sumasSobel src alto ancho canales y x : K × K).2 *
        (sumasSobel src alto ancho canales y x : K × K).2)))

/-! ## Values written by the bilinear sampler -/

/-- The sample that `sampleBilinear` stores in `out[c]`. -/
def valorBilineal {K : Type} [LinearOrderedField K] [FloorRing K] (src : Matriz)
    (srcW srcH : Int) (fx fy : K) (c : Int) : UChar :=
  clampuc (roundf
    (((((muestra src (esquinas srcW srcH fx fy).2.1 (esquinas srcW srcH fx fy).1 c).val : Nat) : K)
          * (1 - (fx - ((⌊fx⌋ : Int) : K)))
        + (((muestra src (esquinas srcW srcH fx fy).2.1
            (esquinas srcW srcH fx fy).2.2.1 c).val : Nat) : K)
          * (fx - ((⌊fx⌋ : Int) : K)))
        * (1 - (fy - ((⌊fy⌋ : Int) : K)))
      + ((((muestra src (esquinas srcW srcH fx fy).2.2.2
            (esquinas srcW srcH fx fy).1 c).val : Nat) : K)
          * (1 - (fx - ((⌊fx⌋ : Int) : K)))
        + (((muestra src (esquinas srcW srcH fx fy).2.2.2
            (esquinas srcW srcH fx fy).2.2.1 c).val : Nat) : K)
          * (fx - ((⌊fx⌋ : Int) : K)))
        * (fy - ((⌊fy⌋ : Int) : K))))

/-! ## Resize -/

/-- The struct `ResizeArgs`; the destination `dst` is the state the worker is run on. -/
structure ResizeArgs (K : Type) where
  src : Matriz
  inicio : Int
  fin : Int
  anchoSrc : Int
  altoSrc : Int
  anchoDst : Int
  altoDst : Int
  canales : Int
  scaleX : K
  scaleY : K
  hiloId : Int

/-- The source coordinate `(x + 0.5f) * scale - 0.5f` of `resizeWorker`. -/
def coordenadaResize {K : Type} [LinearOrderedField K] (x : Int) (scale : K) : K :=
  ((x : K) + 1 / 2) * scale - 1 / 2

/-- Function `resizeWorker` in the real-arithmetic reading (`resizeWorker32` is the
binary32 one).  The state of the pixel loops is the destination together
with the local buffer `out_local[4]`. -/
def resizeWorker {K : Type} [LinearOrderedField K] [FloorRing K] (r : ResizeArgs K)
    (dst : Matriz) : Option Matriz :=
  (forLoop r.inicio r.fin (fun y st =>
    forLoop 0 r.anchoDst (fun x st =>
      let fx : K := ((x : K) + 1 / 2) * r.scaleX - 1 / 2
      let fy : K := ((y : K) + 1 / 2) * r.scaleY - 1 / 2
      (sampleBilinear r.src r.anchoSrc r.altoSrc r.canales fx fy st.2).bind fun out =>
        (forLoop 0 r.canales (fun c d =>
          (leerLista out c).bind fun v => escribir d y x c v) st.1).map
          fun d => (d, out)) st)
    (dst, [(0 : UChar), 0, 0, 0])).map Prod.fst

/-- Function `redimensionarConcurrente` in the real-arithmetic reading.  Returns the image
after the call together with
`hilosCreados`; `none` stands for an out-of-bounds access.  `K` is the type in which
the `float` values are computed. -/
def redimensionarConcurrente (K : Type) [LinearOrderedField K] [FloorRing K]
    (info : ImagenInfo) (nuevoAncho nuevoAlto numHilos : Int) (crea : Int → Bool) :
    Option (ImagenInfo × Int) :=
  match info.pixeles with
  | none => some (info, 0)
  | some src =>
    if nuevoAncho ≤ 0 ∨ nuevoAlto ≤ 0 then some (info, 0)
    else
      match crearMatrizPixeles nuevoAlto nuevoAncho info.canales with
      | none => some (info, 0)
      | some dst =>
        let scaleX : K := (info.ancho : K) / (nuevoAncho : K)
        let scaleY : K := (info.alto : K) / (nuevoAlto : K)
        let numHilos := limitarHilos numHilos nuevoAlto
        (despachar nuevoAlto numHilos crea
          (fun i inicio fin d =>
            resizeWorker
              (ResizeArgs.mk src inicio fin info.ancho info.alto nuevoAncho nuevoAlto
                info.canales scaleX scaleY i) d)
          dst).map
          fun r => (ImagenInfo.mk nuevoAncho nuevoAlto info.canales (some r.1), r.2)

/-- A 2x2 RGB image. -/
def imagenRGB2x2 : ImagenInfo :=
  ImagenInfo.mk 2 2 3
    (some [[[10, 20, 30], [40, 50, 60]], [[70, 80, 90], [100, 110, 120]]])

/-! ## Rotation -/

/-- The struct `RotArgs`; the destination `pixelesDestino` is the state the worker is run
on. -/
structure RotArgs (K : Type) where
  pixelesOrigen : Matriz
  inicio : Int
  fin : Int
  anchoOrigen : Int
  altoOrigen : Int
  canales : Int
  anchoDestino : Int
  altoDestino : Int
  cosA : K
  sinA : K
  minX : K
  minY : K
  cx : K
  cy : K
  hiloId : Int

/-- The mapped source coordinate `sx` of `rotarWorker` for destination pixel `(x, y)`. -/
def origenX {K : Type} [LinearOrderedField K] (r : RotArgs K) (x y : Int) : K :=
  r.cosA * (((x : K) + r.minX) - r.cx) + r.sinA * (((y : K) + r.minY) - r.cy) + r.cx

/-- The mapped source coordinate `sy` of `rotarWorker` for destination pixel `(x, y)`. -/
def origenY {K : Type} [LinearOrderedField K] (r : RotArgs K) (x y : Int) : K :=
  -r.sinA * (((x : K) + r.minX) - r.cx) + r.cosA * (((y : K) + r.minY) - r.cy) + r.cy

/-- The test `sx >= 0 && sx < anchoOrigen && sy >= 0 && sy < altoOrigen` of
`rotarWorker`. -/
def dentroDelOrigen {K : Type} [LinearOrderedField K] (r : RotArgs K) (x y : Int) : Prop :=
  origenX r x y ≥ 0 ∧ origenX r x y < (r.anchoOrigen : K) ∧
    origenY r x y ≥ 0 ∧ origenY r x y < (r.altoOrigen : K)

instance {K : Type} [LinearOrderedField K] (r : RotArgs K) (x y : Int) :
    Decidable (dentroDelOrigen r x y) :=
  inferInstanceAs (Decidable (origenX r x y ≥ 0 ∧ origenX r x y < (r.anchoOrigen : K) ∧
    origenY r x y ≥ 0 ∧ origenY r x y < (r.altoOrigen : K)))

/-- The sample that `rotarWorker` stores in `pixelesDestino[y][x][c]`: the bilinear
sample at the mapped coordinate when it lies inside the source, 0 otherwise. -/
def valorRotacion {K : Type} [LinearOrderedField K] [FloorRing K] (r : RotArgs K)
    (y x c : Int) : UChar :=
  if dentroDelOrigen r x y then
    valorBilineal r.pixelesOrigen r.anchoOrigen r.altoOrigen (origenX r x y) (origenY r x y) c
  else 0

/-- Function `rotarWorker`.  The state of the pixel loops is the destination together
with the local buffer `out_local[4]`. -/
def rotarWorker {K : Type} [LinearOrderedField K] [FloorRing K] (r : RotArgs K)
    (pixelesDestino : Matriz) : Option Matriz :=
  (forLoop r.inicio r.fin (fun y st =>
    forLoop 0 r.anchoDestino (fun x st =>
      let X : K := (x : K) + r.minX
      let Y : K := (y : K) + r.minY
      let sx : K := r.cosA * (X - r.cx) + r.sinA * (Y - r.cy) + r.cx
      let sy : K := -r.sinA * (X - r.cx) + r.cosA * (Y - r.cy) + r.cy
      if sx ≥ 0 ∧ sx < (r.anchoOrigen : K) ∧ sy ≥ 0 ∧ sy < (r.altoOrigen : K) then
        (sampleBilinear r.pixelesOrigen r.anchoOrigen r.altoOrigen r.canales sx sy
          st.2).bind fun out =>
          (forLoop 0 r.canales (fun c d =>
            (leerLista out c).bind fun v => escribir d y x c v) st.1).map
            fun d => (d, out)
      else
        (forLoop 0 r.canales (fun c d => escribir d y x c 0) st.1).map
          fun d => (d, st.2)) st)
    (pixelesDestino, [(0 : UChar), 0, 0, 0])).map Prod.fst

/-- The state `(minX, minY, maxX, maxY)` of the corner loop of
`rotarImagenConcurrente` after all four corners. -/
def cajaRotada {K : Type} [LinearOrderedField K] (cosA sinA : K) (w h : Int) :
    Option (K × K × K × K) :=
  let cx : K := ((w - 1 : Int) : K) / 2
  let cy : K := ((h - 1 : Int) : K) / 2
  let corners : List (K × K) :=
    [(0, 0), (((w - 1 : Int) : K), 0), (0, ((h - 1 : Int) : K)),
      (((w - 1 : Int) : K), ((h - 1 : Int) : K))]
  forLoop 0 4 (fun i st =>
    (leerLista corners i).map fun p =>
      let x := p.1
      let y := p.2
      let rx := cosA * (x - cx) - sinA * (y - cy) + cx
      let ry := sinA * (x - cx) + cosA * (y - cy) + cy
      let minX := if rx < st.1 then rx else st.1
      let maxX := if rx > st.2.2.1 then rx else st.2.2.1
      let minY := if ry < st.2.1 then ry else st.2.1
      let maxY := if ry > st.2.2.2 then ry else st.2.2.2
      (minX, minY, maxX, maxY))
    ((1000000000 : K), (1000000000 : K), (-1000000000 : K), (-1000000000 : K))

/-- Function `rotarImagenConcurrente`; `cosf`, `sinf` and `M_PI` come from `math.h`.
Returns the image after the call together with `hilosCreados`; `none` stands for an
out-of-bounds access. -/
def rotarImagenConcurrente {K : Type} [LinearOrderedField K] [FloorRing K]
    (cosf sinf : K → K) (pi : K) (info : ImagenInfo) (anguloGrados : K) (numHilos : Int)
    (crea : Int → Bool) : Option (ImagenInfo × Int) :=
  match info.pixeles with
  | none => some (info, 0)
  | some src =>
    let ang : K := anguloGrados * pi / 180
    let cosA := cosf ang
    let sinA := sinf ang
    let w := info.ancho
    let h := info.alto
    let cx : K := ((w - 1 : Int) : K) / 2
    let cy : K := ((h - 1 : Int) : K) / 2
    (cajaRotada cosA sinA w h).bind fun caja =>
      let minX := caja.1
      let minY := caja.2.1
      let maxX := caja.2.2.1
      let maxY := caja.2.2.2
      let anchoDestino : Int := ⌊maxX - minX⌋ + 1
      let altoDestino : Int := ⌊maxY - minY⌋ + 1
      let anchoDestino := if anchoDestino ≤ 0 then 1 else anchoDestino
      let altoDestino := if altoDestino ≤ 0 then 1 else altoDestino
      match crearMatrizPixeles altoDestino anchoDestino info.canales with
      | none => some (info, 0)
      | some dst =>
        let numHilos := limitarHilos numHilos altoDestino
        (despachar altoDestino numHilos crea
          (fun i inicio fin d =>
            rotarWorker
              (RotArgs.mk src inicio fin info.ancho info.alto info.canales anchoDestino
                altoDestino cosA sinA minX minY cx cy i) d)
          dst).map
          fun r => (ImagenInfo.mk anchoDestino altoDestino info.canales (some r.1), r.2)

/-- Arguments of a `rotarWorker` run on the 2x2 image `imagen2x2` with angle 0. -/
def rotArgsEjemplo : RotArgs ℚ :=
  RotArgs.mk imagen2x2 0 2 2 2 1 2 2 1 0 0 0 (1 / 2) (1 / 2) 0

/-! ## Loading -/

/-- What a successful call of the external decoder `stbi_load` gives back: the flat
byte array and the values it stores in `w`, `h` and `orig_channels`. -/
structure Decodificada where
  datos : List UChar
  w : Int
  h : Int
  canales : Int

/-- Function `cargarImagen`, from the call of the decoder on.  `stbi_load k` stands for
`stbi_load(ruta, &w, &h, &orig_channels, k)` (`none` is the `NULL` result).  Returns the
`int` result and the `ImagenInfo` after the call; `none` stands for an out-of-bounds
access. -/
def cargarImagen (stbi_load : Int → Option Decodificada) (info : ImagenInfo) :
    Option (Int × ImagenInfo) :=
  match stbi_load 0 with
  | none => some (0, info)
  | some d0 =>
    let desired := if d0.canales = 1 ∨ d0.canales = 3 then d0.canales else 3
    match (if d0.canales ≠ desired then
        (stbi_load desired).map fun d => Decodificada.mk d.datos d.w d.h desired
      else some d0) with
    | none => some (0, info)
    | some d =>
      match crearMatrizPixeles d.h d.w d.canales with
      | none => some (0, ImagenInfo.mk d.w d.h d.canales none)
      | some m =>
        (forLoop 0 d.h (fun y m =>
          forLoop 0 d.w (fun x m =>
            forLoop 0 d.canales (fun c m =>
              (leerLista d.datos ((y * d.w + x) * d.canales + c)).bind fun v =>
                escribir m y x c v) m) m) m).map
          fun m1 => (1, ImagenInfo.mk d.w d.h d.canales (some m1))

/-- A decoder that returns the 2x2 grey image with bytes 10, 20, 30, 40. -/
def decodificadorEjemplo : Int → Option Decodificada :=
  fun _ => some (Decodificada.mk [10, 20, 30, 40] 2 2 1)

/-! ## Bounds of the sampler reads -/

/-- The four pixels `src[y0][x0]`, `src[y0][x1]`, `src[y1][x0]`, `src[y1][x1]` read by
`sampleBilinear` at `(fx, fy)` lie inside a `srcW x srcH` source. -/
def lecturasEnRango {K : Type} [LinearOrderedField K] [FloorRing K] (srcW srcH : Int)
    (fx fy : K) : Prop :=
  (0 ≤ (esquinas srcW srcH fx fy).1 ∧ (esquinas srcW srcH fx fy).1 < srcW) ∧
  (0 ≤ (esquinas srcW srcH fx fy).2.1 ∧ (esquinas srcW srcH fx fy).2.1 < srcH) ∧
  (0 ≤ (esquinas srcW srcH fx fy).2.2.1 ∧ (esquinas srcW srcH fx fy).2.2.1 < srcW) ∧
  (0 ≤ (esquinas srcW srcH fx fy).2.2.2 ∧ (esquinas srcW srcH fx fy).2.2.2 < srcH)

/-! ## Partially processed results -/

/-- The array `datos1D` that `guardarPNG` hands to the encoder: `total` bytes set to 0 by
`memset`, then filled by the three copy loops under the guard `idx < total`.  `stride`
and `total` are the values of the variables of the same name; the `size_t` products of
non-negative `int` values do not wrap. -/
def datos1D (info : ImagenInfo) (pixeles : Matriz) : Option (List UChar) :=
  let stride := info.ancho * info.canales
  let total := info.alto * stride
  forLoop 0 info.alto (fun y datos =>
    forLoop 0 info.ancho (fun x datos =>
      forLoop 0 info.canales (fun c datos =>
        let idx := y * stride + x * info.canales + c
        if idx < total then
          (leer pixeles y x c).bind fun v => escribirLista datos idx v
        else some datos) datos) datos) (List.replicate total.toNat (0 : UChar))

/-- Function `guardarPNG` for non-null `info` and `rutaSalida`.  The encoder
`stbi_write_png` of `stb_image_write.h` is external: `stbi_write_png w h comp data stride`
stands for its `int` result.  `none` stands for an out-of-bounds access. -/
def guardarPNG (stbi_write_png : Int → Int → Int → List UChar → Int → Int)
    (info : ImagenInfo) : Option Int :=
  match info.pixeles with
  | none => some 0
  | some pixeles =>
    if info.ancho ≤ 0 ∨ info.alto ≤ 0 ∨ info.canales ≤ 0 then some 0
    else
      (datos1D info pixeles).map fun datos =>
        if stbi_write_png info.ancho info.alto info.canales datos
            (info.ancho * info.canales) ≠ 0 then 1
        else 0

/-! ## The Gaussian kernel of `img_reto2.c` -/

/-- Function `generarKernelGaussiano` of `img_reto2.c`.  The `tam` rows obtained from
`malloc` start with arbitrary contents, taken as 0 (every entry is assigned before it is
read).  The state of the filling loops is the pair `(kernel, suma)`; `suma` is increased
by the value just stored in `kernel[y][x]`.  `none` stands for an out-of-bounds
access. -/
def generarKernelGaussiano {K : Type} [LinearOrderedField K] (expf : K → K) (tam : Int)
    (sigma : K) : Option (List (List K)) :=
  let kernel : List (List K) := List.replicate tam.toNat (List.replicate tam.toNat 0)
  let centro := Int.tdiv tam 2
  (forLoop 0 tam (fun y st =>
    forLoop 0 tam (fun x st =>
      let dx := x - centro
      let dy := y - centro
      let val : K := expf (((-(dx * dx + dy * dy) : Int) : K) / (2 * sigma * sigma))
      (leerLista st.1 y).bind fun fila =>
        (escribirLista fila x val).bind fun fila1 =>
          (escribirLista st.1 y fila1).map fun k => (k, st.2 + val)) st)
    (kernel, (0 : K))).bind fun st =>
    forLoop 0 tam (fun y k =>
      forLoop 0 tam (fun x k =>
        (leerLista k y).bind fun fila =>
          (leerLista fila x).bind fun w =>
            (escribirLista fila x (w / st.2)).bind fun fila1 => escribirLista k y fila1) k)
      st.1

/-- The `n x n` table `k` (`float**`) holds `f a b` in `k[a][b]`. -/
def Tabla {K : Type} (n : Int) (f : Int → Int → K) (k : List (List K)) : Prop :=
  (k.length : Int) = n ∧
    ∀ a, 0 ≤ a → a < n →
      ∃ fila, leerLista k a = some fila ∧ (fila.length : Int) = n ∧
        ∀ b, 0 ≤ b → b < n → leerLista fila b = some (f a b)

/-! ## Binary floating point

The binary32 reading of the `float` code: every operation computes the exact result and
rounds it to the nearest representable value, ties to even, as IEEE 754 prescribes;
results too large become an infinity and invalid operations give a NaN.  The sign of a
zero is not tracked: the functions embedded on these values never divide by a negative
zero. -/

/-- A floating-point value: a finite rational, an infinity or a NaN. -/
inductive Flotante where
  | finito (q : ℚ)
  | inf (negativo : Bool)
  | nan
deriving DecidableEq

/-- A binary format: `p` bits of precision, `emin` the exponent of the smallest
subnormal step and `emax` the largest exponent. -/
structure Formato where
  p : Nat
  emin : Int
  emax : Int

/-- The C type `float` (IEEE 754 binary32). -/
def binary32 : Formato := Formato.mk 24 (-149) 127

/-- The C type `double` (IEEE 754 binary64). -/
def binary64 : Formato := Formato.mk 53 (-1074) 1023

/-- Nearest integer, ties to the even one. -/
def redondeoPar (x : ℚ) : Int :=
  if x - (⌊x⌋ : Int) < 1 / 2 then ⌊x⌋
  else if 1 / 2 < x - (⌊x⌋ : Int) then ⌊x⌋ + 1
  else if ⌊x⌋ % 2 = 0 then ⌊x⌋
  else ⌊x⌋ + 1

/-- Exponent of the last-place unit of the format at `q`. -/
def exponente (f : Formato) (q : ℚ) : Int :=
  max (Int.log 2 |q| - ((f.p : Int) - 1)) f.emin

/-- The least magnitude that rounds to an infinity: half a step above the largest finite
value. -/
def umbral (f : Formato) : ℚ :=
  (2 ^ (f.p + 1) - 1) * (2 : ℚ) ^ (f.emax - (f.p : Int))

/-- Rounding of the exact result `q` to the format: to nearest, ties to even. -/
def redondear (f : Formato) (q : ℚ) : Flotante :=
  if umbral f ≤ |q| then Flotante.inf (decide (q < 0))
  else Flotante.finito (((redondeoPar (q / (2 : ℚ) ^ exponente f q) : Int) : ℚ)
    * (2 : ℚ) ^ exponente f q)

/-- Unary minus. -/
def opuesto : Flotante → Flotante
  | Flotante.finito q => Flotante.finito (-q)
  | Flotante.inf s => Flotante.inf (!s)
  | Flotante.nan => Flotante.nan

/-- Addition in format `f`. -/
def suma (f : Formato) : Flotante → Flotante → Flotante
  | Flotante.finito a, Flotante.finito b => redondear f (a + b)
  | Flotante.finito _, Flotante.inf s => Flotante.inf s
  | Flotante.inf s, Flotante.finito _ => Flotante.inf s
  | Flotante.inf s, Flotante.inf t => if s = t then Flotante.inf s else Flotante.nan
  | _, _ => Flotante.nan

/-- Subtraction in format `f`. -/
def resta (f : Formato) (a b : Flotante) : Flotante := suma f a (opuesto b)

/-- Multiplication in format `f`. -/
def producto (f : Formato) : Flotante → Flotante → Flotante
  | Flotante.finito a, Flotante.finito b => redondear f (a * b)
  | Flotante.finito a, Flotante.inf s =>
    if a = 0 then Flotante.nan else Flotante.inf (xor s (decide (a < 0)))
  | Flotante.inf s, Flotante.finito b =>
    if b = 0 then Flotante.nan else Flotante.inf (xor s (decide (b < 0)))
  | Flotante.inf s, Flotante.inf t => Flotante.inf (xor s t)
  | _, _ => Flotante.nan

/-- Division in format `f`. -/
def cociente (f : Formato) : Flotante → Flotante → Flotante
  | Flotante.finito a, Flotante.finito b =>
    if b = 0 then (if a = 0 then Flotante.nan else Flotante.inf (decide (a < 0)))
    else redondear f (a / b)
  | Flotante.finito _, Flotante.inf _ => Flotante.finito 0
  | Flotante.inf s, Flotante.finito b => Flotante.inf (xor s (decide (b < 0)))
  | _, _ => Flotante.nan

/-- The comparison `a > b`; false when an operand is a NaN. -/
def mayorQue : Flotante → Flotante → Bool
  | Flotante.finito a, Flotante.finito b => decide (b < a)
  | Flotante.finito _, Flotante.inf s => s
  | Flotante.inf s, Flotante.finito _ => !s
  | Flotante.inf s, Flotante.inf t => !s && t
  | _, _ => false

/-- The comparison `a <= b`; false when an operand is a NaN. -/
def menorIgual : Flotante → Flotante → Bool
  | Flotante.finito a, Flotante.finito b => decide (a ≤ b)
  | Flotante.finito _, Flotante.inf s => !s
  | Flotante.inf s, Flotante.finito _ => s
  | Flotante.inf s, Flotante.inf t => s || !t
  | _, _ => false

/-- Conversion of an `int` or `unsigned char` value to format `f`. -/
def deEntero (f : Formato) (n : Int) : Flotante := redondear f (n : ℚ)

/-- Conversion of a floating-point value to format `f` (`float` to `double` is exact,
`double` to `float` rounds). -/
def aFormato (f : Formato) : Flotante → Flotante
  | Flotante.finito q => redondear f q
  | Flotante.inf s => Flotante.inf s
  | Flotante.nan => Flotante.nan

/-- The C library function `floorf`. -/
def floorf : Flotante → Flotante
  | Flotante.finito q => Flotante.finito ((⌊q⌋ : Int) : ℚ)
  | Flotante.inf s => Flotante.inf s
  | Flotante.nan => Flotante.nan

/-- The C library function `roundf` on binary32 values: nearest integer, halfway cases
away from zero. -/
def roundf32 : Flotante → Flotante
  | Flotante.finito q => Flotante.finito ((roundf q : Int) : ℚ)
  | Flotante.inf s => Flotante.inf s
  | Flotante.nan => Flotante.nan

/-- The conversion `(int)v`: truncation toward zero.  For a NaN, an infinity or a value
outside the range of `int` the conversion is undefined in ISO C; the x86-64 conversion
instruction gives `INT_MIN`, and that is the value taken here. -/
def aEntero : Flotante → Int
  | Flotante.finito q =>
    if -2147483649 < q ∧ q < 2147483648 then (if 0 ≤ q then ⌊q⌋ else ⌈q⌉)
    else -2147483648
  | _ => -2147483648

/-- The constant `M_PI` of `math.h`, a `double`: `0x400921FB54442D18`. -/
def M_PI : Flotante := Flotante.finito (884279719003555 / 281474976710656)

/-- The values of `expf` that do not depend on the library: `expf(0) = 1`,
`expf(-inf) = 0`, `expf(+inf) = +inf`, `expf(NaN) = NaN`.  At the other arguments the
result is left as a NaN; the evaluations below call it only at `0` and `-inf`. -/
def expfEnLimites : Flotante → Flotante
  | Flotante.finito q => if q = 0 then Flotante.finito 1 else Flotante.nan
  | Flotante.inf s => if s then Flotante.finito 0 else Flotante.inf false
  | Flotante.nan => Flotante.nan

/-! ## The Gaussian blur in binary32

The same functions with every `float` operation rounded; the promotions of `float`
operands to `double` in `expf(...) / (M_PI * denom)` are exact and leave the value as it
is. -/

/-- Function `generarKernelGauss` computed in binary32; `expf` comes from `math.h`.  The
quotient by `M_PI * denom` is computed in `double` and rounded to `float` when it is
stored in `val`. -/
def generarKernelGauss32 (expf : Flotante → Flotante) (tam : Int) (sigma : Flotante) :
    Option (List Flotante) :=
  if Int.tmod tam 2 = 0 ∨ tam < 3 then none
  else
    let k2 := Int.tdiv tam 2
    let kernel : List Flotante := List.replicate (tam * tam).toNat (Flotante.finito 0)
    let denom := producto binary32 (producto binary32 (Flotante.finito 2) sigma) sigma
    (forLoop (-k2) (k2 + 1) (fun y st =>
      forLoop (-k2) (k2 + 1) (fun x st =>
        let val := aFormato binary32
          (cociente binary64
            (expf (cociente binary32 (opuesto (deEntero binary32 (x * x + y * y))) denom))
            (producto binary64 M_PI denom))
        (escribirLista st.1 ((y + k2) * tam + (x + k2)) val).map
          fun k => (k, suma binary32 st.2 val))
        st) (kernel, Flotante.finito 0)).bind fun st =>
      if mayorQue st.2 (Flotante.finito 0) then
        forLoop 0 (tam * tam) (fun i k =>
          (leerLista k i).bind fun w => escribirLista k i (cociente binary32 w st.2)) st.1
      else
        (forLoop 0 (tam * tam) (fun i k => escribirLista k i (Flotante.finito 0)) st.1).bind
          fun k => escribirLista k (k2 * tam + k2) (Flotante.finito 1)

/-- Function `aplicarConvolucionHilo` computed in binary32. -/
def aplicarConvolucionHilo32 (a : ConvArgs Flotante) (dst : Matriz) : Option Matriz :=
  let k2 := Int.tdiv a.tamKernel 2
  forLoop a.inicio a.fin (fun y dst =>
    forLoop 0 a.ancho (fun x dst =>
      forLoop 0 a.canales (fun c dst =>
        (forLoop (-k2) (k2 + 1) (fun ky acc =>
          forLoop (-k2) (k2 + 1) (fun kx acc =>
            let yy := y + ky
            let xx := x + kx
            let yy := if yy < 0 then 0 else yy
            let yy := if yy ≥ a.alto then a.alto - 1 else yy
            let xx := if xx < 0 then 0 else xx
            let xx := if xx ≥ a.ancho then a.ancho - 1 else xx
            (leerLista a.kernel ((ky + k2) * a.tamKernel + (kx + k2))).bind fun kval =>
              (leer a.src yy xx c).map fun s =>
                suma binary32 acc (producto binary32 kval (deEntero binary32 (s.val : Int))))
            acc)
          (Flotante.finito 0)).bind fun acc =>
          escribir dst y x c (clampuc (aEntero (roundf32 acc)))) dst) dst) dst

/-- Function `aplicarConvolucionConcurrente` computed in binary32.  Returns the image
after the call together with `hilosCreados`; `none` stands for an out-of-bounds
access. -/
def aplicarConvolucionConcurrente32 (expf : Flotante → Flotante) (info : ImagenInfo)
    (tamKernel : Int) (sigma : Flotante) (numHilos : Int) (crea : Int → Bool) :
    Option (ImagenInfo × Int) :=
  match info.pixeles with
  | none => some (info, 0)
  | some src =>
    if Int.tmod tamKernel 2 = 0 ∨ tamKernel < 3 then some (info, 0)
    else
      let sigma := if menorIgual sigma (Flotante.finito 0) then Flotante.finito 1 else sigma
      let numHilos := limitarHilos numHilos info.alto
      match generarKernelGauss32 expf tamKernel sigma with
      | none => some (info, 0)
      | some kernel =>
        match crearMatrizPixeles info.alto info.ancho info.canales with
        | none => some (info, 0)
        | some dst =>
          (despachar info.alto numHilos crea
            (fun i inicio fin d =>
              aplicarConvolucionHilo32
                (ConvArgs.mk src inicio fin info.ancho info.alto info.canales tamKernel
                  kernel i) d)
            dst).map
            fun r => (ImagenInfo.mk info.ancho info.alto info.canales (some r.1), r.2)

/-- The binary32 value nearest to `1e-20`: `12379400 * 2^-90`. -/
def sigmaDiminuta : Flotante := Flotante.finito (12379400 / 2 ^ 90)

/-- The value of `acc` after the two kernel loops of `aplicarConvolucionHilo32` at
`(y, x, c)`, for a kernel whose entry `a * tam + b` is `w a b`: the rounded products are
added, with rounding, in the order of the loops. -/
def acumulador32 (w : Nat → Nat → Flotante) (src : Matriz) (alto ancho tam : Int)
    (y x c : Int) : Flotante :=
  (List.range tam.toNat).foldl (fun acc a =>
    (List.range tam.toNat).foldl (fun acc b =>
      suma binary32 acc (producto binary32 (w a b)
        (deEntero binary32
          (((muestra src (recortar (y + ((a : Int) - Int.tdiv tam 2)) alto)
            (recortar (x + ((b : Int) - Int.tdiv tam 2)) ancho) c).val : Nat) : Int)))) acc)
    (Flotante.finito 0)

/-- The sample stored in `dst[y][x][c]` by `aplicarConvolucionHilo32`:
`clampuc((int)roundf(acc))`. -/
def valorConvolucion32 (w : Nat → Nat → Flotante) (src : Matriz) (alto ancho tam : Int)
    (y x c : Int) : UChar :=
  clampuc (aEntero (roundf32 (acumulador32 w src alto ancho tam y x c)))

/-! ## Bilinear sampling and resize in binary32 -/

/-- The corner coordinates `(x0, y0, x1, y1)` of `sampleBilinear` after its four `if`s,
with `fx` and `fy` binary32 values. -/
def esquinas32 (srcW srcH : Int) (fx fy : Flotante) : Int × Int × Int × Int :=
  let x0 : Int := aEntero (floorf fx)
  let y0 : Int := aEntero (floorf fy)
  let x1 := x0 + 1
  let y1 := y0 + 1
  let x0 := if x0 < 0 then 0 else x0
  let y0 := if y0 < 0 then 0 else y0
  let x1 := if x1 ≥ srcW then srcW - 1 else x1
  let y1 := if y1 ≥ srcH then srcH - 1 else y1
  (x0, y0, x1, y1)

/-- Function `sampleBilinear` computed in binary32; `out` is the caller's output buffer.
`dx = fx - x0` uses `x0` before the clamps, converted to `float`. -/
def sampleBilinear32 (src : Matriz) (srcW srcH channels : Int) (fx fy : Flotante)
    (out : List UChar) : Option (List UChar) :=
  if channels ≤ 0 then some out
  else
    let dx := resta binary32 fx (deEntero binary32 (aEntero (floorf fx)))
    let dy := resta binary32 fy (deEntero binary32 (aEntero (floorf fy)))
    let x0 := (esquinas32 srcW srcH fx fy).1
    let y0 := (esquinas32 srcW srcH fx fy).2.1
    let x1 := (esquinas32 srcW srcH fx fy).2.2.1
    let y1 := (esquinas32 srcW srcH fx fy).2.2.2
    forLoop 0 channels (fun c out =>
      (leer src y0 x0 c).bind fun v00 =>
      (leer src y0 x1 c).bind fun v10 =>
      (leer src y1 x0 c).bind fun v01 =>
      (leer src y1 x1 c).bind fun v11 =>
        let v0 := suma binary32
          (producto binary32 (deEntero binary32 ((v00.val : Nat) : Int))
            (resta binary32 (Flotante.finito 1) dx))
          (producto binary32 (deEntero binary32 ((v10.val : Nat) : Int)) dx)
        let v1 := suma binary32
          (producto binary32 (deEntero binary32 ((v01.val : Nat) : Int))
            (resta binary32 (Flotante.finito 1) dx))
          (producto binary32 (deEntero binary32 ((v11.val : Nat) : Int)) dx)
        let v := suma binary32
          (producto binary32 v0 (resta binary32 (Flotante.finito 1) dy))
          (producto binary32 v1 dy)
        escribirLista out c (clampuc (aEntero (roundf32 v)))) out

/-- The sample that `sampleBilinear32` stores in `out[c]`. -/
def valorBilineal32 (src : Matriz) (srcW srcH : Int) (fx fy : Flotante) (c : Int) : UChar :=
  let dx := resta binary32 fx (deEntero binary32 (aEntero (floorf fx)))
  let dy := resta binary32 fy (deEntero binary32 (aEntero (floorf fy)))
  let x0 := (esquinas32 srcW srcH fx fy).1
  let y0 := (esquinas32 srcW srcH fx fy).2.1
  let x1 := (esquinas32 srcW srcH fx fy).2.2.1
  let y1 := (esquinas32 srcW srcH fx fy).2.2.2
  let v0 := suma binary32
    (producto binary32 (deEntero binary32 (((muestra src y0 x0 c).val : Nat) : Int))
      (resta binary32 (Flotante.finito 1) dx))
    (producto binary32 (deEntero binary32 (((muestra src y0 x1 c).val : Nat) : Int)) dx)
  let v1 := suma binary32
    (producto binary32 (deEntero binary32 (((muestra src y1 x0 c).val : Nat) : Int))
      (resta binary32 (Flotante.finito 1) dx))
    (producto binary32 (deEntero binary32 (((muestra src y1 x1 c).val : Nat) : Int)) dx)
  clampuc (aEntero (roundf32 (suma binary32
    (producto binary32 v0 (resta binary32 (Flotante.finito 1) dy))
    (producto binary32 v1 dy))))

/-- The source coordinate `(x + 0.5f) * scale - 0.5f` of `resizeWorker`, every operation
rounded to binary32. -/
def coordenadaResize32 (x : Int) (scale : Flotante) : Flotante :=
  resta binary32
    (producto binary32 (suma binary32 (deEntero binary32 x) (Flotante.finito (1 / 2))) scale)
    (Flotante.finito (1 / 2))

/-- Function `resizeWorker` computed in binary32.  The state of the pixel loops is the
destination together with the local buffer `out_local[4]`. -/
def resizeWorker32 (r : ResizeArgs Flotante) (dst : Matriz) : Option Matriz :=
  (forLoop r.inicio r.fin (fun y st =>
    forLoop 0 r.anchoDst (fun x st =>
      let fx := resta binary32
        (producto binary32 (suma binary32 (deEntero binary32 x) (Flotante.finito (1 / 2)))
          r.scaleX)
        (Flotante.finito (1 / 2))
      let fy := resta binary32
        (producto binary32 (suma binary32 (deEntero binary32 y) (Flotante.finito (1 / 2)))
          r.scaleY)
        (Flotante.finito (1 / 2))
      (sampleBilinear32 r.src r.anchoSrc r.altoSrc r.canales fx fy st.2).bind fun out =>
        (forLoop 0 r.canales (fun c d =>
          (leerLista out c).bind fun v => escribir d y x c v) st.1).map
          fun d => (d, out)) st)
    (dst, [(0 : UChar), 0, 0, 0])).map Prod.fst

/-- Function `redimensionarConcurrente` computed in binary32:
`scaleX = (float)anchoSrc / (float)nuevoAncho`.  Returns the image after the call
together with `hilosCreados`; `none` stands for an out-of-bounds access. -/
def redimensionarConcurrente32 (info : ImagenInfo) (nuevoAncho nuevoAlto numHilos : Int)
    (crea : Int → Bool) : Option (ImagenInfo × Int) :=
  match info.pixeles with
  | none => some (info, 0)
  | some src =>
    if nuevoAncho ≤ 0 ∨ nuevoAlto ≤ 0 then some (info, 0)
    else
      match crearMatrizPixeles nuevoAlto nuevoAncho info.canales with
      | none => some (info, 0)
      | some dst =>
        let scaleX := cociente binary32 (deEntero binary32 info.ancho)
          (deEntero binary32 nuevoAncho)
        let scaleY := cociente binary32 (deEntero binary32 info.alto)
          (deEntero binary32 nuevoAlto)
        let numHilos := limitarHilos numHilos nuevoAlto
        (despachar nuevoAlto numHilos crea
          (fun i inicio fin d =>
            resizeWorker32
              (ResizeArgs.mk src inicio fin info.ancho info.alto nuevoAncho nuevoAlto
                info.canales scaleX scaleY i) d)
          dst).map
          fun r => (ImagenInfo.mk nuevoAncho nuevoAlto info.canales (some r.1), r.2)

/-- The coordinate is a finite value in `[-1, lim)`, the range in which the corner
clamps of `sampleBilinear` keep the four reads inside the source. -/
def enRango32 (lim : Int) (f : Flotante) : Prop :=
  ∃ q : ℚ, f = Flotante.finito q ∧ -1 ≤ q ∧ q < (lim : ℚ)

/-- A 3-row image, 8388611 pixels wide, one channel: every sample is 0 except the last
column, which holds 255. -/
def imagenAncha : ImagenInfo :=
  ImagenInfo.mk 8388611 3 1
    (some (List.replicate 3 (List.replicate 8388610 [0] ++ [[255]])))

/-! ## The binary32 kernel as a function of the position -/

/-- The raw weight that `generarKernelGauss32` stores in `val` at offset `(x, y)` from the
centre. -/
def pesoCrudo32 (expf : Flotante → Flotante) (sigma : Flotante) (x y : Int) : Flotante :=
  aFormato binary32
    (cociente binary64
      (expf (cociente binary32 (opuesto (deEntero binary32 (x * x + y * y)))
        (producto binary32 (producto binary32 (Flotante.finito 2) sigma) sigma)))
      (producto binary64 M_PI
        (producto binary32 (producto binary32 (Flotante.finito 2) sigma) sigma)))

/-- The raw weight stored in `kernel[p]` by the filling loops, `p = (y + k2) * tam +
(x + k2)`. -/
def pesoCrudoEn (expf : Flotante → Flotante) (sigma : Flotante) (tam : Nat) (p : Nat) :
    Flotante :=
  pesoCrudo32 expf sigma (((p % tam : Nat) : Int) - Int.tdiv tam 2)
    (((p / tam : Nat) : Int) - Int.tdiv tam 2)

/-- The final value of the variable `sum` of `generarKernelGauss32`: the raw weights
added, with rounding, in the order of the filling loops. -/
def sumaCruda32 (expf : Flotante → Flotante) (sigma : Flotante) (tam : Nat) : Flotante :=
  (List.range (tam * tam)).foldl
    (fun acc p => suma binary32 acc (pesoCrudoEn expf sigma tam p)) (Flotante.finito 0)

/-- The rational value of a finite floating-point value (0 for an infinity or a NaN). -/
def valorFinito : Flotante → ℚ
  | Flotante.finito q => q
  | _ => 0

/-! # Theorems -/

/-! ## Facts about the row partition -/

theorem limitarHilos_eq_min (t T : Int) (h1 : 1 ≤ t) (h32 : t ≤ 32) :
    limitarHilos t T = min t T := by
  unfold limitarHilos MIN_HILOS MAX_HILOS
  simp only []
  split_ifs <;> omega

theorem filasPorHilo_spec (T n : Int) (hT : 1 ≤ T) (hn : 1 ≤ n) :
    1 ≤ filasPorHilo T n ∧ T ≤ n * filasPorHilo T n ∧ n * filasPorHilo T n ≤ T + n - 1 := by
  unfold filasPorHilo
  rw [Int.tdiv_eq_ediv (by omega) (by omega)]
  have h1 := Int.ediv_add_emod (T + n - 1) n
  have h2 := Int.emod_nonneg (T + n - 1) (show n ≠ 0 by omega)
  have h3 := Int.emod_lt_of_pos (T + n - 1) (show 0 < n by omega)
  refine ⟨?_, by omega, by omega⟩
  by_contra hc
  have h4 : (T + n - 1) / n ≤ 0 := by omega
  have h5 : n * ((T + n - 1) / n) ≤ 0 := by
    have := mul_le_mul_of_nonneg_left h4 (show (0 : Int) ≤ n by omega)
    simpa using this
  omega

theorem mul_filas_mono (a b f : Int) (hab : a ≤ b) (hf : 0 ≤ f) : a * f ≤ b * f :=
  mul_le_mul_of_nonneg_right hab hf

/-! ## Memory lemmas -/

theorem leerLista_natCast {α : Type} (l : List α) (n : Nat) : leerLista l (n : Int) = l[n]? := by
  unfold leerLista
  rw [if_neg (by omega)]
  simp

theorem leerLista_eq {α : Type} (l : List α) (i : Int) (h0 : 0 ≤ i) (h1 : i < l.length) :
    ∃ v, leerLista l i = some v ∧ v ∈ l := by
  unfold leerLista
  rw [if_neg (by omega)]
  have hlt : i.toNat < l.length := by omega
  exact ⟨l[i.toNat], List.getElem?_eq_getElem hlt, List.getElem_mem _⟩

theorem leerLista_some_length {α : Type} (l : List α) (i : Int) (v : α)
    (h : leerLista l i = some v) : 0 ≤ i ∧ i < l.length ∧ v ∈ l := by
  unfold leerLista at h
  split_ifs at h with h0
  have := List.getElem?_eq_some.1 h
  obtain ⟨hl, hv⟩ := this
  exact ⟨by omega, by omega, hv ▸ List.getElem_mem _⟩

theorem leerLista_none {α : Type} (l : List α) (i : Int) (h : i < 0 ∨ (l.length : Int) ≤ i) :
    leerLista l i = none := by
  unfold leerLista
  by_cases h0 : i < 0
  · rw [if_pos h0]
  · rw [if_neg h0, List.getElem?_eq_none (by omega)]

theorem escribirLista_eq {α : Type} (l : List α) (i : Int) (v : α) (h0 : 0 ≤ i)
    (h1 : i < l.length) : escribirLista l i v = some (l.set i.toNat v) := by
  unfold escribirLista
  rw [if_neg (by omega), if_pos (by omega)]

theorem leerLista_set {α : Type} (l : List α) (i j : Int) (v : α) (h0 : 0 ≤ i)
    (h1 : i < l.length) :
    leerLista (l.set i.toNat v) j = if j = i then some v else leerLista l j := by
  unfold leerLista
  by_cases hj : j < 0
  · rw [if_pos hj, if_pos hj, if_neg (by omega)]
  · rw [if_neg hj, if_neg hj, List.getElem?_set]
    by_cases e : j = i
    · subst e
      simp; omega
    · rw [if_neg e, if_neg (by omega)]

theorem set_leerLista_self {α : Type} (l : List α) (i : Int) (v : α)
    (h : leerLista l i = some v) : l.set i.toNat v = l := by
  unfold leerLista at h
  split_ifs at h
  apply List.ext_getElem?
  intro n
  rw [List.getElem?_set]
  split_ifs with e1 e2
  · subst e1; exact h.symm
  · subst e1
    rw [List.getElem?_eq_none (by omega)]
  · rfl

theorem leerLista_ext {α : Type} (l1 l2 : List α) (h : ∀ i, leerLista l1 i = leerLista l2 i) :
    l1 = l2 := by
  apply List.ext_getElem?
  intro n
  rw [← leerLista_natCast, ← leerLista_natCast]
  exact h n

theorem Forma_fila {m : Matriz} {A W C : Int} (hF : Forma m A W C) {y : Int}
    {fila : List (List UChar)} (h : leerLista m y = some fila) :
    (fila.length : Int) = W ∧ ∀ px ∈ fila, (px.length : Int) = C :=
  hF.2 fila (leerLista_some_length m y fila h).2.2

/-- Inside the shape the three index steps of `pixeles[y][x][c]` succeed. -/
theorem indices_en_rango {m : Matriz} {A W C : Int} (hF : Forma m A W C) {y x c : Int}
    (hy0 : 0 ≤ y) (hy : y < A) (hx0 : 0 ≤ x) (hx : x < W) (hc0 : 0 ≤ c) (hc : c < C) :
    ∃ fila px v, leerLista m y = some fila ∧ leerLista fila x = some px ∧
      leerLista px c = some v ∧ (fila.length : Int) = W ∧ (px.length : Int) = C := by
  obtain ⟨fila, h1, -⟩ := leerLista_eq m y hy0 (by rw [hF.1]; exact hy)
  obtain ⟨hW, hpx⟩ := Forma_fila hF h1
  obtain ⟨px, h2, hmem⟩ := leerLista_eq fila x hx0 (by rw [hW]; exact hx)
  have hC := hpx _ hmem
  obtain ⟨v, h3, -⟩ := leerLista_eq px c hc0 (by rw [hC]; exact hc)
  exact ⟨fila, px, v, h1, h2, h3, hW, hC⟩

theorem leer_some {m : Matriz} {A W C : Int} (hF : Forma m A W C) {y x c : Int}
    (hy0 : 0 ≤ y) (hy : y < A) (hx0 : 0 ≤ x) (hx : x < W) (hc0 : 0 ≤ c) (hc : c < C) :
    ∃ v, leer m y x c = some v := by
  obtain ⟨fila, px, v, h1, h2, h3, -, -⟩ := indices_en_rango hF hy0 hy hx0 hx hc0 hc
  exact ⟨v, by unfold leer; rw [h1, Option.some_bind, h2, Option.some_bind, h3]⟩

theorem escribir_spec {m : Matriz} {A W C : Int} (hF : Forma m A W C) {y x c : Int}
    (hy0 : 0 ≤ y) (hy : y < A) (hx0 : 0 ≤ x) (hx : x < W) (hc0 : 0 ≤ c) (hc : c < C)
    (v : UChar) :
    ∃ m1, escribir m y x c v = some m1 ∧ Forma m1 A W C ∧
      ∀ y1 x1 c1, leer m1 y1 x1 c1 =
        if y1 = y ∧ x1 = x ∧ c1 = c then some v else leer m y1 x1 c1 := by
  have hA := hF.1
  obtain ⟨fila, px, v0, h1, h2, h3, hW, hC⟩ := indices_en_rango hF hy0 hy hx0 hx hc0 hc
  obtain ⟨-, hpx⟩ := Forma_fila hF h1
  refine ⟨m.set y.toNat (fila.set x.toNat (px.set c.toNat v)), ?_, ?_, ?_⟩
  · unfold escribir
    rw [h1, Option.some_bind, h2, Option.some_bind,
      escribirLista_eq _ c v hc0 (by rw [hC]; exact hc), Option.some_bind,
      escribirLista_eq _ x _ hx0 (by rw [hW]; exact hx), Option.some_bind,
      escribirLista_eq _ y _ hy0 (by rw [hA]; exact hy)]
  · refine ⟨by rw [List.length_set]; exact hA, ?_⟩
    intro f hf
    rcases List.mem_or_eq_of_mem_set hf with hf | hf
    · exact hF.2 f hf
    · subst hf
      refine ⟨by rw [List.length_set]; exact hW, ?_⟩
      intro p hp
      rcases List.mem_or_eq_of_mem_set hp with hp | hp
      · exact hpx p hp
      · subst hp
        rw [List.length_set]; exact hC
  · intro y1 x1 c1
    unfold leer
    rw [leerLista_set m y y1 _ hy0 (by rw [hA]; exact hy)]
    by_cases ey : y1 = y
    · subst ey
      rw [if_pos rfl, Option.some_bind, h1, Option.some_bind,
        leerLista_set _ x x1 _ hx0 (by rw [hW]; exact hx)]
      by_cases ex : x1 = x
      · subst ex
        rw [if_pos rfl, Option.some_bind, h2, Option.some_bind,
          leerLista_set _ c c1 _ hc0 (by rw [hC]; exact hc)]
        by_cases ec : c1 = c
        · subst ec; simp
        · simp [ec]
      · simp [ex]
    · simp [ey]

theorem escribir_mismo {m : Matriz} {y x c : Int} {v : UChar} (h : leer m y x c = some v) :
    escribir m y x c v = some m := by
  unfold leer at h
  obtain ⟨fila, h1, h⟩ := Option.bind_eq_some.1 h
  obtain ⟨px, h2, h3⟩ := Option.bind_eq_some.1 h
  have a1 := leerLista_some_length _ _ _ h1
  have a2 := leerLista_some_length _ _ _ h2
  have a3 := leerLista_some_length _ _ _ h3
  unfold escribir
  rw [h1, Option.some_bind, h2, Option.some_bind,
    escribirLista_eq _ c v a3.1 a3.2.1, Option.some_bind, set_leerLista_self _ _ _ h3,
    escribirLista_eq _ x _ a2.1 a2.2.1, Option.some_bind, set_leerLista_self _ _ _ h2,
    escribirLista_eq _ y _ a1.1 a1.2.1, set_leerLista_self _ _ _ h1]

theorem Forma_ext {m1 m2 : Matriz} {A W C : Int} (h1 : Forma m1 A W C) (h2 : Forma m2 A W C)
    (h : ∀ y x c, 0 ≤ y → y < A → 0 ≤ x → x < W → 0 ≤ c → c < C →
      leer m1 y x c = leer m2 y x c) : m1 = m2 := by
  apply leerLista_ext
  intro y
  by_cases hy : 0 ≤ y ∧ y < A
  · obtain ⟨f1, e1, -⟩ := leerLista_eq m1 y hy.1 (by rw [h1.1]; exact hy.2)
    obtain ⟨f2, e2, -⟩ := leerLista_eq m2 y hy.1 (by rw [h2.1]; exact hy.2)
    obtain ⟨hW1, hp1⟩ := Forma_fila h1 e1
    obtain ⟨hW2, hp2⟩ := Forma_fila h2 e2
    rw [e1, e2]
    congr 1
    apply leerLista_ext
    intro x
    by_cases hx : 0 ≤ x ∧ x < W
    · obtain ⟨p1, g1, m1⟩ := leerLista_eq f1 x hx.1 (by rw [hW1]; exact hx.2)
      obtain ⟨p2, g2, m2⟩ := leerLista_eq f2 x hx.1 (by rw [hW2]; exact hx.2)
      have hC1 := hp1 _ m1
      have hC2 := hp2 _ m2
      rw [g1, g2]
      congr 1
      apply leerLista_ext
      intro c
      by_cases hc : 0 ≤ c ∧ c < C
      · have := h y x c hy.1 hy.2 hx.1 hx.2 hc.1 hc.2
        unfold leer at this
        rw [e1, e2, Option.some_bind, Option.some_bind, g1, g2] at this
        simpa using this
      · rw [leerLista_none _ _ (by omega), leerLista_none _ _ (by omega)]
    · rw [leerLista_none _ _ (by omega), leerLista_none _ _ (by omega)]
  · have := h1.1
    have := h2.1
    rw [leerLista_none _ _ (by omega), leerLista_none _ _ (by omega)]

/-! ## Loop rules -/

theorem forLoopAux_inv {σ : Type} (body : Int → σ → Option σ) (Inv : Int → σ → Prop) :
    ∀ (n : Nat) (i : Int) (s : σ), Inv i s →
      (∀ j t, i ≤ j → j < i + n → Inv j t → ∃ t1, body j t = some t1 ∧ Inv (j + 1) t1) →
      ∃ t, forLoopAux body n i s = some t ∧ Inv (i + n) t
  | 0, i, s, h0, _ => ⟨s, rfl, by simpa using h0⟩
  | n + 1, i, s, h0, hstep => by
      obtain ⟨t1, e1, i1⟩ := hstep i s le_rfl (by omega) h0
      obtain ⟨t, e, it⟩ := forLoopAux_inv body Inv n (i + 1) t1 i1
        (fun j t hj1 hj2 hI => hstep j t (by omega) (by omega) hI)
      refine ⟨t, ?_, ?_⟩
      · simp [forLoopAux, e1, e]
      · have : i + ((n + 1 : Nat) : Int) = i + 1 + n := by push_cast; ring
        rw [this]; exact it

/-- Invariant rule for `for (i = lo; i < hi; i++)`: total correctness. -/
theorem forLoop_inv {σ : Type} (lo hi : Int) (body : Int → σ → Option σ)
    (Inv : Int → σ → Prop) (s : σ) (hle : lo ≤ hi) (h0 : Inv lo s)
    (hstep : ∀ j t, lo ≤ j → j < hi → Inv j t → ∃ t1, body j t = some t1 ∧ Inv (j + 1) t1) :
    ∃ t, forLoop lo hi body s = some t ∧ Inv hi t := by
  have hn : lo + ((hi - lo).toNat : Int) = hi := by omega
  obtain ⟨t, e, it⟩ := forLoopAux_inv body Inv (hi - lo).toNat lo s h0
    (fun j t hj1 hj2 hI => hstep j t hj1 (by omega) hI)
  exact ⟨t, e, hn ▸ it⟩

theorem forLoop_vacio {σ : Type} (lo hi : Int) (body : Int → σ → Option σ) (s : σ)
    (h : hi ≤ lo) : forLoop lo hi body s = some s := by
  unfold forLoop
  have : (hi - lo).toNat = 0 := by omega
  rw [this]; rfl

/-! ## In-place rewriting of a matrix -/

theorem Estado_congr {A W C : Int} {viejo nuevo : Int → Int → Int → UChar}
    {H1 H2 : Int → Int → Int → Prop} {m : Matriz} (h : Estado A W C viejo nuevo H1 m)
    (hH : ∀ y x c, 0 ≤ y → y < A → 0 ≤ x → x < W → 0 ≤ c → c < C → (H1 y x c ↔ H2 y x c)) :
    Estado A W C viejo nuevo H2 m := by
  refine ⟨h.1, ?_⟩
  intro y x c hy0 hy hx0 hx hc0 hc
  have := h.2 y x c hy0 hy hx0 hx hc0 hc
  have e := hH y x c hy0 hy hx0 hx hc0 hc
  exact ⟨fun k => this.1 (e.2 k), fun k => this.2 (fun k2 => k (e.1 k2))⟩

theorem Estado_escribir {A W C : Int} {viejo nuevo : Int → Int → Int → UChar}
    {H : Int → Int → Int → Prop} {m : Matriz} (h : Estado A W C viejo nuevo H m)
    {y x c : Int} (hy0 : 0 ≤ y) (hy : y < A) (hx0 : 0 ≤ x) (hx : x < W) (hc0 : 0 ≤ c)
    (hc : c < C) :
    ∃ m1, escribir m y x c (nuevo y x c) = some m1 ∧
      Estado A W C viejo nuevo (fun y1 x1 c1 => H y1 x1 c1 ∨ (y1 = y ∧ x1 = x ∧ c1 = c)) m1 := by
  obtain ⟨m1, e, hF, hl⟩ := escribir_spec h.1 hy0 hy hx0 hx hc0 hc (nuevo y x c)
  refine ⟨m1, e, hF, ?_⟩
  intro y1 x1 c1 a1 a2 a3 a4 a5 a6
  have := h.2 y1 x1 c1 a1 a2 a3 a4 a5 a6
  rw [hl]
  by_cases q : y1 = y ∧ x1 = x ∧ c1 = c
  · rw [if_pos q]
    obtain ⟨rfl, rfl, rfl⟩ := q
    exact ⟨fun _ => rfl, fun k => absurd (Or.inr ⟨rfl, rfl, rfl⟩) k⟩
  · rw [if_neg q]
    refine ⟨fun k => ?_, fun k => this.2 (fun k2 => k (Or.inl k2))⟩
    rcases k with k | k
    · exact this.1 k
    · exact absurd k q

/-- The channel loop of a worker that stores `nuevo y x c` into every channel of pixel
`(y, x)`. -/
theorem canales_loop {A W C : Int} {viejo nuevo : Int → Int → Int → UChar}
    (H : Int → Int → Int → Prop) (y x : Int) (hy0 : 0 ≤ y) (hy : y < A) (hx0 : 0 ≤ x)
    (hx : x < W) (hC : 0 ≤ C) (paso : Int → Matriz → Option Matriz)
    (hpaso : ∀ c m, 0 ≤ c → c < C →
      Estado A W C viejo nuevo
        (fun y1 x1 c1 => H y1 x1 c1 ∨ (y1 = y ∧ x1 = x ∧ c1 < c)) m →
      paso c m = escribir m y x c (nuevo y x c))
    (m : Matriz) (hm : Estado A W C viejo nuevo H m) :
    ∃ m1, forLoop 0 C paso m = some m1 ∧
      Estado A W C viejo nuevo (fun y1 x1 c1 => H y1 x1 c1 ∨ (y1 = y ∧ x1 = x)) m1 := by
  have key : ∃ m1, forLoop 0 C paso m = some m1 ∧
      Estado A W C viejo nuevo
        (fun y1 x1 c1 => H y1 x1 c1 ∨ (y1 = y ∧ x1 = x ∧ c1 < C)) m1 := by
    refine forLoop_inv 0 C paso
      (fun c m => Estado A W C viejo nuevo
        (fun y1 x1 c1 => H y1 x1 c1 ∨ (y1 = y ∧ x1 = x ∧ c1 < c)) m) m hC ?_ ?_
    · refine Estado_congr hm ?_
      intro y1 x1 c1 _ _ _ _ _ _
      constructor
      · intro k; exact Or.inl k
      · rintro (k | k)
        · exact k
        · omega
    · intro c m1 hc0 hc hI
      obtain ⟨m2, e2, h2⟩ := Estado_escribir hI hy0 hy hx0 hx hc0 hc
      refine ⟨m2, by rw [hpaso c m1 hc0 hc hI]; exact e2, Estado_congr h2 ?_⟩
      intro y1 x1 c1 _ _ _ _ _ _
      constructor
      · rintro ((k | k) | k)
        · exact Or.inl k
        · exact Or.inr ⟨k.1, k.2.1, by omega⟩
        · exact Or.inr ⟨k.1, k.2.1, by omega⟩
      · rintro (k | k)
        · exact Or.inl (Or.inl k)
        · by_cases q : c1 = c
          · exact Or.inr ⟨k.1, k.2.1, q⟩
          · exact Or.inl (Or.inr ⟨k.1, k.2.1, by omega⟩)
  obtain ⟨m1, e, h1⟩ := key
  refine ⟨m1, e, Estado_congr h1 ?_⟩
  intro y1 x1 c1 _ _ _ _ _ _
  constructor
  · rintro (k | k)
    · exact Or.inl k
    · exact Or.inr ⟨k.1, k.2.1⟩
  · rintro (k | k)
    · exact Or.inl k
    · exact Or.inr ⟨k.1, k.2, by omega⟩

/-- The row and column loops of a worker on `[a, b)`, given what its per-pixel body
does. -/
theorem filas_loop {A W C : Int} {viejo nuevo : Int → Int → Int → UChar}
    (H : Int → Int → Int → Prop) (a b : Int) (hab : a ≤ b) (hW : 0 ≤ W)
    (pixel : Int → Int → Matriz → Option Matriz)
    (hpixel : ∀ y x m, a ≤ y → y < b → 0 ≤ x → x < W →
      Estado A W C viejo nuevo
        (fun y1 x1 c1 => H y1 x1 c1 ∨ (a ≤ y1 ∧ y1 < y) ∨ (y1 = y ∧ x1 < x)) m →
      ∃ m1, pixel y x m = some m1 ∧
        Estado A W C viejo nuevo
          (fun y1 x1 c1 => (H y1 x1 c1 ∨ (a ≤ y1 ∧ y1 < y) ∨ (y1 = y ∧ x1 < x)) ∨
            (y1 = y ∧ x1 = x)) m1)
    (m : Matriz) (hm : Estado A W C viejo nuevo H m) :
    ∃ m1, forLoop a b (fun y m => forLoop 0 W (fun x m => pixel y x m) m) m = some m1 ∧
      Estado A W C viejo nuevo (fun y1 x1 c1 => H y1 x1 c1 ∨ (a ≤ y1 ∧ y1 < b)) m1 := by
  refine forLoop_inv a b _
    (fun y m => Estado A W C viejo nuevo (fun y1 x1 c1 => H y1 x1 c1 ∨ (a ≤ y1 ∧ y1 < y)) m)
    m hab ?_ ?_
  · refine Estado_congr hm ?_
    intro y1 x1 c1 _ _ _ _ _ _
    constructor
    · intro k; exact Or.inl k
    · rintro (k | k)
      · exact k
      · omega
  · intro y m1 hy1 hy2 hI
    have key : ∃ m2, forLoop 0 W (fun x m => pixel y x m) m1 = some m2 ∧
        Estado A W C viejo nuevo
          (fun y1 x1 c1 => H y1 x1 c1 ∨ (a ≤ y1 ∧ y1 < y) ∨ (y1 = y ∧ x1 < W)) m2 := by
      refine forLoop_inv 0 W (fun x m => pixel y x m)
        (fun x m => Estado A W C viejo nuevo
          (fun y1 x1 c1 => H y1 x1 c1 ∨ (a ≤ y1 ∧ y1 < y) ∨ (y1 = y ∧ x1 < x)) m) m1 hW ?_ ?_
      · refine Estado_congr hI ?_
        intro y1 x1 c1 _ _ _ _ _ _
        constructor
        · rintro (k | k)
          · exact Or.inl k
          · exact Or.inr (Or.inl k)
        · rintro (k | k | k)
          · exact Or.inl k
          · exact Or.inr k
          · omega
      · intro x m2 hx0 hx hI2
        obtain ⟨m3, e3, h3⟩ := hpixel y x m2 hy1 hy2 hx0 hx hI2
        refine ⟨m3, e3, Estado_congr h3 ?_⟩
        intro y1 x1 c1 _ _ _ _ _ _
        constructor
        · rintro ((k | k | k) | k)
          · exact Or.inl k
          · exact Or.inr (Or.inl k)
          · exact Or.inr (Or.inr ⟨k.1, by omega⟩)
          · exact Or.inr (Or.inr ⟨k.1, by omega⟩)
        · rintro (k | k | k)
          · exact Or.inl (Or.inl k)
          · exact Or.inl (Or.inr (Or.inl k))
          · by_cases q : x1 = x
            · exact Or.inr ⟨k.1, q⟩
            · exact Or.inl (Or.inr (Or.inr ⟨k.1, by omega⟩))
    obtain ⟨m2, e2, h2⟩ := key
    refine ⟨m2, e2, Estado_congr h2 ?_⟩
    intro y1 x1 c1 _ _ _ _ _ _
    constructor
    · rintro (k | k | k)
      · exact Or.inl k
      · exact Or.inr ⟨k.1, by omega⟩
      · exact Or.inr ⟨by omega, by omega⟩
    · rintro (k | k)
      · exact Or.inl k
      · by_cases q : y1 = y
        · exact Or.inr (Or.inr ⟨q, by omega⟩)
        · exact Or.inr (Or.inl ⟨k.1, by omega⟩)

/-- Every row belongs to the range of exactly one worker index. -/
theorem rango_unico (T n y : Int) (hT : 1 ≤ T) (hn : 1 ≤ n) (hy0 : 0 ≤ y) (hy : y < T) :
    ∃! i : Int, 0 ≤ i ∧ i < n ∧
      rangoInicio i (filasPorHilo T n) < rangoFin i (filasPorHilo T n) T ∧
      rangoInicio i (filasPorHilo T n) ≤ y ∧ y < rangoFin i (filasPorHilo T n) T := by
  obtain ⟨hf1, hf2, -⟩ := filasPorHilo_spec T n hT hn
  generalize filasPorHilo T n = f at *
  have hfpos : 0 < f := by omega
  have e1 := Int.ediv_add_emod y f
  have e2 := Int.emod_nonneg y (show f ≠ 0 by omega)
  have e3 := Int.emod_lt_of_pos y hfpos
  have e4 : f * (y / f) = y / f * f := mul_comm _ _
  have e5 : (y / f + 1) * f = y / f * f + f := by ring
  have key : ∀ j : Int, (j * f ≤ y ∧ y < (j + 1) * f) → j = y / f := by
    intro j ⟨hj1, hj2⟩
    rcases lt_trichotomy j (y / f) with h | h | h
    · have := mul_filas_mono (j + 1) (y / f) f (by omega) (by omega)
      omega
    · exact h
    · have := mul_filas_mono (y / f + 1) j f (by omega) (by omega)
      omega
  refine ⟨y / f, ⟨?_, ?_, ?_, ?_, ?_⟩, ?_⟩
  · exact Int.ediv_nonneg hy0 (by omega)
  · by_contra hc
    have := mul_filas_mono n (y / f) f (by omega) (by omega)
    omega
  · unfold rangoInicio rangoFin
    split_ifs <;> omega
  · unfold rangoInicio; omega
  · unfold rangoFin
    split_ifs <;> omega
  · rintro j ⟨-, -, -, hj1, hj2⟩
    apply key
    unfold rangoInicio at hj1
    unfold rangoFin at hj2
    refine ⟨hj1, ?_⟩
    split_ifs at hj2 <;> omega

/-- The dispatch loop: each started worker rewrites its rows, the rows of the others
keep their old content, and at most `numHilos` threads are counted. -/
theorem despachar_estado {A W C : Int} {viejo nuevo : Int → Int → Int → UChar}
    (n : Int) (hn : 1 ≤ n) (hA : 1 ≤ A) (crea : Int → Bool)
    (worker : Int → Int → Int → Matriz → Option Matriz)
    (hworker : ∀ i a b (H : Int → Int → Int → Prop) m, 0 ≤ a → a < b → b ≤ A →
      (∀ y x c, a ≤ y → y < b → ¬ H y x c) → Estado A W C viejo nuevo H m →
      ∃ m1, worker i a b m = some m1 ∧
        Estado A W C viejo nuevo (fun y x c => H y x c ∨ (a ≤ y ∧ y < b)) m1)
    (m : Matriz) (hm : Estado A W C viejo nuevo (fun _ _ _ => False) m) :
    ∃ m1 cnt, despachar A n crea worker m = some (m1, cnt) ∧ 0 ≤ cnt ∧ cnt ≤ n ∧
      Estado A W C viejo nuevo (fun y _ _ => filaAtendida A n crea y) m1 := by
  obtain ⟨hf1, hf2, -⟩ := filasPorHilo_spec A n hA hn
  have key : ∃ st, despachar A n crea worker m = some st ∧ (0 ≤ st.2 ∧ st.2 ≤ n ∧
      Estado A W C viejo nuevo (fun y _ _ => ∃ j, 0 ≤ j ∧ j < n ∧ crea j = true ∧
        rangoInicio j (filasPorHilo A n) ≤ y ∧ y < rangoFin j (filasPorHilo A n) A) st.1) := by
    unfold despachar
    refine forLoop_inv 0 n _ (fun i st => 0 ≤ st.2 ∧ st.2 ≤ i ∧
      Estado A W C viejo nuevo (fun y _ _ => ∃ j, 0 ≤ j ∧ j < i ∧ crea j = true ∧
        rangoInicio j (filasPorHilo A n) ≤ y ∧ y < rangoFin j (filasPorHilo A n) A) st.1)
      (m, 0) (by omega) ?_ ?_
    · refine ⟨le_rfl, le_rfl, Estado_congr hm ?_⟩
      intro y x c _ _ _ _ _ _
      constructor
      · intro k; exact absurd k id
      · rintro ⟨j, h1, h2, -⟩
        omega
    · intro i st hi0 hi ⟨hc0, hc1, hI⟩
      generalize filasPorHilo A n = f at *
      have p1 : 0 ≤ i * f := mul_nonneg hi0 (by omega)
      have p2 : (i + 1) * f = i * f + f := by ring
      simp only []
      by_cases hr : rangoInicio i f < rangoFin i f A
      · rw [if_pos hr]
        by_cases hcr : crea i = true
        · rw [if_pos hcr]
          have hfin : rangoFin i f A ≤ A := by unfold rangoFin; split_ifs <;> omega
          obtain ⟨m1, e1, h1⟩ := hworker i _ _ _ st.1 (by unfold rangoInicio; omega) hr hfin
            (by
              rintro y x c hy1 hy2 ⟨j, hj0, hj1, -, -, hj3⟩
              have := mul_filas_mono (j + 1) i f (by omega) (by omega)
              unfold rangoInicio at hy1
              unfold rangoFin at hj3
              split_ifs at hj3 <;> omega) hI
          refine ⟨(m1, st.2 + 1), by rw [e1]; rfl, by simp only []; omega,
            by simp only []; omega, Estado_congr h1 ?_⟩
          intro y x c _ _ _ _ _ _
          constructor
          · rintro (⟨j, h1, h2, h3⟩ | k)
            · exact ⟨j, h1, by omega, h3⟩
            · exact ⟨i, hi0, by omega, hcr, k⟩
          · rintro ⟨j, h1, h2, h3, h4⟩
            by_cases q : j = i
            · subst q; exact Or.inr h4
            · exact Or.inl ⟨j, h1, by omega, h3, h4⟩
        · rw [if_neg hcr]
          refine ⟨st, rfl, hc0, by omega, Estado_congr hI ?_⟩
          intro y x c _ _ _ _ _ _
          constructor
          · rintro ⟨j, h1, h2, h3⟩
            exact ⟨j, h1, by omega, h3⟩
          · rintro ⟨j, h1, h2, h3, h4⟩
            by_cases q : j = i
            · subst q; exact absurd h3 hcr
            · exact ⟨j, h1, by omega, h3, h4⟩
      · rw [if_neg hr]
        refine ⟨st, rfl, hc0, by omega, Estado_congr hI ?_⟩
        intro y x c _ _ _ _ _ _
        constructor
        · rintro ⟨j, h1, h2, h3⟩
          exact ⟨j, h1, by omega, h3⟩
        · rintro ⟨j, h1, h2, h3, h4⟩
          by_cases q : j = i
          · subst q; omega
          · exact ⟨j, h1, by omega, h3, h4⟩
  obtain ⟨⟨m1, cnt⟩, e, h1, h2, h3⟩ := key
  exact ⟨m1, cnt, e, h1, h2, h3⟩

theorem filaAtendida_todos (A n y : Int) (hA : 1 ≤ A) (hn : 1 ≤ n) (hy0 : 0 ≤ y) (hy : y < A) :
    filaAtendida A n todosArrancan y := by
  obtain ⟨i, ⟨h1, h2, -, h3, h4⟩, -⟩ := rango_unico A n y hA hn hy0 hy
  exact ⟨i, h1, h2, rfl, h3, h4⟩

theorem clampuc_val (v : Int) : ((clampuc v).val : Int) = max 0 (min 255 v) := by
  unfold clampuc
  split_ifs with h1 h2
  · show ((0 : Nat) : Int) = _
    omega
  · show ((255 : Nat) : Int) = _
    omega
  · have : v.toNat < 256 := by omega
    show ((v.toNat % 256 : Nat) : Int) = _
    rw [Nat.mod_eq_of_lt this]
    omega

theorem clampuc_val_self (v : UChar) : clampuc ((v.val : Int) + 0) = v := by
  apply Fin.ext
  have h := clampuc_val ((v.val : Int) + 0)
  have := v.isLt
  omega

theorem envolver32_eq (v : Int) (h0 : -2147483648 ≤ v) (h1 : v ≤ 2147483647) :
    envolver32 v = v := by
  unfold envolver32
  omega

theorem envolver32_muestra (v : UChar) (delta : Int) (h0 : -2147483648 ≤ delta)
    (h1 : delta ≤ 2147483392) :
    envolver32 ((v.val : Int) + delta) = (v.val : Int) + delta := by
  have := v.isLt
  exact envolver32_eq _ (by omega) (by omega)

theorem limitarHilos_rango (n alto : Int) (hA : 1 ≤ alto) :
    1 ≤ limitarHilos n alto ∧ limitarHilos n alto ≤ alto ∧ limitarHilos n alto ≤ 32 := by
  unfold limitarHilos MIN_HILOS MAX_HILOS
  simp only []
  split_ifs <;> omega

theorem Estado_inicial {A W C : Int} (m : Matriz) (hF : Forma m A W C)
    (nuevo : Int → Int → Int → UChar) :
    Estado A W C (muestra m) nuevo (fun _ _ _ => False) m := by
  refine ⟨hF, ?_⟩
  intro y x c h1 h2 h3 h4 h5 h6
  obtain ⟨v, hv⟩ := leer_some hF h1 h2 h3 h4 h5 h6
  refine ⟨fun k => absurd k id, fun _ => ?_⟩
  unfold muestra
  rw [hv]; rfl

theorem ajustarBrilloHilo_estado {A W C : Int} (hW : 0 ≤ W) (hC : 0 ≤ C)
    (viejo : Int → Int → Int → UChar) (delta i a b : Int) (H : Int → Int → Int → Prop)
    (m : Matriz) (ha : 0 ≤ a) (hab : a < b) (hb : b ≤ A)
    (hH : ∀ y x c, a ≤ y → y < b → ¬ H y x c)
    (hm : Estado A W C viejo
      (fun y x c => clampuc (envolver32 (((viejo y x c).val : Int) + delta))) H m) :
    ∃ m1, ajustarBrilloHilo (BrilloArgs.mk a b W C delta i) m = some m1 ∧
      Estado A W C viejo
        (fun y x c => clampuc (envolver32 (((viejo y x c).val : Int) + delta)))
        (fun y x c => H y x c ∨ (a ≤ y ∧ y < b)) m1 := by
  unfold ajustarBrilloHilo
  dsimp only
  refine filas_loop H a b (le_of_lt hab) hW _ ?_ m hm
  intro y x m1 hy1 hy2 hx0 hx hI
  refine canales_loop _ y x (by omega) (by omega) hx0 hx hC _ ?_ m1 hI
  intro c m2 hc0 hc hI2
  have := (hI2.2 y x c (by omega) (by omega) hx0 hx hc0 hc).2 (by
    rintro ((k | k | k) | k)
    · exact hH y x c hy1 hy2 k
    · omega
    · omega
    · omega)
  rw [this, Option.some_bind]


/-! ## Row partition and brightness (C1 to C4) -/

/-- C1.  For every `totalRows ≥ 1` and requested thread count in `[1,32]`, with
`n = min(threadCount, totalRows)` the effective worker count and
`filas = (totalRows + n - 1) / n`, every row `y` of `[0,totalRows)` lies in exactly one
of the ranges `[i*filas, min((i+1)*filas, totalRows))`, `0 ≤ i < n`, and that range is
non-empty (`inicio < fin`). -/
theorem particion_cubre_cada_fila_una_vez (totalRows threadCount y : Int)
    (hT : 1 ≤ totalRows) (h1 : 1 ≤ threadCount) (h32 : threadCount ≤ 32)
    (hy0 : 0 ≤ y) (hy : y < totalRows) :
    limitarHilos threadCount totalRows = min threadCount totalRows ∧
    ∃! i : Int, 0 ≤ i ∧ i < limitarHilos threadCount totalRows ∧
      rangoInicio i (filasPorHilo totalRows (limitarHilos threadCount totalRows)) <
        rangoFin i (filasPorHilo totalRows (limitarHilos threadCount totalRows)) totalRows ∧
      rangoInicio i (filasPorHilo totalRows (limitarHilos threadCount totalRows)) ≤ y ∧
      y < rangoFin i (filasPorHilo totalRows (limitarHilos threadCount totalRows)) totalRows := by
  refine ⟨limitarHilos_eq_min _ _ h1 h32, ?_⟩
  have hn : 1 ≤ limitarHilos threadCount totalRows := by
    rw [limitarHilos_eq_min _ _ h1 h32]; omega
  exact rango_unico totalRows _ y hT hn hy0 hy

theorem particion_cubre_cada_fila_una_vez_witness :
    limitarHilos 4 5 = min 4 5 ∧
    ∃! i : Int, 0 ≤ i ∧ i < limitarHilos 4 5 ∧
      rangoInicio i (filasPorHilo 5 (limitarHilos 4 5)) <
        rangoFin i (filasPorHilo 5 (limitarHilos 4 5)) 5 ∧
      rangoInicio i (filasPorHilo 5 (limitarHilos 4 5)) ≤ 3 ∧
      3 < rangoFin i (filasPorHilo 5 (limitarHilos 4 5)) 5 :=
  particion_cubre_cada_fila_una_vez 5 4 3 (by decide) (by decide) (by decide) (by decide)
    (by decide)

/-- C2 (counterexample).  With 5 rows and 4 requested threads the loop computes
`filas = 2`, and worker 3 gets `inicio = 6`, `fin = 5`: its start lies beyond the last
row and `inicio ≤ fin` fails, so the rowless range is not of the form
`inicio == fin`. -/
theorem rango_sin_filas_no_es_inicio_igual_fin :
    limitarHilos 4 5 = 4 ∧ filasPorHilo 5 (limitarHilos 4 5) = 2 ∧
    rangoInicio 3 (filasPorHilo 5 (limitarHilos 4 5)) = 6 ∧
    rangoFin 3 (filasPorHilo 5 (limitarHilos 4 5)) 5 = 5 ∧
    ¬ (rangoInicio 3 (filasPorHilo 5 (limitarHilos 4 5)) ≤
        rangoFin 3 (filasPorHilo 5 (limitarHilos 4 5)) 5) ∧
    ¬ (rangoInicio 3 (filasPorHilo 5 (limitarHilos 4 5)) =
        rangoFin 3 (filasPorHilo 5 (limitarHilos 4 5)) 5) := by
  decide

/-- C2 (amended).  For every `totalRows ≥ 1`, thread count in `[1,32]` and worker
index `i ≥ 0` (in particular `0 ≤ i < n`): `0 ≤ inicio_i` and `0 < fin_i ≤ totalRows`; a range that passes the
guard `inicio < fin` of the dispatch loop satisfies `0 ≤ inicio_i < fin_i ≤ totalRows`;
a range that does not pass it has `fin_i = totalRows ≤ inicio_i`. -/
theorem rangos_dentro_de_limites (totalRows threadCount i : Int)
    (hT : 1 ≤ totalRows) (h1 : 1 ≤ threadCount) (h32 : threadCount ≤ 32)
    (hi0 : 0 ≤ i) :
    0 ≤ rangoInicio i (filasPorHilo totalRows (limitarHilos threadCount totalRows)) ∧
    0 < rangoFin i (filasPorHilo totalRows (limitarHilos threadCount totalRows)) totalRows ∧
    rangoFin i (filasPorHilo totalRows (limitarHilos threadCount totalRows)) totalRows
      ≤ totalRows ∧
    (¬ (rangoInicio i (filasPorHilo totalRows (limitarHilos threadCount totalRows)) <
        rangoFin i (filasPorHilo totalRows (limitarHilos threadCount totalRows)) totalRows) →
      rangoFin i (filasPorHilo totalRows (limitarHilos threadCount totalRows)) totalRows
        = totalRows ∧
      totalRows ≤
        rangoInicio i (filasPorHilo totalRows (limitarHilos threadCount totalRows))) := by
  have hn : 1 ≤ limitarHilos threadCount totalRows := by
    rw [limitarHilos_eq_min _ _ h1 h32]; omega
  obtain ⟨hf1, -, -⟩ := filasPorHilo_spec totalRows _ hT hn
  generalize limitarHilos threadCount totalRows = n at *
  generalize filasPorHilo totalRows n = f at *
  have a1 : 0 ≤ i * f := mul_nonneg hi0 (by omega)
  have a2 : (i + 1) * f = i * f + f := by ring
  unfold rangoInicio rangoFin
  split_ifs <;> omega

theorem rangos_dentro_de_limites_witness :
    0 ≤ rangoInicio 3 (filasPorHilo 5 (limitarHilos 4 5)) ∧
    0 < rangoFin 3 (filasPorHilo 5 (limitarHilos 4 5)) 5 ∧
    rangoFin 3 (filasPorHilo 5 (limitarHilos 4 5)) 5 ≤ 5 ∧
    (¬ (rangoInicio 3 (filasPorHilo 5 (limitarHilos 4 5)) <
        rangoFin 3 (filasPorHilo 5 (limitarHilos 4 5)) 5) →
      rangoFin 3 (filasPorHilo 5 (limitarHilos 4 5)) 5 = 5 ∧
      5 ≤ rangoInicio 3 (filasPorHilo 5 (limitarHilos 4 5))) :=
  rangos_dentro_de_limites 5 4 3 (by decide) (by decide) (by decide) (by decide)

/-- C3 (counterexample).  On the 4x4 single-channel image of all 100 with
`delta = 2147483647` (`INT_MAX`) the 32-bit sum `100 + delta` wraps to a negative value
and every sample becomes 0, while `max(0, min(255, 100 + delta))` is 255. -/
theorem brillo_desborda_con_delta_maximo :
    ajustarBrilloConcurrente (imagenUniforme4x4 100) 2147483647 4 todosArrancan
      = some (imagenUniforme4x4 0, 4) ∧
    leerImagen (imagenUniforme4x4 0) 0 0 0 = some 0 ∧
    max (0 : Int) (min 255 (100 + 2147483647)) = 255 := by
  decide

/-- C3 (amended).  For every loaded image and every `delta` for which `old + delta` cannot
overflow a 32-bit `int` (`-2147483648 ≤ delta ≤ 2147483647 - 255`, which contains the
range `[-255, 255]` accepted by the menu), `ajustarBrilloConcurrente` with all workers
started returns an image with the same `ancho`, `alto` and `canales` in which every
sample at `(y, x, c)` is `max(0, min(255, old + delta))`, `old` being the sample of the
input at that position. -/
theorem brillo_satura (info : ImagenInfo) (delta numHilos : Int) (h : BienFormada info)
    (hd0 : -2147483648 ≤ delta) (hd1 : delta ≤ 2147483647 - 255) :
    ∃ r cnt, ajustarBrilloConcurrente info delta numHilos todosArrancan = some (r, cnt) ∧
      r.ancho = info.ancho ∧ r.alto = info.alto ∧ r.canales = info.canales ∧
      BienFormada r ∧
      ∀ y x c, 0 ≤ y → y < info.alto → 0 ≤ x → x < info.ancho → 0 ≤ c → c < info.canales →
        ∃ old nuevo : UChar, leerImagen info y x c = some old ∧
          leerImagen r y x c = some nuevo ∧
          (nuevo.val : Int) = max 0 (min 255 ((old.val : Int) + delta)) := by
  obtain ⟨hA, hW, hC, hp⟩ := h
  cases hpx : info.pixeles with
  | none => rw [hpx] at hp; exact absurd hp id
  | some m0 =>
    rw [hpx] at hp
    simp only [] at hp
    obtain ⟨hn1, hn2, -⟩ := limitarHilos_rango numHilos info.alto hA
    obtain ⟨m1, cnt, e, -, -, hE⟩ := despachar_estado (limitarHilos numHilos info.alto) hn1 hA
      todosArrancan
      (fun i inicio fin p =>
        ajustarBrilloHilo (BrilloArgs.mk inicio fin info.ancho info.canales delta i) p)
      (fun i a b H m ha hab hb hH hm =>
        ajustarBrilloHilo_estado (by omega) (by omega) (muestra m0) delta i a b H m ha hab hb
          hH hm)
      m0 (Estado_inicial m0 hp _)
    refine ⟨ImagenInfo.mk info.ancho info.alto info.canales (some m1), cnt, ?_, rfl, rfl, rfl,
      ⟨hA, hW, hC, hE.1⟩, ?_⟩
    · unfold ajustarBrilloConcurrente
      rw [hpx]
      simp only []
      rw [e]; rfl
    · intro y x c h1 h2 h3 h4 h5 h6
      obtain ⟨v, hv⟩ := leer_some hp h1 h2 h3 h4 h5 h6
      have := (hE.2 y x c h1 h2 h3 h4 h5 h6).1
        (filaAtendida_todos _ _ y hA hn1 h1 h2)
      refine ⟨v, _, by unfold leerImagen; rw [hpx]; exact hv, this, ?_⟩
      dsimp only
      rw [envolver32_muestra _ delta hd0 (by omega), clampuc_val]
      unfold muestra
      rw [hv]; rfl

/-- C3 (witness and concrete scenario).  The 4x4 single-channel image of all 100 is a
loaded image, the theorem applies to it, and the run itself gives all 150 for
`delta = 50` and all 0 for `delta = -150`. -/
theorem brillo_satura_witness :
    BienFormada (imagenUniforme4x4 100) ∧
    (∃ r cnt, ajustarBrilloConcurrente (imagenUniforme4x4 100) 50 4 todosArrancan
        = some (r, cnt) ∧
      r.ancho = (imagenUniforme4x4 100).ancho ∧ r.alto = (imagenUniforme4x4 100).alto ∧
      r.canales = (imagenUniforme4x4 100).canales ∧ BienFormada r ∧
      ∀ y x c, 0 ≤ y → y < (imagenUniforme4x4 100).alto → 0 ≤ x →
        x < (imagenUniforme4x4 100).ancho → 0 ≤ c → c < (imagenUniforme4x4 100).canales →
        ∃ old nuevo : UChar, leerImagen (imagenUniforme4x4 100) y x c = some old ∧
          leerImagen r y x c = some nuevo ∧
          (nuevo.val : Int) = max 0 (min 255 ((old.val : Int) + 50))) ∧
    ajustarBrilloConcurrente (imagenUniforme4x4 100) 50 4 todosArrancan
      = some (imagenUniforme4x4 150, 4) ∧
    ajustarBrilloConcurrente (imagenUniforme4x4 100) (-150) 4 todosArrancan
      = some (imagenUniforme4x4 0, 4) :=
  ⟨by decide, brillo_satura (imagenUniforme4x4 100) 50 4 (by decide) (by decide) (by decide),
    by decide, by decide⟩

/-- C4.  For every loaded image, every requested thread count and whichever workers
start, `ajustarBrilloConcurrente` with `delta = 0` returns the very same image (same
`ancho`, `alto`, `canales` and samples); the menu of `main` does not even call it for
`delta = 0`. -/
theorem brillo_cero_no_cambia (info : ImagenInfo) (numHilos : Int) (crea : Int → Bool)
    (h : BienFormada info) :
    (∃ cnt, ajustarBrilloConcurrente info 0 numHilos crea = some (info, cnt)) ∧
    mainAjustarBrillo info 0 numHilos crea = some (info, 0) := by
  refine ⟨?_, by unfold mainAjustarBrillo; rw [if_pos rfl]⟩
  obtain ⟨hA, hW, hC, hp⟩ := h
  cases hpx : info.pixeles with
  | none => rw [hpx] at hp; exact absurd hp id
  | some m0 =>
    rw [hpx] at hp
    simp only [] at hp
    obtain ⟨hn1, hn2, -⟩ := limitarHilos_rango numHilos info.alto hA
    obtain ⟨m1, cnt, e, -, -, hE⟩ := despachar_estado (limitarHilos numHilos info.alto) hn1 hA
      crea
      (fun i inicio fin p =>
        ajustarBrilloHilo (BrilloArgs.mk inicio fin info.ancho info.canales 0 i) p)
      (fun i a b H m ha hab hb hH hm =>
        ajustarBrilloHilo_estado (by omega) (by omega) (muestra m0) 0 i a b H m ha hab hb
          hH hm)
      m0 (Estado_inicial m0 hp _)
    have hm : m1 = m0 := by
      apply Forma_ext hE.1 hp
      intro y x c h1 h2 h3 h4 h5 h6
      obtain ⟨v, hv⟩ := leer_some hp h1 h2 h3 h4 h5 h6
      have hmu : muestra m0 y x c = v := by unfold muestra; rw [hv]; rfl
      have := hE.2 y x c h1 h2 h3 h4 h5 h6
      dsimp only at this
      rw [hv]
      by_cases q : filaAtendida info.alto (limitarHilos numHilos info.alto) crea y
      · rw [this.1 q, envolver32_muestra _ 0 (by omega) (by omega), clampuc_val_self, hmu]
      · rw [this.2 q, hmu]
    refine ⟨cnt, ?_⟩
    unfold ajustarBrilloConcurrente
    rw [hpx]
    simp only []
    rw [e, hm]
    simp only [Option.map_some']
    congr 2
    cases info
    simp only [] at hpx
    rw [hpx]

theorem brillo_cero_no_cambia_witness :
    (∃ cnt, ajustarBrilloConcurrente (imagenUniforme4x4 100) 0 3 todosArrancan
      = some (imagenUniforme4x4 100, cnt)) ∧
    mainAjustarBrillo (imagenUniforme4x4 100) 0 3 todosArrancan
      = some (imagenUniforme4x4 100, 0) :=
  brillo_cero_no_cambia (imagenUniforme4x4 100) 3 todosArrancan (by decide)

/-! ## Bilinear sampling (C5) -/

theorem escribirLista_length {α : Type} (l l1 : List α) (i : Int) (v : α)
    (h : escribirLista l i v = some l1) : l1.length = l.length := by
  unfold escribirLista at h
  split_ifs at h
  cases h
  exact List.length_set _ _ _

theorem esquinas_en_rango {K : Type} [LinearOrderedField K] [FloorRing K] (srcW srcH : Int)
    (fx fy : K) (hW : 1 ≤ srcW) (hH : 1 ≤ srcH) (hx0 : -1 ≤ fx) (hx1 : fx < srcW)
    (hy0 : -1 ≤ fy) (hy1 : fy < srcH) :
    0 ≤ (esquinas srcW srcH fx fy).1 ∧ (esquinas srcW srcH fx fy).1 ≤ srcW - 1 ∧
    0 ≤ (esquinas srcW srcH fx fy).2.1 ∧ (esquinas srcW srcH fx fy).2.1 ≤ srcH - 1 ∧
    0 ≤ (esquinas srcW srcH fx fy).2.2.1 ∧ (esquinas srcW srcH fx fy).2.2.1 ≤ srcW - 1 ∧
    0 ≤ (esquinas srcW srcH fx fy).2.2.2 ∧ (esquinas srcW srcH fx fy).2.2.2 ≤ srcH - 1 := by
  have a1 : -1 ≤ ⌊fx⌋ := Int.le_floor.2 (by push_cast; exact hx0)
  have a2 : ⌊fx⌋ < srcW := Int.floor_lt.2 hx1
  have a3 : -1 ≤ ⌊fy⌋ := Int.le_floor.2 (by push_cast; exact hy0)
  have a4 : ⌊fy⌋ < srcH := Int.floor_lt.2 hy1
  unfold esquinas
  dsimp only
  refine ⟨?_, ?_, ?_, ?_, ?_, ?_, ?_, ?_⟩ <;> split_ifs <;> omega

/-- C5 (counterexample).  On a 2x2 single-channel buffer, `fx = 5` leaves `x0 = 5`
(only `x0 < 0` is clamped) and `fx = -3` leaves `x1 = -2` (only `x1 >= srcW` is
clamped): the corner reads are out of bounds and no pixel is produced. -/
theorem sampleBilinear_lee_fuera :
    Forma imagen2x2 2 2 1 ∧
    esquinas 2 2 (5 : ℚ) (0 : ℚ) = (5, 0, 1, 1) ∧
    ¬ ((esquinas 2 2 (5 : ℚ) (0 : ℚ)).1 ≤ 2 - 1) ∧
    sampleBilinear imagen2x2 2 2 1 (5 : ℚ) (0 : ℚ) [0, 0, 0, 0] = none ∧
    esquinas 2 2 (-3 : ℚ) (0 : ℚ) = (0, 0, -2, 1) ∧
    ¬ (0 ≤ (esquinas 2 2 (-3 : ℚ) (0 : ℚ)).2.2.1) ∧
    sampleBilinear imagen2x2 2 2 1 (-3 : ℚ) (0 : ℚ) [0, 0, 0, 0] = none := by
  have h3 : ⌊(-3 : ℚ)⌋ = -3 := by
    rw [Int.floor_eq_iff]; norm_num
  refine ⟨by decide, ?_, ?_, ?_, ?_, ?_, ?_⟩
  · simp [esquinas]
  · simp [esquinas]
  · simp [sampleBilinear, esquinas, forLoop, forLoopAux, leer, leerLista, imagen2x2]
  · simp [esquinas, h3]
  · simp [esquinas, h3]
  · simp [sampleBilinear, esquinas, forLoop, forLoopAux, leer, leerLista, imagen2x2, h3]

/-- C5 (amended).  For every buffer with `srcW ≥ 1`, `srcH ≥ 1` and every coordinate
with `-1 ≤ fx < srcW` and `-1 ≤ fy < srcH` (the coordinates `rotarWorker` and
`resizeWorker` pass), `x0` and `x1` end in `[0, srcW-1]`, `y0` and `y1` in
`[0, srcH-1]`, every corner read is in bounds and `sampleBilinear` produces a pixel in
an output buffer with room for `channels` samples. -/
theorem sampleBilinear_en_rango {K : Type} [LinearOrderedField K] [FloorRing K]
    (src : Matriz) (srcW srcH channels : Int) (fx fy : K) (out : List UChar)
    (hF : Forma src srcH srcW channels) (hW : 1 ≤ srcW) (hH : 1 ≤ srcH)
    (hout : channels ≤ out.length)
    (hx0 : -1 ≤ fx) (hx1 : fx < srcW) (hy0 : -1 ≤ fy) (hy1 : fy < srcH) :
    (0 ≤ (esquinas srcW srcH fx fy).1 ∧ (esquinas srcW srcH fx fy).1 ≤ srcW - 1 ∧
     0 ≤ (esquinas srcW srcH fx fy).2.1 ∧ (esquinas srcW srcH fx fy).2.1 ≤ srcH - 1 ∧
     0 ≤ (esquinas srcW srcH fx fy).2.2.1 ∧ (esquinas srcW srcH fx fy).2.2.1 ≤ srcW - 1 ∧
     0 ≤ (esquinas srcW srcH fx fy).2.2.2 ∧ (esquinas srcW srcH fx fy).2.2.2 ≤ srcH - 1) ∧
    ∃ out1, sampleBilinear src srcW srcH channels fx fy out = some out1 ∧
      out1.length = out.length := by
  have hE := esquinas_en_rango srcW srcH fx fy hW hH hx0 hx1 hy0 hy1
  refine ⟨hE, ?_⟩
  obtain ⟨e1, e2, e3, e4, e5, e6, e7, e8⟩ := hE
  unfold sampleBilinear
  by_cases hc : channels ≤ 0
  · rw [if_pos hc]; exact ⟨out, rfl, rfl⟩
  · rw [if_neg hc]
    dsimp only
    refine forLoop_inv 0 channels _ (fun _ o => o.length = out.length) out (by omega) rfl ?_
    intro c o hc0 hc1 ho
    obtain ⟨v00, r00⟩ := leer_some hF e3 (by omega) e1 (by omega) hc0 hc1
    obtain ⟨v10, r10⟩ := leer_some hF e3 (by omega) e5 (by omega) hc0 hc1
    obtain ⟨v01, r01⟩ := leer_some hF e7 (by omega) e1 (by omega) hc0 hc1
    obtain ⟨v11, r11⟩ := leer_some hF e7 (by omega) e5 (by omega) hc0 hc1
    rw [r00, r10, r01, r11]
    simp only [Option.some_bind]
    rw [escribirLista_eq _ _ _ hc0 (by omega)]
    exact ⟨_, rfl, by rw [List.length_set]; exact ho⟩

theorem sampleBilinear_en_rango_witness :
    (0 ≤ (esquinas 2 2 (-1 : ℚ) (1 : ℚ)).1 ∧ (esquinas 2 2 (-1 : ℚ) (1 : ℚ)).1 ≤ 2 - 1 ∧
     0 ≤ (esquinas 2 2 (-1 : ℚ) (1 : ℚ)).2.1 ∧ (esquinas 2 2 (-1 : ℚ) (1 : ℚ)).2.1 ≤ 2 - 1 ∧
     0 ≤ (esquinas 2 2 (-1 : ℚ) (1 : ℚ)).2.2.1 ∧
     (esquinas 2 2 (-1 : ℚ) (1 : ℚ)).2.2.1 ≤ 2 - 1 ∧
     0 ≤ (esquinas 2 2 (-1 : ℚ) (1 : ℚ)).2.2.2 ∧
     (esquinas 2 2 (-1 : ℚ) (1 : ℚ)).2.2.2 ≤ 2 - 1) ∧
    ∃ out1, sampleBilinear imagen2x2 2 2 1 (-1 : ℚ) (1 : ℚ) [0, 0, 0, 0] = some out1 ∧
      out1.length = [(0 : UChar), 0, 0, 0].length :=
  sampleBilinear_en_rango imagen2x2 2 2 1 (-1 : ℚ) (1 : ℚ) [0, 0, 0, 0] (by decide)
    (by decide) (by decide) (by decide) (by norm_num) (by norm_num) (by norm_num)
    (by norm_num)

/-! ## Gaussian kernel (C7, C8) -/

/-- Invariant rule for `for (i = lo; i < hi; i++)` with the invariant indexed by the
number of completed iterations. -/
theorem forLoopAux_inv_nat {σ : Type} (lo : Int) (body : Int → σ → Option σ)
    (Inv : Nat → σ → Prop) :
    ∀ (n k : Nat) (s : σ), Inv k s →
      (∀ (j : Nat) t, k ≤ j → j < k + n → Inv j t →
        ∃ t1, body (lo + j) t = some t1 ∧ Inv (j + 1) t1) →
      ∃ t, forLoopAux body n (lo + k) s = some t ∧ Inv (k + n) t
  | 0, k, s, h0, _ => ⟨s, rfl, h0⟩
  | n + 1, k, s, h0, hstep => by
      obtain ⟨t1, e1, i1⟩ := hstep k s le_rfl (by omega) h0
      obtain ⟨t, e, it⟩ := forLoopAux_inv_nat lo body Inv n (k + 1) t1 i1
        (fun j t hj1 hj2 hI => hstep j t (by omega) (by omega) hI)
      refine ⟨t, ?_, ?_⟩
      · have : lo + ((k + 1 : Nat) : Int) = lo + k + 1 := by push_cast; ring
        rw [this] at e
        simp [forLoopAux, e1, e]
      · have : k + (n + 1) = k + 1 + n := by omega
        rw [this]; exact it

theorem forLoop_inv_nat {σ : Type} (lo hi : Int) (body : Int → σ → Option σ)
    (Inv : Nat → σ → Prop) (s : σ) (h0 : Inv 0 s)
    (hstep : ∀ (j : Nat) t, (j : Int) < hi - lo → Inv j t →
      ∃ t1, body (lo + j) t = some t1 ∧ Inv (j + 1) t1) :
    ∃ t, forLoop lo hi body s = some t ∧ Inv (hi - lo).toNat t := by
  obtain ⟨t, e, it⟩ := forLoopAux_inv_nat lo body Inv (hi - lo).toNat 0 s h0
    (fun j t _ hj2 hI => hstep j t (by omega) hI)
  refine ⟨t, ?_, by simpa using it⟩
  unfold forLoop
  simpa using e

theorem escribirLista_nat {α : Type} (l : List α) (k : Nat) (i : Int) (v : α) (hi : i = k)
    (hk : k < l.length) : escribirLista l i v = some (l.set k v) := by
  subst hi
  rw [escribirLista_eq _ _ _ (by omega) (by omega)]
  simp

/-- The two filling loops of `generarKernelGauss`: every entry gets its raw weight and
`sum` is the sum of all of them. -/
theorem llenar_kernel {K : Type} [LinearOrderedField K] (g : Int → Int → K) (k2 : Int)
    (n : Nat) (hn : (n : Int) = 2 * k2 + 1) (ker0 : List K) (hk : ker0.length = n * n) :
    ∃ st : List K × K,
      forLoop (-k2) (k2 + 1) (fun y st =>
        forLoop (-k2) (k2 + 1) (fun x st =>
          (escribirLista st.1 ((y + k2) * n + (x + k2)) (g x y)).map
            fun k => (k, st.2 + g x y)) st) (ker0, (0 : K)) = some st ∧
      st.1.length = n * n ∧
      (∀ a b : Nat, a < n → b < n → st.1[a * n + b]? = some (g ((b : Int) - k2) ((a : Int) - k2))) ∧
      st.2 = ∑ a in Finset.range n, ∑ b in Finset.range n, g ((b : Int) - k2) ((a : Int) - k2) := by
  have hcnt : (k2 + 1 - -k2).toNat = n := by omega
  have key := forLoop_inv_nat (-k2) (k2 + 1)
    (fun y st =>
        forLoop (-k2) (k2 + 1) (fun x st =>
          (escribirLista st.1 ((y + k2) * n + (x + k2)) (g x y)).map
            fun k => (k, st.2 + g x y)) st)
    (fun j (st : List K × K) => st.1.length = n * n ∧
      (∀ a b : Nat, a < j → b < n →
        st.1[a * n + b]? = some (g ((b : Int) - k2) ((a : Int) - k2))) ∧
      st.2 = ∑ a in Finset.range j, ∑ b in Finset.range n, g ((b : Int) - k2) ((a : Int) - k2))
    (ker0, 0) ⟨hk, fun a b ha _ => absurd ha (Nat.not_lt_zero a), by simp⟩ ?_
  · rw [hcnt] at key
    exact key
  · intro j st hj ⟨hl, hget, hsum⟩
    have hjn : j < n := by omega
    have inner := forLoop_inv_nat (-k2) (k2 + 1)
      (fun x st =>
          (escribirLista st.1 ((-k2 + (j : Int) + k2) * n + (x + k2)) (g x (-k2 + (j : Int)))).map
            fun k => (k, st.2 + g x (-k2 + (j : Int))))
      (fun i (t : List K × K) => t.1.length = n * n ∧
        (∀ a b : Nat, (a < j ∧ b < n) ∨ (a = j ∧ b < i) →
          t.1[a * n + b]? = some (g ((b : Int) - k2) ((a : Int) - k2))) ∧
        t.2 = (∑ a in Finset.range j, ∑ b in Finset.range n,
            g ((b : Int) - k2) ((a : Int) - k2)) +
          ∑ b in Finset.range i, g ((b : Int) - k2) ((j : Int) - k2))
      st ⟨hl, fun a b hab => by
            rcases hab with h | h
            · exact hget a b h.1 h.2
            · omega, by simp [hsum]⟩ ?_
    · rw [hcnt] at inner
      obtain ⟨t, e, h1, h2, h3⟩ := inner
      refine ⟨t, e, h1, ?_, ?_⟩
      · intro a b ha hb
        apply h2
        by_cases q : a = j
        · exact Or.inr ⟨q, hb⟩
        · exact Or.inl ⟨by omega, hb⟩
      · rw [h3, Finset.sum_range_succ]
    · intro i t hi ⟨h1, h2, h3⟩
      have hin : i < n := by omega
      have hidx : (-k2 + (j : Int) + k2) * n + (-k2 + (i : Int) + k2) = ((j * n + i : Nat) : Int) := by
        push_cast; ring
      have hlt : j * n + i < t.1.length := by
        rw [h1]
        have : (j + 1) * n ≤ n * n := Nat.mul_le_mul_right n (by omega)
        have e2 : (j + 1) * n = j * n + n := by ring
        omega
      dsimp only
      rw [escribirLista_nat _ _ _ _ hidx hlt]
      refine ⟨_, rfl, ?_, ?_, ?_⟩
      · simp only [Option.map_some', List.length_set]
        exact h1
      · intro a b hab
        simp only [Option.map_some']
        rw [List.getElem?_set]
        by_cases q : j * n + i = a * n + b
        · rw [if_pos q, if_pos hlt]
          have : a = j ∧ b = i := by
            rcases hab with h | h
            · have : (a + 1) * n ≤ j * n := Nat.mul_le_mul_right n (by omega)
              have e2 : (a + 1) * n = a * n + n := by ring
              omega
            · have : a * n = j * n := by rw [h.1]
              omega
          obtain ⟨rfl, rfl⟩ := this
          congr 2 <;> ring
        · rw [if_neg q]
          apply h2
          rcases hab with h | h
          · exact Or.inl h
          · refine Or.inr ⟨h.1, ?_⟩
            have : b ≠ i := by
              intro hb; apply q; rw [h.1, hb]
            omega
      · simp only [Option.map_some']
        rw [h3, Finset.sum_range_succ, add_assoc]
        congr 3 <;> ring

/-- A loop that replaces every entry `k[i]` of an array by `f k[i]`. -/
theorem forLoop_cada_entrada {α : Type} (N : Nat) (f : α → α)
    (body : Int → List α → Option (List α))
    (hbody : ∀ (j : Nat) (k : List α) (w : α), k[j]? = some w →
      body j k = some (k.set j (f w)))
    (ker : List α) (hN : ker.length = N) : forLoop 0 N body ker = some (ker.map f) := by
  obtain ⟨k, e, hl, hk⟩ := forLoop_inv_nat 0 N body
    (fun j k => k.length = N ∧ ∀ p, k[p]? = if p < j then (ker[p]?).map f else ker[p]?)
    ker ⟨hN, fun p => by simp⟩
    (fun j k hj ⟨hl, hk⟩ => by
      have hjl : j < ker.length := by omega
      have hw : ker[j]? = some ker[j] := List.getElem?_eq_getElem hjl
      have hj1 : k[j]? = some ker[j] := by
        rw [hk j, if_neg (lt_irrefl j), hw]
      refine ⟨k.set j (f ker[j]), ?_, by rw [List.length_set]; exact hl, ?_⟩
      · have := hbody j k _ hj1
        simpa using this
      · intro p
        rw [List.getElem?_set]
        by_cases q : j = p
        · subst q
          rw [if_pos rfl, if_pos (by omega), if_pos (by omega), hw]
          rfl
        · rw [if_neg q, hk p]
          by_cases q2 : p < j
          · rw [if_pos q2, if_pos (by omega)]
          · rw [if_neg q2, if_neg (by omega)])
  rw [e]
  congr 1
  apply List.ext_getElem?
  intro p
  have hcnt : ((N : Int) - 0).toNat = N := by omega
  rw [hk p, List.getElem?_map, hcnt]
  by_cases q : p < N
  · rw [if_pos q]
  · rw [if_neg q, List.getElem?_eq_none (by omega)]
    rfl

theorem impar_desde_tres (tam : Int) (h1 : ¬ (Int.tmod tam 2 = 0 ∨ tam < 3)) :
    3 ≤ tam ∧ tam = 2 * Int.tdiv tam 2 + 1 ∧ 1 ≤ Int.tdiv tam 2 := by
  have h3 : 3 ≤ tam := by omega
  have e1 := Int.tmod_eq_emod (a := tam) (b := 2) (by omega) (by omega)
  have e2 := Int.tdiv_eq_ediv (a := tam) (b := 2) (by omega) (by omega)
  rw [e1] at h1
  rw [e2]
  omega

/-- What `generarKernelGauss` returns for an odd size `≥ 3`: an array of `tam * tam`
weights whose entry `a * tam + b` is `pesoKernel a b`. -/
theorem generarKernelGauss_spec {K : Type} [LinearOrderedField K] (expf : K → K) (pi : K)
    (tam : Int) (sigma : K) (h1 : ¬ (Int.tmod tam 2 = 0 ∨ tam < 3)) :
    ∃ ker, generarKernelGauss expf pi tam sigma = some ker ∧
      ker.length = tam.toNat * tam.toNat ∧
      ∀ a b : Nat, a < tam.toNat → b < tam.toNat →
        ker[a * tam.toNat + b]? = some (pesoKernel expf pi sigma tam a b) := by
  obtain ⟨h3, hodd, hk2⟩ := impar_desde_tres tam h1
  obtain ⟨n, rfl⟩ : ∃ n : Nat, tam = n := ⟨tam.toNat, by omega⟩
  generalize hk : Int.tdiv (n : Int) 2 = k2 at *
  have hnn : ((n : Int) * n).toNat = n * n := by
    have : (n : Int) * n = ((n * n : Nat) : Int) := by push_cast; ring
    rw [this]; exact Int.toNat_ofNat _
  obtain ⟨st, e, hl, hget, hsum⟩ := llenar_kernel (pesoCrudo expf pi sigma) k2 n hodd
    (List.replicate (n * n) (0 : K)) (by simp)
  have hS : st.2 = sumaCruda expf pi sigma n := by
    rw [hsum]; unfold sumaCruda; simp [hk]
  unfold generarKernelGauss
  rw [if_neg h1]
  dsimp only
  rw [hk, hnn]
  unfold pesoCrudo at e
  rw [e, Option.some_bind]
  have hNN : ((n : Int) * n) = ((n * n : Nat) : Int) := by push_cast; ring
  simp only [Int.toNat_ofNat]
  by_cases hpos : st.2 > 0
  · rw [if_pos hpos, hNN, forLoop_cada_entrada (n * n) (fun w => w / st.2) _ ?_ st.1 hl]
    · refine ⟨_, rfl, by simp [hl], ?_⟩
      intro a b ha hb
      rw [List.getElem?_map, hget a b ha hb]
      unfold pesoKernel
      rw [← hS, if_pos hpos, hk]
      rfl
    · intro j k w hw
      have hj : j < k.length := by
        by_contra hc
        rw [List.getElem?_eq_none (by omega)] at hw
        cases hw
      rw [leerLista_natCast, hw, Option.some_bind, escribirLista_nat _ j _ _ rfl hj]
  · rw [if_neg hpos, hNN, forLoop_cada_entrada (n * n) (fun _ => (0 : K)) _ ?_ st.1 hl]
    · rw [Option.some_bind]
      have hc : k2 * (n : Int) + k2 = ((k2.toNat * n + k2.toNat : Nat) : Int) := by
        push_cast
        rw [Int.toNat_of_nonneg (by omega)]
      have hk2n : k2.toNat < n := by omega
      have hlt : k2.toNat * n + k2.toNat < n * n := by
        have : (k2.toNat + 1) * n ≤ n * n := Nat.mul_le_mul_right n (by omega)
        have e2 : (k2.toNat + 1) * n = k2.toNat * n + n := by ring
        omega
      rw [escribirLista_nat _ _ _ _ hc (by simp [hl]; exact hlt)]
      refine ⟨_, rfl, by simp [hl], ?_⟩
      intro a b ha hb
      have hab : a * n + b < n * n := by
        have : (a + 1) * n ≤ n * n := Nat.mul_le_mul_right n (by omega)
        have e2 : (a + 1) * n = a * n + n := by ring
        omega
      rw [List.getElem?_set]
      unfold pesoKernel
      rw [← hS, if_neg hpos, hk]
      by_cases q : (a : Int) = k2 ∧ (b : Int) = k2
      · have qa : a = k2.toNat := by omega
        have qb : b = k2.toNat := by omega
        rw [if_pos q, if_pos (by rw [qa, qb]), if_pos (by simp [hl]; exact hlt)]
      · rw [if_neg q, if_neg, List.getElem?_map,
          List.getElem?_eq_getElem (by rw [hl]; exact hab)]
        · rfl
        · intro hidx
          apply q
          rcases lt_trichotomy a k2.toNat with h | h | h
          · have : (a + 1) * n ≤ k2.toNat * n := Nat.mul_le_mul_right n (by omega)
            have e2 : (a + 1) * n = a * n + n := by ring
            omega
          · subst h
            omega
          · have : (k2.toNat + 1) * n ≤ a * n := Nat.mul_le_mul_right n (by omega)
            have e2 : (k2.toNat + 1) * n = k2.toNat * n + n := by ring
            omega
    · intro j k w hw
      have hj : j < k.length := by
        by_contra hc
        rw [List.getElem?_eq_none (by omega)] at hw
        cases hw
      rw [escribirLista_nat _ j _ _ rfl hj]

theorem tmod_dos_cero_iff_par (tam : Int) : Int.tmod tam 2 = 0 ↔ Even tam := by
  rw [← Int.dvd_iff_tmod_eq_zero, even_iff_two_dvd]

theorem pesoKernel_suma {K : Type} [LinearOrderedField K] (expf : K → K) (pi sigma : K)
    (tam : Int) (h1 : ¬ (Int.tmod tam 2 = 0 ∨ tam < 3)) :
    ∑ a in Finset.range tam.toNat, ∑ b in Finset.range tam.toNat,
      pesoKernel expf pi sigma tam a b = 1 := by
  obtain ⟨h3, hodd, hk2⟩ := impar_desde_tres tam h1
  by_cases hpos : sumaCruda expf pi sigma tam > 0
  · have e : ∀ a b : Nat, pesoKernel expf pi sigma tam a b =
        pesoCrudo expf pi sigma ((b : Int) - Int.tdiv tam 2) ((a : Int) - Int.tdiv tam 2) /
          sumaCruda expf pi sigma tam := by
      intro a b; unfold pesoKernel; rw [if_pos hpos]
    simp only [e]
    simp only [← Finset.sum_div]
    exact div_self (ne_of_gt hpos)
  · have e : ∀ a b : Nat, pesoKernel expf pi sigma tam a b =
        if (a : Int) = Int.tdiv tam 2 ∧ (b : Int) = Int.tdiv tam 2 then 1 else 0 := by
      intro a b; unfold pesoKernel; rw [if_neg hpos]
    simp only [e]
    have hmem : (Int.tdiv tam 2).toNat ∈ Finset.range tam.toNat := by
      rw [Finset.mem_range]; omega
    rw [Finset.sum_eq_single_of_mem _ hmem, Finset.sum_eq_single_of_mem _ hmem]
    · rw [if_pos]
      constructor <;> omega
    · intro b _ hb
      rw [if_neg]
      omega
    · intro a _ ha
      apply Finset.sum_eq_zero
      intro b _
      rw [if_neg]
      omega

theorem lista_suma_rango {K : Type} [LinearOrderedField K] (l : List K) :
    l.sum = ∑ p in Finset.range l.length, (l[p]?).getD 0 := by
  induction l with
  | nil => simp
  | cons x l ih =>
    rw [List.sum_cons, List.length_cons, Finset.sum_range_succ', ih, add_comm]
    simp

theorem suma_rango_producto {K : Type} [LinearOrderedField K] (f : Nat → K) (n : Nat) :
    ∀ m : Nat, ∑ p in Finset.range (m * n), f p =
      ∑ a in Finset.range m, ∑ b in Finset.range n, f (a * n + b)
  | 0 => by simp
  | m + 1 => by
      have e : (m + 1) * n = m * n + n := by ring
      rw [e, Finset.sum_range_add, suma_rango_producto f n m, Finset.sum_range_succ]

/-- The kernel in real arithmetic (every `float` operation exact): for every odd
`tam ≥ 3` and every `sigma > 0`, `generarKernelGauss` returns `tam*tam` weights whose
sum is exactly 1 (hence within `1e-4` of 1); when the raw weights do not sum to a
positive value (`sum == 0`) the result is the identity kernel: weight 1 at the centre, 0
everywhere else. -/
theorem kernel_exacto_suma_uno {K : Type} [LinearOrderedField K] (expf : K → K) (pi : K)
    (tam : Int) (sigma : K) (hodd : ¬ Even tam) (h3 : 3 ≤ tam) (_hs : 0 < sigma) :
    ∃ ker, generarKernelGauss expf pi tam sigma = some ker ∧
      ker.length = tam.toNat * tam.toNat ∧
      ker.sum = 1 ∧ |ker.sum - 1| ≤ 1 / 10000 ∧
      (¬ (0 < sumaCruda expf pi sigma tam) →
        ∀ a b : Nat, a < tam.toNat → b < tam.toNat →
          ker[a * tam.toNat + b]? =
            some (if (a : Int) = Int.tdiv tam 2 ∧ (b : Int) = Int.tdiv tam 2 then 1 else 0)) := by
  have h1 : ¬ (Int.tmod tam 2 = 0 ∨ tam < 3) := by
    rw [tmod_dos_cero_iff_par]
    rintro (h | h)
    · exact hodd h
    · omega
  obtain ⟨ker, e, hl, hget⟩ := generarKernelGauss_spec expf pi tam sigma h1
  have hsum : ker.sum = 1 := by
    rw [lista_suma_rango, hl, suma_rango_producto, ← pesoKernel_suma expf pi sigma tam h1]
    apply Finset.sum_congr rfl
    intro a ha
    apply Finset.sum_congr rfl
    intro b hb
    rw [hget a b (Finset.mem_range.1 ha) (Finset.mem_range.1 hb)]
    rfl
  refine ⟨ker, e, hl, hsum, by rw [hsum]; norm_num, ?_⟩
  intro hneg a b ha hb
  rw [hget a b ha hb]
  unfold pesoKernel
  rw [if_neg hneg]

/-- C8.  With allocation succeeding, `generarKernelGauss(tam, sigma)` returns no kernel
exactly when `tam` is even or `tam < 3`. -/
theorem kernel_falla_iff {K : Type} [LinearOrderedField K] (expf : K → K) (pi : K)
    (tam : Int) (sigma : K) :
    generarKernelGauss expf pi tam sigma = none ↔ (Even tam ∨ tam < 3) := by
  rw [← tmod_dos_cero_iff_par]
  constructor
  · intro h
    by_contra hc
    obtain ⟨ker, e, -⟩ := generarKernelGauss_spec expf pi tam sigma hc
    rw [h] at e
    cases e
  · intro h
    unfold generarKernelGauss
    rw [if_pos h]

/-! ## Convolution (C6, C9, C10) -/

theorem recortar_rango (v lim : Int) (h : 1 ≤ lim) :
    0 ≤ recortar v lim ∧ recortar v lim < lim := by
  unfold recortar
  split_ifs <;> omega

/-- Two nested loops over the kernel window that add `term a b` to an accumulator. -/
theorem acumular_ventana {K : Type} [LinearOrderedField K] (term : Nat → Nat → K) (k2 : Int)
    (n : Nat) (hn : (n : Int) = 2 * k2 + 1) (paso : Int → Int → K → Option K)
    (hpaso : ∀ (a b : Nat) (acc : K), a < n → b < n →
      paso (-k2 + a) (-k2 + b) acc = some (acc + term a b)) :
    forLoop (-k2) (k2 + 1) (fun ky acc =>
      forLoop (-k2) (k2 + 1) (fun kx acc => paso ky kx acc) acc) (0 : K) =
      some (∑ a in Finset.range n, ∑ b in Finset.range n, term a b) := by
  have hcnt : (k2 + 1 - -k2).toNat = n := by omega
  obtain ⟨t, e, ht⟩ := forLoop_inv_nat (-k2) (k2 + 1)
    (fun ky acc => forLoop (-k2) (k2 + 1) (fun kx acc => paso ky kx acc) acc)
    (fun j (acc : K) => acc = ∑ a in Finset.range j, ∑ b in Finset.range n, term a b)
    (0 : K) (by simp)
    (fun j acc hj hacc => by
      obtain ⟨t, e, ht⟩ := forLoop_inv_nat (-k2) (k2 + 1)
        (fun kx acc => paso (-k2 + (j : Int)) kx acc)
        (fun i (t : K) => t = acc + ∑ b in Finset.range i, term j b) acc (by simp)
        (fun i t hi ht => by
          refine ⟨_, hpaso j i t (by omega) (by omega), ?_⟩
          dsimp only at ht ⊢
          rw [ht, Finset.sum_range_succ, add_assoc])
      rw [hcnt] at ht
      refine ⟨t, e, ?_⟩
      dsimp only at hacc ⊢
      rw [ht, hacc, Finset.sum_range_succ])
  rw [hcnt] at ht
  rw [e, ht]

theorem crearMatrizPixeles_spec (A W C : Int) (hA : 1 ≤ A) (hW : 1 ≤ W) (hC : 1 ≤ C) :
    ∃ m, crearMatrizPixeles A W C = some m ∧ Forma m A W C ∧
      ∀ y x c, 0 ≤ y → y < A → 0 ≤ x → x < W → 0 ≤ c → c < C → leer m y x c = some 0 := by
  have hF : Forma (List.replicate A.toNat (List.replicate W.toNat
      (List.replicate C.toNat (0 : UChar)))) A W C := by
    refine ⟨by simp; omega, ?_⟩
    intro fila hf
    rw [List.eq_of_mem_replicate hf]
    refine ⟨by simp; omega, ?_⟩
    intro px hp
    rw [List.eq_of_mem_replicate hp]
    simp; omega
  refine ⟨_, by unfold crearMatrizPixeles; rw [if_neg (by omega)], hF, ?_⟩
  intro y x c h1 h2 h3 h4 h5 h6
  unfold leer leerLista
  rw [if_neg (by omega), List.getElem?_replicate, if_pos (by omega), Option.some_bind,
    if_neg (by omega), List.getElem?_replicate, if_pos (by omega), Option.some_bind,
    if_neg (by omega), List.getElem?_replicate, if_pos (by omega)]

theorem muestra_eq {m : Matriz} {y x c : Int} {v : UChar} (h : leer m y x c = some v) :
    muestra m y x c = v := by
  unfold muestra; rw [h]; rfl

theorem aplicarConvolucionHilo_estado {K : Type} [LinearOrderedField K] [FloorRing K]
    {A W C : Int} (src : Matriz) (hsrc : Forma src A W C) (hA : 1 ≤ A) (hW : 1 ≤ W)
    (hC : 0 ≤ C) (tam : Int) (htam : ¬ (Int.tmod tam 2 = 0 ∨ tam < 3)) (kernel : List K)
    (w : Nat → Nat → K)
    (hker : ∀ a b : Nat, a < tam.toNat → b < tam.toNat →
      kernel[a * tam.toNat + b]? = some (w a b))
    (viejo : Int → Int → Int → UChar) (i a b : Int) (H : Int → Int → Int → Prop)
    (dst : Matriz) (ha : 0 ≤ a) (hab : a < b) (hb : b ≤ A)
    (hm : Estado A W C viejo (valorConvolucion w src A W tam) H dst) :
    ∃ dst1, aplicarConvolucionHilo (ConvArgs.mk src a b W A C tam kernel i) dst = some dst1 ∧
      Estado A W C viejo (valorConvolucion w src A W tam)
        (fun y x c => H y x c ∨ (a ≤ y ∧ y < b)) dst1 := by
  obtain ⟨h3, hodd, hk2⟩ := impar_desde_tres tam htam
  unfold aplicarConvolucionHilo
  dsimp only
  refine filas_loop H a b (le_of_lt hab) (by omega) _ ?_ dst hm
  intro y x m1 hy1 hy2 hx0 hx hI
  refine canales_loop _ y x (by omega) (by omega) hx0 hx hC _ ?_ m1 hI
  intro c m2 hc0 hc _
  have hacc := acumular_ventana
    (fun a b : Nat => w a b *
      (((muestra src (recortar (y + ((a : Int) - Int.tdiv tam 2)) A)
        (recortar (x + ((b : Int) - Int.tdiv tam 2)) W) c).val : Nat) : K))
    (Int.tdiv tam 2) tam.toNat (by omega)
    (fun ky kx acc =>
      (leerLista kernel ((ky + Int.tdiv tam 2) * tam + (kx + Int.tdiv tam 2))).bind fun kval =>
        (leer src (recortar (y + ky) A) (recortar (x + kx) W) c).map
          fun s => acc + kval * ((s.val : Nat) : K))
    (fun a b acc ha hb => by
      have hidx : (-Int.tdiv tam 2 + (a : Int) + Int.tdiv tam 2) * tam +
          (-Int.tdiv tam 2 + (b : Int) + Int.tdiv tam 2) = ((a * tam.toNat + b : Nat) : Int) := by
        push_cast
        rw [Int.toNat_of_nonneg (by omega)]
        ring
      have e1 : -Int.tdiv tam 2 + (a : Int) = (a : Int) - Int.tdiv tam 2 := by ring
      have e2 : -Int.tdiv tam 2 + (b : Int) = (b : Int) - Int.tdiv tam 2 := by ring
      have ry := recortar_rango (y + ((a : Int) - Int.tdiv tam 2)) A hA
      have rx := recortar_rango (x + ((b : Int) - Int.tdiv tam 2)) W hW
      obtain ⟨v, hv⟩ := leer_some hsrc ry.1 ry.2 rx.1 rx.2 hc0 hc
      dsimp only
      rw [hidx, leerLista_natCast, hker a b ha hb, Option.some_bind, e1, e2, hv,
        muestra_eq hv]
      rfl)
  unfold recortar at hacc
  rw [hacc, Option.some_bind]
  rfl

/-- What `aplicarConvolucionConcurrente` returns for a loaded image and a valid kernel
size: same dimensions, and a destination in which the rows of the started workers hold
the convolution values while the other rows are still zero. -/
theorem aplicarConvolucionConcurrente_estado {K : Type} [LinearOrderedField K] [FloorRing K]
    (expf : K → K) (pi : K) (info : ImagenInfo) (tam : Int) (sigma : K) (numHilos : Int)
    (crea : Int → Bool) (src : Matriz) (hpx : info.pixeles = some src) (h : BienFormada info)
    (htam : ¬ (Int.tmod tam 2 = 0 ∨ tam < 3)) :
    ∃ dst cnt, aplicarConvolucionConcurrente expf pi info tam sigma numHilos crea =
        some (ImagenInfo.mk info.ancho info.alto info.canales (some dst), cnt) ∧
      0 ≤ cnt ∧ cnt ≤ limitarHilos numHilos info.alto ∧
      Estado info.alto info.ancho info.canales (fun _ _ _ => 0)
        (valorConvolucion (pesoKernel expf pi (if sigma ≤ 0 then 1 else sigma) tam) src
          info.alto info.ancho tam)
        (fun y _ _ => filaAtendida info.alto (limitarHilos numHilos info.alto) crea y) dst := by
  obtain ⟨hA, hW, hC, hp⟩ := h
  rw [hpx] at hp
  dsimp only at hp
  obtain ⟨hn1, hn2, -⟩ := limitarHilos_rango numHilos info.alto hA
  obtain ⟨ker, eker, hlen, hker⟩ :=
    generarKernelGauss_spec expf pi tam (if sigma ≤ 0 then 1 else sigma) htam
  obtain ⟨dst0, edst, hF0, hz⟩ := crearMatrizPixeles_spec info.alto info.ancho info.canales
    hA hW hC
  obtain ⟨m1, cnt, e, c0, c1, hE⟩ := despachar_estado (limitarHilos numHilos info.alto) hn1 hA
    crea
    (fun i inicio fin d =>
      aplicarConvolucionHilo
        (ConvArgs.mk src inicio fin info.ancho info.alto info.canales tam ker i) d)
    (fun i a b H m ha hab hb _ hm =>
      aplicarConvolucionHilo_estado src hp hA hW (by omega) tam htam ker _ hker
        (fun _ _ _ => 0) i a b H m ha hab hb hm)
    dst0 ⟨hF0, fun y x c h1 h2 h3 h4 h5 h6 =>
      ⟨fun k => absurd k id, fun _ => hz y x c h1 h2 h3 h4 h5 h6⟩⟩
  refine ⟨m1, cnt, ?_, c0, c1, hE⟩
  unfold aplicarConvolucionConcurrente
  rw [hpx]
  dsimp only
  rw [if_neg htam, eker]
  dsimp only
  rw [edst]
  dsimp only
  rw [e]
  rfl

theorem roundf_natCast {K : Type} [LinearOrderedField K] [FloorRing K] (n : Nat) :
    roundf (n : K) = n := by
  unfold roundf
  rw [if_pos (Nat.cast_nonneg n), Int.floor_eq_iff]
  push_cast
  constructor <;> linarith

theorem clampuc_uchar (v : UChar) : clampuc ((v.val : Nat) : Int) = v := by
  have := clampuc_val_self v
  simpa using this

/-- The blur of a uniform image in real arithmetic (every `float` operation exact): for
every loaded image whose pixels all have the same per-channel colour `col`, every odd
`tamKernel ≥ 3` and every `sigma > 0`, `aplicarConvolucionConcurrente` with all workers
started returns an image with the same `ancho`, `alto` and `canales` in which every
pixel still has colour `col`. -/
theorem desenfoque_exacto_conserva_color_uniforme {K : Type} [LinearOrderedField K] [FloorRing K]
    (expf : K → K) (pi : K) (info : ImagenInfo) (tam : Int) (sigma : K) (numHilos : Int)
    (col : Int → UChar) (h : BienFormada info)
    (hunif : ∀ y x c, 0 ≤ y → y < info.alto → 0 ≤ x → x < info.ancho → 0 ≤ c →
      c < info.canales → leerImagen info y x c = some (col c))
    (hodd : ¬ Even tam) (h3 : 3 ≤ tam) (_hs : 0 < sigma) :
    ∃ r cnt, aplicarConvolucionConcurrente expf pi info tam sigma numHilos todosArrancan =
        some (r, cnt) ∧
      r.ancho = info.ancho ∧ r.alto = info.alto ∧ r.canales = info.canales ∧
      BienFormada r ∧
      ∀ y x c, 0 ≤ y → y < info.alto → 0 ≤ x → x < info.ancho → 0 ≤ c → c < info.canales →
        leerImagen r y x c = some (col c) := by
  have htam : ¬ (Int.tmod tam 2 = 0 ∨ tam < 3) := by
    rw [tmod_dos_cero_iff_par]
    rintro (k | k)
    · exact hodd k
    · omega
  have hbf := h
  obtain ⟨hA, hW, hC, hp⟩ := h
  cases hpx : info.pixeles with
  | none => rw [hpx] at hp; exact absurd hp id
  | some src =>
    obtain ⟨dst, cnt, e, -, -, hE⟩ := aplicarConvolucionConcurrente_estado expf pi info tam
      sigma numHilos todosArrancan src hpx hbf htam
    obtain ⟨hn1, -, -⟩ := limitarHilos_rango numHilos info.alto hA
    refine ⟨_, cnt, e, rfl, rfl, rfl, ⟨hA, hW, hC, hE.1⟩, ?_⟩
    intro y x c h1 h2 h3 h4 h5 h6
    have := (hE.2 y x c h1 h2 h3 h4 h5 h6).1 (filaAtendida_todos _ _ y hA hn1 h1 h2)
    unfold leerImagen
    dsimp only
    rw [Option.some_bind, this]
    congr 1
    unfold valorConvolucion sumaConvolucion
    have hmu : ∀ a b : Nat,
        muestra src (recortar (y + ((a : Int) - Int.tdiv tam 2)) info.alto)
          (recortar (x + ((b : Int) - Int.tdiv tam 2)) info.ancho) c = col c := by
      intro a b
      have ry := recortar_rango (y + ((a : Int) - Int.tdiv tam 2)) info.alto hA
      have rx := recortar_rango (x + ((b : Int) - Int.tdiv tam 2)) info.ancho hW
      have := hunif _ _ c ry.1 ry.2 rx.1 rx.2 h5 h6
      unfold leerImagen at this
      rw [hpx, Option.some_bind] at this
      exact muestra_eq this
    simp only [hmu]
    simp only [← Finset.sum_mul]
    rw [pesoKernel_suma expf pi _ tam htam, one_mul, roundf_natCast, clampuc_uchar]

theorem imagenUniforme4x4_muestras (v : UChar) (y x c : Int) (h1 : 0 ≤ y) (h2 : y < 4)
    (h3 : 0 ≤ x) (h4 : x < 4) (h5 : 0 ≤ c) (h6 : c < 1) :
    leerImagen (imagenUniforme4x4 v) y x c = some v := by
  have hc : c = 0 := by omega
  subst hc
  interval_cases y <;> interval_cases x <;> rfl

/-- C9.  For every image and every `tamKernel` that is even or `< 3`,
`aplicarConvolucionConcurrente` returns before the dispatch loop: no thread is created
(`hilosCreados = 0`, whatever `pthread_create` would do) and the image is returned
unchanged (same `ancho`, `alto`, `canales` and samples). -/
theorem convolucion_rechaza_kernel_invalido {K : Type} [LinearOrderedField K] [FloorRing K]
    (expf : K → K) (pi : K) (info : ImagenInfo) (tam : Int) (sigma : K) (numHilos : Int)
    (crea : Int → Bool) (h : Even tam ∨ tam < 3) :
    aplicarConvolucionConcurrente expf pi info tam sigma numHilos crea = some (info, 0) := by
  rw [← tmod_dos_cero_iff_par] at h
  unfold aplicarConvolucionConcurrente
  cases info.pixeles with
  | none => rfl
  | some src =>
    dsimp only
    rw [if_pos h]

theorem convolucion_rechaza_kernel_invalido_witness :
    aplicarConvolucionConcurrente (fun _ : ℚ => 1) (3 : ℚ) (imagenUniforme4x4 100) 4 (1 : ℚ) 4
      todosArrancan = some (imagenUniforme4x4 100, 0) :=
  convolucion_rechaza_kernel_invalido (fun _ : ℚ => 1) (3 : ℚ) (imagenUniforme4x4 100) 4
    (1 : ℚ) 4 todosArrancan (Or.inl (by decide))

/-- C10.  For every image, kernel size and thread count (and whichever workers start),
`aplicarConvolucionConcurrente` called with `sigma ≤ 0` returns exactly what the call
with `sigma = 1.0` returns. -/
theorem sigma_no_positivo_equivale_a_uno {K : Type} [LinearOrderedField K] [FloorRing K]
    (expf : K → K) (pi : K) (info : ImagenInfo) (tam : Int) (sigma : K) (numHilos : Int)
    (crea : Int → Bool) (hs : sigma ≤ 0) :
    aplicarConvolucionConcurrente expf pi info tam sigma numHilos crea =
      aplicarConvolucionConcurrente expf pi info tam 1 numHilos crea := by
  unfold aplicarConvolucionConcurrente
  have h1 : ¬ ((1 : K) ≤ 0) := not_le.2 zero_lt_one
  rw [if_pos hs, if_neg h1]

theorem sigma_no_positivo_equivale_a_uno_witness :
    aplicarConvolucionConcurrente (fun _ : ℚ => 1) (3 : ℚ) (imagenUniforme4x4 100) 3 (-2 : ℚ) 4
        todosArrancan =
      aplicarConvolucionConcurrente (fun _ : ℚ => 1) (3 : ℚ) (imagenUniforme4x4 100) 3 1 4
        todosArrancan :=
  sigma_no_positivo_equivale_a_uno (fun _ : ℚ => 1) (3 : ℚ) (imagenUniforme4x4 100) 3 (-2 : ℚ)
    4 todosArrancan (by norm_num)

/-! ## Worker count and allocation (C18, C19) -/

/-- Partial-correctness rule for loops: if the loop returns, an invariant kept by every
successful iteration holds at the end. -/
theorem forLoopAux_parcial {σ : Type} (body : Int → σ → Option σ) (Inv : Int → σ → Prop) :
    ∀ (n : Nat) (i : Int) (s t : σ), forLoopAux body n i s = some t → Inv i s →
      (∀ j u u1, i ≤ j → j < i + n → Inv j u → body j u = some u1 → Inv (j + 1) u1) →
      Inv (i + n) t
  | 0, i, s, t, h, h0, _ => by
      simp only [forLoopAux, Option.some.injEq] at h
      subst h
      simpa using h0
  | n + 1, i, s, t, h, h0, hstep => by
      simp only [forLoopAux] at h
      obtain ⟨s1, e1, e2⟩ := Option.bind_eq_some.1 h
      have i1 := hstep i s s1 le_rfl (by omega) h0 e1
      have := forLoopAux_parcial body Inv n (i + 1) s1 t e2 i1
        (fun j u u1 hj1 hj2 hI hb => hstep j u u1 (by omega) (by omega) hI hb)
      have e : i + ((n + 1 : Nat) : Int) = i + 1 + n := by push_cast; ring
      rw [e]; exact this

/-- The dispatch loop never counts more created threads than its loop bound. -/
theorem despachar_cuenta {σ : Type} (alto n : Int) (hn : 0 ≤ n) (crea : Int → Bool)
    (worker : Int → Int → Int → σ → Option σ) (s : σ) (r : σ × Int)
    (h : despachar alto n crea worker s = some r) : 0 ≤ r.2 ∧ r.2 ≤ n := by
  unfold despachar forLoop at h
  have := forLoopAux_parcial _ (fun i (st : σ × Int) => 0 ≤ st.2 ∧ st.2 ≤ i) (n - 0).toNat 0
    (s, 0) r h ⟨le_rfl, le_rfl⟩
    (fun j u u1 hj1 _ hI hb => by
      dsimp only at hb hI ⊢
      split_ifs at hb with h1 h2
      · obtain ⟨s1, -, e⟩ := Option.map_eq_some'.1 hb
        subst e
        dsimp only
        omega
      · cases hb; omega
      · cases hb; omega)
  dsimp only at this
  omega

/-- C18.  For every integer `numHilos` and every row count `alto ≥ 1`, the worker count
the dispatch loop runs with is `min(max(numHilos, 1), 32, alto)`; it lies in
`[1, min(32, alto)]`, equals `numHilos` when `numHilos` is already in that interval, and
the number of threads created (`hilosCreados`) never exceeds it nor the number of
rows. -/
theorem hilos_efectivos (numHilos alto : Int) (hA : 1 ≤ alto) :
    limitarHilos numHilos alto = min (min (max numHilos 1) 32) alto ∧
    1 ≤ limitarHilos numHilos alto ∧ limitarHilos numHilos alto ≤ min 32 alto ∧
    (1 ≤ numHilos → numHilos ≤ min 32 alto → limitarHilos numHilos alto = numHilos) ∧
    (∀ (σ : Type) (crea : Int → Bool) (worker : Int → Int → Int → σ → Option σ) (s : σ)
      (r : σ × Int), despachar alto (limitarHilos numHilos alto) crea worker s = some r →
      0 ≤ r.2 ∧ r.2 ≤ limitarHilos numHilos alto ∧ r.2 ≤ alto) := by
  have e : limitarHilos numHilos alto = min (min (max numHilos 1) 32) alto := by
    unfold limitarHilos MIN_HILOS MAX_HILOS
    dsimp only
    split_ifs <;> omega
  refine ⟨e, by omega, by omega, fun _ _ => by omega, ?_⟩
  intro σ crea worker s r h
  have := despachar_cuenta alto _ (by omega) crea worker s r h
  omega

theorem hilos_efectivos_witness :
    limitarHilos 100 5 = min (min (max 100 1) 32) 5 ∧
    1 ≤ limitarHilos 100 5 ∧ limitarHilos 100 5 ≤ min 32 5 ∧
    ((1 : Int) ≤ 100 → (100 : Int) ≤ min 32 5 → limitarHilos 100 5 = 100) ∧
    (∀ (σ : Type) (crea : Int → Bool) (worker : Int → Int → Int → σ → Option σ) (s : σ)
      (r : σ × Int), despachar 5 (limitarHilos 100 5) crea worker s = some r →
      0 ≤ r.2 ∧ r.2 ≤ limitarHilos 100 5 ∧ r.2 ≤ 5) :=
  hilos_efectivos 100 5 (by decide)

/-- C19.  `crearMatrizPixeles(alto, ancho, canales)` returns no buffer whenever
`alto ≤ 0`, `ancho ≤ 0` or `canales ≤ 0`; with positive dimensions (and allocation
succeeding) it returns one; and every buffer it returns has `alto` rows of `ancho`
pixels of `canales` samples, all of them 0. -/
theorem crearMatrizPixeles_contrato (alto ancho canales : Int) :
    ((alto ≤ 0 ∨ ancho ≤ 0 ∨ canales ≤ 0) → crearMatrizPixeles alto ancho canales = none) ∧
    ((1 ≤ alto ∧ 1 ≤ ancho ∧ 1 ≤ canales) →
      ∃ m, crearMatrizPixeles alto ancho canales = some m) ∧
    (∀ m, crearMatrizPixeles alto ancho canales = some m →
      Forma m alto ancho canales ∧
      ∀ y x c, 0 ≤ y → y < alto → 0 ≤ x → x < ancho → 0 ≤ c → c < canales →
        leer m y x c = some 0) := by
  refine ⟨?_, ?_, ?_⟩
  · intro h
    unfold crearMatrizPixeles
    rw [if_pos h]
  · rintro ⟨h1, h2, h3⟩
    obtain ⟨m, e, -⟩ := crearMatrizPixeles_spec alto ancho canales h1 h2 h3
    exact ⟨m, e⟩
  · intro m hm
    by_cases h : alto ≤ 0 ∨ ancho ≤ 0 ∨ canales ≤ 0
    · unfold crearMatrizPixeles at hm
      rw [if_pos h] at hm
      cases hm
    · obtain ⟨m1, e, hF, hz⟩ := crearMatrizPixeles_spec alto ancho canales (by omega)
        (by omega) (by omega)
      rw [hm] at e
      cases e
      exact ⟨hF, hz⟩

theorem crearMatrizPixeles_contrato_witness :
    (((0 : Int) ≤ 0 ∨ (2 : Int) ≤ 0 ∨ (3 : Int) ≤ 0) → crearMatrizPixeles 0 2 3 = none) ∧
    (((1 : Int) ≤ 2 ∧ (1 : Int) ≤ 2 ∧ (1 : Int) ≤ 3) →
      ∃ m, crearMatrizPixeles 2 2 3 = some m) ∧
    crearMatrizPixeles 0 2 3 = none ∧
    crearMatrizPixeles 2 2 3 =
      some [[[0, 0, 0], [0, 0, 0]], [[0, 0, 0], [0, 0, 0]]] :=
  ⟨(crearMatrizPixeles_contrato 0 2 3).1, (crearMatrizPixeles_contrato 2 2 3).2.1,
    by decide, by decide⟩

/-! ## Sobel (C11, C12) -/

/-- Two nested loops over a `(2*k2+1)`-wide window that add `term a b` to an accumulator
of any commutative monoid. -/
theorem acumular_ventana_mon {M : Type} [AddCommMonoid M] (term : Nat → Nat → M) (k2 : Int)
    (n : Nat) (hn : (n : Int) = 2 * k2 + 1) (paso : Int → Int → M → Option M)
    (hpaso : ∀ (a b : Nat) (acc : M), a < n → b < n →
      paso (-k2 + a) (-k2 + b) acc = some (acc + term a b)) (ini : M) :
    forLoop (-k2) (k2 + 1) (fun ky acc =>
      forLoop (-k2) (k2 + 1) (fun kx acc => paso ky kx acc) acc) ini =
      some (ini + ∑ a in Finset.range n, ∑ b in Finset.range n, term a b) := by
  have hcnt : (k2 + 1 - -k2).toNat = n := by omega
  obtain ⟨t, e, ht⟩ := forLoop_inv_nat (-k2) (k2 + 1)
    (fun ky acc => forLoop (-k2) (k2 + 1) (fun kx acc => paso ky kx acc) acc)
    (fun j (acc : M) => acc = ini + ∑ a in Finset.range j, ∑ b in Finset.range n, term a b)
    ini (by simp)
    (fun j acc hj hacc => by
      obtain ⟨t, e, ht⟩ := forLoop_inv_nat (-k2) (k2 + 1)
        (fun kx acc => paso (-k2 + (j : Int)) kx acc)
        (fun i (t : M) => t = acc + ∑ b in Finset.range i, term j b) acc (by simp)
        (fun i t hi ht => by
          refine ⟨_, hpaso j i t (by omega) (by omega), ?_⟩
          dsimp only at ht ⊢
          rw [ht, Finset.sum_range_succ, add_assoc])
      rw [hcnt] at ht
      refine ⟨t, e, ?_⟩
      dsimp only at hacc ⊢
      rw [ht, hacc, Finset.sum_range_succ, add_assoc])
  rw [hcnt] at ht
  rw [e, ht]

theorem sobel_coef (t : List (List Int)) (h : t = sobelGx ∨ t = sobelGy) (a b : Nat)
    (ha : a < 3) (hb : b < 3) :
    (leerLista t (-1 + (a : Int) + 1)).bind (fun f => leerLista f (-1 + (b : Int) + 1)) =
      some (coef t a b) := by
  rcases h with h | h <;> subst h <;> interval_cases a <;> interval_cases b <;> rfl

theorem luminancia_leida {K : Type} [LinearOrderedField K] {A W C : Int} (src : Matriz)
    (hsrc : Forma src A W C) (hC : 1 ≤ C) (yy xx : Int) (hy0 : 0 ≤ yy) (hy : yy < A)
    (hx0 : 0 ≤ xx) (hx : xx < W) :
    (if C ≥ 3 then
      (leer src yy xx 0).bind fun r =>
        (leer src yy xx 1).bind fun g =>
          (leer src yy xx 2).map fun b =>
            (299 / 1000 : K) * ((r.val : Nat) : K) + (587 / 1000 : K) * ((g.val : Nat) : K)
              + (114 / 1000 : K) * ((b.val : Nat) : K)
    else
      (leer src yy xx 0).map fun v => (((v.val : Nat) : K))) =
      some (luminancia src C yy xx) := by
  unfold luminancia
  obtain ⟨v0, h0⟩ := leer_some hsrc hy0 hy hx0 hx (le_refl 0) (by omega)
  by_cases hc : C ≥ 3
  · obtain ⟨v1, h1⟩ := leer_some hsrc hy0 hy hx0 hx (show (0 : Int) ≤ 1 by omega) (by omega)
    obtain ⟨v2, h2⟩ := leer_some hsrc hy0 hy hx0 hx (show (0 : Int) ≤ 2 by omega) (by omega)
    rw [if_pos hc, if_pos hc, h0, h1, h2, muestra_eq h0, muestra_eq h1, muestra_eq h2]
    rfl
  · rw [if_neg hc, if_neg hc, h0, muestra_eq h0]
    rfl

theorem sobelWorker_estado {K : Type} [LinearOrderedField K] [FloorRing K] (sqrtf : K → K)
    {A W C : Int} (src : Matriz) (hsrc : Forma src A W C) (hA : 1 ≤ A) (hW : 1 ≤ W)
    (hC : 1 ≤ C) (viejo : Int → Int → Int → UChar) (i a b : Int)
    (H : Int → Int → Int → Prop) (dst : Matriz) (ha : 0 ≤ a) (hab : a < b) (hb : b ≤ A)
    (hm : Estado A W 1 viejo (fun y x _ => valorSobel sqrtf src A W C y x) H dst) :
    ∃ dst1, sobelWorker sqrtf (SobelArgs.mk src a b W A C i) dst = some dst1 ∧
      Estado A W 1 viejo (fun y x _ => valorSobel sqrtf src A W C y x)
        (fun y x c => H y x c ∨ (a ≤ y ∧ y < b)) dst1 := by
  unfold sobelWorker
  dsimp only
  refine filas_loop H a b (le_of_lt hab) (by omega) _ ?_ dst hm
  intro y x m1 hy1 hy2 hx0 hx hI
  have hacc := acumular_ventana_mon
    (fun a b : Nat =>
      ((((coef sobelGx a b : Int) : K) *
          luminancia src C (recortar (y + ((a : Int) - 1)) A)
            (recortar (x + ((b : Int) - 1)) W),
       ((coef sobelGy a b : Int) : K) *
          luminancia src C (recortar (y + ((a : Int) - 1)) A)
            (recortar (x + ((b : Int) - 1)) W)) : K × K))
    1 3 (by norm_num)
    (fun ky kx st =>
      (if C ≥ 3 then
        (leer src (recortar (y + ky) A) (recortar (x + kx) W) 0).bind fun r =>
          (leer src (recortar (y + ky) A) (recortar (x + kx) W) 1).bind fun g =>
            (leer src (recortar (y + ky) A) (recortar (x + kx) W) 2).map fun b =>
              (299 / 1000 : K) * ((r.val : Nat) : K) + (587 / 1000 : K) * ((g.val : Nat) : K)
                + (114 / 1000 : K) * ((b.val : Nat) : K)
      else
        (leer src (recortar (y + ky) A) (recortar (x + kx) W) 0).map
          fun v => (((v.val : Nat) : K))).bind fun valc =>
        (leerLista sobelGx (ky + 1)).bind fun filaGx =>
          (leerLista filaGx (kx + 1)).bind fun gxv =>
            (leerLista sobelGy (ky + 1)).bind fun filaGy =>
              (leerLista filaGy (kx + 1)).map fun gyv =>
                (st.1 + ((gxv : Int) : K) * valc, st.2 + ((gyv : Int) : K) * valc))
    (fun a b st ha hb => by
      have e1 : -1 + (a : Int) = (a : Int) - 1 := by ring
      have e2 : -1 + (b : Int) = (b : Int) - 1 := by ring
      have ry := recortar_rango (y + ((a : Int) - 1)) A hA
      have rx := recortar_rango (x + ((b : Int) - 1)) W hW
      have hl := luminancia_leida (K := K) src hsrc hC _ _ ry.1 ry.2 rx.1 rx.2
      have gx := sobel_coef sobelGx (Or.inl rfl) a b ha hb
      have gy := sobel_coef sobelGy (Or.inr rfl) a b ha hb
      obtain ⟨fx, hfx, hgx⟩ := Option.bind_eq_some.1 gx
      obtain ⟨fy, hfy, hgy⟩ := Option.bind_eq_some.1 gy
      dsimp only
      rw [← e1, ← e2] at hl
      rw [hl, Option.some_bind, hfx, Option.some_bind, hgx, Option.some_bind, hfy,
        Option.some_bind, hgy]
      rfl)
    ((0 : K), (0 : K))
  unfold recortar at hacc
  have hy0 : 0 ≤ y := by omega
  have hyA : y < A := by omega
  obtain ⟨m2, e2, h2⟩ := Estado_escribir hI hy0 hyA hx0 hx (le_refl 0) (show (0 : Int) < 1 by omega)
  refine ⟨m2, ?_, Estado_congr h2 ?_⟩
  · dsimp only
    have hz : (((0 : K), (0 : K)) : K × K) = 0 := rfl
    rw [hacc, Option.some_bind, ← e2, hz, zero_add]
    rfl
  · intro y1 x1 c1 _ _ _ _ _ _
    constructor
    · rintro (k | k)
      · exact Or.inl k
      · exact Or.inr ⟨k.1, k.2.1⟩
    · rintro (k | k)
      · exact Or.inl k
      · exact Or.inr ⟨k.1, k.2, by omega⟩


/-- What `detectarBordesSobelConcurrente` returns for a loaded image: a single-channel
image of the same width and height in which the rows of the started workers hold the
gradient magnitudes while the other rows are still zero. -/
theorem detectarBordesSobelConcurrente_estado {K : Type} [LinearOrderedField K]
    [FloorRing K] (sqrtf : K → K) (info : ImagenInfo) (numHilos : Int) (crea : Int → Bool)
    (src : Matriz) (hpx : info.pixeles = some src) (h : BienFormada info) :
    ∃ dst cnt, detectarBordesSobelConcurrente sqrtf info numHilos crea =
        some (ImagenInfo.mk info.ancho info.alto 1 (some dst), cnt) ∧
      0 ≤ cnt ∧ cnt ≤ limitarHilos numHilos info.alto ∧
      Estado info.alto info.ancho 1 (fun _ _ _ => 0)
        (fun y x _ => valorSobel sqrtf src info.alto info.ancho info.canales y x)
        (fun y _ _ => filaAtendida info.alto (limitarHilos numHilos info.alto) crea y) dst := by
  obtain ⟨hA, hW, hC, hp⟩ := h
  rw [hpx] at hp
  dsimp only at hp
  obtain ⟨hn1, hn2, -⟩ := limitarHilos_rango numHilos info.alto hA
  obtain ⟨dst0, edst, hF0, hz⟩ := crearMatrizPixeles_spec info.alto info.ancho 1 hA hW
    (le_refl 1)
  obtain ⟨m1, cnt, e, c0, c1, hE⟩ := despachar_estado (limitarHilos numHilos info.alto) hn1 hA
    crea
    (fun i inicio fin d =>
      sobelWorker sqrtf (SobelArgs.mk src inicio fin info.ancho info.alto info.canales i) d)
    (fun i a b H m ha hab hb _ hm =>
      sobelWorker_estado sqrtf src hp hA hW hC (fun _ _ _ => 0) i a b H m ha hab hb hm)
    dst0 ⟨hF0, fun y x c h1 h2 h3 h4 h5 h6 =>
      ⟨fun k => absurd k id, fun _ => hz y x c h1 h2 h3 h4 h5 h6⟩⟩
  refine ⟨m1, cnt, ?_, c0, c1, hE⟩
  unfold detectarBordesSobelConcurrente
  rw [hpx]
  dsimp only
  rw [edst]
  dsimp only
  rw [e]
  rfl

theorem sumasSobel_uniforme {K : Type} [LinearOrderedField K] (src : Matriz)
    (alto ancho canales y x : Int) (L : K)
    (hL : ∀ a b : Nat, luminancia src canales (recortar (y + ((a : Int) - 1)) alto)
      (recortar (x + ((b : Int) - 1)) ancho) = L) :
    (sumasSobel src alto ancho canales y x : K × K) = (0, 0) := by
  unfold sumasSobel
  simp only [hL]
  simp only [Finset.sum_range_succ, Finset.sum_range_zero, coef, sobelGx, sobelGy,
    List.getD_cons_zero, List.getD_cons_succ, zero_add, Prod.mk_add_mk]
  apply Prod.ext
  · dsimp only
    push_cast
    ring
  · dsimp only
    push_cast
    ring

/-- C11.  For every loaded image (any channel count `≥ 1`, in particular 1 or 3) whose
pixels all have the same per-channel colour `col`, `detectarBordesSobelConcurrente`
with all workers started produces an output in which every sample is 0 (exact
arithmetic, `sqrtf(0) = 0`). -/
theorem sobel_de_imagen_uniforme_es_cero {K : Type} [LinearOrderedField K] [FloorRing K]
    (sqrtf : K → K) (info : ImagenInfo) (numHilos : Int) (col : Int → UChar)
    (hsq : sqrtf 0 = 0) (h : BienFormada info)
    (hunif : ∀ y x c, 0 ≤ y → y < info.alto → 0 ≤ x → x < info.ancho → 0 ≤ c →
      c < info.canales → leerImagen info y x c = some (col c)) :
    ∃ r cnt, detectarBordesSobelConcurrente sqrtf info numHilos todosArrancan =
        some (r, cnt) ∧ BienFormada r ∧
      ∀ y x c, 0 ≤ y → y < r.alto → 0 ≤ x → x < r.ancho → 0 ≤ c → c < r.canales →
        leerImagen r y x c = some 0 := by
  have hbf := h
  obtain ⟨hA, hW, hC, hp⟩ := h
  cases hpx : info.pixeles with
  | none => rw [hpx] at hp; exact absurd hp id
  | some src =>
    obtain ⟨dst, cnt, e, -, -, hE⟩ := detectarBordesSobelConcurrente_estado sqrtf info
      numHilos todosArrancan src hpx hbf
    obtain ⟨hn1, -, -⟩ := limitarHilos_rango numHilos info.alto hA
    refine ⟨_, cnt, e, ⟨hA, hW, le_refl 1, hE.1⟩, ?_⟩
    intro y x c h1 h2 h3 h4 h5 h6
    dsimp only at h2 h4 h6
    have := (hE.2 y x c h1 h2 h3 h4 h5 h6).1 (filaAtendida_todos _ _ y hA hn1 h1 h2)
    unfold leerImagen
    dsimp only
    rw [Option.some_bind, this]
    congr 1
    have hmu : ∀ (a b : Nat) (c : Int), 0 ≤ c → c < info.canales →
        muestra src (recortar (y + ((a : Int) - 1)) info.alto)
          (recortar (x + ((b : Int) - 1)) info.ancho) c = col c := by
      intro a b c hc0 hc1
      have ry := recortar_rango (y + ((a : Int) - 1)) info.alto hA
      have rx := recortar_rango (x + ((b : Int) - 1)) info.ancho hW
      have := hunif _ _ c ry.1 ry.2 rx.1 rx.2 hc0 hc1
      unfold leerImagen at this
      rw [hpx, Option.some_bind] at this
      exact muestra_eq this
    have hL : ∀ a b : Nat,
        (luminancia src info.canales (recortar (y + ((a : Int) - 1)) info.alto)
          (recortar (x + ((b : Int) - 1)) info.ancho) : K) =
        (if info.canales ≥ 3 then
          (299 / 1000 : K) * (((col 0).val : Nat) : K)
            + (587 / 1000 : K) * (((col 1).val : Nat) : K)
            + (114 / 1000 : K) * (((col 2).val : Nat) : K)
        else (((col 0).val : Nat) : K)) := by
      intro a b
      unfold luminancia
      by_cases hc : info.canales ≥ 3
      · rw [if_pos hc, if_pos hc, hmu a b 0 (by omega) (by omega),
          hmu a b 1 (by omega) (by omega), hmu a b 2 (by omega) (by omega)]
      · rw [if_neg hc, if_neg hc, hmu a b 0 (by omega) (by omega)]
    dsimp only
    unfold valorSobel
    rw [sumasSobel_uniforme src _ _ _ y x _ hL]
    dsimp only
    rw [mul_zero, add_zero, hsq]
    have hr : roundf (0 : K) = 0 := by
      have := roundf_natCast (K := K) 0
      simpa using this
    rw [hr]
    rfl

theorem sobel_de_imagen_uniforme_es_cero_witness :
    ∃ r cnt, detectarBordesSobelConcurrente (fun x : ℚ => x) (imagenUniforme4x4 100) 4
        todosArrancan = some (r, cnt) ∧ BienFormada r ∧
      ∀ y x c, 0 ≤ y → y < r.alto → 0 ≤ x → x < r.ancho → 0 ≤ c → c < r.canales →
        leerImagen r y x c = some 0 :=
  sobel_de_imagen_uniforme_es_cero (fun x : ℚ => x) (imagenUniforme4x4 100) 4
    (fun _ => 100) rfl (by decide)
    (fun y x c h1 h2 h3 h4 h5 h6 => imagenUniforme4x4_muestras 100 y x c h1 h2 h3 h4 h5 h6)

/-- C12.  For every loaded image, whatever its channel count and whichever workers
start, `detectarBordesSobelConcurrente` yields an image with `canales = 1` and the same
`ancho` and `alto` as the source. -/
theorem sobel_devuelve_un_canal {K : Type} [LinearOrderedField K] [FloorRing K]
    (sqrtf : K → K) (info : ImagenInfo) (numHilos : Int) (crea : Int → Bool)
    (h : BienFormada info) :
    ∃ r cnt, detectarBordesSobelConcurrente sqrtf info numHilos crea = some (r, cnt) ∧
      r.canales = 1 ∧ r.ancho = info.ancho ∧ r.alto = info.alto ∧ BienFormada r := by
  have hbf := h
  obtain ⟨hA, hW, hC, hp⟩ := h
  cases hpx : info.pixeles with
  | none => rw [hpx] at hp; exact absurd hp id
  | some src =>
    obtain ⟨dst, cnt, e, -, -, hE⟩ := detectarBordesSobelConcurrente_estado sqrtf info
      numHilos crea src hpx hbf
    exact ⟨_, cnt, e, rfl, rfl, rfl, ⟨hA, hW, le_refl 1, hE.1⟩⟩

theorem sobel_devuelve_un_canal_witness :
    ∃ r cnt, detectarBordesSobelConcurrente (fun x : ℚ => x) imagenRGB2x2 4 todosArrancan
        = some (r, cnt) ∧
      r.canales = 1 ∧ r.ancho = imagenRGB2x2.ancho ∧ r.alto = imagenRGB2x2.alto ∧
      BienFormada r :=
  sobel_devuelve_un_canal (fun x : ℚ => x) imagenRGB2x2 4 todosArrancan (by decide)


/-! ## Resize (C15, C16, C17) -/

/-- What `sampleBilinear` leaves in the output buffer for a coordinate inside
`[-1, srcW) x [-1, srcH)`: channel `c < channels` holds `valorBilineal`, the length is
kept. -/
theorem sampleBilinear_spec {K : Type} [LinearOrderedField K] [FloorRing K]
    (src : Matriz) (srcW srcH channels : Int) (fx fy : K) (out : List UChar)
    (hF : Forma src srcH srcW channels) (hW : 1 ≤ srcW) (hH : 1 ≤ srcH)
    (hout : channels ≤ out.length)
    (hx0 : -1 ≤ fx) (hx1 : fx < srcW) (hy0 : -1 ≤ fy) (hy1 : fy < srcH) :
    ∃ out1, sampleBilinear src srcW srcH channels fx fy out = some out1 ∧
      out1.length = out.length ∧
      ∀ c, 0 ≤ c → c < channels →
        leerLista out1 c = some (valorBilineal src srcW srcH fx fy c) := by
  obtain ⟨e1, e2, e3, e4, e5, e6, e7, e8⟩ :=
    esquinas_en_rango srcW srcH fx fy hW hH hx0 hx1 hy0 hy1
  unfold sampleBilinear
  by_cases hc : channels ≤ 0
  · rw [if_pos hc]
    exact ⟨out, rfl, rfl, fun c h1 h2 => absurd h2 (by omega)⟩
  · rw [if_neg hc]
    dsimp only
    refine forLoop_inv 0 channels _
      (fun c o => o.length = out.length ∧
        ∀ c1, 0 ≤ c1 → c1 < c → leerLista o c1 = some (valorBilineal src srcW srcH fx fy c1))
      out (by omega) ⟨rfl, fun c1 h1 h2 => absurd h2 (by omega)⟩ ?_
    intro c o hc0 hc1 ⟨ho, hv⟩
    obtain ⟨v00, r00⟩ := leer_some hF e3 (by omega) e1 (by omega) hc0 hc1
    obtain ⟨v10, r10⟩ := leer_some hF e3 (by omega) e5 (by omega) hc0 hc1
    obtain ⟨v01, r01⟩ := leer_some hF e7 (by omega) e1 (by omega) hc0 hc1
    obtain ⟨v11, r11⟩ := leer_some hF e7 (by omega) e5 (by omega) hc0 hc1
    rw [r00, r10, r01, r11]
    simp only [Option.some_bind]
    rw [escribirLista_eq _ _ _ hc0 (by omega)]
    refine ⟨_, rfl, by rw [List.length_set]; exact ho, ?_⟩
    intro c1 h1 h2
    rw [leerLista_set _ _ _ _ hc0 (by omega)]
    by_cases q : c1 = c
    · subst q
      rw [if_pos rfl]
      unfold valorBilineal
      rw [muestra_eq r00, muestra_eq r10, muestra_eq r01, muestra_eq r11]
    · rw [if_neg q]
      exact hv c1 h1 (by omega)

/-- At an integer coordinate inside the source the sampled value is the source sample
itself. -/
theorem valorBilineal_entero {K : Type} [LinearOrderedField K] [FloorRing K] (src : Matriz)
    (srcW srcH : Int) (i j c : Int) (hi : 0 ≤ i) (hj : 0 ≤ j) :
    valorBilineal src srcW srcH ((i : Int) : K) ((j : Int) : K) c = muestra src j i c := by
  unfold valorBilineal esquinas
  simp only [Int.floor_intCast, sub_self, sub_zero, mul_one, mul_zero, add_zero]
  rw [if_neg (by omega), if_neg (by omega), roundf_natCast, clampuc_uchar]

/-- The row and column loops of a worker whose state carries more than the matrix. -/
theorem filas_loop_gen {σ : Type} {A W C : Int} (E : (Int → Int → Int → Prop) → σ → Prop)
    (hE : ∀ (H1 H2 : Int → Int → Int → Prop) (s : σ), E H1 s →
      (∀ y x c, 0 ≤ y → y < A → 0 ≤ x → x < W → 0 ≤ c → c < C → (H1 y x c ↔ H2 y x c)) →
      E H2 s)
    (H : Int → Int → Int → Prop) (a b : Int) (hab : a ≤ b) (hW : 0 ≤ W)
    (pixel : Int → Int → σ → Option σ)
    (hpixel : ∀ y x s, a ≤ y → y < b → 0 ≤ x → x < W →
      E (fun y1 x1 c1 => H y1 x1 c1 ∨ (a ≤ y1 ∧ y1 < y) ∨ (y1 = y ∧ x1 < x)) s →
      ∃ s1, pixel y x s = some s1 ∧
        E (fun y1 x1 c1 => (H y1 x1 c1 ∨ (a ≤ y1 ∧ y1 < y) ∨ (y1 = y ∧ x1 < x)) ∨
            (y1 = y ∧ x1 = x)) s1)
    (s : σ) (hs : E H s) :
    ∃ s1, forLoop a b (fun y s => forLoop 0 W (fun x s => pixel y x s) s) s = some s1 ∧
      E (fun y1 x1 c1 => H y1 x1 c1 ∨ (a ≤ y1 ∧ y1 < b)) s1 := by
  refine forLoop_inv a b _
    (fun y s => E (fun y1 x1 c1 => H y1 x1 c1 ∨ (a ≤ y1 ∧ y1 < y)) s) s hab ?_ ?_
  · refine hE _ _ s hs ?_
    intro y1 x1 c1 _ _ _ _ _ _
    constructor
    · intro k; exact Or.inl k
    · rintro (k | k)
      · exact k
      · omega
  · intro y s1 hy1 hy2 hI
    have key : ∃ s2, forLoop 0 W (fun x s => pixel y x s) s1 = some s2 ∧
        E (fun y1 x1 c1 => H y1 x1 c1 ∨ (a ≤ y1 ∧ y1 < y) ∨ (y1 = y ∧ x1 < W)) s2 := by
      refine forLoop_inv 0 W (fun x s => pixel y x s)
        (fun x s => E
          (fun y1 x1 c1 => H y1 x1 c1 ∨ (a ≤ y1 ∧ y1 < y) ∨ (y1 = y ∧ x1 < x)) s) s1 hW ?_ ?_
      · refine hE _ _ s1 hI ?_
        intro y1 x1 c1 _ _ _ _ _ _
        constructor
        · rintro (k | k)
          · exact Or.inl k
          · exact Or.inr (Or.inl k)
        · rintro (k | k | k)
          · exact Or.inl k
          · exact Or.inr k
          · omega
      · intro x s2 hx0 hx hI2
        obtain ⟨s3, e3, h3⟩ := hpixel y x s2 hy1 hy2 hx0 hx hI2
        refine ⟨s3, e3, hE _ _ s3 h3 ?_⟩
        intro y1 x1 c1 _ _ _ _ _ _
        constructor
        · rintro ((k | k | k) | k)
          · exact Or.inl k
          · exact Or.inr (Or.inl k)
          · exact Or.inr (Or.inr ⟨k.1, by omega⟩)
          · exact Or.inr (Or.inr ⟨k.1, by omega⟩)
        · rintro (k | k | k)
          · exact Or.inl (Or.inl k)
          · exact Or.inl (Or.inr (Or.inl k))
          · by_cases q : x1 = x
            · exact Or.inr ⟨k.1, q⟩
            · exact Or.inl (Or.inr (Or.inr ⟨k.1, by omega⟩))
    obtain ⟨s2, e2, h2⟩ := key
    refine ⟨s2, e2, hE _ _ s2 h2 ?_⟩
    intro y1 x1 c1 _ _ _ _ _ _
    constructor
    · rintro (k | k | k)
      · exact Or.inl k
      · exact Or.inr ⟨k.1, by omega⟩
      · exact Or.inr ⟨by omega, by omega⟩
    · rintro (k | k)
      · exact Or.inl k
      · by_cases q : y1 = y
        · exact Or.inr (Or.inr ⟨q, by omega⟩)
        · exact Or.inr (Or.inl ⟨k.1, by omega⟩)

/-- The loop `for c: dst[y][x][c] = out_local[c]` of `rotarWorker` and `resizeWorker`. -/
theorem copiar_pixel {A W C : Int} {viejo nuevo : Int → Int → Int → UChar}
    (H : Int → Int → Int → Prop) (y x : Int) (hy0 : 0 ≤ y) (hy : y < A) (hx0 : 0 ≤ x)
    (hx : x < W) (hC : 0 ≤ C) (out : List UChar)
    (hout : ∀ c, 0 ≤ c → c < C → leerLista out c = some (nuevo y x c))
    (m : Matriz) (hm : Estado A W C viejo nuevo H m) :
    ∃ m1, forLoop 0 C (fun c d => (leerLista out c).bind fun v => escribir d y x c v) m
        = some m1 ∧
      Estado A W C viejo nuevo (fun y1 x1 c1 => H y1 x1 c1 ∨ (y1 = y ∧ x1 = x)) m1 := by
  refine canales_loop H y x hy0 hy hx0 hx hC _ ?_ m hm
  intro c d hc0 hc _
  rw [hout c hc0 hc, Option.some_bind]

theorem coordenadaResize_rango {K : Type} [LinearOrderedField K] (x N S : Int)
    (hx0 : 0 ≤ x) (hx : x < N) (hS : 1 ≤ S) :
    -1 ≤ coordenadaResize x ((S : K) / (N : K)) ∧
      coordenadaResize x ((S : K) / (N : K)) < (S : K) := by
  have hN : (0 : K) < (N : K) := by exact_mod_cast (show (0 : Int) < N by omega)
  have hSk : (0 : K) < (S : K) := by exact_mod_cast (show (0 : Int) < S by omega)
  have hx0k : (0 : K) ≤ (x : K) := by exact_mod_cast hx0
  have hxk : (x : K) + 1 ≤ (N : K) := by exact_mod_cast (show x + 1 ≤ N by omega)
  have hsc : (0 : K) < (S : K) / (N : K) := div_pos hSk hN
  have hprod : ((x : K) + 1 / 2) * ((S : K) / (N : K)) < (N : K) * ((S : K) / (N : K)) :=
    mul_lt_mul_of_pos_right (by linarith) hsc
  have hcancel : (N : K) * ((S : K) / (N : K)) = (S : K) := by
    field_simp
  have hpos : (0 : K) ≤ ((x : K) + 1 / 2) * ((S : K) / (N : K)) :=
    mul_nonneg (by linarith) (le_of_lt hsc)
  unfold coordenadaResize
  constructor <;> linarith

/-- C17.  For every image, `redimensionarConcurrente` with `nuevoAncho ≤ 0` or
`nuevoAlto ≤ 0` returns before allocating and before the dispatch loop: the image is
returned unchanged (same `ancho`, `alto`, `canales` and samples), no thread is created
(`hilosCreados = 0`), and `crearMatrizPixeles` would not give a destination of that
size anyway. -/
theorem redimensionar_rechaza_dimensiones_invalidas (K : Type) [LinearOrderedField K]
    [FloorRing K] (info : ImagenInfo) (nuevoAncho nuevoAlto numHilos : Int)
    (crea : Int → Bool) (h : nuevoAncho ≤ 0 ∨ nuevoAlto ≤ 0) :
    redimensionarConcurrente K info nuevoAncho nuevoAlto numHilos crea = some (info, 0) ∧
    crearMatrizPixeles nuevoAlto nuevoAncho info.canales = none := by
  constructor
  · unfold redimensionarConcurrente
    cases info.pixeles with
    | none => rfl
    | some src =>
      dsimp only
      rw [if_pos h]
  · unfold crearMatrizPixeles
    rw [if_pos (by omega)]

theorem redimensionar_rechaza_dimensiones_invalidas_witness :
    redimensionarConcurrente ℚ imagenRGB2x2 0 4 4 todosArrancan = some (imagenRGB2x2, 0) ∧
    crearMatrizPixeles 4 0 imagenRGB2x2.canales = none :=
  redimensionar_rechaza_dimensiones_invalidas ℚ imagenRGB2x2 0 4 4 todosArrancan
    (Or.inl (by decide))


/-! ## Rotation (C13, C14) -/

theorem rotarWorker_estado {K : Type} [LinearOrderedField K] [FloorRing K]
    {A W C sA sW : Int} (src : Matriz) (hsrc : Forma src sA sW C) (hsA : 1 ≤ sA)
    (hsW : 1 ≤ sW) (hW : 0 ≤ W) (hC0 : 0 ≤ C) (hC4 : C ≤ 4)
    (cosA sinA minX minY cx cy : K)
    (viejo : Int → Int → Int → UChar) (i a b : Int) (H : Int → Int → Int → Prop)
    (dst : Matriz) (ha : 0 ≤ a) (hab : a ≤ b) (hb : b ≤ A)
    (hm : Estado A W C viejo
      (valorRotacion (RotArgs.mk src 0 0 sW sA C W A cosA sinA minX minY cx cy 0)) H dst) :
    ∃ dst1, rotarWorker (RotArgs.mk src a b sW sA C W A cosA sinA minX minY cx cy i) dst
        = some dst1 ∧
      Estado A W C viejo
        (valorRotacion (RotArgs.mk src 0 0 sW sA C W A cosA sinA minX minY cx cy 0))
        (fun y x c => H y x c ∨ (a ≤ y ∧ y < b)) dst1 := by
  unfold rotarWorker
  dsimp only
  obtain ⟨s1, e, h1, -⟩ := @filas_loop_gen (Matriz × List UChar) A W C
    (fun H s => Estado A W C viejo
      (valorRotacion (RotArgs.mk src 0 0 sW sA C W A cosA sinA minX minY cx cy 0)) H s.1 ∧
      s.2.length = 4)
    (fun H1 H2 s h hh => ⟨Estado_congr h.1 hh, h.2⟩)
    H a b hab hW
    (fun y x st =>
      if cosA * (((x : K) + minX) - cx) + sinA * (((y : K) + minY) - cy) + cx ≥ 0 ∧
          cosA * (((x : K) + minX) - cx) + sinA * (((y : K) + minY) - cy) + cx < (sW : K) ∧
          -sinA * (((x : K) + minX) - cx) + cosA * (((y : K) + minY) - cy) + cy ≥ 0 ∧
          -sinA * (((x : K) + minX) - cx) + cosA * (((y : K) + minY) - cy) + cy < (sA : K) then
        (sampleBilinear src sW sA C
          (cosA * (((x : K) + minX) - cx) + sinA * (((y : K) + minY) - cy) + cx)
          (-sinA * (((x : K) + minX) - cx) + cosA * (((y : K) + minY) - cy) + cy)
          st.2).bind fun out =>
          (forLoop 0 C (fun c d =>
            (leerLista out c).bind fun v => escribir d y x c v) st.1).map
            fun d => (d, out)
      else
        (forLoop 0 C (fun c d => escribir d y x c 0) st.1).map
          fun d => (d, st.2))
    (fun y x st hy1 hy2 hx0 hx hI => by
      obtain ⟨hI1, hlen⟩ := hI
      dsimp only
      by_cases hg : cosA * (((x : K) + minX) - cx) + sinA * (((y : K) + minY) - cy) + cx ≥ 0 ∧
          cosA * (((x : K) + minX) - cx) + sinA * (((y : K) + minY) - cy) + cx < (sW : K) ∧
          -sinA * (((x : K) + minX) - cx) + cosA * (((y : K) + minY) - cy) + cy ≥ 0 ∧
          -sinA * (((x : K) + minX) - cx) + cosA * (((y : K) + minY) - cy) + cy < (sA : K)
      · have hd : dentroDelOrigen
            (RotArgs.mk src 0 0 sW sA C W A cosA sinA minX minY cx cy 0) x y := hg
        obtain ⟨g1, g2, g3, g4⟩ := hg
        obtain ⟨out1, eo, hl1, hv⟩ := sampleBilinear_spec src sW sA C
          (cosA * (((x : K) + minX) - cx) + sinA * (((y : K) + minY) - cy) + cx)
          (-sinA * (((x : K) + minX) - cx) + cosA * (((y : K) + minY) - cy) + cy)
          st.2 hsrc hsW hsA (by rw [hlen]; exact_mod_cast hC4) (by linarith) g2
          (by linarith) g4
        obtain ⟨m1, em, hm1⟩ := @copiar_pixel _ _ _ _ (
            valorRotacion (RotArgs.mk src 0 0 sW sA C W A cosA sinA minX minY cx cy 0))
          _ y x (by omega) (by omega) hx0 hx hC0 out1
          (fun c hc0 hc => by
            rw [hv c hc0 hc]
            unfold valorRotacion
            rw [if_pos hd]
            rfl) st.1 hI1
        refine ⟨(m1, out1), ?_, hm1, by rw [hl1]; exact hlen⟩
        rw [if_pos ⟨g1, g2, g3, g4⟩, eo, Option.some_bind, em]
        rfl
      · have hd : ¬ dentroDelOrigen
            (RotArgs.mk src 0 0 sW sA C W A cosA sinA minX minY cx cy 0) x y := hg
        obtain ⟨m1, em, hm1⟩ := @canales_loop _ _ _ _ (
            valorRotacion (RotArgs.mk src 0 0 sW sA C W A cosA sinA minX minY cx cy 0))
          _ y x (by omega) (by omega) hx0 hx hC0
          (fun c d => escribir d y x c 0)
          (fun c d hc0 hc _ => by
            unfold valorRotacion
            rw [if_neg hd]) st.1 hI1
        refine ⟨(m1, st.2), ?_, hm1, hlen⟩
        rw [if_neg hg, em]
        rfl)
    (dst, [0, 0, 0, 0]) ⟨hm, rfl⟩
  exact ⟨s1.1, congrArg (Option.map Prod.fst) e, h1⟩


/-- C14.  `rotarWorker` run on `[inicio, fin)` returns, and for every destination pixel
`(x, y)` of those rows: if the mapped coordinate satisfies `0 ≤ sx < anchoOrigen` and
`0 ≤ sy < altoOrigen`, the pixel holds, channel by channel, what `sampleBilinear` at
`(sx, sy)` writes into its output buffer; otherwise every channel of the pixel is 0
(no sampling, no clamping). -/
theorem rotarWorker_muestrea_o_pone_negro {K : Type} [LinearOrderedField K] [FloorRing K]
    (r : RotArgs K) (dst : Matriz)
    (hsrc : Forma r.pixelesOrigen r.altoOrigen r.anchoOrigen r.canales)
    (hdst : Forma dst r.altoDestino r.anchoDestino r.canales)
    (hsW : 1 ≤ r.anchoOrigen) (hsA : 1 ≤ r.altoOrigen) (hC0 : 0 ≤ r.canales)
    (hC4 : r.canales ≤ 4) (hW : 0 ≤ r.anchoDestino) (ha : 0 ≤ r.inicio)
    (hb : r.fin ≤ r.altoDestino) :
    ∃ dst1, rotarWorker r dst = some dst1 ∧
      ∀ y x, r.inicio ≤ y → y < r.fin → 0 ≤ x → x < r.anchoDestino →
        (dentroDelOrigen r x y →
          ∀ out0 : List UChar, r.canales ≤ out0.length →
            ∃ out1, sampleBilinear r.pixelesOrigen r.anchoOrigen r.altoOrigen r.canales
                (origenX r x y) (origenY r x y) out0 = some out1 ∧
              ∀ c, 0 ≤ c → c < r.canales → leer dst1 y x c = leerLista out1 c) ∧
        (¬ dentroDelOrigen r x y →
          ∀ c, 0 ≤ c → c < r.canales → leer dst1 y x c = some 0) := by
  obtain ⟨src, a, b, sW, sA, C, W, A, cosA, sinA, minX, minY, cx, cy, i⟩ := r
  dsimp only at hsrc hdst hsW hsA hC0 hC4 hW ha hb ⊢
  by_cases hab : a ≤ b
  · obtain ⟨dst1, e, hE⟩ := rotarWorker_estado src hsrc hsA hsW hW hC0 hC4 cosA sinA minX minY
      cx cy (muestra dst) i a b (fun _ _ _ => False) dst ha hab hb (Estado_inicial dst hdst _)
    refine ⟨dst1, e, ?_⟩
    intro y x hy1 hy2 hx0 hx
    constructor
    · intro hd out0 hout
      obtain ⟨g1, g2, g3, g4⟩ := hd
      obtain ⟨out1, eo, -, hv⟩ := sampleBilinear_spec src sW sA C
        (origenX (RotArgs.mk src a b sW sA C W A cosA sinA minX minY cx cy i) x y)
        (origenY (RotArgs.mk src a b sW sA C W A cosA sinA minX minY cx cy i) x y)
        out0 hsrc hsW hsA hout (by linarith) g2 (by linarith) g4
      refine ⟨out1, eo, ?_⟩
      intro c hc0 hc
      have := (hE.2 y x c (by omega) (by omega) hx0 hx hc0 hc).1 (Or.inr ⟨hy1, hy2⟩)
      rw [this, hv c hc0 hc]
      unfold valorRotacion
      rw [if_pos (show dentroDelOrigen
        (RotArgs.mk src 0 0 sW sA C W A cosA sinA minX minY cx cy 0) x y from
          ⟨g1, g2, g3, g4⟩)]
      rfl
    · intro hd c hc0 hc
      have := (hE.2 y x c (by omega) (by omega) hx0 hx hc0 hc).1 (Or.inr ⟨hy1, hy2⟩)
      rw [this]
      unfold valorRotacion
      rw [if_neg (show ¬ dentroDelOrigen
        (RotArgs.mk src 0 0 sW sA C W A cosA sinA minX minY cx cy 0) x y from hd)]
  · refine ⟨dst, ?_, fun y x hy1 hy2 => absurd hy2 (by omega)⟩
    unfold rotarWorker
    dsimp only
    rw [forLoop_vacio _ _ _ _ (by omega)]
    rfl

theorem rotarWorker_muestrea_o_pone_negro_witness :
    ∃ dst1, rotarWorker rotArgsEjemplo [[[0], [0]], [[0], [0]]] = some dst1 ∧
      ∀ y x, rotArgsEjemplo.inicio ≤ y → y < rotArgsEjemplo.fin → 0 ≤ x →
        x < rotArgsEjemplo.anchoDestino →
        (dentroDelOrigen rotArgsEjemplo x y →
          ∀ out0 : List UChar, rotArgsEjemplo.canales ≤ out0.length →
            ∃ out1, sampleBilinear rotArgsEjemplo.pixelesOrigen rotArgsEjemplo.anchoOrigen
                rotArgsEjemplo.altoOrigen rotArgsEjemplo.canales
                (origenX rotArgsEjemplo x y) (origenY rotArgsEjemplo x y) out0 = some out1 ∧
              ∀ c, 0 ≤ c → c < rotArgsEjemplo.canales → leer dst1 y x c = leerLista out1 c) ∧
        (¬ dentroDelOrigen rotArgsEjemplo x y →
          ∀ c, 0 ≤ c → c < rotArgsEjemplo.canales → leer dst1 y x c = some 0) :=
  rotarWorker_muestrea_o_pone_negro rotArgsEjemplo [[[0], [0]], [[0], [0]]] (by decide)
    (by decide) (by decide) (by decide) (by decide) (by decide) (by decide) (by decide)
    (by decide)

theorem si_menor {K : Type} [LinearOrderedField K] (a b : K) :
    (if a < b then a else b) = min a b := by
  by_cases h : a < b
  · rw [if_pos h, min_eq_left (le_of_lt h)]
  · rw [if_neg h, min_eq_right (not_lt.1 h)]

theorem si_mayor {K : Type} [LinearOrderedField K] (a b : K) :
    (if a > b then a else b) = max a b := by
  by_cases h : a > b
  · rw [if_pos h, max_eq_left (le_of_lt h)]
  · rw [if_neg h, max_eq_right (not_lt.1 h)]

/-- With `cosA = 1` and `sinA = 0` the bounding box is the source rectangle. -/
theorem cajaRotada_identidad {K : Type} [LinearOrderedField K] (w h : Int) (hw : 1 ≤ w)
    (hh : 1 ≤ h) :
    cajaRotada (1 : K) 0 w h = some (0, 0, ((w - 1 : Int) : K), ((h - 1 : Int) : K)) := by
  have h0 : (0 : K) ≤ ((w - 1 : Int) : K) := by exact_mod_cast (show (0 : Int) ≤ w - 1 by omega)
  have h1 : (0 : K) ≤ ((h - 1 : Int) : K) := by exact_mod_cast (show (0 : Int) ≤ h - 1 by omega)
  unfold cajaRotada forLoop
  dsimp only
  generalize ((w - 1 : Int) : K) = p at h0 ⊢
  generalize ((h - 1 : Int) : K) = q at h1 ⊢
  simp only [forLoopAux, leerLista, si_menor, si_mayor]
  simp [h0, h1]


/-- What `rotarImagenConcurrente` returns for a loaded image with at most 4 channels,
given the bounding box `caja` its corner loop computes: an image of the bounding-box
size in which the rows of the started workers hold the rotated samples while the other
rows are still zero. -/
theorem rotarImagenConcurrente_estado {K : Type} [LinearOrderedField K] [FloorRing K]
    (cosf sinf : K → K) (pi : K) (info : ImagenInfo) (anguloGrados : K) (numHilos : Int)
    (crea : Int → Bool) (src : Matriz) (hpx : info.pixeles = some src)
    (h : BienFormada info) (hc4 : info.canales ≤ 4) (caja : K × K × K × K)
    (hcaja : cajaRotada (cosf (anguloGrados * pi / 180)) (sinf (anguloGrados * pi / 180))
      info.ancho info.alto = some caja)
    (aD hD : Int)
    (haD : aD = if ⌊caja.2.2.1 - caja.1⌋ + 1 ≤ 0 then 1 else ⌊caja.2.2.1 - caja.1⌋ + 1)
    (hhD : hD = if ⌊caja.2.2.2 - caja.2.1⌋ + 1 ≤ 0 then 1 else ⌊caja.2.2.2 - caja.2.1⌋ + 1) :
    ∃ dst cnt, rotarImagenConcurrente cosf sinf pi info anguloGrados numHilos crea =
        some (ImagenInfo.mk aD hD info.canales (some dst), cnt) ∧
      0 ≤ cnt ∧ cnt ≤ limitarHilos numHilos hD ∧
      Estado hD aD info.canales (fun _ _ _ => 0)
        (valorRotacion (RotArgs.mk src 0 0 info.ancho info.alto info.canales aD hD
          (cosf (anguloGrados * pi / 180)) (sinf (anguloGrados * pi / 180)) caja.1 caja.2.1
          (((info.ancho - 1 : Int) : K) / 2) (((info.alto - 1 : Int) : K) / 2) 0))
        (fun y _ _ => filaAtendida hD (limitarHilos numHilos hD) crea y) dst := by
  obtain ⟨hA, hW, hC, hp⟩ := h
  rw [hpx] at hp
  dsimp only at hp
  have haD1 : 1 ≤ aD := by rw [haD]; split_ifs <;> omega
  have hhD1 : 1 ≤ hD := by rw [hhD]; split_ifs <;> omega
  obtain ⟨hn1, hn2, -⟩ := limitarHilos_rango numHilos hD hhD1
  obtain ⟨dst0, edst, hF0, hz⟩ := crearMatrizPixeles_spec hD aD info.canales hhD1 haD1 hC
  obtain ⟨m1, cnt, e, c0, c1, hE⟩ := despachar_estado (limitarHilos numHilos hD) hn1 hhD1
    crea
    (fun i inicio fin d =>
      rotarWorker
        (RotArgs.mk src inicio fin info.ancho info.alto info.canales aD hD
          (cosf (anguloGrados * pi / 180)) (sinf (anguloGrados * pi / 180)) caja.1 caja.2.1
          (((info.ancho - 1 : Int) : K) / 2) (((info.alto - 1 : Int) : K) / 2) i) d)
    (fun i a b H m ha hab hb _ hm =>
      rotarWorker_estado src hp hA hW (by omega) (by omega) hc4 _ _ _ _ _ _
        (fun _ _ _ => 0) i a b H m ha (le_of_lt hab) hb hm)
    dst0 ⟨hF0, fun y x c h1 h2 h3 h4 h5 h6 =>
      ⟨fun k => absurd k id, fun _ => hz y x c h1 h2 h3 h4 h5 h6⟩⟩
  refine ⟨m1, cnt, ?_, c0, c1, hE⟩
  unfold rotarImagenConcurrente
  rw [hpx]
  dsimp only
  rw [hcaja, Option.some_bind, ← haD, ← hhD, edst]
  dsimp only
  rw [e]
  rfl

/-- C13.  For every loaded image (at most 4 channels), `rotarImagenConcurrente` with
angle 0 (`cosf(0) = 1`, `sinf(0) = 0`) and all workers started yields an output whose
`ancho`, `alto` and `canales` equal the input's and whose sample at every
`(y, x, c)` equals the input sample there, hence within a tolerance of 1 (exact
arithmetic). -/
theorem rotar_cero_grados_es_identidad {K : Type} [LinearOrderedField K] [FloorRing K]
    (cosf sinf : K → K) (pi : K) (info : ImagenInfo) (numHilos : Int)
    (hcos : cosf 0 = 1) (hsin : sinf 0 = 0) (h : BienFormada info)
    (hc4 : info.canales ≤ 4) :
    ∃ r cnt, rotarImagenConcurrente cosf sinf pi info 0 numHilos todosArrancan =
        some (r, cnt) ∧
      r.ancho = info.ancho ∧ r.alto = info.alto ∧ r.canales = info.canales ∧
      ∀ y x c, 0 ≤ y → y < info.alto → 0 ≤ x → x < info.ancho → 0 ≤ c → c < info.canales →
        ∃ a b : UChar, leerImagen info y x c = some a ∧ leerImagen r y x c = some b ∧
          b = a ∧ |(b.val : Int) - (a.val : Int)| ≤ 1 := by
  have hbf := h
  obtain ⟨hA, hW, hC, hp⟩ := h
  cases hpx : info.pixeles with
  | none => rw [hpx] at hp; exact absurd hp id
  | some src =>
    rw [hpx] at hp
    dsimp only at hp
    have hang : (0 : K) * pi / 180 = 0 := by simp
    have hcaja : cajaRotada (cosf ((0 : K) * pi / 180)) (sinf ((0 : K) * pi / 180))
        info.ancho info.alto =
        some (0, 0, ((info.ancho - 1 : Int) : K), ((info.alto - 1 : Int) : K)) := by
      rw [hang, hcos, hsin]
      exact cajaRotada_identidad info.ancho info.alto hW hA
    obtain ⟨dst, cnt, e, -, -, hE⟩ := rotarImagenConcurrente_estado cosf sinf pi info 0
      numHilos todosArrancan src hpx hbf hc4 _ hcaja info.ancho info.alto
      (by
        dsimp only
        rw [sub_zero, Int.floor_intCast, if_neg (by omega)]
        omega)
      (by
        dsimp only
        rw [sub_zero, Int.floor_intCast, if_neg (by omega)]
        omega)
    obtain ⟨hn1, -, -⟩ := limitarHilos_rango numHilos info.alto hA
    refine ⟨_, cnt, e, rfl, rfl, rfl, ?_⟩
    intro y x c h1 h2 h3 h4 h5 h6
    have := (hE.2 y x c h1 h2 h3 h4 h5 h6).1 (filaAtendida_todos _ _ y hA hn1 h1 h2)
    rw [hang, hcos, hsin] at this
    have ex : origenX (RotArgs.mk src 0 0 info.ancho info.alto info.canales info.ancho
        info.alto (1 : K) 0 0 0 (((info.ancho - 1 : Int) : K) / 2)
        (((info.alto - 1 : Int) : K) / 2) 0) x y = ((x : Int) : K) := by
      unfold origenX
      dsimp only
      ring
    have ey : origenY (RotArgs.mk src 0 0 info.ancho info.alto info.canales info.ancho
        info.alto (1 : K) 0 0 0 (((info.ancho - 1 : Int) : K) / 2)
        (((info.alto - 1 : Int) : K) / 2) 0) x y = ((y : Int) : K) := by
      unfold origenY
      dsimp only
      ring
    have hd : dentroDelOrigen (RotArgs.mk src 0 0 info.ancho info.alto info.canales
        info.ancho info.alto (1 : K) 0 0 0 (((info.ancho - 1 : Int) : K) / 2)
        (((info.alto - 1 : Int) : K) / 2) 0) x y := by
      unfold dentroDelOrigen
      rw [ex, ey]
      dsimp only
      refine ⟨?_, ?_, ?_, ?_⟩ <;> exact_mod_cast (by assumption)
    unfold valorRotacion at this
    rw [if_pos hd, ex, ey] at this
    dsimp only at this
    rw [valorBilineal_entero src _ _ x y c h3 h1] at this
    obtain ⟨v, hv⟩ := leer_some hp h1 h2 h3 h4 h5 h6
    rw [muestra_eq hv] at this
    refine ⟨v, v, ?_, ?_, rfl, by simp⟩
    · unfold leerImagen; rw [hpx]; exact hv
    · unfold leerImagen; exact this

theorem rotar_cero_grados_es_identidad_witness :
    ∃ r cnt, rotarImagenConcurrente (fun _ : ℚ => 1) (fun _ : ℚ => 0) (3 : ℚ) imagenRGB2x2 0 4
        todosArrancan = some (r, cnt) ∧
      r.ancho = imagenRGB2x2.ancho ∧ r.alto = imagenRGB2x2.alto ∧
      r.canales = imagenRGB2x2.canales ∧
      ∀ y x c, 0 ≤ y → y < imagenRGB2x2.alto → 0 ≤ x → x < imagenRGB2x2.ancho → 0 ≤ c →
        c < imagenRGB2x2.canales →
        ∃ a b : UChar, leerImagen imagenRGB2x2 y x c = some a ∧ leerImagen r y x c = some b ∧
          b = a ∧ |(b.val : Int) - (a.val : Int)| ≤ 1 :=
  rotar_cero_grados_es_identidad (fun _ : ℚ => 1) (fun _ : ℚ => 0) (3 : ℚ) imagenRGB2x2 4
    rfl rfl (by decide) (by decide)

/-! ## Loading (C20) -/

theorem indice_plano_en_rango (w h ch y x c : Int) (hy0 : 0 ≤ y) (hy : y < h) (hx0 : 0 ≤ x)
    (hx : x < w) (hc0 : 0 ≤ c) (hc : c < ch) :
    0 ≤ (y * w + x) * ch + c ∧ (y * w + x) * ch + c < w * h * ch := by
  have a1 : 0 ≤ y * w := mul_nonneg hy0 (by omega)
  have a2 : 0 ≤ (y * w + x) * ch := mul_nonneg (by omega) (by omega)
  have a3 : (y + 1) * w ≤ h * w := mul_filas_mono (y + 1) h w (by omega) (by omega)
  have a4 : (y + 1) * w = y * w + w := by ring
  have a5 : (y * w + x + 1) * ch ≤ (h * w) * ch :=
    mul_filas_mono (y * w + x + 1) (h * w) ch (by omega) (by omega)
  have a6 : (y * w + x + 1) * ch = (y * w + x) * ch + ch := by ring
  have a7 : h * w * ch = w * h * ch := by ring
  constructor <;> omega

/-- C20.  When the decoder returns `raw` with width `w ≥ 1`, height `h ≥ 1` and a channel
count `ch` in `{1, 3}` (`raw` holding `w*h*ch` bytes), `cargarImagen` succeeds (returns
1) and leaves a buffer with `ancho = w`, `alto = h`, `canales = ch` whose sample at
every `(y, x, c)` is `raw[y*w*ch + x*ch + c]`. -/
theorem cargarImagen_copia_fila_por_fila (stbi_load : Int → Option Decodificada)
    (info0 : ImagenInfo) (raw : List UChar) (w h ch : Int)
    (hdec : stbi_load 0 = some (Decodificada.mk raw w h ch)) (hch : ch = 1 ∨ ch = 3)
    (hw : 1 ≤ w) (hh : 1 ≤ h) (hlen : (raw.length : Int) = w * h * ch) :
    ∃ info, cargarImagen stbi_load info0 = some (1, info) ∧
      info.ancho = w ∧ info.alto = h ∧ info.canales = ch ∧ BienFormada info ∧
      ∀ y x c, 0 ≤ y → y < h → 0 ≤ x → x < w → 0 ≤ c → c < ch →
        ∃ v, leerLista raw (y * w * ch + x * ch + c) = some v ∧
          leerImagen info y x c = some v := by
  have hch1 : 1 ≤ ch := by omega
  obtain ⟨m0, em, hF0, hz⟩ := crearMatrizPixeles_spec h w ch hh hw hch1
  have hraw : ∀ y x c, 0 ≤ y → y < h → 0 ≤ x → x < w → 0 ≤ c → c < ch →
      ∃ v, leerLista raw ((y * w + x) * ch + c) = some v := by
    intro y x c h1 h2 h3 h4 h5 h6
    obtain ⟨i0, i1⟩ := indice_plano_en_rango w h ch y x c h1 h2 h3 h4 h5 h6
    obtain ⟨v, hv, -⟩ := leerLista_eq raw _ i0 (by rw [hlen]; exact i1)
    exact ⟨v, hv⟩
  obtain ⟨m1, e1, hE⟩ := @filas_loop h w ch (fun _ _ _ => 0)
    (fun y x c => (leerLista raw ((y * w + x) * ch + c)).getD 0)
    (fun _ _ _ => False) 0 h (by omega) (by omega)
    (fun y x m => forLoop 0 ch (fun c m =>
      (leerLista raw ((y * w + x) * ch + c)).bind fun v => escribir m y x c v) m)
    (fun y x m hy1 hy2 hx0 hx hI => by
      refine canales_loop _ y x hy1 hy2 hx0 hx (by omega) _ ?_ m hI
      intro c m2 hc0 hc _
      obtain ⟨v, hv⟩ := hraw y x c hy1 hy2 hx0 hx hc0 hc
      rw [hv]
      rfl)
    m0 ⟨hF0, fun y x c h1 h2 h3 h4 h5 h6 =>
      ⟨fun k => absurd k id, fun _ => hz y x c h1 h2 h3 h4 h5 h6⟩⟩
  refine ⟨ImagenInfo.mk w h ch (some m1), ?_, rfl, rfl, rfl, ⟨hh, hw, hch1, hE.1⟩, ?_⟩
  · unfold cargarImagen
    rw [hdec]
    dsimp only
    rw [if_pos hch, if_neg (by simp)]
    dsimp only
    rw [em]
    dsimp only
    rw [e1]
    rfl
  · intro y x c h1 h2 h3 h4 h5 h6
    obtain ⟨v, hv⟩ := hraw y x c h1 h2 h3 h4 h5 h6
    have hidx : y * w * ch + x * ch + c = (y * w + x) * ch + c := by ring
    refine ⟨v, by rw [hidx]; exact hv, ?_⟩
    have := (hE.2 y x c h1 h2 h3 h4 h5 h6).1 (Or.inr ⟨h1, h2⟩)
    dsimp only at this
    rw [hv] at this
    unfold leerImagen
    dsimp only
    rw [Option.some_bind, this]
    rfl

theorem cargarImagen_copia_fila_por_fila_witness :
    ∃ info, cargarImagen decodificadorEjemplo (ImagenInfo.mk 0 0 0 none) = some (1, info) ∧
      info.ancho = 2 ∧ info.alto = 2 ∧ info.canales = 1 ∧ BienFormada info ∧
      ∀ y x c, 0 ≤ y → y < (2 : Int) → 0 ≤ x → x < (2 : Int) → 0 ≤ c → c < (1 : Int) →
        ∃ v, leerLista [(10 : UChar), 20, 30, 40] (y * 2 * 1 + x * 1 + c) = some v ∧
          leerImagen info y x c = some v :=
  cargarImagen_copia_fila_por_fila decodificadorEjemplo (ImagenInfo.mk 0 0 0 none)
    [10, 20, 30, 40] 2 2 1 rfl (Or.inl rfl) (by decide) (by decide) (by decide)

/-! ## Results of the dispatch loops for arbitrary worker start-up -/

theorem ajustarBrilloConcurrente_estado (info : ImagenInfo) (delta numHilos : Int)
    (crea : Int → Bool) (m0 : Matriz) (hpx : info.pixeles = some m0) (h : BienFormada info) :
    ∃ m1 cnt, ajustarBrilloConcurrente info delta numHilos crea =
        some (ImagenInfo.mk info.ancho info.alto info.canales (some m1), cnt) ∧
      Estado info.alto info.ancho info.canales (muestra m0)
        (fun y x c => clampuc (envolver32 (((muestra m0 y x c).val : Int) + delta)))
        (fun y _ _ => filaAtendida info.alto (limitarHilos numHilos info.alto) crea y) m1 := by
  obtain ⟨hA, hW, hC, hp⟩ := h
  rw [hpx] at hp
  simp only [] at hp
  obtain ⟨hn1, -, -⟩ := limitarHilos_rango numHilos info.alto hA
  obtain ⟨m1, cnt, e, -, -, hE⟩ := despachar_estado (limitarHilos numHilos info.alto) hn1 hA
    crea
    (fun i inicio fin p =>
      ajustarBrilloHilo (BrilloArgs.mk inicio fin info.ancho info.canales delta i) p)
    (fun i a b H m ha hab hb hH hm =>
      ajustarBrilloHilo_estado (by omega) (by omega) (muestra m0) delta i a b H m ha hab hb
        hH hm)
    m0 (Estado_inicial m0 hp _)
  refine ⟨m1, cnt, ?_, hE⟩
  unfold ajustarBrilloConcurrente
  rw [hpx]
  simp only []
  rw [e]; rfl

theorem clampuc_compone (v : UChar) (d1 d2 : Int)
    (hs : (0 ≤ d1 ∧ 0 ≤ d2) ∨ (d1 ≤ 0 ∧ d2 ≤ 0)) :
    clampuc (((clampuc ((v.val : Int) + d1)).val : Int) + d2) =
      clampuc ((v.val : Int) + (d1 + d2)) := by
  have hv : (v.val : Int) < 256 := by exact_mod_cast v.isLt
  have hv0 : 0 ≤ (v.val : Int) := Int.natCast_nonneg _
  apply Fin.ext
  have e1 := clampuc_val (((clampuc ((v.val : Int) + d1)).val : Int) + d2)
  have e2 := clampuc_val ((v.val : Int) + (d1 + d2))
  have e3 := clampuc_val ((v.val : Int) + d1)
  have : ((clampuc (((clampuc ((v.val : Int) + d1)).val : Int) + d2)).val : Int) =
      ((clampuc ((v.val : Int) + (d1 + d2))).val : Int) := by
    rw [e1, e2, e3]
    omega
  exact_mod_cast this

/-! ## The sampler at integer coordinates (C27) -/

/-- C27.  For every buffer of shape `srcH x srcW x channels` and every integer coordinate
`(i, j)` with `0 ≤ i < srcW` and `0 ≤ j < srcH`, `sampleBilinear` at `(fx, fy) = (i, j)`
returns and leaves in `out[c]`, for every channel `c`, exactly the source sample at row
`j`, column `i`, channel `c`. -/
theorem sampleBilinear_en_coordenada_entera {K : Type} [LinearOrderedField K] [FloorRing K]
    (src : Matriz) (srcW srcH channels i j : Int) (out : List UChar)
    (hF : Forma src srcH srcW channels) (hout : channels ≤ out.length)
    (hi0 : 0 ≤ i) (hi : i < srcW) (hj0 : 0 ≤ j) (hj : j < srcH) :
    ∃ out1, sampleBilinear src srcW srcH channels ((i : Int) : K) ((j : Int) : K) out
        = some out1 ∧
      ∀ c, 0 ≤ c → c < channels →
        ∃ v, leer src j i c = some v ∧ leerLista out1 c = some v := by
  have hx0 : (-1 : K) ≤ ((i : Int) : K) := by
    have : ((-1 : Int) : K) ≤ ((i : Int) : K) := Int.cast_le.2 (by omega)
    simpa using this
  have hy0 : (-1 : K) ≤ ((j : Int) : K) := by
    have : ((-1 : Int) : K) ≤ ((j : Int) : K) := Int.cast_le.2 (by omega)
    simpa using this
  obtain ⟨out1, e, -, hv⟩ := sampleBilinear_spec src srcW srcH channels ((i : Int) : K)
    ((j : Int) : K) out hF (by omega) (by omega) hout hx0 (Int.cast_lt.2 hi) hy0
    (Int.cast_lt.2 hj)
  refine ⟨out1, e, ?_⟩
  intro c hc0 hc
  obtain ⟨v, hl⟩ := leer_some hF hj0 hj hi0 hi hc0 hc
  refine ⟨v, hl, ?_⟩
  rw [hv c hc0 hc, valorBilineal_entero src srcW srcH i j c hi0 hj0, muestra_eq hl]

theorem sampleBilinear_en_coordenada_entera_witness :
    ∃ out1, sampleBilinear imagen2x2 2 2 1 (((1 : Int) : Int) : ℚ) (((0 : Int) : Int) : ℚ)
        [0, 0, 0, 0] = some out1 ∧
      ∀ c, 0 ≤ c → c < (1 : Int) →
        ∃ v, leer imagen2x2 0 1 c = some v ∧ leerLista out1 c = some v :=
  sampleBilinear_en_coordenada_entera imagen2x2 2 2 1 1 0 [0, 0, 0, 0] (by decide)
    (by decide) (by decide) (by decide) (by decide) (by decide)

/-! ## Bounds of the sampler reads (C26) -/

theorem lecturasEnRango_de_rango {K : Type} [LinearOrderedField K] [FloorRing K]
    (srcW srcH : Int) (fx fy : K) (hW : 1 ≤ srcW) (hH : 1 ≤ srcH) (hx0 : -1 ≤ fx)
    (hx1 : fx < srcW) (hy0 : -1 ≤ fy) (hy1 : fy < srcH) : lecturasEnRango srcW srcH fx fy := by
  obtain ⟨a1, a2, a3, a4, a5, a6, a7, a8⟩ :=
    esquinas_en_rango srcW srcH fx fy hW hH hx0 hx1 hy0 hy1
  exact ⟨⟨a1, by omega⟩, ⟨a3, by omega⟩, ⟨a5, by omega⟩, ⟨a7, by omega⟩⟩

theorem dentroDelOrigen_rango {K : Type} [LinearOrderedField K] (r : RotArgs K) (x y : Int)
    (h : dentroDelOrigen r x y) :
    1 ≤ r.anchoOrigen ∧ 1 ≤ r.altoOrigen ∧ (-1 : K) ≤ origenX r x y ∧
      (-1 : K) ≤ origenY r x y := by
  obtain ⟨h1, h2, h3, h4⟩ := h
  have p1 : (0 : K) < (r.anchoOrigen : K) := lt_of_le_of_lt h1 h2
  have p2 : (0 : K) < (r.altoOrigen : K) := lt_of_le_of_lt h3 h4
  have q1 : 0 < r.anchoOrigen := by exact_mod_cast p1
  have q2 : 0 < r.altoOrigen := by exact_mod_cast p2
  exact ⟨by omega, by omega, by linarith, by linarith⟩

/-- C26.  In exact arithmetic, for every source size `srcW, srcH ≥ 1`, every target size
`newW, newH ≥ 1` and every destination pixel `(x, y)` with `0 ≤ x < newW`, `0 ≤ y < newH`,
the four pixels read by the `sampleBilinear` call of `resizeWorker` (coordinates
`(x + 0.5) * srcW/newW - 0.5`, `(y + 0.5) * srcH/newH - 0.5`) lie inside the source, and
the call returns on every source of that shape; likewise for the call of `rotarWorker`,
made only when `0 ≤ sx < anchoOrigen` and `0 ≤ sy < altoOrigen`. -/
theorem muestreo_lee_dentro_del_origen {K : Type} [LinearOrderedField K] [FloorRing K]
    (srcW srcH newW newH x y : Int) (r : RotArgs K) (rx ry : Int) (hW : 1 ≤ srcW)
    (hH : 1 ≤ srcH) (_hnW : 1 ≤ newW) (_hnH : 1 ≤ newH) (hx0 : 0 ≤ x) (hx : x < newW)
    (hy0 : 0 ≤ y) (hy : y < newH) :
    (lecturasEnRango srcW srcH (coordenadaResize x ((srcW : K) / (newW : K)))
        (coordenadaResize y ((srcH : K) / (newH : K))) ∧
      ∀ (src : Matriz) (ch : Int) (out : List UChar), Forma src srcH srcW ch →
        ch ≤ out.length →
        ∃ out1, sampleBilinear src srcW srcH ch (coordenadaResize x ((srcW : K) / (newW : K)))
          (coordenadaResize y ((srcH : K) / (newH : K))) out = some out1) ∧
    (dentroDelOrigen r rx ry →
      lecturasEnRango r.anchoOrigen r.altoOrigen (origenX r rx ry) (origenY r rx ry) ∧
      ∀ (out : List UChar), Forma r.pixelesOrigen r.altoOrigen r.anchoOrigen r.canales →
        r.canales ≤ out.length →
        ∃ out1, sampleBilinear r.pixelesOrigen r.anchoOrigen r.altoOrigen r.canales
          (origenX r rx ry) (origenY r rx ry) out = some out1) := by
  obtain ⟨a1, a2⟩ := coordenadaResize_rango (K := K) x newW srcW hx0 hx hW
  obtain ⟨b1, b2⟩ := coordenadaResize_rango (K := K) y newH srcH hy0 hy hH
  refine ⟨⟨lecturasEnRango_de_rango srcW srcH _ _ hW hH a1 a2 b1 b2, ?_⟩, ?_⟩
  · intro src ch out hF hout
    obtain ⟨out1, e, -⟩ := sampleBilinear_spec src srcW srcH ch _ _ out hF hW hH hout a1 a2 b1 b2
    exact ⟨out1, e⟩
  · intro hd
    obtain ⟨q1, q2, q3, q4⟩ := dentroDelOrigen_rango r rx ry hd
    obtain ⟨h1, h2, h3, h4⟩ := hd
    refine ⟨lecturasEnRango_de_rango _ _ _ _ q1 q2 q3 h2 q4 h4, ?_⟩
    intro out hF hout
    obtain ⟨out1, e, -⟩ := sampleBilinear_spec r.pixelesOrigen r.anchoOrigen r.altoOrigen
      r.canales _ _ out hF q1 q2 hout q3 h2 q4 h4
    exact ⟨out1, e⟩

theorem muestreo_lee_dentro_del_origen_witness :
    lecturasEnRango 2 2 (coordenadaResize 3 (((2 : Int) : ℚ) / ((4 : Int) : ℚ)))
        (coordenadaResize 0 (((2 : Int) : ℚ) / ((4 : Int) : ℚ))) ∧
      dentroDelOrigen rotArgsEjemplo 1 1 ∧
      lecturasEnRango rotArgsEjemplo.anchoOrigen rotArgsEjemplo.altoOrigen
        (origenX rotArgsEjemplo 1 1) (origenY rotArgsEjemplo 1 1) := by
  have hd : dentroDelOrigen rotArgsEjemplo 1 1 := by
    unfold dentroDelOrigen origenX origenY rotArgsEjemplo
    norm_num
  have h := muestreo_lee_dentro_del_origen (K := ℚ) 2 2 4 4 3 0 rotArgsEjemplo 1 1
    (by decide) (by decide) (by decide) (by decide) (by decide) (by decide) (by decide)
    (by decide)
  exact ⟨h.1.1, hd, (h.2 hd).1⟩

/-! ## Bounds of the convolution reads (C24) -/

theorem indice_kernel_en_rango (tam k2 ky kx : Int) (htam : tam = 2 * k2 + 1)
    (hky0 : -k2 ≤ ky) (hky : ky ≤ k2) (hkx0 : -k2 ≤ kx) (hkx : kx ≤ k2) :
    0 ≤ (ky + k2) * tam + (kx + k2) ∧ (ky + k2) * tam + (kx + k2) < tam * tam := by
  have a1 : 0 ≤ (ky + k2) * tam := mul_nonneg (by omega) (by omega)
  have a2 : (ky + k2 + 1) * tam ≤ tam * tam :=
    mul_filas_mono (ky + k2 + 1) tam tam (by omega) (by omega)
  have a3 : (ky + k2 + 1) * tam = (ky + k2) * tam + tam := by ring
  constructor <;> omega

/-- C24.  For every image with `ancho ≥ 1` and `alto ≥ 1` and every odd `tamKernel ≥ 3`
(also larger than the image), for every pixel `(x, y)` and kernel offset `(kx, ky)` with
`-k2 ≤ kx, ky ≤ k2` (`k2 = tamKernel / 2`), the clamped neighbour coordinates read by
`aplicarConvolucionHilo` satisfy `0 ≤ yy < alto` and `0 ≤ xx < ancho`, and the kernel index
`(ky + k2) * tamKernel + (kx + k2)` lies in `[0, tamKernel * tamKernel)`; hence the worker
runs to the end without any out-of-bounds access on every source and destination of
shape `alto x ancho x canales` and every kernel of `tamKernel * tamKernel` entries. -/
theorem convolucion_lee_dentro_de_limites {K : Type} [LinearOrderedField K] [FloorRing K]
    (alto ancho canales tam : Int) (hA : 1 ≤ alto) (hW : 1 ≤ ancho) (hC : 0 ≤ canales)
    (hodd : ¬ Even tam) (h3 : 3 ≤ tam) :
    (∀ y x ky kx : Int, -(Int.tdiv tam 2) ≤ ky → ky ≤ Int.tdiv tam 2 →
      -(Int.tdiv tam 2) ≤ kx → kx ≤ Int.tdiv tam 2 →
      (0 ≤ recortar (y + ky) alto ∧ recortar (y + ky) alto < alto) ∧
      (0 ≤ recortar (x + kx) ancho ∧ recortar (x + kx) ancho < ancho) ∧
      0 ≤ (ky + Int.tdiv tam 2) * tam + (kx + Int.tdiv tam 2) ∧
      (ky + Int.tdiv tam 2) * tam + (kx + Int.tdiv tam 2) < tam * tam) ∧
    ∀ (src dst : Matriz) (kernel : List K) (inicio fin hiloId : Int),
      Forma src alto ancho canales → Forma dst alto ancho canales →
      (kernel.length : Int) = tam * tam → 0 ≤ inicio → inicio < fin → fin ≤ alto →
      ∃ dst1, aplicarConvolucionHilo
        (ConvArgs.mk src inicio fin ancho alto canales tam kernel hiloId) dst = some dst1 := by
  have htam : ¬ (Int.tmod tam 2 = 0 ∨ tam < 3) := by
    rw [tmod_dos_cero_iff_par]
    rintro (k | k)
    · exact hodd k
    · omega
  obtain ⟨-, h2, -⟩ := impar_desde_tres tam htam
  constructor
  · intro y x ky kx hky0 hky hkx0 hkx
    exact ⟨recortar_rango _ _ hA, recortar_rango _ _ hW,
      indice_kernel_en_rango tam _ ky kx h2 hky0 hky hkx0 hkx⟩
  · intro src dst kernel a b i hsrc hdst hlen ha hab hb
    have hker : ∀ p q : Nat, p < tam.toNat → q < tam.toNat →
        kernel[p * tam.toNat + q]? = some ((kernel[p * tam.toNat + q]?).getD 0) := by
      intro p q hp hq
      have hidx := indice_kernel_en_rango tam (Int.tdiv tam 2) ((p : Int) - Int.tdiv tam 2)
        ((q : Int) - Int.tdiv tam 2) h2 (by omega) (by omega) (by omega) (by omega)
      have e1 : ((p : Int) - Int.tdiv tam 2 + Int.tdiv tam 2) * tam
          + ((q : Int) - Int.tdiv tam 2 + Int.tdiv tam 2) = (p : Int) * tam + q := by ring
      rw [e1] at hidx
      have e2 : ((p * tam.toNat + q : Nat) : Int) = (p : Int) * tam + q := by
        push_cast
        rw [Int.toNat_of_nonneg (by omega)]
      have hlt : p * tam.toNat + q < kernel.length := by
        have : ((p * tam.toNat + q : Nat) : Int) < (kernel.length : Int) := by
          rw [e2, hlen]; exact hidx.2
        exact_mod_cast this
      rw [List.getElem?_eq_getElem hlt]
      rfl
    obtain ⟨dst1, e, -⟩ := aplicarConvolucionHilo_estado src hsrc hA hW hC tam htam kernel
      (fun p q => (kernel[p * tam.toNat + q]?).getD 0) hker (muestra dst) i a b
      (fun _ _ _ => False) dst ha hab hb (Estado_inicial dst hdst _)
    exact ⟨dst1, e⟩

theorem convolucion_lee_dentro_de_limites_witness :
    ((0 ≤ recortar (0 + -2) 2 ∧ recortar (0 + -2) 2 < 2) ∧
      (0 ≤ recortar (1 + 2) 2 ∧ recortar (1 + 2) 2 < 2) ∧
      0 ≤ (-2 + Int.tdiv 5 2) * 5 + (2 + Int.tdiv 5 2) ∧
      (-2 + Int.tdiv 5 2) * 5 + (2 + Int.tdiv 5 2) < 5 * 5) ∧
    ∃ dst1, aplicarConvolucionHilo
      (ConvArgs.mk imagen2x2 0 2 2 2 1 5 (List.replicate 25 (1 / 25 : ℚ)) 0)
      [[[0], [0]], [[0], [0]]] = some dst1 :=
  ⟨(convolucion_lee_dentro_de_limites (K := ℚ) 2 2 1 5 (by decide) (by decide) (by decide)
      (by decide) (by decide)).1 0 1 (-2) 2 (by decide) (by decide) (by decide) (by decide),
    (convolucion_lee_dentro_de_limites (K := ℚ) 2 2 1 5 (by decide) (by decide) (by decide)
      (by decide) (by decide)).2 imagen2x2 [[[0], [0]], [[0], [0]]]
      (List.replicate 25 (1 / 25 : ℚ)) 0 2 0 (by decide) (by decide) (by simp) (by decide)
      (by decide) (by decide)⟩

/-! ## Composition of brightness adjustments (C29) -/

/-- C29 (counterexample).  On the 4x4 single-channel image of all 200 with
`d1 = 2147483547` (`INT_MAX - 100`) and `d2 = 50`, both positive: brightness `d1` wraps
`200 + d1` to a negative value and gives all 0, brightness `d2` then gives all 50, while
brightness `d1 + d2` applied once gives all 0. -/
theorem brillo_no_se_compone_con_desborde :
    ajustarBrilloConcurrente (imagenUniforme4x4 200) 2147483547 4 todosArrancan
      = some (imagenUniforme4x4 0, 4) ∧
    ajustarBrilloConcurrente (imagenUniforme4x4 0) 50 4 todosArrancan
      = some (imagenUniforme4x4 50, 4) ∧
    ajustarBrilloConcurrente (imagenUniforme4x4 200) (2147483547 + 50) 4 todosArrancan
      = some (imagenUniforme4x4 0, 4) ∧
    imagenUniforme4x4 50 ≠ imagenUniforme4x4 0 := by
  decide

/-- C29 (amended).  For every loaded image and every two deltas `d1`, `d2` of the same sign
(both `≥ 0` or both `≤ 0`) whose sum keeps `old + delta` inside a 32-bit `int`
(`-2147483648 ≤ d1 + d2 ≤ 2147483647 - 255`), with all workers started and whatever
thread counts are requested, `ajustarBrilloConcurrente` with `d1` followed by
`ajustarBrilloConcurrente` with `d2` returns the same image as one call with
`d1 + d2`. -/
theorem brillo_mismo_signo_se_compone (info : ImagenInfo) (d1 d2 n1 n2 n3 : Int)
    (h : BienFormada info) (hs : (0 ≤ d1 ∧ 0 ≤ d2) ∨ (d1 ≤ 0 ∧ d2 ≤ 0))
    (hmin : -2147483648 ≤ d1 + d2) (hmax : d1 + d2 ≤ 2147483647 - 255) :
    ∃ r1 c1 r2 c2 c3,
      ajustarBrilloConcurrente info d1 n1 todosArrancan = some (r1, c1) ∧
      ajustarBrilloConcurrente r1 d2 n2 todosArrancan = some (r2, c2) ∧
      ajustarBrilloConcurrente info (d1 + d2) n3 todosArrancan = some (r2, c3) := by
  have hbf := h
  obtain ⟨hA, hW, hC, hp⟩ := h
  cases hpx : info.pixeles with
  | none => rw [hpx] at hp; exact absurd hp id
  | some m0 =>
    rw [hpx] at hp
    simp only [] at hp
    obtain ⟨m1, c1, e1, hE1⟩ := ajustarBrilloConcurrente_estado info d1 n1 todosArrancan m0
      hpx hbf
    have hbf1 : BienFormada (ImagenInfo.mk info.ancho info.alto info.canales (some m1)) :=
      ⟨hA, hW, hC, hE1.1⟩
    obtain ⟨m2, c2, e2, hE2⟩ := ajustarBrilloConcurrente_estado
      (ImagenInfo.mk info.ancho info.alto info.canales (some m1)) d2 n2 todosArrancan m1
      rfl hbf1
    obtain ⟨m3, c3, e3, hE3⟩ := ajustarBrilloConcurrente_estado info (d1 + d2) n3
      todosArrancan m0 hpx hbf
    dsimp only at e2 hE2
    obtain ⟨k1, -, -⟩ := limitarHilos_rango n1 info.alto hA
    obtain ⟨k2, -, -⟩ := limitarHilos_rango n2 info.alto hA
    obtain ⟨k3, -, -⟩ := limitarHilos_rango n3 info.alto hA
    have hm : m3 = m2 := by
      apply Forma_ext hE3.1 hE2.1
      intro y x c a1 a2 a3 a4 a5 a6
      have q1 := (hE1.2 y x c a1 a2 a3 a4 a5 a6).1 (filaAtendida_todos _ _ y hA k1 a1 a2)
      have q2 := (hE2.2 y x c a1 a2 a3 a4 a5 a6).1 (filaAtendida_todos _ _ y hA k2 a1 a2)
      have q3 := (hE3.2 y x c a1 a2 a3 a4 a5 a6).1 (filaAtendida_todos _ _ y hA k3 a1 a2)
      dsimp only at q1 q2 q3
      rw [q2, q3, muestra_eq q1, envolver32_muestra _ d1 (by omega) (by omega),
        envolver32_muestra _ d2 (by omega) (by omega),
        envolver32_muestra _ (d1 + d2) hmin (by omega), clampuc_compone _ d1 d2 hs]
    rw [hm] at e3
    exact ⟨_, c1, _, c2, c3, e1, e2, e3⟩

theorem brillo_mismo_signo_se_compone_witness :
    ∃ r1 c1 r2 c2 c3,
      ajustarBrilloConcurrente (imagenUniforme4x4 100) 100 2 todosArrancan = some (r1, c1) ∧
      ajustarBrilloConcurrente r1 100 3 todosArrancan = some (r2, c2) ∧
      ajustarBrilloConcurrente (imagenUniforme4x4 100) (100 + 100) 4 todosArrancan
        = some (r2, c3) :=
  brillo_mismo_signo_se_compone (imagenUniforme4x4 100) 100 100 2 3 4 (by decide)
    (Or.inl ⟨by decide, by decide⟩) (by decide) (by decide)

/-! ## Independence of the thread count (C25) -/

theorem indice_plano_division (W C y x c : Int) (hx0 : 0 ≤ x) (hx : x < W) (hc0 : 0 ≤ c)
    (hc : c < C) :
    (y * (W * C) + x * C + c) / (W * C) = y ∧ (y * (W * C) + x * C + c) / C % W = x ∧
      (y * (W * C) + x * C + c) % C = c := by
  have hC : 0 < C := by omega
  have hW : 0 < W := by omega
  have hWC : 0 < W * C := mul_pos hW hC
  have b1 : 0 ≤ x * C := mul_nonneg hx0 (by omega)
  have b2 : (x + 1) * C ≤ W * C := mul_filas_mono (x + 1) W C (by omega) (by omega)
  have b3 : (x + 1) * C = x * C + C := by ring
  refine ⟨?_, ?_, ?_⟩
  · have e : y * (W * C) + x * C + c = (x * C + c) + (W * C) * y := by ring
    rw [e, Int.add_mul_ediv_left _ _ (ne_of_gt hWC), Int.ediv_eq_zero_of_lt (by omega) (by omega)]
    simp
  · have e : y * (W * C) + x * C + c = c + C * (y * W + x) := by ring
    rw [e, Int.add_mul_ediv_left _ _ (ne_of_gt hC), Int.ediv_eq_zero_of_lt hc0 hc, zero_add]
    have e2 : y * W + x = x + W * y := by ring
    rw [e2, Int.add_mul_emod_self_left, Int.emod_eq_of_lt hx0 hx]
  · have e : y * (W * C) + x * C + c = c + C * (y * W + x) := by ring
    rw [e, Int.add_mul_emod_self_left, Int.emod_eq_of_lt hc0 hc]

theorem indice_plano_descompone (A W C i : Int) (hW : 1 ≤ W) (hC : 1 ≤ C) (hi0 : 0 ≤ i)
    (hi : i < A * (W * C)) :
    ∃ y x c, 0 ≤ y ∧ y < A ∧ 0 ≤ x ∧ x < W ∧ 0 ≤ c ∧ c < C ∧
      i = y * (W * C) + x * C + c := by
  have hWC : 0 < W * C := mul_pos (by omega) (by omega)
  have hCp : 0 < C := by omega
  have r0 := Int.emod_nonneg i (ne_of_gt hWC)
  have r1 := Int.emod_lt_of_pos i hWC
  have e1 := Int.ediv_add_emod i (W * C)
  have e2 := Int.ediv_add_emod (i % (W * C)) C
  have c0 := Int.emod_nonneg (i % (W * C)) (ne_of_gt hCp)
  have c1 := Int.emod_lt_of_pos (i % (W * C)) hCp
  refine ⟨i / (W * C), i % (W * C) / C, i % (W * C) % C, Int.ediv_nonneg hi0 (le_of_lt hWC),
    Int.ediv_lt_of_lt_mul hWC hi, Int.ediv_nonneg r0 (le_of_lt hCp),
    Int.ediv_lt_of_lt_mul hCp r1, c0, c1, ?_⟩
  have e3 : i / (W * C) * (W * C) = W * C * (i / (W * C)) := by ring
  have e4 : i % (W * C) / C * C = C * (i % (W * C) / C) := by ring
  omega

theorem datos1D_spec (A W C : Int) (px : Option Matriz) (m : Matriz) (hF : Forma m A W C)
    (hA : 1 ≤ A) (hW : 1 ≤ W) (hC : 1 ≤ C) :
    ∃ datos, datos1D (ImagenInfo.mk W A C px) m = some datos ∧
      (datos.length : Int) = A * (W * C) ∧
      ∀ j, 0 ≤ j → j < A * (W * C) →
        leerLista datos j = some (muestra m (j / (W * C)) (j / C % W) (j % C)) := by
  have hWC : 0 < W * C := mul_pos (by omega) (by omega)
  have hT : 0 ≤ A * (W * C) := mul_nonneg (by omega) (le_of_lt hWC)
  unfold datos1D
  dsimp only
  refine forLoop_inv 0 A _
    (fun y datos => ((datos : List UChar).length : Int) = A * (W * C) ∧
      ∀ j, 0 ≤ j → j < y * (W * C) →
        leerLista datos j = some (muestra m (j / (W * C)) (j / C % W) (j % C)))
    (List.replicate (A * (W * C)).toNat (0 : UChar)) (by omega)
    ⟨by rw [List.length_replicate, Int.toNat_of_nonneg hT],
      fun j h0 h1 => absurd h1 (by rw [zero_mul]; omega)⟩ ?_
  intro y d0 hy0 hy hI
  have q1 : (y + 1) * (W * C) = y * (W * C) + W * C := by ring
  refine Exists.imp ?_ (forLoop_inv 0 W
    (fun x datos => forLoop 0 C (fun c datos =>
      if y * (W * C) + x * C + c < A * (W * C) then
        (leer m y x c).bind fun v => escribirLista datos (y * (W * C) + x * C + c) v
      else some datos) datos)
    (fun x datos => ((datos : List UChar).length : Int) = A * (W * C) ∧
      ∀ j, 0 ≤ j → j < y * (W * C) + x * C →
        leerLista datos j = some (muestra m (j / (W * C)) (j / C % W) (j % C)))
    d0 (by omega)
    ⟨hI.1, fun j h0 h1 => hI.2 j h0 (by rw [zero_mul] at h1; omega)⟩ ?_)
  · rintro d1 ⟨e1, hlen1, hv1⟩
    exact ⟨e1, hlen1, fun j h0 h1 => hv1 j h0 (by omega)⟩
  intro x d2 hx0 hx hI2
  have q2 : (x + 1) * C = x * C + C := by ring
  refine Exists.imp ?_ (forLoop_inv 0 C
    (fun c datos =>
      if y * (W * C) + x * C + c < A * (W * C) then
        (leer m y x c).bind fun v => escribirLista datos (y * (W * C) + x * C + c) v
      else some datos)
    (fun c datos => ((datos : List UChar).length : Int) = A * (W * C) ∧
      ∀ j, 0 ≤ j → j < y * (W * C) + x * C + c →
        leerLista datos j = some (muestra m (j / (W * C)) (j / C % W) (j % C)))
    d2 (by omega)
    ⟨hI2.1, fun j h0 h1 => hI2.2 j h0 (by omega)⟩ ?_)
  · rintro d3 ⟨e3, hlen3, hv3⟩
    exact ⟨e3, hlen3, fun j h0 h1 => hv3 j h0 (by omega)⟩
  intro c d4 hc0 hc hI4
  dsimp only at hI4 ⊢
  have b0 : 0 ≤ y * (W * C) := mul_nonneg hy0 (le_of_lt hWC)
  have b1 : 0 ≤ x * C := mul_nonneg hx0 (by omega)
  have b2 : (x + 1) * C ≤ W * C := mul_filas_mono (x + 1) W C (by omega) (by omega)
  have b3 : (y + 1) * (W * C) ≤ A * (W * C) :=
    mul_filas_mono (y + 1) A (W * C) (by omega) (le_of_lt hWC)
  have hidx : y * (W * C) + x * C + c < A * (W * C) := by omega
  obtain ⟨v, hl⟩ := leer_some hF hy0 hy hx0 hx hc0 hc
  rw [if_pos hidx, hl, Option.some_bind,
    escribirLista_eq d4 _ v (by omega) (by rw [hI4.1]; exact hidx)]
  refine ⟨_, rfl, ?_, ?_⟩
  · rw [List.length_set]; exact hI4.1
  · intro j h0 h1
    rw [leerLista_set d4 _ j v (by omega) (by rw [hI4.1]; exact hidx)]
    by_cases hj : j = y * (W * C) + x * C + c
    · rw [if_pos hj, hj]
      obtain ⟨g1, g2, g3⟩ := indice_plano_division W C y x c hx0 hx hc0 hc
      rw [g1, g2, g3, muestra_eq hl]
    · rw [if_neg hj]
      exact hI4.2 j h0 (by omega)

theorem cargarImagen_muestras (stbi_load : Int → Option Decodificada) (info0 : ImagenInfo)
    (raw : List UChar) (w h ch : Int)
    (hdec : stbi_load 0 = some (Decodificada.mk raw w h ch)) (hch : ch = 1 ∨ ch = 3)
    (hw : 1 ≤ w) (hh : 1 ≤ h) (hlen : (raw.length : Int) = w * h * ch) :
    ∃ m1, cargarImagen stbi_load info0 = some (1, ImagenInfo.mk w h ch (some m1)) ∧
      Forma m1 h w ch ∧
      ∀ y x c, 0 ≤ y → y < h → 0 ≤ x → x < w → 0 ≤ c → c < ch →
        leer m1 y x c = leerLista raw ((y * w + x) * ch + c) := by
  have hch1 : 1 ≤ ch := by omega
  obtain ⟨m0, em, hF0, hz⟩ := crearMatrizPixeles_spec h w ch hh hw hch1
  have hraw : ∀ y x c, 0 ≤ y → y < h → 0 ≤ x → x < w → 0 ≤ c → c < ch →
      ∃ v, leerLista raw ((y * w + x) * ch + c) = some v := by
    intro y x c h1 h2 h3 h4 h5 h6
    obtain ⟨i0, i1⟩ := indice_plano_en_rango w h ch y x c h1 h2 h3 h4 h5 h6
    obtain ⟨v, hv, -⟩ := leerLista_eq raw _ i0 (by rw [hlen]; exact i1)
    exact ⟨v, hv⟩
  obtain ⟨m1, e1, hE⟩ := @filas_loop h w ch (fun _ _ _ => 0)
    (fun y x c => (leerLista raw ((y * w + x) * ch + c)).getD 0)
    (fun _ _ _ => False) 0 h (by omega) (by omega)
    (fun y x m => forLoop 0 ch (fun c m =>
      (leerLista raw ((y * w + x) * ch + c)).bind fun v => escribir m y x c v) m)
    (fun y x m hy1 hy2 hx0 hx hI => by
      refine canales_loop _ y x hy1 hy2 hx0 hx (by omega) _ ?_ m hI
      intro c m2 hc0 hc _
      obtain ⟨v, hv⟩ := hraw y x c hy1 hy2 hx0 hx hc0 hc
      rw [hv]
      rfl)
    m0 ⟨hF0, fun y x c h1 h2 h3 h4 h5 h6 =>
      ⟨fun k => absurd k id, fun _ => hz y x c h1 h2 h3 h4 h5 h6⟩⟩
  refine ⟨m1, ?_, hE.1, ?_⟩
  · unfold cargarImagen
    rw [hdec]
    dsimp only
    rw [if_pos hch, if_neg (by simp)]
    dsimp only
    rw [em]
    dsimp only
    rw [e1]
    rfl
  · intro y x c h1 h2 h3 h4 h5 h6
    obtain ⟨v, hv⟩ := hraw y x c h1 h2 h3 h4 h5 h6
    have := (hE.2 y x c h1 h2 h3 h4 h5 h6).1 (Or.inr ⟨h1, h2⟩)
    dsimp only at this
    rw [hv] at this
    rw [this, hv]
    rfl

/-- C21.  For every loaded image (`ancho`, `alto`, `canales ≥ 1`) the array `datos1D`
built by `guardarPNG` and passed to the encoder has exactly `alto * (ancho * canales)`
bytes; for every in-range `(y, x, c)` the index `y*stride + x*canales + c` passes the
guard `idx < total` and the byte at that index is the sample at `(y, x, c)`.  Hence, for a
buffer that `cargarImagen` loaded from decoded bytes `raw`, `datos1D` is exactly `raw`. -/
theorem guardarPNG_aplana_fila_por_fila (info : ImagenInfo) (m : Matriz)
    (hpx : info.pixeles = some m) (h : BienFormada info)
    (stbi_load : Int → Option Decodificada) (info0 : ImagenInfo) (raw : List UChar)
    (w hh ch : Int) (hdec : stbi_load 0 = some (Decodificada.mk raw w hh ch))
    (hch : ch = 1 ∨ ch = 3) (hw : 1 ≤ w) (hh1 : 1 ≤ hh)
    (hlen : (raw.length : Int) = w * hh * ch) :
    (∃ datos, datos1D info m = some datos ∧
      (datos.length : Int) = info.alto * (info.ancho * info.canales) ∧
      (∀ y x c, 0 ≤ y → y < info.alto → 0 ≤ x → x < info.ancho → 0 ≤ c → c < info.canales →
        y * (info.ancho * info.canales) + x * info.canales + c
            < info.alto * (info.ancho * info.canales) ∧
        ∃ v, leer m y x c = some v ∧
          leerLista datos (y * (info.ancho * info.canales) + x * info.canales + c) = some v) ∧
      ∀ stbi_write_png : Int → Int → Int → List UChar → Int → Int,
        guardarPNG stbi_write_png info =
          some (if stbi_write_png info.ancho info.alto info.canales datos
            (info.ancho * info.canales) ≠ 0 then 1 else 0)) ∧
    (∃ info1 m1, cargarImagen stbi_load info0 = some (1, info1) ∧ info1.pixeles = some m1 ∧
      datos1D info1 m1 = some raw) := by
  constructor
  · obtain ⟨W, A, C, px⟩ := info
    obtain ⟨hA, hW, hC, hp⟩ := h
    dsimp only at hpx hA hW hC hp ⊢
    subst hpx
    dsimp only at hp
    obtain ⟨datos, e, hl, hv⟩ := datos1D_spec A W C (some m) m hp hA hW hC
    have hWC : 0 < W * C := mul_pos (by omega) (by omega)
    refine ⟨datos, e, hl, ?_, ?_⟩
    · intro y x c hy0 hy hx0 hx hc0 hc
      have b0 : 0 ≤ y * (W * C) := mul_nonneg hy0 (le_of_lt hWC)
      have b1 : 0 ≤ x * C := mul_nonneg hx0 (by omega)
      have b2 : (x + 1) * C ≤ W * C := mul_filas_mono (x + 1) W C (by omega) (by omega)
      have b3 : (y + 1) * (W * C) ≤ A * (W * C) :=
        mul_filas_mono (y + 1) A (W * C) (by omega) (le_of_lt hWC)
      have q1 : (y + 1) * (W * C) = y * (W * C) + W * C := by ring
      have q2 : (x + 1) * C = x * C + C := by ring
      have hidx : y * (W * C) + x * C + c < A * (W * C) := by omega
      refine ⟨hidx, ?_⟩
      obtain ⟨v, hlv⟩ := leer_some hp hy0 hy hx0 hx hc0 hc
      refine ⟨v, hlv, ?_⟩
      obtain ⟨g1, g2, g3⟩ := indice_plano_division W C y x c hx0 hx hc0 hc
      rw [hv _ (by omega) hidx, g1, g2, g3, muestra_eq hlv]
    · intro enc
      unfold guardarPNG
      dsimp only
      rw [if_neg (by omega), e]
      rfl
  · have hch1 : 1 ≤ ch := by omega
    obtain ⟨m1, e1, hF, hm⟩ := cargarImagen_muestras stbi_load info0 raw w hh ch hdec hch hw hh1
      hlen
    obtain ⟨datos, e, hl, hv⟩ := datos1D_spec hh w ch (some m1) m1 hF hh1 hw hch1
    refine ⟨_, m1, e1, rfl, ?_⟩
    rw [e]
    congr 1
    apply leerLista_ext
    intro i
    have hT : hh * (w * ch) = w * hh * ch := by ring
    by_cases hi : 0 ≤ i ∧ i < hh * (w * ch)
    · obtain ⟨y, x, c, hy0, hy, hx0, hx, hc0, hc, rfl⟩ :=
        indice_plano_descompone hh w ch i hw hch1 hi.1 hi.2
      obtain ⟨g1, g2, g3⟩ := indice_plano_division w ch y x c hx0 hx hc0 hc
      obtain ⟨v, hlv⟩ := leer_some hF hy0 hy hx0 hx hc0 hc
      have hr := hm y x c hy0 hy hx0 hx hc0 hc
      have ei : (y * w + x) * ch + c = y * (w * ch) + x * ch + c := by ring
      rw [hv _ hi.1 hi.2, g1, g2, g3, muestra_eq hlv, ← ei, ← hr, hlv]
    · rw [leerLista_none datos i (by omega), leerLista_none raw i (by omega)]

theorem guardarPNG_aplana_fila_por_fila_witness :
    (∃ datos, datos1D (ImagenInfo.mk 2 2 1 (some imagen2x2)) imagen2x2 = some datos ∧
      (datos.length : Int) = 2 * (2 * 1) ∧
      ∃ v, leer imagen2x2 1 0 0 = some v ∧ leerLista datos (1 * (2 * 1) + 0 * 1 + 0) = some v) ∧
    (∃ info1 m1, cargarImagen decodificadorEjemplo (ImagenInfo.mk 0 0 0 none)
        = some (1, info1) ∧ info1.pixeles = some m1 ∧
      datos1D info1 m1 = some [10, 20, 30, 40]) := by
  obtain ⟨⟨datos, e, hl, hv, -⟩, h2⟩ := guardarPNG_aplana_fila_por_fila
    (ImagenInfo.mk 2 2 1 (some imagen2x2)) imagen2x2 rfl (by decide) decodificadorEjemplo
    (ImagenInfo.mk 0 0 0 none) [10, 20, 30, 40] 2 2 1 rfl (Or.inl rfl) (by decide) (by decide)
    (by decide)
  exact ⟨⟨datos, e, hl,
    (hv 1 0 0 (by decide) (by decide) (by decide) (by decide) (by decide) (by decide)).2⟩, h2⟩

/-! ## The blur as a convex combination (C28) -/

theorem pesoKernel_nonneg {K : Type} [LinearOrderedField K] (expf : K → K) (pi sigma : K)
    (tam : Int) (a b : Nat) (hexp : ∀ t, 0 ≤ expf t) (hpi : 0 ≤ pi) :
    0 ≤ pesoKernel expf pi sigma tam a b := by
  have hcrudo : ∀ x y : Int, 0 ≤ pesoCrudo expf pi sigma x y := by
    intro x y
    unfold pesoCrudo
    have hd : 0 ≤ 2 * sigma * sigma := by
      have := mul_self_nonneg sigma
      linarith
    exact div_nonneg (hexp _) (mul_nonneg hpi hd)
  unfold pesoKernel
  split_ifs with h1 h2
  · exact div_nonneg (hcrudo _ _) (le_of_lt h1)
  · exact zero_le_one
  · exact le_rfl

theorem suma_convexa {K : Type} [LinearOrderedField K] (n : Nat) (w s : Nat → Nat → K)
    (lo hi : K) (hw : ∀ a b, 0 ≤ w a b)
    (hsum : ∑ a in Finset.range n, ∑ b in Finset.range n, w a b = 1)
    (hs : ∀ a b, a < n → b < n → lo ≤ s a b ∧ s a b ≤ hi) :
    lo ≤ ∑ a in Finset.range n, ∑ b in Finset.range n, w a b * s a b ∧
      ∑ a in Finset.range n, ∑ b in Finset.range n, w a b * s a b ≤ hi := by
  have e1 : ∑ a in Finset.range n, ∑ b in Finset.range n, w a b * lo = lo := by
    simp only [← Finset.sum_mul]
    rw [hsum, one_mul]
  have e2 : ∑ a in Finset.range n, ∑ b in Finset.range n, w a b * hi = hi := by
    simp only [← Finset.sum_mul]
    rw [hsum, one_mul]
  constructor
  · rw [← e1]
    apply Finset.sum_le_sum
    intro a ha
    apply Finset.sum_le_sum
    intro b hb
    exact mul_le_mul_of_nonneg_left
      (hs a b (Finset.mem_range.1 ha) (Finset.mem_range.1 hb)).1 (hw a b)
  · rw [← e2]
    apply Finset.sum_le_sum
    intro a ha
    apply Finset.sum_le_sum
    intro b hb
    exact mul_le_mul_of_nonneg_left
      (hs a b (Finset.mem_range.1 ha) (Finset.mem_range.1 hb)).2 (hw a b)

theorem roundf_entre {K : Type} [LinearOrderedField K] [FloorRing K] (v : K) (lo hi : Nat)
    (h1 : (lo : K) ≤ v) (h2 : v ≤ (hi : K)) :
    (lo : Int) ≤ roundf v ∧ roundf v ≤ (hi : Int) := by
  have hv : 0 ≤ v := le_trans (Nat.cast_nonneg lo) h1
  unfold roundf
  rw [if_pos hv]
  constructor
  · apply Int.le_floor.2
    push_cast
    linarith
  · have : ⌊v + 1 / 2⌋ < (hi : Int) + 1 := by
      apply Int.floor_lt.2
      push_cast
      linarith
    omega

theorem clampuc_entre (r : Int) (lo hi : Nat) (h1 : (lo : Int) ≤ r) (h2 : r ≤ (hi : Int))
    (hhi : hi ≤ 255) : lo ≤ (clampuc r).val ∧ (clampuc r).val ≤ hi := by
  have e := clampuc_val r
  omega

theorem valorConvolucion_entre {K : Type} [LinearOrderedField K] [FloorRing K]
    (w : Nat → Nat → K) (hw : ∀ a b, 0 ≤ w a b) (src : Matriz) (alto ancho tam y x c : Int)
    (hsum : ∑ a in Finset.range tam.toNat, ∑ b in Finset.range tam.toNat, w a b = 1)
    (lo hi : Nat) (hhi : hi ≤ 255)
    (hs : ∀ a b : Nat, a < tam.toNat → b < tam.toNat →
      lo ≤ (muestra src (recortar (y + ((a : Int) - Int.tdiv tam 2)) alto)
          (recortar (x + ((b : Int) - Int.tdiv tam 2)) ancho) c).val ∧
        (muestra src (recortar (y + ((a : Int) - Int.tdiv tam 2)) alto)
          (recortar (x + ((b : Int) - Int.tdiv tam 2)) ancho) c).val ≤ hi) :
    lo ≤ (valorConvolucion w src alto ancho tam y x c).val ∧
      (valorConvolucion w src alto ancho tam y x c).val ≤ hi := by
  unfold valorConvolucion sumaConvolucion
  obtain ⟨c1, c2⟩ := suma_convexa tam.toNat w
    (fun a b => (((muestra src (recortar (y + ((a : Int) - Int.tdiv tam 2)) alto)
      (recortar (x + ((b : Int) - Int.tdiv tam 2)) ancho) c).val : Nat) : K))
    (lo : K) (hi : K) hw hsum
    (fun a b ha hb => ⟨Nat.cast_le.2 (hs a b ha hb).1, Nat.cast_le.2 (hs a b ha hb).2⟩)
  obtain ⟨r1, r2⟩ := roundf_entre _ lo hi c1 c2
  exact clampuc_entre _ lo hi r1 r2 hhi

/-- C28.  In exact arithmetic, for every loaded image and every valid kernel (odd
`tam ≥ 3`, `sigma > 0`; `expf` non-negative and `M_PI` positive), with all workers
started, the sample that `aplicarConvolucionConcurrente` writes for channel `c` at
`(x, y)` is at least the smallest and at most the largest of the source samples of
channel `c` in the edge-clamped kernel window around `(x, y)`: some sample of the window
is `≤` it and some sample of the window is `≥` it. -/
theorem desenfoque_entre_minimo_y_maximo {K : Type} [LinearOrderedField K] [FloorRing K]
    (expf : K → K) (pi : K) (info : ImagenInfo) (src : Matriz) (tam : Int) (sigma : K)
    (numHilos : Int) (hpx : info.pixeles = some src) (h : BienFormada info)
    (hodd : ¬ Even tam) (h3 : 3 ≤ tam) (_hs : 0 < sigma) (hexp : ∀ t, 0 ≤ expf t)
    (hpi : 0 < pi) :
    ∃ dst cnt, aplicarConvolucionConcurrente expf pi info tam sigma numHilos todosArrancan =
        some (ImagenInfo.mk info.ancho info.alto info.canales (some dst), cnt) ∧
      ∀ y x c, 0 ≤ y → y < info.alto → 0 ≤ x → x < info.ancho → 0 ≤ c → c < info.canales →
        ∃ v, leer dst y x c = some v ∧
          (∃ ky kx s, -(Int.tdiv tam 2) ≤ ky ∧ ky ≤ Int.tdiv tam 2 ∧
            -(Int.tdiv tam 2) ≤ kx ∧ kx ≤ Int.tdiv tam 2 ∧
            leer src (recortar (y + ky) info.alto) (recortar (x + kx) info.ancho) c = some s ∧
            s ≤ v) ∧
          (∃ ky kx s, -(Int.tdiv tam 2) ≤ ky ∧ ky ≤ Int.tdiv tam 2 ∧
            -(Int.tdiv tam 2) ≤ kx ∧ kx ≤ Int.tdiv tam 2 ∧
            leer src (recortar (y + ky) info.alto) (recortar (x + kx) info.ancho) c = some s ∧
            v ≤ s) := by
  have htam : ¬ (Int.tmod tam 2 = 0 ∨ tam < 3) := by
    rw [tmod_dos_cero_iff_par]
    rintro (k | k)
    · exact hodd k
    · omega
  obtain ⟨-, ht2, hk2⟩ := impar_desde_tres tam htam
  have hbf := h
  obtain ⟨hA, hW, hC, hp⟩ := h
  rw [hpx] at hp
  simp only [] at hp
  obtain ⟨dst, cnt, e, -, -, hE⟩ := aplicarConvolucionConcurrente_estado expf pi info tam
    sigma numHilos todosArrancan src hpx hbf htam
  obtain ⟨hn1, -, -⟩ := limitarHilos_rango numHilos info.alto hA
  refine ⟨dst, cnt, e, ?_⟩
  intro y x c h1 h2 h3' h4 h5 h6
  have hval := (hE.2 y x c h1 h2 h3' h4 h5 h6).1 (filaAtendida_todos _ _ y hA hn1 h1 h2)
  have hwpos : ∀ a b : Nat,
      0 ≤ pesoKernel expf pi (if sigma ≤ 0 then 1 else sigma) tam a b :=
    fun a b => pesoKernel_nonneg expf pi _ tam a b hexp (le_of_lt hpi)
  refine ⟨_, hval, ?_, ?_⟩
  · by_contra hno
    have hall : ∀ a b : Nat, a < tam.toNat → b < tam.toNat →
        (valorConvolucion (pesoKernel expf pi (if sigma ≤ 0 then 1 else sigma) tam) src
            info.alto info.ancho tam y x c).val + 1 ≤
          (muestra src (recortar (y + ((a : Int) - Int.tdiv tam 2)) info.alto)
            (recortar (x + ((b : Int) - Int.tdiv tam 2)) info.ancho) c).val ∧
        (muestra src (recortar (y + ((a : Int) - Int.tdiv tam 2)) info.alto)
            (recortar (x + ((b : Int) - Int.tdiv tam 2)) info.ancho) c).val ≤ 255 := by
      intro a b ha hb
      have ry := recortar_rango (y + ((a : Int) - Int.tdiv tam 2)) info.alto hA
      have rx := recortar_rango (x + ((b : Int) - Int.tdiv tam 2)) info.ancho hW
      obtain ⟨s, hs⟩ := leer_some hp ry.1 ry.2 rx.1 rx.2 h5 h6
      rw [muestra_eq hs]
      refine ⟨?_, by have := s.isLt; omega⟩
      by_contra hlt
      apply hno
      refine ⟨(a : Int) - Int.tdiv tam 2, (b : Int) - Int.tdiv tam 2, s, by omega, by omega,
        by omega, by omega, hs, ?_⟩
      rw [Fin.le_def]
      omega
    have := (valorConvolucion_entre
      (pesoKernel expf pi (if sigma ≤ 0 then 1 else sigma) tam) hwpos src info.alto
      info.ancho tam y x c (pesoKernel_suma expf pi _ tam htam) _ 255 le_rfl hall).1
    omega
  · by_cases hv0 : (valorConvolucion (pesoKernel expf pi (if sigma ≤ 0 then 1 else sigma) tam)
        src info.alto info.ancho tam y x c).val = 0
    · have ry := recortar_rango (y + 0) info.alto hA
      have rx := recortar_rango (x + 0) info.ancho hW
      obtain ⟨s, hs⟩ := leer_some hp ry.1 ry.2 rx.1 rx.2 h5 h6
      refine ⟨0, 0, s, by omega, by omega, by omega, by omega, hs, ?_⟩
      rw [Fin.le_def, hv0]
      exact Nat.zero_le _
    by_contra hno
    have hall : ∀ a b : Nat, a < tam.toNat → b < tam.toNat →
        0 ≤ (muestra src (recortar (y + ((a : Int) - Int.tdiv tam 2)) info.alto)
            (recortar (x + ((b : Int) - Int.tdiv tam 2)) info.ancho) c).val ∧
        (muestra src (recortar (y + ((a : Int) - Int.tdiv tam 2)) info.alto)
            (recortar (x + ((b : Int) - Int.tdiv tam 2)) info.ancho) c).val ≤
          (valorConvolucion (pesoKernel expf pi (if sigma ≤ 0 then 1 else sigma) tam) src
            info.alto info.ancho tam y x c).val - 1 := by
      intro a b ha hb
      have ry := recortar_rango (y + ((a : Int) - Int.tdiv tam 2)) info.alto hA
      have rx := recortar_rango (x + ((b : Int) - Int.tdiv tam 2)) info.ancho hW
      obtain ⟨s, hs⟩ := leer_some hp ry.1 ry.2 rx.1 rx.2 h5 h6
      rw [muestra_eq hs]
      refine ⟨Nat.zero_le _, ?_⟩
      by_contra hlt
      apply hno
      refine ⟨(a : Int) - Int.tdiv tam 2, (b : Int) - Int.tdiv tam 2, s, by omega, by omega,
        by omega, by omega, hs, ?_⟩
      rw [Fin.le_def]
      omega
    have hv255 := (valorConvolucion (pesoKernel expf pi (if sigma ≤ 0 then 1 else sigma) tam) src
      info.alto info.ancho tam y x c).isLt
    have := (valorConvolucion_entre
      (pesoKernel expf pi (if sigma ≤ 0 then 1 else sigma) tam) hwpos src info.alto
      info.ancho tam y x c (pesoKernel_suma expf pi _ tam htam) 0 _ (by omega) hall).2
    have h00 := (hall 0 0 (by omega) (by omega)).2
    omega

theorem desenfoque_entre_minimo_y_maximo_witness :
    ∃ dst cnt, aplicarConvolucionConcurrente (fun _ : ℚ => 1) (3 : ℚ) imagenRGB2x2 3 (1 : ℚ) 2
        todosArrancan = some (ImagenInfo.mk 2 2 3 (some dst), cnt) ∧
      ∃ v, leer dst 0 1 2 = some v ∧ (30 : UChar) ≤ v ∧ v ≤ (120 : UChar) := by
  obtain ⟨dst, cnt, e, hv⟩ := desenfoque_entre_minimo_y_maximo (fun _ : ℚ => 1) (3 : ℚ)
    imagenRGB2x2 [[[10, 20, 30], [40, 50, 60]], [[70, 80, 90], [100, 110, 120]]] 3 (1 : ℚ) 2
    rfl (by decide) (by decide) (by decide) (by norm_num) (fun _ => zero_le_one)
    (by norm_num)
  refine ⟨dst, cnt, e, ?_⟩
  obtain ⟨v, h1, ⟨ky, kx, s, a1, a2, a3, a4, hs, hle⟩, ⟨ky2, kx2, s2, b1, b2, b3, b4, hs2, hge⟩⟩ :=
    hv 0 1 2 (by decide) (by decide) (by decide) (by decide) (by decide) (by decide)
  refine ⟨v, h1, le_trans ?_ hle, le_trans hge ?_⟩
  · have e2 : Int.tdiv 3 2 = 1 := by decide
    rw [e2] at a1 a2 a3 a4
    have hk : ky = -1 ∨ ky = 0 ∨ ky = 1 := by omega
    have hx : kx = -1 ∨ kx = 0 ∨ kx = 1 := by omega
    rcases hk with rfl | rfl | rfl <;> rcases hx with rfl | rfl | rfl <;>
      · have := Option.some.inj (hs.symm.trans (by rfl : leer _ _ _ _ = some _))
        subst this
        decide
  · have e2 : Int.tdiv 3 2 = 1 := by decide
    rw [e2] at b1 b2 b3 b4
    have hk : ky2 = -1 ∨ ky2 = 0 ∨ ky2 = 1 := by omega
    have hx : kx2 = -1 ∨ kx2 = 0 ∨ kx2 = 1 := by omega
    rcases hk with rfl | rfl | rfl <;> rcases hx with rfl | rfl | rfl <;>
      · have := Option.some.inj (hs2.symm.trans (by rfl : leer _ _ _ _ = some _))
        subst this
        decide

/-! ## The two Gaussian kernels (C30) -/

theorem Tabla_congr {K : Type} {n : Int} {f g : Int → Int → K} {k : List (List K)}
    (h : Tabla n f k) (hfg : ∀ a b, 0 ≤ a → a < n → 0 ≤ b → b < n → f a b = g a b) :
    Tabla n g k := by
  refine ⟨h.1, ?_⟩
  intro a ha0 ha
  obtain ⟨fila, e, hl, hv⟩ := h.2 a ha0 ha
  exact ⟨fila, e, hl, fun b hb0 hb => by rw [hv b hb0 hb, hfg a b ha0 ha hb0 hb]⟩

theorem Tabla_escribir {K : Type} {n : Int} {f : Int → Int → K} {k : List (List K)}
    (h : Tabla n f k) (a b : Int) (ha0 : 0 ≤ a) (ha : a < n) (hb0 : 0 ≤ b) (hb : b < n)
    (v : K) :
    ∃ fila fila1 k1, leerLista k a = some fila ∧ leerLista fila b = some (f a b) ∧
      escribirLista fila b v = some fila1 ∧ escribirLista k a fila1 = some k1 ∧
      Tabla n (fun a1 b1 => if a1 = a ∧ b1 = b then v else f a1 b1) k1 := by
  obtain ⟨fila, e, hl, hv⟩ := h.2 a ha0 ha
  refine ⟨fila, fila.set b.toNat v, k.set a.toNat (fila.set b.toNat v), e, hv b hb0 hb,
    escribirLista_eq fila b v hb0 (by rw [hl]; exact hb),
    escribirLista_eq k a _ ha0 (by rw [h.1]; exact ha), ?_, ?_⟩
  · rw [List.length_set]; exact h.1
  · intro a1 h1 h2
    rw [leerLista_set k a a1 _ ha0 (by rw [h.1]; exact ha)]
    by_cases q : a1 = a
    · subst q
      rw [if_pos rfl]
      refine ⟨_, rfl, by rw [List.length_set]; exact hl, ?_⟩
      intro b1 g1 g2
      dsimp only
      rw [leerLista_set fila b b1 v hb0 (by rw [hl]; exact hb)]
      by_cases r : b1 = b
      · rw [if_pos r, if_pos ⟨rfl, r⟩]
      · rw [if_neg r, if_neg (fun z => r z.2)]
        exact hv b1 g1 g2
    · rw [if_neg q]
      obtain ⟨fila2, e2, hl2, hv2⟩ := h.2 a1 h1 h2
      refine ⟨fila2, e2, hl2, ?_⟩
      intro b1 g1 g2
      dsimp only
      rw [if_neg (fun z => q z.1)]
      exact hv2 b1 g1 g2

theorem Tabla_replicate {K : Type} (n : Int) (hn : 0 ≤ n) (z : K) :
    Tabla n (fun _ _ => z) (List.replicate n.toNat (List.replicate n.toNat z)) := by
  refine ⟨by rw [List.length_replicate, Int.toNat_of_nonneg hn], ?_⟩
  intro a ha0 ha
  obtain ⟨fila, e, hm⟩ := leerLista_eq (List.replicate n.toNat (List.replicate n.toNat z)) a
    ha0 (by rw [List.length_replicate, Int.toNat_of_nonneg hn]; exact ha)
  have hf := List.eq_of_mem_replicate hm
  subst hf
  refine ⟨_, e, by rw [List.length_replicate, Int.toNat_of_nonneg hn], ?_⟩
  intro b hb0 hb
  obtain ⟨v, e2, hm2⟩ := leerLista_eq (List.replicate n.toNat z) b hb0
    (by rw [List.length_replicate, Int.toNat_of_nonneg hn]; exact hb)
  rw [e2, List.eq_of_mem_replicate hm2]

/-- Two nested loops over an `n x n` table that replace entry `(y, x)`, holding
`f0 y x`, by `f1 y x` and add `d y x` to an accumulator. -/
theorem tabla_loop {K : Type} [LinearOrderedField K] {σ : Type} (tab : σ → List (List K))
    (acc : σ → K) (n : Int) (N : Nat) (hN : (N : Int) = n) (f0 f1 d : Int → Int → K)
    (paso : Int → Int → σ → Option σ)
    (hpaso : ∀ (y x : Int) (s : σ) (F : Int → Int → K), 0 ≤ y → y < n → 0 ≤ x → x < n →
      Tabla n F (tab s) → F y x = f0 y x →
      ∃ s1, paso y x s = some s1 ∧ acc s1 = acc s + d y x ∧
        Tabla n (fun a b => if a = y ∧ b = x then f1 y x else F a b) (tab s1))
    (s0 : σ) (h0 : Tabla n f0 (tab s0)) :
    ∃ s, forLoop 0 n (fun y s => forLoop 0 n (fun x s => paso y x s) s) s0 = some s ∧
      Tabla n f1 (tab s) ∧
      acc s = acc s0 + ∑ a in Finset.range N, ∑ b in Finset.range N, d a b := by
  have hcnt : (n - 0).toNat = N := by omega
  have key := forLoop_inv_nat 0 n
    (fun y s => forLoop 0 n (fun x s => paso y x s) s)
    (fun j s => Tabla n (fun a b => if a < (j : Int) then f1 a b else f0 a b) (tab s) ∧
      acc s = acc s0 + ∑ a in Finset.range j, ∑ b in Finset.range N, d a b)
    s0 ⟨Tabla_congr h0 (fun a b ha0 _ _ _ => by
      rw [if_neg (by push_cast; omega)]),
      by simp⟩ ?_
  · rw [hcnt] at key
    obtain ⟨s, e, hT, hs⟩ := key
    exact ⟨s, e, Tabla_congr hT (fun a b _ ha _ _ => by
      rw [if_pos (by omega)]), hs⟩
  · intro j s hj ⟨hT, hs⟩
    have inner := forLoop_inv_nat 0 n (fun x s => paso (0 + (j : Int)) x s)
      (fun i t => Tabla n (fun a b => if a < (j : Int) ∨ (a = (j : Int) ∧ b < (i : Int))
          then f1 a b else f0 a b) (tab t) ∧
        acc t = acc s0 + (∑ a in Finset.range j, ∑ b in Finset.range N, d a b) +
          ∑ b in Finset.range i, d j b)
      s ⟨Tabla_congr hT (fun a b _ _ hb0 _ => by
          by_cases q : a < (j : Int)
          · rw [if_pos q, if_pos (Or.inl q)]
          · rw [if_neg q, if_neg (by push_cast; omega)]), by simp [hs]⟩ ?_
    · rw [hcnt] at inner
      obtain ⟨t, e, hT2, ht⟩ := inner
      refine ⟨t, e, Tabla_congr hT2 (fun a b _ _ _ hb => ?_), ?_⟩
      · dsimp only
        by_cases q : a < (j : Int) ∨ (a = (j : Int) ∧ b < (N : Int))
        · rw [if_pos q, if_pos (by push_cast; omega)]
        · rw [if_neg q, if_neg (by push_cast; omega)]
      · rw [ht, Finset.sum_range_succ, add_assoc]
    · intro i t hi ⟨hT2, ht⟩
      have hy : (0 : Int) + (j : Int) = j := zero_add _
      have hx : (0 : Int) + (i : Int) = i := zero_add _
      rw [hy, hx]
      obtain ⟨s1, e1, a1, T1⟩ := hpaso j i t _ (by omega) (by omega) (by omega) (by omega) hT2
        (by rw [if_neg (by omega)])
      refine ⟨s1, e1, Tabla_congr T1 (fun a b _ _ _ _ => ?_), ?_⟩
      · dsimp only
        by_cases q : a = (j : Int) ∧ b = (i : Int)
        · rw [if_pos q, if_pos (by push_cast; omega), q.1, q.2]
        · rw [if_neg q]
          by_cases r : a < (j : Int) ∨ (a = (j : Int) ∧ b < (i : Int))
          · rw [if_pos r, if_pos (by push_cast; omega)]
          · rw [if_neg r, if_neg (by push_cast; omega)]
      · rw [a1, ht, Finset.sum_range_succ]
        ring

theorem generarKernelGaussiano_spec {K : Type} [LinearOrderedField K] (expf : K → K)
    (tam : Int) (sigma : K) (htam : 0 ≤ tam) :
    ∃ ker, generarKernelGaussiano expf tam sigma = some ker ∧
      Tabla tam (fun a b =>
        expf (((-((b - Int.tdiv tam 2) * (b - Int.tdiv tam 2)
          + (a - Int.tdiv tam 2) * (a - Int.tdiv tam 2)) : Int) : K) / (2 * sigma * sigma)) /
        ∑ p in Finset.range tam.toNat, ∑ q in Finset.range tam.toNat,
          expf (((-(((q : Int) - Int.tdiv tam 2) * ((q : Int) - Int.tdiv tam 2)
            + ((p : Int) - Int.tdiv tam 2) * ((p : Int) - Int.tdiv tam 2)) : Int) : K)
              / (2 * sigma * sigma))) ker := by
  have hN : ((tam.toNat : Nat) : Int) = tam := Int.toNat_of_nonneg htam
  obtain ⟨st, e1, T1, s1⟩ := @tabla_loop K _ (List (List K) × K) Prod.fst Prod.snd tam
    tam.toNat hN (fun _ _ => 0)
    (fun a b => expf (((-((b - Int.tdiv tam 2) * (b - Int.tdiv tam 2)
      + (a - Int.tdiv tam 2) * (a - Int.tdiv tam 2)) : Int) : K) / (2 * sigma * sigma)))
    (fun a b => expf (((-((b - Int.tdiv tam 2) * (b - Int.tdiv tam 2)
      + (a - Int.tdiv tam 2) * (a - Int.tdiv tam 2)) : Int) : K) / (2 * sigma * sigma)))
    (fun y x st =>
      (leerLista st.1 y).bind fun fila =>
        (escribirLista fila x (expf (((-((x - Int.tdiv tam 2) * (x - Int.tdiv tam 2)
            + (y - Int.tdiv tam 2) * (y - Int.tdiv tam 2)) : Int) : K)
              / (2 * sigma * sigma)))).bind fun fila1 =>
          (escribirLista st.1 y fila1).map fun k =>
            (k, st.2 + expf (((-((x - Int.tdiv tam 2) * (x - Int.tdiv tam 2)
              + (y - Int.tdiv tam 2) * (y - Int.tdiv tam 2)) : Int) : K)
                / (2 * sigma * sigma))))
    (fun y x s F hy0 hy hx0 hx hT _ => by
      obtain ⟨fila, fila1, k1, q1, -, q3, q4, q5⟩ := Tabla_escribir hT y x hy0 hy hx0 hx
        (expf (((-((x - Int.tdiv tam 2) * (x - Int.tdiv tam 2)
          + (y - Int.tdiv tam 2) * (y - Int.tdiv tam 2)) : Int) : K) / (2 * sigma * sigma)))
      refine ⟨(k1, _), ?_, rfl, q5⟩
      dsimp only
      rw [q1, Option.some_bind, q3, Option.some_bind, q4]
      rfl)
    (List.replicate tam.toNat (List.replicate tam.toNat 0), 0) (Tabla_replicate tam htam 0)
  dsimp only at T1 s1
  rw [zero_add] at s1
  obtain ⟨ker, e2, T2, -⟩ := @tabla_loop K _ (List (List K)) id (fun _ => 0) tam
    tam.toNat hN
    (fun a b => expf (((-((b - Int.tdiv tam 2) * (b - Int.tdiv tam 2)
      + (a - Int.tdiv tam 2) * (a - Int.tdiv tam 2)) : Int) : K) / (2 * sigma * sigma)))
    (fun a b => expf (((-((b - Int.tdiv tam 2) * (b - Int.tdiv tam 2)
      + (a - Int.tdiv tam 2) * (a - Int.tdiv tam 2)) : Int) : K) / (2 * sigma * sigma))
      / st.2)
    (fun _ _ => 0)
    (fun y x k =>
      (leerLista k y).bind fun fila =>
        (leerLista fila x).bind fun w =>
          (escribirLista fila x (w / st.2)).bind fun fila1 => escribirLista k y fila1)
    (fun y x s F hy0 hy hx0 hx hT hF => by
      have hT1 : Tabla tam F s := hT
      obtain ⟨fila, fila1, k1, q1, q2, q3, q4, q5⟩ := Tabla_escribir hT1 y x hy0 hy hx0 hx
        (F y x / st.2)
      refine ⟨k1, ?_, by simp, ?_⟩
      · dsimp only
        rw [q1, Option.some_bind, q2, Option.some_bind, q3, Option.some_bind, q4]
      · rw [hF] at q5
        exact q5)
    st.1 T1
  refine ⟨ker, ?_, ?_⟩
  · unfold generarKernelGaussiano
    dsimp only
    rw [e1, Option.some_bind]
    exact e2
  · rw [s1] at T2
    exact T2

theorem pesoKernel_sin_factor {K : Type} [LinearOrderedField K] (expf : K → K)
    (pi sigma : K) (tam : Int) (a b : Nat) (hexp : ∀ t, 0 < expf t) (hpi : 0 < pi)
    (hs : 0 < sigma) (hN : 0 < tam.toNat) :
    pesoKernel expf pi sigma tam a b =
      expf (((-(((b : Int) - Int.tdiv tam 2) * ((b : Int) - Int.tdiv tam 2)
          + ((a : Int) - Int.tdiv tam 2) * ((a : Int) - Int.tdiv tam 2)) : Int) : K)
            / (2 * sigma * sigma)) /
        ∑ p in Finset.range tam.toNat, ∑ q in Finset.range tam.toNat,
          expf (((-(((q : Int) - Int.tdiv tam 2) * ((q : Int) - Int.tdiv tam 2)
            + ((p : Int) - Int.tdiv tam 2) * ((p : Int) - Int.tdiv tam 2)) : Int) : K)
              / (2 * sigma * sigma)) := by
  have hD : 0 < pi * (2 * sigma * sigma) := by positivity
  have hcr : ∀ x y : Int, pesoCrudo expf pi sigma x y =
      expf (((-(x * x + y * y) : Int) : K) / (2 * sigma * sigma)) / (pi * (2 * sigma * sigma)) := by
    intro x y
    unfold pesoCrudo
    rw [Int.cast_neg]
  have hSpos : 0 < ∑ p in Finset.range tam.toNat, ∑ q in Finset.range tam.toNat,
      expf (((-(((q : Int) - Int.tdiv tam 2) * ((q : Int) - Int.tdiv tam 2)
        + ((p : Int) - Int.tdiv tam 2) * ((p : Int) - Int.tdiv tam 2)) : Int) : K)
          / (2 * sigma * sigma)) :=
    Finset.sum_pos (fun p _ => Finset.sum_pos (fun q _ => hexp _)
      ⟨0, Finset.mem_range.2 hN⟩) ⟨0, Finset.mem_range.2 hN⟩
  have hsum : sumaCruda expf pi sigma tam =
      (∑ p in Finset.range tam.toNat, ∑ q in Finset.range tam.toNat,
        expf (((-(((q : Int) - Int.tdiv tam 2) * ((q : Int) - Int.tdiv tam 2)
          + ((p : Int) - Int.tdiv tam 2) * ((p : Int) - Int.tdiv tam 2)) : Int) : K)
            / (2 * sigma * sigma))) / (pi * (2 * sigma * sigma)) := by
    unfold sumaCruda
    simp only [hcr, Finset.sum_div]
  unfold pesoKernel
  rw [if_pos (by rw [hsum]; exact div_pos hSpos hD), hcr, hsum]
  field_simp

/-- C30.  In exact arithmetic, for every odd `tam ≥ 3` and every `sigma > 0` (`expf`
positive, `M_PI` positive), `generarKernelGaussiano` of `img_reto2.c` and
`generarKernelGauss` of `parcial2.c` both return a kernel, and entry `[a][b]` of the
first equals entry `[a * tam + b]` of the second for all `0 ≤ a, b < tam`: the constant
factor `1 / (M_PI * 2 * sigma^2)` cancels in the normalisation. -/
theorem kernels_gaussianos_coinciden {K : Type} [LinearOrderedField K] (expf : K → K)
    (pi : K) (tam : Int) (sigma : K) (hodd : ¬ Even tam) (h3 : 3 ≤ tam) (hs : 0 < sigma)
    (hexp : ∀ t, 0 < expf t) (hpi : 0 < pi) :
    ∃ k1 k2, generarKernelGauss expf pi tam sigma = some k1 ∧
      generarKernelGaussiano expf tam sigma = some k2 ∧
      (k1.length : Int) = tam * tam ∧ (k2.length : Int) = tam ∧
      ∀ a b : Int, 0 ≤ a → a < tam → 0 ≤ b → b < tam →
        ∃ w fila, leerLista k1 (a * tam + b) = some w ∧ leerLista k2 a = some fila ∧
          (fila.length : Int) = tam ∧ leerLista fila b = some w := by
  have htam : ¬ (Int.tmod tam 2 = 0 ∨ tam < 3) := by
    rw [tmod_dos_cero_iff_par]
    rintro (k | k)
    · exact hodd k
    · omega
  obtain ⟨k1, e1, hl1, hv1⟩ := generarKernelGauss_spec expf pi tam sigma htam
  obtain ⟨k2, e2, hT⟩ := generarKernelGaussiano_spec expf tam sigma (by omega)
  have hN : ((tam.toNat : Nat) : Int) = tam := Int.toNat_of_nonneg (by omega)
  refine ⟨k1, k2, e1, e2, ?_, hT.1, ?_⟩
  · rw [hl1]
    push_cast
    rw [hN]
  · intro a b ha0 ha hb0 hb
    obtain ⟨fila, q1, q2, q3⟩ := hT.2 a ha0 ha
    refine ⟨_, fila, ?_, q1, q2, q3 b hb0 hb⟩
    have ea : ((a.toNat : Nat) : Int) = a := Int.toNat_of_nonneg ha0
    have eb : ((b.toNat : Nat) : Int) = b := Int.toNat_of_nonneg hb0
    have hidx : a * tam + b = ((a.toNat * tam.toNat + b.toNat : Nat) : Int) := by
      push_cast
      rw [ea, eb, hN]
    rw [hidx, leerLista_natCast, hv1 a.toNat b.toNat (by omega) (by omega),
      pesoKernel_sin_factor expf pi sigma tam a.toNat b.toNat hexp hpi hs (by omega), ea, eb]

theorem kernels_gaussianos_coinciden_witness :
    ∃ k1 k2, generarKernelGauss (fun _ : ℚ => 1) (3 : ℚ) 3 (1 : ℚ) = some k1 ∧
      generarKernelGaussiano (fun _ : ℚ => 1) 3 (1 : ℚ) = some k2 ∧
      (k1.length : Int) = 3 * 3 ∧ (k2.length : Int) = 3 ∧
      ∀ a b : Int, 0 ≤ a → a < 3 → 0 ≤ b → b < 3 →
        ∃ w fila, leerLista k1 (a * 3 + b) = some w ∧ leerLista k2 a = some fila ∧
          (fila.length : Int) = 3 ∧ leerLista fila b = some w :=
  kernels_gaussianos_coinciden (fun _ : ℚ => 1) (3 : ℚ) 3 (1 : ℚ) (by decide) (by decide)
    (by norm_num) (fun _ => zero_lt_one) (by norm_num)

/-! ## Rounding lemmas -/

theorem redondeoPar_entero (n : Int) : redondeoPar (n : ℚ) = n := by
  unfold redondeoPar
  rw [Int.floor_intCast, sub_self, if_pos (by norm_num)]

theorem redondeoPar_cerca (x : ℚ) (n : Int) (h1 : (n : ℚ) - 1 / 2 < x)
    (h2 : x < (n : ℚ) + 1 / 2) : redondeoPar x = n := by
  unfold redondeoPar
  by_cases hx : (n : ℚ) ≤ x
  · have hf : ⌊x⌋ = n := by
      rw [Int.floor_eq_iff]
      constructor
      · exact hx
      · linarith
    rw [hf, if_pos (by linarith)]
  · have hx1 : x < (n : ℚ) := not_le.1 hx
    have hf : ⌊x⌋ = n - 1 := by
      rw [Int.floor_eq_iff]
      push_cast
      constructor <;> linarith
    rw [hf]
    push_cast
    rw [if_neg (by linarith), if_pos (by linarith)]
    omega

theorem redondeoPar_empate (n : Int) :
    redondeoPar ((n : ℚ) + 1 / 2) = if n % 2 = 0 then n else n + 1 := by
  have hf : ⌊(n : ℚ) + 1 / 2⌋ = n := by
    rw [Int.floor_eq_iff]
    constructor <;> linarith
  unfold redondeoPar
  rw [hf, if_neg (by linarith), if_neg (by linarith)]

theorem log2_eq (q : ℚ) (L : Int) (h1 : (2 : ℚ) ^ L ≤ q) (h2 : q < (2 : ℚ) ^ (L + 1)) :
    Int.log 2 q = L := by
  have hq : 0 < q := lt_of_lt_of_le (zpow_pos (by norm_num) L) h1
  have a1 : L ≤ Int.log 2 q := by
    have := (Int.zpow_le_iff_le_log (R := ℚ) (b := 2) (by norm_num) hq (x := L)).1
      (by exact_mod_cast h1)
    exact this
  have a2 : Int.log 2 q < L + 1 := by
    have := (Int.lt_zpow_iff_log_lt (R := ℚ) (b := 2) (by norm_num) hq (x := L + 1)).1
      (by exact_mod_cast h2)
    exact this
  omega

theorem dos_zpow_lt (a b : Int) (h : (2 : ℚ) ^ a < (2 : ℚ) ^ b) : a < b := by
  by_contra hc
  have := zpow_le_zpow_right₀ (a := (2 : ℚ)) (by norm_num) (not_lt.1 hc)
  linarith

/-- A value `n * 2^e` with `|n| < 2^p` and `e` not below the subnormal step, and below the
overflow threshold, is left unchanged by rounding. -/
theorem redondear_representable (f : Formato) (q : ℚ) (n e : Int)
    (hq : q = (n : ℚ) * (2 : ℚ) ^ e) (hn : |(n : ℚ)| < (2 : ℚ) ^ (f.p : Int))
    (he : f.emin ≤ e) (hT : |q| < umbral f) : redondear f q = Flotante.finito q := by
  unfold redondear
  rw [if_neg (not_le.2 hT)]
  congr 1
  by_cases h0 : q = 0
  · rw [h0, zero_div]
    have : redondeoPar (0 : ℚ) = 0 := by
      have := redondeoPar_entero 0
      simpa using this
    rw [this]
    simp
  · have hqpos : 0 < |q| := abs_pos.2 h0
    have hE : exponente f q ≤ e := by
      unfold exponente
      apply max_le _ he
      have l1 := Int.zpow_log_le_self (R := ℚ) (b := 2) (by norm_num) hqpos
      have l2 : |q| < (2 : ℚ) ^ ((f.p : Int) + e) := by
        rw [hq, abs_mul, abs_of_pos (zpow_pos (by norm_num : (0 : ℚ) < 2) e),
          zpow_add₀ (by norm_num : (2 : ℚ) ≠ 0)]
        exact mul_lt_mul_of_pos_right hn (zpow_pos (by norm_num) e)
      have l3 : Int.log 2 |q| < (f.p : Int) + e := by
        apply dos_zpow_lt
        have : ((2 : ℕ) : ℚ) ^ Int.log 2 |q| ≤ |q| := l1
        push_cast at this
        linarith
      omega
    have hk : 0 ≤ e - exponente f q := by omega
    have hdiv : q / (2 : ℚ) ^ exponente f q =
        ((n * 2 ^ (e - exponente f q).toNat : Int) : ℚ) := by
      push_cast
      rw [← zpow_natCast, Int.toNat_of_nonneg hk, hq, zpow_sub₀ (by norm_num : (2 : ℚ) ≠ 0)]
      field_simp
    rw [hdiv, redondeoPar_entero, ← hdiv]
    field_simp

/-- Evaluation of a rounding whose exact result lies strictly between two half steps. -/
theorem redondear_eval (f : Formato) (q : ℚ) (L E n : Int)
    (h1 : (2 : ℚ) ^ L ≤ |q|) (h2 : |q| < (2 : ℚ) ^ (L + 1))
    (hE : E = max (L - ((f.p : Int) - 1)) f.emin) (hT : |q| < umbral f)
    (hn1 : (n : ℚ) - 1 / 2 < q / (2 : ℚ) ^ E) (hn2 : q / (2 : ℚ) ^ E < (n : ℚ) + 1 / 2) :
    redondear f q = Flotante.finito ((n : ℚ) * (2 : ℚ) ^ E) := by
  unfold redondear
  rw [if_neg (not_le.2 hT)]
  have hx : exponente f q = E := by
    unfold exponente
    rw [log2_eq |q| L h1 h2, hE]
  rw [hx, redondeoPar_cerca _ n hn1 hn2]

theorem redondear_cero (f : Formato) (hT : 0 < umbral f) :
    redondear f 0 = Flotante.finito 0 := by
  unfold redondear
  rw [abs_zero, if_neg (not_le.2 hT), zero_div]
  have : redondeoPar (0 : ℚ) = 0 := by
    have := redondeoPar_entero 0
    simpa using this
  rw [this]
  simp

theorem umbral32 : umbral binary32 = 340282356779733661637539395458142568448 := by
  unfold umbral binary32
  norm_num

theorem umbral64_pos : 0 < umbral binary64 := by
  unfold umbral binary64
  positivity

/-- Integers below `2^24` in magnitude are binary32 values. -/
theorem redondear32_entero (k : Int) (h1 : -16777216 < k) (h2 : k < 16777216) :
    redondear binary32 (k : ℚ) = Flotante.finito (k : ℚ) := by
  have hk : |(k : ℚ)| < 16777216 := by
    rw [abs_lt]
    constructor
    · have : ((-16777216 : Int) : ℚ) < (k : ℚ) := Int.cast_lt.2 h1
      simpa using this
    · have : (k : ℚ) < ((16777216 : Int) : ℚ) := Int.cast_lt.2 h2
      simpa using this
  apply redondear_representable binary32 (k : ℚ) k 0 (by simp)
  · show |(k : ℚ)| < (2 : ℚ) ^ ((24 : Nat) : Int)
    norm_num
    exact hk
  · decide
  · rw [umbral32]
    linarith

/-- Half-integers `k + 1/2` with `0 ≤ k < 2^23` are binary32 values. -/
theorem redondear32_medio (k : Int) (h1 : -8388608 ≤ k) (h2 : k < 8388608) :
    redondear binary32 ((k : ℚ) + 1 / 2) = Flotante.finito ((k : ℚ) + 1 / 2) := by
  have hk1 : ((-8388608 : Int) : ℚ) ≤ (k : ℚ) := Int.cast_le.2 h1
  have hk2 : (k : ℚ) ≤ ((8388607 : Int) : ℚ) := Int.cast_le.2 (by omega)
  push_cast at hk1 hk2
  apply redondear_representable binary32 ((k : ℚ) + 1 / 2) (2 * k + 1) (-1)
  · push_cast
    rw [zpow_neg_one]
    ring
  · show |((2 * k + 1 : Int) : ℚ)| < (2 : ℚ) ^ ((24 : Nat) : Int)
    push_cast
    norm_num
    rw [abs_lt]
    constructor <;> linarith
  · decide
  · rw [umbral32, abs_lt]
    constructor <;> linarith

/-- Evaluation of the rounding of a positive exact result. -/
theorem redondear_eval_pos (f : Formato) (q : ℚ) (L E n : Int)
    (h1 : (2 : ℚ) ^ L ≤ q) (h2 : q < (2 : ℚ) ^ (L + 1))
    (hE : E = max (L - ((f.p : Int) - 1)) f.emin) (hT : q < umbral f)
    (hn1 : (n : ℚ) - 1 / 2 < q / (2 : ℚ) ^ E) (hn2 : q / (2 : ℚ) ^ E < (n : ℚ) + 1 / 2) :
    redondear f q = Flotante.finito ((n : ℚ) * (2 : ℚ) ^ E) := by
  have hq : 0 < q := lt_of_lt_of_le (zpow_pos (by norm_num) L) h1
  have ha : |q| = q := abs_of_pos hq
  exact redondear_eval f q L E n (by rw [ha]; exact h1) (by rw [ha]; exact h2) hE
    (by rw [ha]; exact hT) hn1 hn2

/-! ## The kernel for a very small sigma in binary32 (C6, C7) -/

theorem denom_sigmaDiminuta :
    producto binary32 (producto binary32 (Flotante.finito 2) sigmaDiminuta) sigmaDiminuta =
      Flotante.finito (142725 / 2 ^ 149) := by
  have h1 : producto binary32 (Flotante.finito 2) sigmaDiminuta =
      Flotante.finito (12379400 / 2 ^ 89) := by
    show redondear binary32 (2 * (12379400 / 2 ^ 90)) = _
    rw [redondear_eval_pos binary32 _ (-66) (-89) 12379400 (by norm_num) (by norm_num)
      (by decide) (by rw [umbral32]; norm_num) (by norm_num) (by norm_num)]
    norm_num
  rw [h1]
  show redondear binary32 (12379400 / 2 ^ 89 * (12379400 / 2 ^ 90)) = _
  rw [redondear_eval_pos binary32 _ (-132) (-149) 142725 (by norm_num) (by norm_num)
    (by decide) (by rw [umbral32]; norm_num) (by norm_num) (by norm_num)]
  norm_num

theorem pi_denom_sigmaDiminuta :
    producto binary64 M_PI (Flotante.finito (142725 / 2 ^ 149)) =
      Flotante.finito (7703175225511620 / 2 ^ 183) := by
  show redondear binary64 (884279719003555 / 281474976710656 * (142725 / 2 ^ 149)) = _
  rw [redondear_eval_pos binary64 _ (-131) (-183) 7703175225511620 (by norm_num) (by norm_num)
    (by decide) (by unfold umbral binary64; norm_num) (by norm_num) (by norm_num)]
  norm_num

/-- The centre weight: `expf(0) / (M_PI * denom)` exceeds the largest `float`. -/
theorem valor_centro_sigmaDiminuta :
    aFormato binary32
      (cociente binary64
        (expfEnLimites (cociente binary32 (opuesto (deEntero binary32 0))
          (Flotante.finito (142725 / 2 ^ 149))))
        (Flotante.finito (7703175225511620 / 2 ^ 183))) = Flotante.inf false := by
  have h0 : deEntero binary32 0 = Flotante.finito 0 := by
    have := redondear_cero binary32 (by rw [umbral32]; norm_num)
    unfold deEntero
    simpa using this
  have h1 : cociente binary32 (opuesto (Flotante.finito 0)) (Flotante.finito (142725 / 2 ^ 149))
      = Flotante.finito 0 := by
    show (if (142725 / 2 ^ 149 : ℚ) = 0 then _ else redondear binary32 (-0 / (142725 / 2 ^ 149)))
      = _
    rw [if_neg (by norm_num), neg_zero, zero_div]
    exact redondear_cero binary32 (by rw [umbral32]; norm_num)
  have h2 : expfEnLimites (Flotante.finito 0) = Flotante.finito 1 := by
    show (if (0 : ℚ) = 0 then Flotante.finito 1 else Flotante.nan) = _
    rw [if_pos rfl]
  have h3 : cociente binary64 (Flotante.finito 1)
      (Flotante.finito (7703175225511620 / 2 ^ 183)) =
        Flotante.finito (5265986819689559 * 2 ^ 78) := by
    show (if (7703175225511620 / 2 ^ 183 : ℚ) = 0 then _
      else redondear binary64 (1 / (7703175225511620 / 2 ^ 183))) = _
    rw [if_neg (by norm_num),
      redondear_eval_pos binary64 _ 130 78 5265986819689559 (by norm_num) (by norm_num)
        (by decide) (by unfold umbral binary64; norm_num) (by norm_num) (by norm_num)]
    norm_num
  rw [h0, h1, h2, h3]
  show redondear binary32 (5265986819689559 * 2 ^ 78) = _
  unfold redondear
  rw [if_pos (by rw [umbral32]; norm_num [abs_of_pos])]
  simp

/-- The other weights: `-r / denom` is below the least `float`, `expf(-inf) = 0`. -/
theorem valor_fuera_sigmaDiminuta (r : Int) (hr : r = 1 ∨ r = 2) :
    aFormato binary32
      (cociente binary64
        (expfEnLimites (cociente binary32 (opuesto (deEntero binary32 r))
          (Flotante.finito (142725 / 2 ^ 149))))
        (Flotante.finito (7703175225511620 / 2 ^ 183))) = Flotante.finito 0 := by
  have h0 : deEntero binary32 r = Flotante.finito (r : ℚ) := by
    unfold deEntero
    exact redondear32_entero r (by omega) (by omega)
  have h1 : cociente binary32 (opuesto (Flotante.finito (r : ℚ)))
      (Flotante.finito (142725 / 2 ^ 149)) = Flotante.inf true := by
    show (if (142725 / 2 ^ 149 : ℚ) = 0 then _
      else redondear binary32 (-(r : ℚ) / (142725 / 2 ^ 149))) = _
    rw [if_neg (by norm_num)]
    unfold redondear
    rcases hr with rfl | rfl
    · rw [if_pos (by rw [umbral32]; norm_num [abs_of_pos])]
      norm_num
    · rw [if_pos (by rw [umbral32]; norm_num [abs_of_pos])]
      norm_num
  have h2 : expfEnLimites (Flotante.inf true) = Flotante.finito 0 := rfl
  have h3 : cociente binary64 (Flotante.finito 0)
      (Flotante.finito (7703175225511620 / 2 ^ 183)) = Flotante.finito 0 := by
    show (if (7703175225511620 / 2 ^ 183 : ℚ) = 0 then _
      else redondear binary64 (0 / (7703175225511620 / 2 ^ 183))) = _
    rw [if_neg (by norm_num), zero_div]
    exact redondear_cero binary64 umbral64_pos
  rw [h0, h1, h2, h3]
  exact redondear_cero binary32 (by rw [umbral32]; norm_num)

theorem redondear32_cero : redondear binary32 0 = Flotante.finito 0 :=
  redondear_cero binary32 (by rw [umbral32]; norm_num)

theorem suma32_cero_cero :
    suma binary32 (Flotante.finito 0) (Flotante.finito 0) = Flotante.finito 0 := by
  show redondear binary32 (0 + 0) = _
  rw [add_zero]
  exact redondear32_cero

theorem traza_kernel32 (expf : Flotante → Flotante) (sigma : Flotante)
    (hv0 : aFormato binary32 (cociente binary64
        (expf (cociente binary32 (opuesto (deEntero binary32 0))
          (producto binary32 (producto binary32 (Flotante.finito 2) sigma) sigma)))
        (producto binary64 M_PI
          (producto binary32 (producto binary32 (Flotante.finito 2) sigma) sigma)))
      = Flotante.inf false)
    (hv1 : aFormato binary32 (cociente binary64
        (expf (cociente binary32 (opuesto (deEntero binary32 1))
          (producto binary32 (producto binary32 (Flotante.finito 2) sigma) sigma)))
        (producto binary64 M_PI
          (producto binary32 (producto binary32 (Flotante.finito 2) sigma) sigma)))
      = Flotante.finito 0)
    (hv2 : aFormato binary32 (cociente binary64
        (expf (cociente binary32 (opuesto (deEntero binary32 2))
          (producto binary32 (producto binary32 (Flotante.finito 2) sigma) sigma)))
        (producto binary64 M_PI
          (producto binary32 (producto binary32 (Flotante.finito 2) sigma) sigma)))
      = Flotante.finito 0) :
    generarKernelGauss32 expf 3 sigma =
      some [Flotante.finito 0, Flotante.finito 0, Flotante.finito 0, Flotante.finito 0,
        Flotante.nan, Flotante.finito 0, Flotante.finito 0, Flotante.finito 0,
        Flotante.finito 0] := by
  have hk2 : Int.tdiv 3 2 = 1 := by decide
  have hrep : List.replicate ((3 : Int) * 3).toNat (Flotante.finito 0) =
      [Flotante.finito 0, Flotante.finito 0, Flotante.finito 0, Flotante.finito 0,
        Flotante.finito 0, Flotante.finito 0, Flotante.finito 0, Flotante.finito 0,
        Flotante.finito 0] := rfl
  have s1 : suma binary32 (Flotante.finito 0) (Flotante.inf false) = Flotante.inf false := rfl
  have s2 : suma binary32 (Flotante.inf false) (Flotante.finito 0) = Flotante.inf false := rfl
  have m1 : mayorQue (Flotante.inf false) (Flotante.finito 0) = true := rfl
  have c1 : cociente binary32 (Flotante.finito 0) (Flotante.inf false) = Flotante.finito 0 :=
    rfl
  have c2 : cociente binary32 (Flotante.inf false) (Flotante.inf false) = Flotante.nan := rfl
  unfold generarKernelGauss32
  rw [if_neg (by decide)]
  simp only [hk2, hrep]
  simp only [forLoop, Int.reduceNeg, Int.reduceAdd, Int.reduceSub, Int.reduceMul,
    Int.reduceToNat, forLoopAux, hv0, hv1, hv2, escribirLista, Option.some_bind,
    Option.map_some', Option.bind_some]
  simp [leerLista, suma32_cero_cero, s1, s2, m1, c1, c2]

theorem kernel_sigmaDiminuta :
    generarKernelGauss32 expfEnLimites 3 sigmaDiminuta =
      some [Flotante.finito 0, Flotante.finito 0, Flotante.finito 0, Flotante.finito 0,
        Flotante.nan, Flotante.finito 0, Flotante.finito 0, Flotante.finito 0,
        Flotante.finito 0] := by
  refine traza_kernel32 expfEnLimites sigmaDiminuta ?_ ?_ ?_
  · rw [denom_sigmaDiminuta, pi_denom_sigmaDiminuta]
    exact valor_centro_sigmaDiminuta
  · rw [denom_sigmaDiminuta, pi_denom_sigmaDiminuta]
    exact valor_fuera_sigmaDiminuta 1 (Or.inl rfl)
  · rw [denom_sigmaDiminuta, pi_denom_sigmaDiminuta]
    exact valor_fuera_sigmaDiminuta 2 (Or.inr rfl)

/-- C7 (counterexample).  In binary32, `generarKernelGauss(3, 1e-20f)` computes
`denom = 2.0f * sigma * sigma = 142725 * 2^-149`; the centre weight
`expf(-0 / denom) / (M_PI * denom)` is about `1.6e39` and becomes `+inf` when it is
stored in the `float val`; the other arguments of `expf` are `-inf`, so the other
weights are 0.  The sum is `+inf > 0`, and the normalisation stores `0 / inf = 0`
eight times and `inf / inf = NaN` at the centre: the weights do not sum to 1. -/
theorem kernel_con_sigma_diminuta_tiene_nan :
    generarKernelGauss32 expfEnLimites 3 sigmaDiminuta =
        some [Flotante.finito 0, Flotante.finito 0, Flotante.finito 0, Flotante.finito 0,
          Flotante.nan, Flotante.finito 0, Flotante.finito 0, Flotante.finito 0,
          Flotante.finito 0] ∧
      List.foldl (suma binary32) (Flotante.finito 0)
        [Flotante.finito 0, Flotante.finito 0, Flotante.finito 0, Flotante.finito 0,
          Flotante.nan, Flotante.finito 0, Flotante.finito 0, Flotante.finito 0,
          Flotante.finito 0] = Flotante.nan ∧
      ¬ ∃ q : ℚ, List.foldl (suma binary32) (Flotante.finito 0)
        [Flotante.finito 0, Flotante.finito 0, Flotante.finito 0, Flotante.finito 0,
          Flotante.nan, Flotante.finito 0, Flotante.finito 0, Flotante.finito 0,
          Flotante.finito 0] = Flotante.finito q ∧ |q - 1| ≤ 1 / 10000 := by
  have s3 : ∀ x, suma binary32 Flotante.nan x = Flotante.nan := fun x => by cases x <;> rfl
  have s4 : suma binary32 (Flotante.finito 0) Flotante.nan = Flotante.nan := rfl
  have hsum : List.foldl (suma binary32) (Flotante.finito 0)
      [Flotante.finito 0, Flotante.finito 0, Flotante.finito 0, Flotante.finito 0,
        Flotante.nan, Flotante.finito 0, Flotante.finito 0, Flotante.finito 0,
        Flotante.finito 0] = Flotante.nan := by
    simp only [List.foldl, suma32_cero_cero, s3, s4]
  refine ⟨?_, hsum, ?_⟩
  · exact kernel_sigmaDiminuta
  · rw [hsum]
    rintro ⟨q, h, -⟩
    exact Flotante.noConfusion h

/-! ## The binary32 convolution as a state transformer -/

/-- Two nested loops over the kernel window that update an accumulator. -/
theorem plegar_ventana {σ : Type} (paso : Nat → Nat → σ → σ) (k2 : Int) (n : Nat)
    (hn : (n : Int) = 2 * k2 + 1) (cuerpo : Int → Int → σ → Option σ)
    (hc : ∀ (a b : Nat) (acc : σ), a < n → b < n →
      cuerpo (-k2 + a) (-k2 + b) acc = some (paso a b acc)) (s0 : σ) :
    forLoop (-k2) (k2 + 1) (fun ky acc =>
      forLoop (-k2) (k2 + 1) (fun kx acc => cuerpo ky kx acc) acc) s0 =
      some ((List.range n).foldl (fun acc a =>
        (List.range n).foldl (fun acc b => paso a b acc) acc) s0) := by
  have hcnt : (k2 + 1 - -k2).toNat = n := by omega
  obtain ⟨t, e, ht⟩ := forLoop_inv_nat (-k2) (k2 + 1)
    (fun ky acc => forLoop (-k2) (k2 + 1) (fun kx acc => cuerpo ky kx acc) acc)
    (fun j (acc : σ) => acc = (List.range j).foldl (fun acc a =>
        (List.range n).foldl (fun acc b => paso a b acc) acc) s0)
    s0 (by simp)
    (fun j acc hj hacc => by
      obtain ⟨t, e, ht⟩ := forLoop_inv_nat (-k2) (k2 + 1)
        (fun kx acc => cuerpo (-k2 + (j : Int)) kx acc)
        (fun i (t : σ) => t = (List.range i).foldl (fun acc b => paso j b acc) acc) acc
        (by simp)
        (fun i t hi ht => by
          refine ⟨_, hc j i t (by omega) (by omega), ?_⟩
          dsimp only at ht ⊢
          rw [ht, List.range_succ, List.foldl_append]
          rfl)
      rw [hcnt] at ht
      refine ⟨t, e, ?_⟩
      dsimp only at hacc ⊢
      rw [ht, hacc, List.range_succ, List.foldl_append]
      rfl)
  rw [hcnt] at ht
  rw [e, ht]

theorem aplicarConvolucionHilo32_estado {A W C : Int} (src : Matriz)
    (hsrc : Forma src A W C) (hA : 1 ≤ A) (hW : 1 ≤ W) (hC : 0 ≤ C) (tam : Int)
    (htam : ¬ (Int.tmod tam 2 = 0 ∨ tam < 3)) (kernel : List Flotante)
    (w : Nat → Nat → Flotante)
    (hker : ∀ a b : Nat, a < tam.toNat → b < tam.toNat →
      kernel[a * tam.toNat + b]? = some (w a b))
    (viejo : Int → Int → Int → UChar) (i a b : Int) (H : Int → Int → Int → Prop)
    (dst : Matriz) (ha : 0 ≤ a) (hab : a < b) (hb : b ≤ A)
    (hm : Estado A W C viejo (valorConvolucion32 w src A W tam) H dst) :
    ∃ dst1, aplicarConvolucionHilo32 (ConvArgs.mk src a b W A C tam kernel i) dst =
        some dst1 ∧
      Estado A W C viejo (valorConvolucion32 w src A W tam)
        (fun y x c => H y x c ∨ (a ≤ y ∧ y < b)) dst1 := by
  obtain ⟨h3, hodd, hk2⟩ := impar_desde_tres tam htam
  unfold aplicarConvolucionHilo32
  dsimp only
  refine filas_loop H a b (le_of_lt hab) (by omega) _ ?_ dst hm
  intro y x m1 hy1 hy2 hx0 hx hI
  refine canales_loop _ y x (by omega) (by omega) hx0 hx hC _ ?_ m1 hI
  intro c m2 hc0 hc _
  have hacc := plegar_ventana
    (fun (a b : Nat) (acc : Flotante) => suma binary32 acc (producto binary32 (w a b)
      (deEntero binary32
        (((muestra src (recortar (y + ((a : Int) - Int.tdiv tam 2)) A)
          (recortar (x + ((b : Int) - Int.tdiv tam 2)) W) c).val : Nat) : Int))))
    (Int.tdiv tam 2) tam.toNat (by omega)
    (fun ky kx acc =>
      (leerLista kernel ((ky + Int.tdiv tam 2) * tam + (kx + Int.tdiv tam 2))).bind fun kval =>
        (leer src (recortar (y + ky) A) (recortar (x + kx) W) c).map
          fun s => suma binary32 acc (producto binary32 kval
            (deEntero binary32 ((s.val : Nat) : Int))))
    (fun a b acc ha hb => by
      have hidx : (-Int.tdiv tam 2 + (a : Int) + Int.tdiv tam 2) * tam +
          (-Int.tdiv tam 2 + (b : Int) + Int.tdiv tam 2) = ((a * tam.toNat + b : Nat) : Int) := by
        push_cast
        rw [Int.toNat_of_nonneg (by omega)]
        ring
      have e1 : -Int.tdiv tam 2 + (a : Int) = (a : Int) - Int.tdiv tam 2 := by ring
      have e2 : -Int.tdiv tam 2 + (b : Int) = (b : Int) - Int.tdiv tam 2 := by ring
      have ry := recortar_rango (y + ((a : Int) - Int.tdiv tam 2)) A hA
      have rx := recortar_rango (x + ((b : Int) - Int.tdiv tam 2)) W hW
      obtain ⟨v, hv⟩ := leer_some hsrc ry.1 ry.2 rx.1 rx.2 hc0 hc
      dsimp only
      rw [hidx, leerLista_natCast, hker a b ha hb, Option.some_bind, e1, e2, hv,
        muestra_eq hv]
      rfl)
    (Flotante.finito 0)
  unfold recortar at hacc
  rw [hacc, Option.some_bind]
  rfl

/-- What `aplicarConvolucionConcurrente32` returns for a loaded image once the kernel is
known: same dimensions, and a destination in which the rows of the started workers hold
the convolution values while the other rows are still zero. -/
theorem aplicarConvolucionConcurrente32_estado (expf : Flotante → Flotante)
    (info : ImagenInfo) (tam : Int) (sigma : Flotante) (numHilos : Int) (crea : Int → Bool)
    (src : Matriz) (hpx : info.pixeles = some src) (h : BienFormada info)
    (htam : ¬ (Int.tmod tam 2 = 0 ∨ tam < 3)) (ker : List Flotante)
    (w : Nat → Nat → Flotante)
    (eker : generarKernelGauss32 expf tam
      (if menorIgual sigma (Flotante.finito 0) then Flotante.finito 1 else sigma) = some ker)
    (hker : ∀ a b : Nat, a < tam.toNat → b < tam.toNat →
      ker[a * tam.toNat + b]? = some (w a b)) :
    ∃ dst cnt, aplicarConvolucionConcurrente32 expf info tam sigma numHilos crea =
        some (ImagenInfo.mk info.ancho info.alto info.canales (some dst), cnt) ∧
      0 ≤ cnt ∧ cnt ≤ limitarHilos numHilos info.alto ∧
      Estado info.alto info.ancho info.canales (fun _ _ _ => 0)
        (valorConvolucion32 w src info.alto info.ancho tam)
        (fun y _ _ => filaAtendida info.alto (limitarHilos numHilos info.alto) crea y) dst := by
  obtain ⟨hA, hW, hC, hp⟩ := h
  rw [hpx] at hp
  dsimp only at hp
  obtain ⟨hn1, hn2, -⟩ := limitarHilos_rango numHilos info.alto hA
  obtain ⟨dst0, edst, hF0, hz⟩ := crearMatrizPixeles_spec info.alto info.ancho info.canales
    hA hW hC
  obtain ⟨m1, cnt, e, c0, c1, hE⟩ := despachar_estado (limitarHilos numHilos info.alto) hn1 hA
    crea
    (fun i inicio fin d =>
      aplicarConvolucionHilo32
        (ConvArgs.mk src inicio fin info.ancho info.alto info.canales tam ker i) d)
    (fun i a b H m ha hab hb _ hm =>
      aplicarConvolucionHilo32_estado src hp hA hW (by omega) tam htam ker _ hker
        (fun _ _ _ => 0) i a b H m ha hab hb hm)
    dst0 ⟨hF0, fun y x c h1 h2 h3 h4 h5 h6 =>
      ⟨fun k => absurd k id, fun _ => hz y x c h1 h2 h3 h4 h5 h6⟩⟩
  refine ⟨m1, cnt, ?_, c0, c1, hE⟩
  unfold aplicarConvolucionConcurrente32
  rw [hpx]
  dsimp only
  rw [if_neg htam, eker]
  dsimp only
  rw [edst]
  dsimp only
  rw [e]
  rfl

/-- C6 (counterexample).  `aplicarConvolucionConcurrente(&img, 3, 1e-20f, 4)` on the
uniform 4x4 image of colour 100, in binary32: the kernel is `0 0 0 0 NaN 0 0 0 0`, every
accumulator `acc` becomes NaN at the centre tap, `(int)roundf(NaN)` is `INT_MIN` and
`clampuc` stores 0.  The call returns an image whose samples are all 0, not 100. -/
theorem desenfoque_con_sigma_diminuta_pierde_el_color :
    (∀ y x c, 0 ≤ y → y < 4 → 0 ≤ x → x < 4 → 0 ≤ c → c < 1 →
      leerImagen (imagenUniforme4x4 100) y x c = some 100) ∧
    ∃ r cnt, aplicarConvolucionConcurrente32 expfEnLimites (imagenUniforme4x4 100) 3
        sigmaDiminuta 4 todosArrancan = some (r, cnt) ∧
      r.ancho = 4 ∧ r.alto = 4 ∧ r.canales = 1 ∧
      ∀ y x c, 0 ≤ y → y < 4 → 0 ≤ x → x < 4 → 0 ≤ c → c < 1 →
        leerImagen r y x c = some 0 := by
  refine ⟨fun y x c h1 h2 h3 h4 h5 h6 => imagenUniforme4x4_muestras 100 y x c h1 h2 h3 h4 h5 h6,
    ?_⟩
  have hm : menorIgual sigmaDiminuta (Flotante.finito 0) = false := by
    show decide ((12379400 / 2 ^ 90 : ℚ) ≤ 0) = false
    rw [decide_eq_false_iff_not]
    norm_num
  have hbf : BienFormada (imagenUniforme4x4 100) := by decide
  have h32 : ¬ (Int.tmod 3 2 = 0 ∨ (3 : Int) < 3) := by decide
  obtain ⟨dst, cnt, e, -, -, hE⟩ := aplicarConvolucionConcurrente32_estado expfEnLimites
    (imagenUniforme4x4 100) 3 sigmaDiminuta 4 todosArrancan
    (List.replicate 4 (List.replicate 4 [100])) rfl hbf h32
    [Flotante.finito 0, Flotante.finito 0, Flotante.finito 0, Flotante.finito 0,
      Flotante.nan, Flotante.finito 0, Flotante.finito 0, Flotante.finito 0,
      Flotante.finito 0]
    (fun a b => if a = 1 ∧ b = 1 then Flotante.nan else Flotante.finito 0)
    (by rw [hm]; exact kernel_sigmaDiminuta)
    (by
      intro a b ha hb
      have ha3 : a < 3 := ha
      have hb3 : b < 3 := hb
      interval_cases a <;> interval_cases b <;> rfl)
  refine ⟨_, cnt, e, rfl, rfl, rfl, ?_⟩
  intro y x c h1 h2 h3 h4 h5 h6
  have hat : filaAtendida 4 (limitarHilos 4 4) todosArrancan y :=
    filaAtendida_todos 4 _ y (by decide) (by decide) h1 h2
  have := (hE.2 y x c h1 h2 h3 h4 h5 h6).1 hat
  unfold leerImagen
  dsimp only
  rw [Option.some_bind, this]
  congr 1
  have hmu : ∀ a b : Nat,
      muestra (List.replicate 4 (List.replicate 4 [(100 : UChar)]))
        (recortar (y + ((a : Int) - Int.tdiv 3 2)) 4)
        (recortar (x + ((b : Int) - Int.tdiv 3 2)) 4) c = 100 := by
    intro a b
    have ry := recortar_rango (y + ((a : Int) - Int.tdiv 3 2)) 4 (by decide)
    have rx := recortar_rango (x + ((b : Int) - Int.tdiv 3 2)) 4 (by decide)
    have := imagenUniforme4x4_muestras 100 _ _ c ry.1 ry.2 rx.1 rx.2 h5 h6
    exact muestra_eq this
  have hd : deEntero binary32 ((((100 : UChar).val : Nat)) : Int) = Flotante.finito 100 :=
    redondear32_entero 100 (by decide) (by decide)
  have p0 : producto binary32 (Flotante.finito 0) (Flotante.finito 100) = Flotante.finito 0 := by
    show redondear binary32 (0 * 100) = _
    rw [zero_mul]
    exact redondear32_cero
  have p1 : producto binary32 Flotante.nan (Flotante.finito 100) = Flotante.nan := rfl
  have s3 : ∀ x, suma binary32 Flotante.nan x = Flotante.nan := fun x => by cases x <;> rfl
  have s4 : suma binary32 (Flotante.finito 0) Flotante.nan = Flotante.nan := rfl
  have hacc : acumulador32 (fun a b => if a = 1 ∧ b = 1 then Flotante.nan else Flotante.finito 0)
      (List.replicate 4 (List.replicate 4 [(100 : UChar)])) 4 4 3 y x c = Flotante.nan := by
    unfold acumulador32
    simp only [hmu, hd]
    have h3 : (3 : Int).toNat = 3 := rfl
    rw [h3]
    simp [List.range_succ, p0, p1, s3, s4, suma32_cero_cero]
  unfold valorConvolucion32
  show clampuc (aEntero (roundf32 (acumulador32 _ _ 4 4 3 y x c))) = 0
  rw [hacc]
  decide

/-! ## Resize in binary32 (C16) -/

/-- Evaluation of the rounding of a positive exact result halfway between two steps. -/
theorem redondear_empate_pos (f : Formato) (q : ℚ) (L E n : Int)
    (h1 : (2 : ℚ) ^ L ≤ q) (h2 : q < (2 : ℚ) ^ (L + 1))
    (hE : E = max (L - ((f.p : Int) - 1)) f.emin) (hT : q < umbral f)
    (hn : q / (2 : ℚ) ^ E = (n : ℚ) + 1 / 2) :
    redondear f q =
      Flotante.finito (((if n % 2 = 0 then n else n + 1 : Int) : ℚ) * (2 : ℚ) ^ E) := by
  have hq : 0 < q := lt_of_lt_of_le (zpow_pos (by norm_num) L) h1
  have ha : |q| = q := abs_of_pos hq
  unfold redondear
  rw [if_neg (not_le.2 (by rw [ha]; exact hT))]
  have hx : exponente f q = E := by
    unfold exponente
    rw [ha, log2_eq q L h1 h2, hE]
  rw [hx, hn, redondeoPar_empate]

theorem aEntero_floorf (q : ℚ) (h0 : -1 ≤ q) (h1 : q < 2147483647) :
    aEntero (floorf (Flotante.finito q)) = ⌊q⌋ := by
  have a1 : -1 ≤ ⌊q⌋ := Int.le_floor.2 (by push_cast; exact h0)
  have a2 : ⌊q⌋ < 2147483647 := Int.floor_lt.2 (by push_cast; exact h1)
  have b1 : ((-1 : Int) : ℚ) ≤ ((⌊q⌋ : Int) : ℚ) := Int.cast_le.2 a1
  have b2 : ((⌊q⌋ : Int) : ℚ) < ((2147483647 : Int) : ℚ) := Int.cast_lt.2 a2
  push_cast at b1 b2
  show (if -2147483649 < ((⌊q⌋ : Int) : ℚ) ∧ ((⌊q⌋ : Int) : ℚ) < 2147483648 then
    (if 0 ≤ ((⌊q⌋ : Int) : ℚ) then ⌊((⌊q⌋ : Int) : ℚ)⌋ else ⌈((⌊q⌋ : Int) : ℚ)⌉)
    else -2147483648) = ⌊q⌋
  rw [if_pos ⟨by linarith, by linarith⟩, Int.floor_intCast, Int.ceil_intCast, ite_self]

theorem esquinas32_en_rango (srcW srcH : Int) (fx fy : Flotante) (hW : 1 ≤ srcW)
    (hH : 1 ≤ srcH) (hW1 : srcW ≤ 2147483647) (hH1 : srcH ≤ 2147483647)
    (hx : enRango32 srcW fx) (hy : enRango32 srcH fy) :
    0 ≤ (esquinas32 srcW srcH fx fy).1 ∧ (esquinas32 srcW srcH fx fy).1 ≤ srcW - 1 ∧
    0 ≤ (esquinas32 srcW srcH fx fy).2.1 ∧ (esquinas32 srcW srcH fx fy).2.1 ≤ srcH - 1 ∧
    0 ≤ (esquinas32 srcW srcH fx fy).2.2.1 ∧ (esquinas32 srcW srcH fx fy).2.2.1 ≤ srcW - 1 ∧
    0 ≤ (esquinas32 srcW srcH fx fy).2.2.2 ∧ (esquinas32 srcW srcH fx fy).2.2.2 ≤ srcH - 1 := by
  obtain ⟨qx, rfl, hx0, hx1⟩ := hx
  obtain ⟨qy, rfl, hy0, hy1⟩ := hy
  have cW : (srcW : ℚ) ≤ 2147483647 := by exact_mod_cast hW1
  have cH : (srcH : ℚ) ≤ 2147483647 := by exact_mod_cast hH1
  have a1 : -1 ≤ ⌊qx⌋ := Int.le_floor.2 (by push_cast; exact hx0)
  have a2 : ⌊qx⌋ < srcW := Int.floor_lt.2 hx1
  have a3 : -1 ≤ ⌊qy⌋ := Int.le_floor.2 (by push_cast; exact hy0)
  have a4 : ⌊qy⌋ < srcH := Int.floor_lt.2 hy1
  unfold esquinas32
  rw [aEntero_floorf qx hx0 (by linarith), aEntero_floorf qy hy0 (by linarith)]
  dsimp only
  refine ⟨?_, ?_, ?_, ?_, ?_, ?_, ?_, ?_⟩ <;> split_ifs <;> omega

/-- What `sampleBilinear32` leaves in the output buffer for a coordinate inside
`[-1, srcW) x [-1, srcH)`: channel `c < channels` holds `valorBilineal32`, the length is
kept. -/
theorem sampleBilinear32_spec (src : Matriz) (srcW srcH channels : Int) (fx fy : Flotante)
    (out : List UChar) (hF : Forma src srcH srcW channels) (hW : 1 ≤ srcW) (hH : 1 ≤ srcH)
    (hW1 : srcW ≤ 2147483647) (hH1 : srcH ≤ 2147483647) (hout : channels ≤ out.length)
    (hx : enRango32 srcW fx) (hy : enRango32 srcH fy) :
    ∃ out1, sampleBilinear32 src srcW srcH channels fx fy out = some out1 ∧
      out1.length = out.length ∧
      ∀ c, 0 ≤ c → c < channels →
        leerLista out1 c = some (valorBilineal32 src srcW srcH fx fy c) := by
  obtain ⟨e1, e2, e3, e4, e5, e6, e7, e8⟩ :=
    esquinas32_en_rango srcW srcH fx fy hW hH hW1 hH1 hx hy
  unfold sampleBilinear32
  by_cases hc : channels ≤ 0
  · rw [if_pos hc]
    exact ⟨out, rfl, rfl, fun c h1 h2 => absurd h2 (by omega)⟩
  · rw [if_neg hc]
    dsimp only
    refine forLoop_inv 0 channels _
      (fun c o => o.length = out.length ∧
        ∀ c1, 0 ≤ c1 → c1 < c → leerLista o c1 = some (valorBilineal32 src srcW srcH fx fy c1))
      out (by omega) ⟨rfl, fun c1 h1 h2 => absurd h2 (by omega)⟩ ?_
    intro c o hc0 hc1 ⟨ho, hv⟩
    obtain ⟨v00, r00⟩ := leer_some hF e3 (by omega) e1 (by omega) hc0 hc1
    obtain ⟨v10, r10⟩ := leer_some hF e3 (by omega) e5 (by omega) hc0 hc1
    obtain ⟨v01, r01⟩ := leer_some hF e7 (by omega) e1 (by omega) hc0 hc1
    obtain ⟨v11, r11⟩ := leer_some hF e7 (by omega) e5 (by omega) hc0 hc1
    rw [r00, r10, r01, r11]
    simp only [Option.some_bind]
    rw [escribirLista_eq _ _ _ hc0 (by omega)]
    refine ⟨_, rfl, by rw [List.length_set]; exact ho, ?_⟩
    intro c1 h1 h2
    rw [leerLista_set _ _ _ _ hc0 (by omega)]
    by_cases q : c1 = c
    · subst q
      rw [if_pos rfl]
      unfold valorBilineal32
      dsimp only
      rw [muestra_eq r00, muestra_eq r10, muestra_eq r01, muestra_eq r11]
    · rw [if_neg q]
      exact hv c1 h1 (by omega)

theorem resizeWorker32_estado {A W C sA sW : Int} (src : Matriz) (hsrc : Forma src sA sW C)
    (hsA : 1 ≤ sA) (hsW : 1 ≤ sW) (hsA1 : sA ≤ 2147483647) (hsW1 : sW ≤ 2147483647)
    (hW : 0 ≤ W) (hC0 : 0 ≤ C) (hC4 : C ≤ 4) (scaleX scaleY : Flotante)
    (hfx : ∀ x : Int, 0 ≤ x → x < W → enRango32 sW (coordenadaResize32 x scaleX))
    (hfy : ∀ y : Int, 0 ≤ y → y < A → enRango32 sA (coordenadaResize32 y scaleY))
    (viejo : Int → Int → Int → UChar) (i a b : Int) (H : Int → Int → Int → Prop)
    (dst : Matriz) (ha : 0 ≤ a) (hab : a < b) (hb : b ≤ A)
    (hm : Estado A W C viejo
      (fun y x c => valorBilineal32 src sW sA (coordenadaResize32 x scaleX)
        (coordenadaResize32 y scaleY) c) H dst) :
    ∃ dst1, resizeWorker32 (ResizeArgs.mk src a b sW sA W A C scaleX scaleY i) dst
        = some dst1 ∧
      Estado A W C viejo
        (fun y x c => valorBilineal32 src sW sA (coordenadaResize32 x scaleX)
          (coordenadaResize32 y scaleY) c)
        (fun y x c => H y x c ∨ (a ≤ y ∧ y < b)) dst1 := by
  unfold resizeWorker32
  dsimp only
  obtain ⟨s1, e, h1, -⟩ := @filas_loop_gen (Matriz × List UChar) A W C
    (fun H s => Estado A W C viejo
      (fun y x c => valorBilineal32 src sW sA (coordenadaResize32 x scaleX)
        (coordenadaResize32 y scaleY) c) H s.1 ∧ s.2.length = 4)
    (fun H1 H2 s h hh => ⟨Estado_congr h.1 hh, h.2⟩)
    H a b (le_of_lt hab) hW
    (fun y x st =>
      (sampleBilinear32 src sW sA C (coordenadaResize32 x scaleX)
        (coordenadaResize32 y scaleY) st.2).bind fun out =>
        (forLoop 0 C (fun c d =>
          (leerLista out c).bind fun v => escribir d y x c v) st.1).map
          fun d => (d, out))
    (fun y x st hy1 hy2 hx0 hx hI => by
      obtain ⟨hI1, hlen⟩ := hI
      obtain ⟨out1, eo, hl1, hv⟩ := sampleBilinear32_spec src sW sA C
        (coordenadaResize32 x scaleX) (coordenadaResize32 y scaleY) st.2 hsrc hsW hsA hsW1 hsA1
        (by rw [hlen]; exact_mod_cast hC4) (hfx x hx0 hx) (hfy y (by omega) (by omega))
      obtain ⟨m1, em, hm1⟩ := @copiar_pixel _ _ _ _ (fun y x c =>
          valorBilineal32 src sW sA (coordenadaResize32 x scaleX)
            (coordenadaResize32 y scaleY) c)
        _ y x (by omega) (by omega) hx0 hx hC0 out1 hv st.1 hI1
      refine ⟨(m1, out1), ?_, hm1, by rw [hl1]; exact hlen⟩
      dsimp only
      rw [eo, Option.some_bind, em]
      rfl)
    (dst, [0, 0, 0, 0]) ⟨hm, rfl⟩
  exact ⟨s1.1, congrArg (Option.map Prod.fst) e, h1⟩

/-- What `redimensionarConcurrente32` returns for a loaded image with at most 4 channels
and positive target dimensions when every source coordinate stays in range: an image of
the target size in which the rows of the started workers hold the sampled values while
the other rows are still zero. -/
theorem redimensionarConcurrente32_estado (info : ImagenInfo)
    (nuevoAncho nuevoAlto numHilos : Int) (crea : Int → Bool) (src : Matriz)
    (hpx : info.pixeles = some src) (h : BienFormada info) (hc4 : info.canales ≤ 4)
    (hnW : 1 ≤ nuevoAncho) (hnH : 1 ≤ nuevoAlto)
    (hsW1 : info.ancho ≤ 2147483647) (hsA1 : info.alto ≤ 2147483647)
    (hfx : ∀ x : Int, 0 ≤ x → x < nuevoAncho → enRango32 info.ancho
      (coordenadaResize32 x (cociente binary32 (deEntero binary32 info.ancho)
        (deEntero binary32 nuevoAncho))))
    (hfy : ∀ y : Int, 0 ≤ y → y < nuevoAlto → enRango32 info.alto
      (coordenadaResize32 y (cociente binary32 (deEntero binary32 info.alto)
        (deEntero binary32 nuevoAlto)))) :
    ∃ dst cnt, redimensionarConcurrente32 info nuevoAncho nuevoAlto numHilos crea =
        some (ImagenInfo.mk nuevoAncho nuevoAlto info.canales (some dst), cnt) ∧
      0 ≤ cnt ∧ cnt ≤ limitarHilos numHilos nuevoAlto ∧
      Estado nuevoAlto nuevoAncho info.canales (fun _ _ _ => 0)
        (fun y x c => valorBilineal32 src info.ancho info.alto
          (coordenadaResize32 x (cociente binary32 (deEntero binary32 info.ancho)
            (deEntero binary32 nuevoAncho)))
          (coordenadaResize32 y (cociente binary32 (deEntero binary32 info.alto)
            (deEntero binary32 nuevoAlto))) c)
        (fun y _ _ => filaAtendida nuevoAlto (limitarHilos numHilos nuevoAlto) crea y) dst := by
  obtain ⟨hA, hW, hC, hp⟩ := h
  rw [hpx] at hp
  dsimp only at hp
  obtain ⟨hn1, hn2, -⟩ := limitarHilos_rango numHilos nuevoAlto hnH
  obtain ⟨dst0, edst, hF0, hz⟩ := crearMatrizPixeles_spec nuevoAlto nuevoAncho info.canales
    hnH hnW hC
  obtain ⟨m1, cnt, e, c0, c1, hE⟩ := despachar_estado (limitarHilos numHilos nuevoAlto) hn1
    hnH crea
    (fun i inicio fin d =>
      resizeWorker32
        (ResizeArgs.mk src inicio fin info.ancho info.alto nuevoAncho nuevoAlto
          info.canales
          (cociente binary32 (deEntero binary32 info.ancho) (deEntero binary32 nuevoAncho))
          (cociente binary32 (deEntero binary32 info.alto) (deEntero binary32 nuevoAlto))
          i) d)
    (fun i a b H m ha hab hb _ hm =>
      resizeWorker32_estado src hp hA hW hsA1 hsW1 (by omega) (by omega) hc4 _ _ hfx hfy
        (fun _ _ _ => 0) i a b H m ha hab hb hm)
    dst0 ⟨hF0, fun y x c h1 h2 h3 h4 h5 h6 =>
      ⟨fun k => absurd k id, fun _ => hz y x c h1 h2 h3 h4 h5 h6⟩⟩
  refine ⟨m1, cnt, ?_, c0, c1, hE⟩
  unfold redimensionarConcurrente32
  rw [hpx]
  dsimp only
  rw [if_neg (by omega), edst]
  dsimp only
  rw [e]
  rfl

theorem deEntero32_eq (k : Int) (h1 : -16777216 < k) (h2 : k < 16777216) :
    deEntero binary32 k = Flotante.finito (k : ℚ) :=
  redondear32_entero k h1 h2

theorem redondear32_uno : redondear binary32 1 = Flotante.finito 1 := by
  have := redondear32_entero 1 (by decide) (by decide)
  simpa using this

/-- The scale of a resize to the same size is exactly 1. -/
theorem escala32_identidad (N : Int) (h1 : 1 ≤ N) (h2 : N < 16777216) :
    cociente binary32 (deEntero binary32 N) (deEntero binary32 N) = Flotante.finito 1 := by
  have hN : (N : ℚ) ≠ 0 := by
    have : (0 : ℚ) < (N : ℚ) := by exact_mod_cast (show (0 : Int) < N by omega)
    exact ne_of_gt this
  rw [deEntero32_eq N (by omega) h2]
  show (if (N : ℚ) = 0 then _ else redondear binary32 ((N : ℚ) / (N : ℚ))) = _
  rw [if_neg hN, div_self hN]
  exact redondear32_uno

/-- The coordinate `(x + 0.5f) * 1.0f - 0.5f` from the roundings of its three
operations. -/
theorem coordenadaResize32_uno (x : Int) (a r : ℚ) (hx1 : -16777216 < x) (hx2 : x < 16777216)
    (h1 : redondear binary32 ((x : ℚ) + 1 / 2) = Flotante.finito a)
    (h2 : redondear binary32 a = Flotante.finito a)
    (h3 : redondear binary32 (a - 1 / 2) = Flotante.finito r) :
    coordenadaResize32 x (Flotante.finito 1) = Flotante.finito r := by
  unfold coordenadaResize32
  rw [deEntero32_eq x hx1 hx2]
  have e1 : suma binary32 (Flotante.finito (x : ℚ)) (Flotante.finito (1 / 2)) =
      Flotante.finito a := h1
  rw [e1]
  have e2 : producto binary32 (Flotante.finito a) (Flotante.finito 1) = Flotante.finito a := by
    show redondear binary32 (a * 1) = _
    rw [mul_one]
    exact h2
  rw [e2]
  show redondear binary32 (a + -(1 / 2)) = _
  rw [← sub_eq_add_neg]
  exact h3

/-- Below `2^23` the coordinate of column `x` at scale 1 is `x` itself. -/
theorem coordenadaResize32_identidad (x : Int) (h0 : 0 ≤ x) (h1 : x < 8388608) :
    coordenadaResize32 x (Flotante.finito 1) = Flotante.finito (x : ℚ) := by
  have hm := redondear32_medio x (by omega) h1
  refine coordenadaResize32_uno x ((x : ℚ) + 1 / 2) (x : ℚ) (by omega) (by omega) hm hm ?_
  rw [add_sub_cancel_right]
  exact redondear32_entero x (by omega) (by omega)

theorem enRango32_entero (lim x : Int) (h0 : 0 ≤ x) (h1 : x < lim) :
    enRango32 lim (Flotante.finito (x : ℚ)) := by
  refine ⟨(x : ℚ), rfl, ?_, ?_⟩
  · have : ((0 : Int) : ℚ) ≤ (x : ℚ) := Int.cast_le.2 h0
    push_cast at this
    linarith
  · exact Int.cast_lt.2 h1

theorem deEntero32_uchar (v : UChar) :
    deEntero binary32 ((v.val : Nat) : Int) = Flotante.finito ((v.val : Nat) : ℚ) := by
  have h := v.isLt
  have := deEntero32_eq ((v.val : Nat) : Int) (by omega) (by omega)
  simpa using this

theorem redondear32_uchar (v : UChar) :
    redondear binary32 ((v.val : Nat) : ℚ) = Flotante.finito ((v.val : Nat) : ℚ) := by
  have h := v.isLt
  have := redondear32_entero ((v.val : Nat) : Int) (by omega) (by omega)
  simpa using this

/-- With `dx = dy = 0` the three interpolation statements of `sampleBilinear` give the
sample `v00` exactly. -/
theorem mezcla32_entera (a b c d : UChar) :
    clampuc (aEntero (roundf32 (suma binary32
      (producto binary32
        (suma binary32
          (producto binary32 (deEntero binary32 ((a.val : Nat) : Int))
            (resta binary32 (Flotante.finito 1) (Flotante.finito 0)))
          (producto binary32 (deEntero binary32 ((b.val : Nat) : Int)) (Flotante.finito 0)))
        (resta binary32 (Flotante.finito 1) (Flotante.finito 0)))
      (producto binary32
        (suma binary32
          (producto binary32 (deEntero binary32 ((c.val : Nat) : Int))
            (resta binary32 (Flotante.finito 1) (Flotante.finito 0)))
          (producto binary32 (deEntero binary32 ((d.val : Nat) : Int)) (Flotante.finito 0)))
        (Flotante.finito 0))))) = a := by
  have r1 : resta binary32 (Flotante.finito 1) (Flotante.finito 0) = Flotante.finito 1 := by
    show redondear binary32 (1 + -0) = _
    rw [neg_zero, add_zero]
    exact redondear32_uno
  have p1 : ∀ v : UChar, producto binary32 (Flotante.finito ((v.val : Nat) : ℚ))
      (Flotante.finito 1) = Flotante.finito ((v.val : Nat) : ℚ) := by
    intro v
    show redondear binary32 (((v.val : Nat) : ℚ) * 1) = _
    rw [mul_one]
    exact redondear32_uchar v
  have p0 : ∀ q : ℚ, producto binary32 (Flotante.finito q) (Flotante.finito 0) =
      Flotante.finito 0 := by
    intro q
    show redondear binary32 (q * 0) = _
    rw [mul_zero]
    exact redondear32_cero
  have s0 : ∀ v : UChar, suma binary32 (Flotante.finito ((v.val : Nat) : ℚ))
      (Flotante.finito 0) = Flotante.finito ((v.val : Nat) : ℚ) := by
    intro v
    show redondear binary32 (((v.val : Nat) : ℚ) + 0) = _
    rw [add_zero]
    exact redondear32_uchar v
  rw [r1, deEntero32_uchar, deEntero32_uchar, deEntero32_uchar, deEntero32_uchar, p1, p0, s0,
    p1, p1, p0, s0, p0, s0]
  show clampuc (aEntero (Flotante.finito ((roundf ((a.val : Nat) : ℚ) : Int) : ℚ))) = a
  rw [roundf_natCast]
  have h := a.isLt
  have b1 : ((a.val : Nat) : ℚ) < 256 := by exact_mod_cast h
  have b0 : (0 : ℚ) ≤ ((a.val : Nat) : ℚ) := Nat.cast_nonneg _
  show clampuc (if -2147483649 < (((a.val : Nat) : Int) : ℚ) ∧
      (((a.val : Nat) : Int) : ℚ) < 2147483648 then
      (if 0 ≤ (((a.val : Nat) : Int) : ℚ) then ⌊(((a.val : Nat) : Int) : ℚ)⌋
        else ⌈(((a.val : Nat) : Int) : ℚ)⌉)
      else -2147483648) = a
  rw [Int.floor_intCast, Int.ceil_intCast, ite_self]
  push_cast
  rw [if_pos ⟨by linarith, by linarith⟩]
  exact clampuc_uchar a

/-- At an integer coordinate below `2^24` the binary32 sampler returns the source sample
itself. -/
theorem valorBilineal32_entero (src : Matriz) (srcW srcH : Int) (i j c : Int)
    (hi : 0 ≤ i) (hi1 : i < 16777216) (hj : 0 ≤ j) (hj1 : j < 16777216) :
    valorBilineal32 src srcW srcH (Flotante.finito (i : ℚ)) (Flotante.finito (j : ℚ)) c =
      muestra src j i c := by
  have ci0 : (0 : ℚ) ≤ (i : ℚ) := by exact_mod_cast hi
  have ci1 : (i : ℚ) < 16777216 := by exact_mod_cast hi1
  have cj0 : (0 : ℚ) ≤ (j : ℚ) := by exact_mod_cast hj
  have cj1 : (j : ℚ) < 16777216 := by exact_mod_cast hj1
  have fi : aEntero (floorf (Flotante.finito (i : ℚ))) = i := by
    rw [aEntero_floorf _ (by linarith) (by linarith), Int.floor_intCast]
  have fj : aEntero (floorf (Flotante.finito (j : ℚ))) = j := by
    rw [aEntero_floorf _ (by linarith) (by linarith), Int.floor_intCast]
  have di : resta binary32 (Flotante.finito (i : ℚ)) (deEntero binary32 i) =
      Flotante.finito 0 := by
    rw [deEntero32_eq i (by omega) hi1]
    show redondear binary32 ((i : ℚ) + -(i : ℚ)) = _
    rw [add_neg_cancel]
    exact redondear32_cero
  have dj : resta binary32 (Flotante.finito (j : ℚ)) (deEntero binary32 j) =
      Flotante.finito 0 := by
    rw [deEntero32_eq j (by omega) hj1]
    show redondear binary32 ((j : ℚ) + -(j : ℚ)) = _
    rw [add_neg_cancel]
    exact redondear32_cero
  unfold valorBilineal32 esquinas32
  dsimp only
  rw [fi, fj, di, dj, if_neg (by omega), if_neg (by omega), mezcla32_entera]

/-- C16 (amended).  For every loaded image (at most 4 channels) whose width and height
are at most `2^23 = 8388608`, resizing it to its own width and height with all workers
started, every `float` operation rounded to binary32, reproduces it: at every pixel,
interior or not, each channel of the output equals the input sample, so they differ by
at most 1. -/
theorem redimensionar_identidad (info : ImagenInfo) (numHilos : Int) (h : BienFormada info)
    (hc4 : info.canales ≤ 4) (hancho : info.ancho ≤ 8388608) (halto : info.alto ≤ 8388608) :
    ∃ r cnt, redimensionarConcurrente32 info info.ancho info.alto numHilos todosArrancan =
        some (r, cnt) ∧
      r.ancho = info.ancho ∧ r.alto = info.alto ∧ r.canales = info.canales ∧
      ∀ y x c, 0 ≤ y → y < info.alto → 0 ≤ x → x < info.ancho → 0 ≤ c → c < info.canales →
        ∃ a b : UChar, leerImagen info y x c = some a ∧ leerImagen r y x c = some b ∧
          b = a ∧ |(b.val : Int) - (a.val : Int)| ≤ 1 := by
  have hbf := h
  obtain ⟨hA, hW, hC, hp⟩ := h
  cases hpx : info.pixeles with
  | none => rw [hpx] at hp; exact absurd hp id
  | some src =>
    rw [hpx] at hp
    dsimp only at hp
    have eW := escala32_identidad info.ancho hW (by omega)
    have eA := escala32_identidad info.alto hA (by omega)
    obtain ⟨dst, cnt, e, -, -, hE⟩ := redimensionarConcurrente32_estado info info.ancho
      info.alto numHilos todosArrancan src hpx hbf hc4 hW hA (by omega) (by omega)
      (fun x hx0 hx => by
        rw [eW, coordenadaResize32_identidad x hx0 (by omega)]
        exact enRango32_entero _ x hx0 hx)
      (fun y hy0 hy => by
        rw [eA, coordenadaResize32_identidad y hy0 (by omega)]
        exact enRango32_entero _ y hy0 hy)
    obtain ⟨hn1, -, -⟩ := limitarHilos_rango numHilos info.alto hA
    refine ⟨_, cnt, e, rfl, rfl, rfl, ?_⟩
    intro y x c h1 h2 h3 h4 h5 h6
    have := (hE.2 y x c h1 h2 h3 h4 h5 h6).1 (filaAtendida_todos _ _ y hA hn1 h1 h2)
    dsimp only at this
    rw [eW, eA, coordenadaResize32_identidad x h3 (by omega),
      coordenadaResize32_identidad y h1 (by omega),
      valorBilineal32_entero src _ _ x y c h3 (by omega) h1 (by omega)] at this
    obtain ⟨v, hv⟩ := leer_some hp h1 h2 h3 h4 h5 h6
    rw [muestra_eq hv] at this
    refine ⟨v, v, ?_, ?_, rfl, by simp⟩
    · unfold leerImagen; rw [hpx]; exact hv
    · unfold leerImagen; exact this

theorem redimensionar_identidad_witness :
    ∃ r cnt, redimensionarConcurrente32 imagenRGB2x2 imagenRGB2x2.ancho imagenRGB2x2.alto 3
        todosArrancan = some (r, cnt) ∧
      r.ancho = imagenRGB2x2.ancho ∧ r.alto = imagenRGB2x2.alto ∧
      r.canales = imagenRGB2x2.canales ∧
      ∀ y x c, 0 ≤ y → y < imagenRGB2x2.alto → 0 ≤ x → x < imagenRGB2x2.ancho → 0 ≤ c →
        c < imagenRGB2x2.canales →
        ∃ a b : UChar, leerImagen imagenRGB2x2 y x c = some a ∧ leerImagen r y x c = some b ∧
          b = a ∧ |(b.val : Int) - (a.val : Int)| ≤ 1 :=
  redimensionar_identidad imagenRGB2x2 3 (by decide) (by decide) (by decide) (by decide)

theorem filaAncha_forma (n : Nat) (A W : Int) (hA : A = 3) (hW : W = (n : Int) + 1) :
    Forma (List.replicate 3 (List.replicate n [(0 : UChar)] ++ [[255]])) A W 1 := by
  subst hA hW
  refine ⟨by simp, ?_⟩
  intro fila hf
  rw [List.eq_of_mem_replicate hf]
  refine ⟨by simp, ?_⟩
  intro px hp
  rw [List.mem_append] at hp
  rcases hp with hp | hp
  · rw [List.eq_of_mem_replicate hp]
    rfl
  · rw [List.mem_singleton] at hp
    rw [hp]
    rfl

theorem filaAncha_leer (n : Nat) (y x : Int) (h1 : 0 ≤ y) (h2 : y < 3) (h3 : 0 ≤ x)
    (h4 : x ≤ n) :
    leer (List.replicate 3 (List.replicate n [(0 : UChar)] ++ [[255]])) y x 0 =
      some (if x = n then 255 else 0) := by
  unfold leer leerLista
  rw [if_neg (by omega), List.getElem?_replicate, if_pos (by omega), Option.some_bind,
    if_neg (by omega)]
  by_cases hx : x = n
  · subst hx
    rw [if_pos rfl, List.getElem?_append_right (by simp)]
    simp
  · rw [if_neg hx, List.getElem?_append_left (by simp; omega), List.getElem?_replicate,
      if_pos (by omega)]
    simp

/-- Column `2^23`: `8388608 + 0.5f` is halfway between two binary32 values and rounds to
`8388608`, so the coordinate is `8388607.5`. -/
theorem coordenadaResize32_8388608 :
    coordenadaResize32 8388608 (Flotante.finito 1) = Flotante.finito (16777215 / 2) := by
  refine coordenadaResize32_uno 8388608 8388608 (16777215 / 2) (by decide) (by decide)
    ?_ ?_ ?_
  · rw [redondear_empate_pos binary32 _ 23 0 8388608 (by norm_num) (by norm_num) (by decide)
      (by rw [umbral32]; norm_num) (by norm_num)]
    norm_num
  · have := redondear32_entero 8388608 (by decide) (by decide)
    simpa using this
  · have := redondear32_medio 8388607 (by decide) (by decide)
    norm_num at this ⊢
    exact this

/-- Column `2^23 + 1`: `8388609 + 0.5f` rounds to `8388610`, and `8388610 - 0.5f` rounds
to `8388610` again, so the coordinate is `8388610`, one column to the right. -/
theorem coordenadaResize32_8388609 :
    coordenadaResize32 8388609 (Flotante.finito 1) = Flotante.finito ((8388610 : Int) : ℚ) := by
  refine coordenadaResize32_uno 8388609 8388610 _ (by decide) (by decide) ?_ ?_ ?_
  · rw [redondear_empate_pos binary32 _ 23 0 8388609 (by norm_num) (by norm_num) (by decide)
      (by rw [umbral32]; norm_num) (by norm_num)]
    norm_num
  · have := redondear32_entero 8388610 (by decide) (by decide)
    simpa using this
  · rw [redondear_empate_pos binary32 _ 23 0 8388609 (by norm_num) (by norm_num) (by decide)
      (by rw [umbral32]; norm_num) (by norm_num)]
    norm_num

/-- Column `2^23 + 2`: the coordinate is `8388610`. -/
theorem coordenadaResize32_8388610 :
    coordenadaResize32 8388610 (Flotante.finito 1) = Flotante.finito ((8388610 : Int) : ℚ) := by
  refine coordenadaResize32_uno 8388610 8388610 _ (by decide) (by decide) ?_ ?_ ?_
  · rw [redondear_empate_pos binary32 _ 23 0 8388610 (by norm_num) (by norm_num) (by decide)
      (by rw [umbral32]; norm_num) (by norm_num)]
    norm_num
  · have := redondear32_entero 8388610 (by decide) (by decide)
    simpa using this
  · rw [redondear_empate_pos binary32 _ 23 0 8388609 (by norm_num) (by norm_num) (by decide)
      (by rw [umbral32]; norm_num) (by norm_num)]
    norm_num

/-- C16 (counterexample).  A 3 x 8388611 single-channel image that is 0 everywhere except
in its last column (255), resized to its own size in binary32.  At the interior pixel
`(y, x) = (1, 8388609)` the coordinate `(x + 0.5f) * 1.0f - 0.5f` is `8388610`: the call
completes and returns the sample of column 8388610, so the output holds 255 where the
input holds 0. -/
theorem redimensionar_identidad_falla_en_imagen_ancha :
    BienFormada imagenAncha ∧ leerImagen imagenAncha 1 8388609 0 = some 0 ∧
    coordenadaResize32 8388609 (Flotante.finito 1) = Flotante.finito 8388610 ∧
    ∃ r cnt, redimensionarConcurrente32 imagenAncha imagenAncha.ancho imagenAncha.alto 3
        todosArrancan = some (r, cnt) ∧
      r.ancho = imagenAncha.ancho ∧ r.alto = imagenAncha.alto ∧
      leerImagen r 1 8388609 0 = some 255 ∧
      ¬ |((255 : UChar).val : Int) - ((0 : UChar).val : Int)| ≤ 1 := by
  have hF := filaAncha_forma 8388610 3 8388611 rfl (by norm_num)
  have hbf : BienFormada imagenAncha := ⟨by decide, by decide, by decide, hF⟩
  have hin : leerImagen imagenAncha 1 8388609 0 = some 0 := by
    show (some (List.replicate 3 (List.replicate 8388610 [(0 : UChar)] ++ [[255]]))).bind
      (fun m => leer m 1 8388609 0) = some 0
    rw [Option.some_bind, filaAncha_leer 8388610 1 8388609 (by decide) (by decide) (by decide) (by decide),
      if_neg (by decide)]
  have c9 : coordenadaResize32 8388609 (Flotante.finito 1) = Flotante.finito 8388610 := by
    have := coordenadaResize32_8388609
    simpa using this
  refine ⟨hbf, hin, c9, ?_⟩
  have eW : cociente binary32 (deEntero binary32 imagenAncha.ancho)
      (deEntero binary32 imagenAncha.ancho) = Flotante.finito 1 :=
    escala32_identidad 8388611 (by decide) (by decide)
  have eA : cociente binary32 (deEntero binary32 imagenAncha.alto)
      (deEntero binary32 imagenAncha.alto) = Flotante.finito 1 :=
    escala32_identidad 3 (by decide) (by decide)
  obtain ⟨dst, cnt, e, -, -, hE⟩ := redimensionarConcurrente32_estado imagenAncha
    imagenAncha.ancho imagenAncha.alto 3 todosArrancan
    (List.replicate 3 (List.replicate 8388610 [(0 : UChar)] ++ [[255]])) rfl hbf
    (by decide) (by decide) (by decide) (by decide) (by decide)
    (fun x hx0 hx => by
      have hx1 : x < 8388611 := hx
      rw [eW]
      by_cases hc : x < 8388608
      · rw [coordenadaResize32_identidad x hx0 hc]
        exact enRango32_entero _ x hx0 hx
      · have : x = 8388608 ∨ x = 8388609 ∨ x = 8388610 := by omega
        rcases this with rfl | rfl | rfl
        · rw [coordenadaResize32_8388608]
          exact ⟨_, rfl, by norm_num, by
            show (16777215 / 2 : ℚ) < ((8388611 : Int) : ℚ)
            norm_num⟩
        · rw [coordenadaResize32_8388609]
          exact enRango32_entero _ 8388610 (by decide) (by decide)
        · rw [coordenadaResize32_8388610]
          exact enRango32_entero _ 8388610 (by decide) (by decide))
    (fun y hy0 hy => by
      have hy1 : y < 3 := hy
      rw [eA, coordenadaResize32_identidad y hy0 (by omega)]
      exact enRango32_entero _ y hy0 hy)
  refine ⟨_, cnt, e, rfl, rfl, ?_, by decide⟩
  have hat : filaAtendida imagenAncha.alto (limitarHilos 3 imagenAncha.alto) todosArrancan 1 :=
    filaAtendida_todos 3 _ 1 (by decide) (by decide) (by decide) (by decide)
  have := (hE.2 1 8388609 0 (by decide) (by decide) (by decide) (by decide) (by decide)
    (by decide)).1 hat
  dsimp only at this
  rw [eW, eA, coordenadaResize32_8388609, coordenadaResize32_identidad 1 (by decide) (by decide),
    valorBilineal32_entero _ _ _ 8388610 1 0 (by decide) (by decide) (by decide) (by decide),
    muestra_eq (filaAncha_leer 8388610 1 8388610 (by decide) (by decide) (by decide)
      (by decide)), if_pos (by norm_num)] at this
  unfold leerImagen
  dsimp only
  rw [Option.some_bind, this]

/-! ## Rounding error bounds -/

theorem redondeoPar_error (x : ℚ) : |((redondeoPar x : Int) : ℚ) - x| ≤ 1 / 2 := by
  have h1 := Int.floor_le x
  have h2 := Int.lt_floor_add_one x
  unfold redondeoPar
  split_ifs with a b c
  · rw [abs_le]; constructor <;> linarith
  · rw [abs_le]; push_cast; constructor <;> linarith
  · have : x - (⌊x⌋ : ℚ) = 1 / 2 := le_antisymm (not_lt.1 b) (not_lt.1 a)
    rw [abs_le]; constructor <;> linarith
  · have : x - (⌊x⌋ : ℚ) = 1 / 2 := le_antisymm (not_lt.1 b) (not_lt.1 a)
    rw [abs_le]; push_cast; constructor <;> linarith

theorem redondeoPar_nonneg (x : ℚ) (h : 0 ≤ x) : 0 ≤ redondeoPar x := by
  have h1 : 0 ≤ ⌊x⌋ := Int.floor_nonneg.2 h
  unfold redondeoPar
  split_ifs <;> omega

theorem redondeoPar_nonpos (x : ℚ) (h : x ≤ 0) : redondeoPar x ≤ 0 := by
  have h1 : ⌊x⌋ ≤ 0 := Int.floor_nonpos h
  have h2 := Int.lt_floor_add_one x
  unfold redondeoPar
  split_ifs with a b c
  · exact h1
  · have : (⌊x⌋ : ℚ) < -(1 / 2) := by linarith
    have : (⌊x⌋ : ℚ) < 0 := by linarith
    have : ⌊x⌋ < 0 := by exact_mod_cast this
    omega
  · exact h1
  · have hx : x - (⌊x⌋ : ℚ) = 1 / 2 := le_antisymm (not_lt.1 b) (not_lt.1 a)
    have : (⌊x⌋ : ℚ) < 0 := by linarith
    have : ⌊x⌋ < 0 := by exact_mod_cast this
    omega

/-- The error of a rounding that does not overflow: at most half a unit in the last
place, which is at most `|q| * 2^-p` for a normal result and `2^(emin-1)` below. -/
theorem redondear_cota (f : Formato) (q : ℚ) (hT : |q| < umbral f) :
    ∃ r : ℚ, redondear f q = Flotante.finito r ∧
      |r - q| ≤ |q| * (2 : ℚ) ^ (-(f.p : Int)) + (2 : ℚ) ^ (f.emin - 1) ∧
      (0 ≤ q → 0 ≤ r) ∧ (q ≤ 0 → r ≤ 0) := by
  have h2 : (0 : ℚ) < 2 := by norm_num
  have hE : (0 : ℚ) < (2 : ℚ) ^ exponente f q := zpow_pos h2 _
  refine ⟨((redondeoPar (q / (2 : ℚ) ^ exponente f q) : Int) : ℚ) * (2 : ℚ) ^ exponente f q,
    ?_, ?_, ?_, ?_⟩
  · unfold redondear
    rw [if_neg (not_le.2 hT)]
  · have hpos1 : (0 : ℚ) ≤ |q| * (2 : ℚ) ^ (-(f.p : Int)) :=
      mul_nonneg (abs_nonneg q) (le_of_lt (zpow_pos h2 _))
    have hpos2 : (0 : ℚ) ≤ (2 : ℚ) ^ (f.emin - 1) := le_of_lt (zpow_pos h2 _)
    by_cases h0 : q = 0
    · have hz : redondeoPar (0 : ℚ) = 0 := by
        have := redondeoPar_entero 0
        simpa using this
      rw [h0, zero_div, hz]
      simp only [Int.cast_zero, zero_mul, sub_zero, abs_zero]
      linarith
    have herr := redondeoPar_error (q / (2 : ℚ) ^ exponente f q)
    have e1 : ((redondeoPar (q / (2 : ℚ) ^ exponente f q) : Int) : ℚ) * (2 : ℚ) ^ exponente f q - q
        = (((redondeoPar (q / (2 : ℚ) ^ exponente f q) : Int) : ℚ) - q / (2 : ℚ) ^ exponente f q)
          * (2 : ℚ) ^ exponente f q := by
      field_simp
    rw [e1, abs_mul, abs_of_pos hE]
    have b1 : |((redondeoPar (q / (2 : ℚ) ^ exponente f q) : Int) : ℚ) - q / (2 : ℚ) ^ exponente f q|
        * (2 : ℚ) ^ exponente f q ≤ 1 / 2 * (2 : ℚ) ^ exponente f q :=
      mul_le_mul_of_nonneg_right herr (le_of_lt hE)
    refine le_trans b1 ?_
    have hhalf : ∀ e : Int, 1 / 2 * (2 : ℚ) ^ e = (2 : ℚ) ^ (e - 1) := by
      intro e
      rw [zpow_sub₀ (by norm_num : (2 : ℚ) ≠ 0), zpow_one]
      ring
    rw [hhalf]
    by_cases hc : Int.log 2 |q| - ((f.p : Int) - 1) ≤ f.emin
    · have : exponente f q = f.emin := by
        unfold exponente
        exact max_eq_right hc
      rw [this]
      linarith
    · have hx : exponente f q = Int.log 2 |q| - ((f.p : Int) - 1) := by
        unfold exponente
        exact max_eq_left (le_of_lt (not_le.1 hc))
      rw [hx]
      have hqpos : 0 < |q| := abs_pos.2 h0
      have l1 := Int.zpow_log_le_self (R := ℚ) (b := 2) (by norm_num) hqpos
      have l2 : (2 : ℚ) ^ Int.log 2 |q| ≤ |q| := by
        have : ((2 : ℕ) : ℚ) ^ Int.log 2 |q| ≤ |q| := l1
        push_cast at this
        exact this
      have e2 : (2 : ℚ) ^ (Int.log 2 |q| - ((f.p : Int) - 1) - 1) =
          (2 : ℚ) ^ Int.log 2 |q| * (2 : ℚ) ^ (-(f.p : Int)) := by
        rw [← zpow_add₀ (by norm_num : (2 : ℚ) ≠ 0)]
        congr 1
        ring
      rw [e2]
      have : (2 : ℚ) ^ Int.log 2 |q| * (2 : ℚ) ^ (-(f.p : Int)) ≤
          |q| * (2 : ℚ) ^ (-(f.p : Int)) :=
        mul_le_mul_of_nonneg_right l2 (le_of_lt (zpow_pos h2 _))
      linarith
  · intro hq
    exact mul_nonneg (by exact_mod_cast redondeoPar_nonneg _ (div_nonneg hq (le_of_lt hE)))
      (le_of_lt hE)
  · intro hq
    exact mul_nonpos_of_nonpos_of_nonneg
      (by exact_mod_cast redondeoPar_nonpos _ (div_nonpos_of_nonpos_of_nonneg hq (le_of_lt hE)))
      (le_of_lt hE)

/-- Error of a binary32 rounding below `2^100`: relative `2^-24` plus `2^-150`. -/
theorem redondear32_cota (q : ℚ) (hq : |q| ≤ 2 ^ 100) :
    ∃ r : ℚ, redondear binary32 q = Flotante.finito r ∧
      |r - q| ≤ |q| / 16777216 + 1 / 2 ^ 150 ∧ (0 ≤ q → 0 ≤ r) ∧ (q ≤ 0 → r ≤ 0) := by
  obtain ⟨r, e, h1, h2, h3⟩ := redondear_cota binary32 q (by
    rw [umbral32]
    refine lt_of_le_of_lt hq ?_
    norm_num)
  refine ⟨r, e, ?_, h2, h3⟩
  have e1 : (2 : ℚ) ^ (-((binary32.p : Nat) : Int)) = 1 / 16777216 := by
    show (2 : ℚ) ^ (-((24 : Nat) : Int)) = _
    norm_num [zpow_neg]
  have e2 : (2 : ℚ) ^ (binary32.emin - 1) = 1 / 2 ^ 150 := by
    show (2 : ℚ) ^ ((-149 : Int) - 1) = _
    norm_num [zpow_neg]
  rw [e1, e2] at h1
  linarith

/-- Error of a binary64 rounding below `2^100`: relative `2^-53` plus `2^-1075`. -/
theorem redondear64_cota (q : ℚ) (hq : |q| ≤ 2 ^ 100) :
    ∃ r : ℚ, redondear binary64 q = Flotante.finito r ∧
      |r - q| ≤ |q| / 9007199254740992 + 1 / 2 ^ 1075 ∧ (0 ≤ q → 0 ≤ r) ∧ (q ≤ 0 → r ≤ 0) := by
  obtain ⟨r, e, h1, h2, h3⟩ := redondear_cota binary64 q (by
    refine lt_of_le_of_lt hq ?_
    unfold umbral binary64
    norm_num)
  refine ⟨r, e, ?_, h2, h3⟩
  have e1 : (2 : ℚ) ^ (-((binary64.p : Nat) : Int)) = 1 / 9007199254740992 := by
    show (2 : ℚ) ^ (-((53 : Nat) : Int)) = _
    norm_num [zpow_neg]
  have e2 : (2 : ℚ) ^ (binary64.emin - 1) = 1 / 2 ^ 1075 := by
    show (2 : ℚ) ^ ((-1074 : Int) - 1) = _
    norm_num [zpow_neg]
  rw [e1, e2] at h1
  linarith

/-- Accumulating non-negative binary32 values with `+=`: the result is within
`2 * N * (sum * 2^-24 + 2^-150)` of the exact sum. -/
theorem sumar32_cota (x : Nat → ℚ) :
    ∀ N : Nat, N ≤ 4194304 → (∀ p, p < N → 0 ≤ x p) →
      ∑ p in Finset.range N, x p ≤ 2 ^ 90 →
      ∃ S : ℚ, (List.range N).foldl (fun acc p => suma binary32 acc (Flotante.finito (x p)))
          (Flotante.finito 0) = Flotante.finito S ∧ 0 ≤ S ∧
        |S - ∑ p in Finset.range N, x p| ≤
          2 * (N : ℚ) * ((∑ p in Finset.range N, x p) / 16777216 + 1 / 2 ^ 150)
  | 0, _, _, _ => ⟨0, rfl, le_refl 0, by simp⟩
  | N + 1, hN, hx, hB => by
    have hxN : 0 ≤ x N := hx N (Nat.lt_succ_self N)
    have hsum : ∑ p in Finset.range (N + 1), x p = ∑ p in Finset.range N, x p + x N :=
      Finset.sum_range_succ _ _
    have ht0 : 0 ≤ ∑ p in Finset.range N, x p :=
      Finset.sum_nonneg (fun p hp => hx p (by rw [Finset.mem_range] at hp; omega))
    obtain ⟨S, e, hS0, hS⟩ := sumar32_cota x N (by omega) (fun p hp => hx p (by omega))
      (by rw [hsum] at hB; linarith)
    rw [hsum] at hB ⊢
    have hk : (N : ℚ) ≤ 4194304 := by exact_mod_cast (show N ≤ 4194304 by omega)
    have hk0 : (0 : ℚ) ≤ (N : ℚ) := Nat.cast_nonneg N
    have heta : (0 : ℚ) < 1 / 2 ^ 150 := one_div_pos.2 (pow_pos (by norm_num) 150)
    have heta1 : (1 : ℚ) / 2 ^ 150 ≤ 1 / 2 ^ 30 :=
      one_div_le_one_div_of_le (pow_pos (by norm_num) 30)
        (pow_le_pow_right₀ (by norm_num) (by norm_num))
    have h30 : (1 : ℚ) / 2 ^ 30 = 1 / 1073741824 := by norm_num
    rw [h30] at heta1
    have h100 : (2 : ℚ) ^ 90 * 2 + 1 ≤ 2 ^ 100 := by norm_num
    have hSbound : ∀ η : ℚ, 0 < η → η ≤ 1 / 1073741824 →
        |S - ∑ p in Finset.range N, x p| ≤
          2 * (N : ℚ) * ((∑ p in Finset.range N, x p) / 16777216 + η) →
        (∀ r : ℚ, |r - (S + x N)| ≤ |S + x N| / 16777216 + η →
          |r - (∑ p in Finset.range N, x p + x N)| ≤
            2 * ((N : ℚ) + 1) * ((∑ p in Finset.range N, x p + x N) / 16777216 + η)) ∧
        |S + x N| ≤ 2 ^ 90 * 2 + 1 := by
      intro η h1 h2 hS
      generalize (∑ p in Finset.range N, x p) = t at *
      have hS2 := abs_le.1 hS
      have hw : 0 ≤ t / 16777216 + η := by linarith [div_nonneg ht0 (by norm_num : (0 : ℚ) ≤ 16777216)]
      have h2k : 2 * (N : ℚ) * (t / 16777216 + η) ≤ 8388608 * (t / 16777216 + η) :=
        mul_le_mul_of_nonneg_right (by linarith) hw
      constructor
      · intro r hr
        rw [abs_of_nonneg (by linarith : 0 ≤ S + x N)] at hr
        have hr2 := abs_le.1 hr
        rw [abs_le]
        constructor <;> nlinarith
      · rw [abs_of_nonneg (by linarith : 0 ≤ S + x N)]
        nlinarith
    obtain ⟨hstep, hq⟩ := hSbound _ heta heta1 hS
    obtain ⟨r, er, hr, hr0, -⟩ := redondear32_cota (S + x N) (le_trans hq h100)
    refine ⟨r, ?_, hr0 (by linarith), ?_⟩
    · rw [List.range_succ, List.foldl_append, e]
      exact er
    · push_cast
      exact hstep r hr

/-! ## The filling loops of the binary32 kernel -/

/-- The two filling loops of `generarKernelGauss`, for any accumulation `op`: entry `p`
gets the value for its position and the accumulator folds them in index order. -/
theorem llenar_kernel_gen {α β : Type} (g : Int → Int → α) (op : β → α → β) (k2 : Int)
    (n : Nat) (hn : (n : Int) = 2 * k2 + 1) (ker0 : List α) (hk : ker0.length = n * n)
    (s0 : β) :
    ∃ st : List α × β,
      forLoop (-k2) (k2 + 1) (fun y st =>
        forLoop (-k2) (k2 + 1) (fun x st =>
          (escribirLista st.1 ((y + k2) * n + (x + k2)) (g x y)).map
            fun k => (k, op st.2 (g x y))) st) (ker0, s0) = some st ∧
      st.1 = (List.range (n * n)).map
        (fun p => g (((p % n : Nat) : Int) - k2) (((p / n : Nat) : Int) - k2)) ∧
      st.2 = (List.range (n * n)).foldl
        (fun acc p => op acc (g (((p % n : Nat) : Int) - k2) (((p / n : Nat) : Int) - k2))) s0 := by
  have hcnt : (k2 + 1 - -k2).toNat = n := by omega
  have hn0 : 0 < n := by omega
  have key := forLoop_inv_nat (-k2) (k2 + 1)
    (fun y st =>
        forLoop (-k2) (k2 + 1) (fun x st =>
          (escribirLista st.1 ((y + k2) * n + (x + k2)) (g x y)).map
            fun k => (k, op st.2 (g x y))) st)
    (fun j (st : List α × β) => st.1.length = n * n ∧
      (∀ p : Nat, p < j * n →
        st.1[p]? = some (g (((p % n : Nat) : Int) - k2) (((p / n : Nat) : Int) - k2))) ∧
      st.2 = (List.range (j * n)).foldl
        (fun acc p => op acc (g (((p % n : Nat) : Int) - k2) (((p / n : Nat) : Int) - k2))) s0)
    (ker0, s0) ⟨hk, fun p hp => by simp at hp, by simp⟩ ?_
  · rw [hcnt] at key
    obtain ⟨st, e, hl, hget, hsum⟩ := key
    refine ⟨st, e, ?_, hsum⟩
    apply List.ext_getElem?
    intro p
    by_cases hp : p < n * n
    · rw [hget p hp, List.getElem?_map, List.getElem?_range hp]
      rfl
    · rw [List.getElem?_eq_none (by omega), List.getElem?_eq_none (by simp; omega)]
  · intro j st hj ⟨hl, hget, hsum⟩
    have hjn : j < n := by omega
    have inner := forLoop_inv_nat (-k2) (k2 + 1)
      (fun x st =>
          (escribirLista st.1 ((-k2 + (j : Int) + k2) * n + (x + k2)) (g x (-k2 + (j : Int)))).map
            fun k => (k, op st.2 (g x (-k2 + (j : Int)))))
      (fun i (t : List α × β) => t.1.length = n * n ∧
        (∀ p : Nat, p < j * n + i →
          t.1[p]? = some (g (((p % n : Nat) : Int) - k2) (((p / n : Nat) : Int) - k2))) ∧
        t.2 = (List.range (j * n + i)).foldl
          (fun acc p => op acc (g (((p % n : Nat) : Int) - k2) (((p / n : Nat) : Int) - k2)))
          s0)
      st ⟨hl, fun p hp => hget p (by omega), by simpa using hsum⟩ ?_
    · rw [hcnt] at inner
      obtain ⟨t, e, h1, h2, h3⟩ := inner
      have e2 : (j + 1) * n = j * n + n := by ring
      refine ⟨t, e, h1, ?_, ?_⟩
      · intro p hp
        exact h2 p (by omega)
      · rw [e2]
        exact h3
    · intro i t hi ⟨h1, h2, h3⟩
      have hin : i < n := by omega
      have hidx : (-k2 + (j : Int) + k2) * n + (-k2 + (i : Int) + k2) = ((j * n + i : Nat) : Int) := by
        push_cast; ring
      have hlt : j * n + i < t.1.length := by
        rw [h1]
        have : (j + 1) * n ≤ n * n := Nat.mul_le_mul_right n (by omega)
        have e2 : (j + 1) * n = j * n + n := by ring
        omega
      have hmod : (j * n + i) % n = i := by
        rw [Nat.add_comm, Nat.add_mul_mod_self_right]
        exact Nat.mod_eq_of_lt hin
      have hdiv : (j * n + i) / n = j := by
        rw [Nat.add_comm, Nat.add_mul_div_right _ _ hn0, Nat.div_eq_of_lt hin]
        simp
      have hg : g (-k2 + (i : Int)) (-k2 + (j : Int)) =
          g ((((j * n + i) % n : Nat) : Int) - k2) ((((j * n + i) / n : Nat) : Int) - k2) := by
        rw [hmod, hdiv]
        congr 1 <;> ring
      dsimp only
      rw [escribirLista_nat _ _ _ _ hidx hlt]
      refine ⟨_, rfl, ?_, ?_, ?_⟩
      · simp only [Option.map_some', List.length_set]
        exact h1
      · intro p hp
        simp only [Option.map_some']
        rw [List.getElem?_set]
        by_cases q : j * n + i = p
        · rw [if_pos q, if_pos hlt, hg, q]
        · rw [if_neg q]
          exact h2 p (by omega)
      · simp only [Option.map_some']
        rw [h3, ← Nat.add_assoc, List.range_succ, List.foldl_append, hg]
        rfl

/-- Nested loops over a square window fold in the order of the flat index. -/
theorem plegar_plano {α β : Type} (F : β → α → β) (h : Nat → Nat → α) (n : Nat) (s0 : β) :
    ∀ m : Nat, (List.range m).foldl (fun acc a =>
        (List.range n).foldl (fun acc b => F acc (h a b)) acc) s0 =
      (List.range (m * n)).foldl (fun acc p => F acc (h (p / n) (p % n))) s0
  | 0 => by simp
  | m + 1 => by
    have e2 : (m + 1) * n = m * n + n := by ring
    rw [List.range_succ, List.foldl_append, plegar_plano F h n s0 m, e2, List.range_add,
      List.foldl_append, List.foldl_map]
    simp only [List.foldl_cons, List.foldl_nil]
    apply List.foldl_ext
    intro acc b hb
    rw [List.mem_range] at hb
    have hn0 : 0 < n := by omega
    have hmod : (m * n + b) % n = b := by
      rw [Nat.add_comm, Nat.add_mul_mod_self_right]
      exact Nat.mod_eq_of_lt hb
    have hdiv : (m * n + b) / n = m := by
      rw [Nat.add_comm, Nat.add_mul_div_right _ _ hn0, Nat.div_eq_of_lt hb]
      simp
    rw [hmod, hdiv]

/-- What `generarKernelGauss32` returns for an odd size `≥ 3` when the sum of the raw
weights compares greater than 0: every raw weight divided by that sum. -/
theorem generarKernelGauss32_spec (expf : Flotante → Flotante) (n : Nat) (sigma : Flotante)
    (h1 : ¬ (Int.tmod (n : Int) 2 = 0 ∨ (n : Int) < 3))
    (hpos : mayorQue (sumaCruda32 expf sigma n) (Flotante.finito 0) = true) :
    generarKernelGauss32 expf n sigma =
      some ((List.range (n * n)).map
        (fun p => cociente binary32 (pesoCrudoEn expf sigma n p) (sumaCruda32 expf sigma n))) := by
  obtain ⟨h3, hodd, hk2⟩ := impar_desde_tres n h1
  have hnn : ((n : Int) * n).toNat = n * n := by
    have : (n : Int) * n = ((n * n : Nat) : Int) := by push_cast; ring
    rw [this]; exact Int.toNat_ofNat _
  obtain ⟨st, e, hker, hsum⟩ := llenar_kernel_gen (pesoCrudo32 expf sigma)
    (fun (acc : Flotante) v => suma binary32 acc v) (Int.tdiv (n : Int) 2) n hodd
    (List.replicate (n * n) (Flotante.finito 0)) (by simp) (Flotante.finito 0)
  have hS : st.2 = sumaCruda32 expf sigma n := hsum
  have hK : st.1 = (List.range (n * n)).map (pesoCrudoEn expf sigma n) := hker
  unfold generarKernelGauss32
  rw [if_neg h1]
  dsimp only
  rw [hnn]
  unfold pesoCrudo32 at e
  rw [e, Option.some_bind, hS, if_pos hpos]
  have hN : ((n : Int) * n) = ((n * n : Nat) : Int) := by push_cast; ring
  rw [hN, forLoop_cada_entrada (n * n)
    (fun w => cociente binary32 w (sumaCruda32 expf sigma n)) _ ?_ st.1 (by rw [hK]; simp), hK,
    List.map_map]
  · rfl
  · intro j k w hw
    rw [leerLista_natCast, hw, Option.some_bind]
    have hj : j < k.length := by
      by_contra hc
      rw [List.getElem?_eq_none (by omega)] at hw
      cases hw
    exact escribirLista_nat _ _ _ _ rfl hj

/-! ## Size of the raw weights for `0.1 ≤ sigma ≤ 50` -/

theorem redondear32_aprox (q : ℚ) (hq : |q| ≤ 2 ^ 100) :
    ∃ r : ℚ, redondear binary32 q = Flotante.finito r ∧
      |r - q| ≤ |q| / 16777216 + 1 / 10 ^ 40 ∧ (0 ≤ q → 0 ≤ r) ∧ (q ≤ 0 → r ≤ 0) := by
  obtain ⟨r, e, h1, h2, h3⟩ := redondear32_cota q hq
  refine ⟨r, e, ?_, h2, h3⟩
  have : (1 : ℚ) / 2 ^ 150 ≤ 1 / 10 ^ 40 := by norm_num
  linarith

theorem redondear64_aprox (q : ℚ) (hq : |q| ≤ 2 ^ 100) :
    ∃ r : ℚ, redondear binary64 q = Flotante.finito r ∧
      |r - q| ≤ |q| / 16777216 + 1 / 10 ^ 40 ∧ (0 ≤ q → 0 ≤ r) ∧ (q ≤ 0 → r ≤ 0) := by
  obtain ⟨r, e, h1, h2, h3⟩ := redondear64_cota q hq
  refine ⟨r, e, ?_, h2, h3⟩
  have h4 : (1 : ℚ) / 2 ^ 1075 ≤ 1 / 10 ^ 40 := by norm_num
  have h5 : |q| / 9007199254740992 ≤ |q| / 16777216 :=
    div_le_div_of_nonneg_left (abs_nonneg q) (by norm_num) (by norm_num)
  linarith

/-- Rounding of a non-negative value to binary32, as two-sided bounds. -/
theorem redondear32_pos (q : ℚ) (h0 : 0 ≤ q) (hq : q ≤ 2 ^ 100) :
    ∃ r : ℚ, redondear binary32 q = Flotante.finito r ∧ 0 ≤ r ∧
      q - q / 16777216 - 1 / 10 ^ 40 ≤ r ∧ r ≤ q + q / 16777216 + 1 / 10 ^ 40 := by
  obtain ⟨r, e, h1, h2, -⟩ := redondear32_aprox q (by rw [abs_of_nonneg h0]; exact hq)
  rw [abs_of_nonneg h0] at h1
  have := abs_le.1 h1
  exact ⟨r, e, h2 h0, by linarith, by linarith⟩

/-- Rounding of a non-negative value to binary64, as two-sided bounds. -/
theorem redondear64_pos (q : ℚ) (h0 : 0 ≤ q) (hq : q ≤ 2 ^ 100) :
    ∃ r : ℚ, redondear binary64 q = Flotante.finito r ∧ 0 ≤ r ∧
      q - q / 16777216 - 1 / 10 ^ 40 ≤ r ∧ r ≤ q + q / 16777216 + 1 / 10 ^ 40 := by
  obtain ⟨r, e, h1, h2, -⟩ := redondear64_aprox q (by rw [abs_of_nonneg h0]; exact hq)
  rw [abs_of_nonneg h0] at h1
  have := abs_le.1 h1
  exact ⟨r, e, h2 h0, by linarith, by linarith⟩

/-- The value `denom = 2.0f * sigma * sigma` for `0.1 ≤ sigma ≤ 50`. -/
theorem denom32_cota (s : ℚ) (h1 : 1 / 10 ≤ s) (h2 : s ≤ 50) :
    ∃ d : ℚ, producto binary32 (producto binary32 (Flotante.finito 2) (Flotante.finito s))
        (Flotante.finito s) = Flotante.finito d ∧ 1 / 51 ≤ d ∧ d ≤ 5001 := by
  have hb : (5200 : ℚ) ≤ 2 ^ 100 := by norm_num
  obtain ⟨t, et, t0, t1, t2⟩ := redondear32_pos (2 * s) (by linarith) (by linarith)
  have tl : 19 / 100 ≤ t := by linarith
  have tu : t ≤ 101 := by linarith
  have hts0 : 0 ≤ t * s := mul_nonneg t0 (by linarith)
  have htsu : t * s ≤ 5050 := by nlinarith
  have htsl : 19 / 1000 ≤ t * s := by nlinarith
  obtain ⟨d, ed, d0, d1, d2⟩ := redondear32_pos (t * s) hts0 (by linarith)
  refine ⟨d, ?_, ?_, ?_⟩
  · show producto binary32 (redondear binary32 (2 * s)) (Flotante.finito s) = _
    rw [et]
    exact ed
  · nlinarith
  · -- the upper bound needs the sharper estimate of `t`
    have tu2 : t ≤ 100 + 1 / 1000 := by linarith
    have : t * s ≤ 5000 + 1 / 10 := by nlinarith
    linarith

/-- For `0.1 ≤ sigma ≤ 50` and an `expf` with values in `[0, 1]` on non-positive
arguments, every raw weight of a window of radius at most 25 is a finite value in
`[0, 19]`. -/
theorem pesoCrudo32_cota (expf : Flotante → Flotante) (s : ℚ) (h1 : 1 / 10 ≤ s) (h2 : s ≤ 50)
    (hexp : ∀ q : ℚ, q ≤ 0 →
      ∃ e : ℚ, expf (Flotante.finito q) = Flotante.finito e ∧ 0 ≤ e ∧ e ≤ 1)
    (x y : Int) (hr : x * x + y * y ≤ 1250) :
    ∃ v : ℚ, pesoCrudo32 expf (Flotante.finito s) x y = Flotante.finito v ∧ 0 ≤ v ∧ v ≤ 19 := by
  obtain ⟨d, ed, dl, du⟩ := denom32_cota s h1 h2
  have hd0 : 0 < d := by linarith
  have hb : (64000 : ℚ) ≤ 2 ^ 100 := by norm_num
  have hpi : (884279719003555 / 281474976710656 : ℚ) * d ≤ 16000 := by nlinarith
  have hpi0 : (1 : ℚ) / 17 ≤ 884279719003555 / 281474976710656 * d := by nlinarith
  obtain ⟨D, eD, D0, Dl, Du⟩ := redondear64_pos (884279719003555 / 281474976710656 * d)
    (by linarith) (by linarith)
  have hD : 1 / 18 ≤ D := by linarith
  have hDpos : 0 < D := by linarith
  have hr0 : 0 ≤ x * x + y * y := by nlinarith [mul_self_nonneg x, mul_self_nonneg y]
  have hrq0 : (0 : ℚ) ≤ ((x * x + y * y : Int) : ℚ) := by exact_mod_cast hr0
  have hrq1 : ((x * x + y * y : Int) : ℚ) ≤ 1250 := by exact_mod_cast hr
  have hquot : -((x * x + y * y : Int) : ℚ) / d ≤ 0 :=
    div_nonpos_of_nonpos_of_nonneg (by linarith) (le_of_lt hd0)
  have hquotabs : |-((x * x + y * y : Int) : ℚ) / d| ≤ 2 ^ 100 := by
    rw [abs_of_nonpos hquot, neg_div, neg_neg, div_le_iff₀ hd0]
    nlinarith
  obtain ⟨a, ea, -, -, ha⟩ := redondear32_aprox (-((x * x + y * y : Int) : ℚ) / d) hquotabs
  obtain ⟨e, ee, e0, e1⟩ := hexp a (ha hquot)
  have hw0 : 0 ≤ e / D := div_nonneg e0 (le_of_lt hDpos)
  have hw1 : e / D ≤ 18 := by
    rw [div_le_iff₀ hDpos]
    nlinarith
  obtain ⟨w, ew, w0, -, wu⟩ := redondear64_pos (e / D) hw0 (by linarith)
  obtain ⟨v, ev, v0, -, vu⟩ := redondear32_pos w w0 (by linarith)
  refine ⟨v, ?_, v0, ?_⟩
  · unfold pesoCrudo32
    rw [ed, deEntero32_eq _ (by omega) (by omega)]
    have c1 : cociente binary32 (opuesto (Flotante.finito ((x * x + y * y : Int) : ℚ)))
        (Flotante.finito d) = Flotante.finito a := by
      show (if d = 0 then _ else redondear binary32 (-((x * x + y * y : Int) : ℚ) / d)) = _
      rw [if_neg (ne_of_gt hd0)]
      exact ea
    have c2 : producto binary64 M_PI (Flotante.finito d) = Flotante.finito D := eD
    rw [c1, c2, ee]
    show aFormato binary32 (if D = 0 then _ else redondear binary64 (e / D)) = _
    rw [if_neg (ne_of_gt hDpos), ew]
    exact ev
  · linarith

/-- The centre weight `expf(0) / (M_PI * denom)` for `0.1 ≤ sigma ≤ 50` is at least
`1/20000`. -/
theorem pesoCrudo32_centro (expf : Flotante → Flotante) (s : ℚ) (h1 : 1 / 10 ≤ s)
    (h2 : s ≤ 50) (hexp0 : expf (Flotante.finito 0) = Flotante.finito 1) :
    ∃ v : ℚ, pesoCrudo32 expf (Flotante.finito s) 0 0 = Flotante.finito v ∧ 1 / 20000 ≤ v := by
  obtain ⟨d, ed, dl, du⟩ := denom32_cota s h1 h2
  have hd0 : 0 < d := by linarith
  have hb : (64000 : ℚ) ≤ 2 ^ 100 := by norm_num
  have hpi : (884279719003555 / 281474976710656 : ℚ) * d ≤ 16000 := by nlinarith
  have hpi0 : (1 : ℚ) / 17 ≤ 884279719003555 / 281474976710656 * d := by nlinarith
  obtain ⟨D, eD, D0, Dl, Du⟩ := redondear64_pos (884279719003555 / 281474976710656 * d)
    (by linarith) (by linarith)
  have hD : 1 / 18 ≤ D := by linarith
  have hDu : D ≤ 16001 := by linarith
  have hDpos : 0 < D := by linarith
  have hw0 : 0 ≤ 1 / D := div_nonneg (by norm_num) (le_of_lt hDpos)
  have hw1 : 1 / D ≤ 18 := by
    rw [div_le_iff₀ hDpos]
    nlinarith
  have hw2 : 1 / 16001 ≤ 1 / D := one_div_le_one_div_of_le hDpos hDu
  obtain ⟨w, ew, w0, wl, wu⟩ := redondear64_pos (1 / D) hw0 (by linarith)
  obtain ⟨v, ev, v0, vl, vu⟩ := redondear32_pos w w0 (by linarith)
  refine ⟨v, ?_, ?_⟩
  · unfold pesoCrudo32
    rw [ed, deEntero32_eq _ (by decide) (by decide)]
    have c1 : cociente binary32 (opuesto (Flotante.finito (((0 * 0 + 0 * 0 : Int)) : ℚ)))
        (Flotante.finito d) = Flotante.finito 0 := by
      show (if d = 0 then _ else redondear binary32 (-(((0 * 0 + 0 * 0 : Int)) : ℚ) / d)) = _
      rw [if_neg (ne_of_gt hd0)]
      have : -(((0 * 0 + 0 * 0 : Int)) : ℚ) / d = 0 := by simp
      rw [this]
      exact redondear32_cero
    have c2 : producto binary64 M_PI (Flotante.finito d) = Flotante.finito D := eD
    rw [c1, c2, hexp0]
    show aFormato binary32 (if D = 0 then _ else redondear binary64 (1 / D)) = _
    rw [if_neg (ne_of_gt hDpos), ew]
    exact ev
  · linarith

/-! ## The error budget of the blur of a constant -/

/-- From the four rounding-error estimates of the blur of a constant `c ≤ 255` with a
kernel of at most 2601 weights: the accumulated value is within `1/2` of `c`. -/
theorem presupuesto_error (N T S K P A c : ℚ) (hN0 : 0 ≤ N) (hN : N ≤ 2601)
    (hT : 1 / 20000 ≤ T)
    (hS : |S - T| ≤ 2 * N * (T / 16777216 + 1 / 10 ^ 40))
    (hK : |K - T / S| ≤ T / S / 16777216 + N * (1 / 10 ^ 40))
    (hP : |P - K * c| ≤ K * c / 16777216 + N * (1 / 10 ^ 40))
    (hA : |A - P| ≤ 2 * N * (P / 16777216 + 1 / 10 ^ 40))
    (hc0 : 0 ≤ c) (hc : c ≤ 255) : |A - c| < 1 / 2 := by
  have hη : (0 : ℚ) < 1 / 10 ^ 40 := by norm_num
  have hη1 : (1 : ℚ) / 10 ^ 40 ≤ 1 / 1000000000000000000000000000000000000000 := by norm_num
  generalize (1 : ℚ) / 10 ^ 40 = η at *
  have hTpos : 0 < T := by linarith
  have hS1 := abs_le.1 hS
  have hNT : 2 * N * (T / 16777216 + η) ≤ 5202 * (T / 16777216 + η) :=
    mul_le_mul_of_nonneg_right (by linarith) (by linarith)
  have hSl : T * (2999 / 3000) ≤ S := by linarith
  have hSu : S ≤ T * (3001 / 3000) := by linarith
  have hSpos : 0 < S := by linarith
  have hRu : T / S ≤ 3000 / 2999 := by
    rw [div_le_iff₀ hSpos]
    linarith
  have hRl : 3000 / 3001 ≤ T / S := by
    rw [le_div_iff₀ hSpos]
    linarith
  generalize T / S = R at *
  have hK1 := abs_le.1 hK
  have hNη : N * η ≤ 2601 * η := mul_le_mul_of_nonneg_right hN (le_of_lt hη)
  have hNη0 : 0 ≤ N * η := mul_nonneg hN0 (le_of_lt hη)
  have hKl : 1 - 1 / 2900 ≤ K := by linarith
  have hKu : K ≤ 1 + 1 / 2900 := by linarith
  have hK0 : 0 ≤ K := by linarith
  have hKc0 : 0 ≤ K * c := mul_nonneg hK0 hc0
  have hKcu : K * c ≤ (1 + 1 / 2900) * c := mul_le_mul_of_nonneg_right hKu hc0
  have hKcl : (1 - 1 / 2900) * c ≤ K * c := mul_le_mul_of_nonneg_right hKl hc0
  have hP1 := abs_le.1 hP
  have hPu : P ≤ 256 := by linarith
  have hA1 := abs_le.1 hA
  have hNP : 2 * N * (P / 16777216 + η) ≤ 5202 * (256 / 16777216 + η) := by
    have a1 : P / 16777216 + η ≤ 256 / 16777216 + η := by linarith
    have a2 : 0 ≤ 256 / 16777216 + η := by linarith
    by_cases hneg : P / 16777216 + η ≤ 0
    · have : 2 * N * (P / 16777216 + η) ≤ 0 :=
        mul_nonpos_of_nonneg_of_nonpos (by linarith) hneg
      linarith
    · have hpos : 0 ≤ P / 16777216 + η := le_of_lt (not_le.1 hneg)
      calc 2 * N * (P / 16777216 + η) ≤ 5202 * (P / 16777216 + η) :=
            mul_le_mul_of_nonneg_right (by linarith) hpos
        _ ≤ 5202 * (256 / 16777216 + η) := by linarith
  rw [abs_lt]
  constructor <;> linarith

theorem valorFinito_eq {f : Flotante} {q : ℚ} (h : f = Flotante.finito q) :
    f = Flotante.finito (valorFinito f) := by
  rw [h]
  rfl

/-- Term-by-term rounding errors add up. -/
theorem suma_errores (N : Nat) (a b : Nat → ℚ) (η : ℚ)
    (h : ∀ p, p < N → |a p - b p| ≤ b p / 16777216 + η) :
    |∑ p in Finset.range N, a p - ∑ p in Finset.range N, b p| ≤
      (∑ p in Finset.range N, b p) / 16777216 + (N : ℚ) * η := by
  rw [← Finset.sum_sub_distrib]
  refine le_trans (Finset.abs_sum_le_sum_abs _ _) ?_
  have : ∑ p in Finset.range N, (b p / 16777216 + η) =
      (∑ p in Finset.range N, b p) / 16777216 + (N : ℚ) * η := by
    rw [Finset.sum_add_distrib, Finset.sum_div, Finset.sum_const, Finset.card_range,
      nsmul_eq_mul]
  rw [← this]
  exact Finset.sum_le_sum (fun p hp => h p (Finset.mem_range.1 hp))

/-- Every raw weight of a kernel of size at most 51 is a finite value in `[0, 19]`, and
the centre weight is at least `1/20000`. -/
theorem pesoCrudoEn_cota (expf : Flotante → Flotante) (s : ℚ) (h1 : 1 / 10 ≤ s) (h2 : s ≤ 50)
    (hexp : ∀ q : ℚ, q ≤ 0 →
      ∃ e : ℚ, expf (Flotante.finito q) = Flotante.finito e ∧ 0 ≤ e ∧ e ≤ 1)
    (hexp0 : expf (Flotante.finito 0) = Flotante.finito 1) (n : Nat) (hn1 : 1 ≤ n)
    (hn : n ≤ 51) :
    (∀ p, p < n * n → pesoCrudoEn expf (Flotante.finito s) n p =
        Flotante.finito (valorFinito (pesoCrudoEn expf (Flotante.finito s) n p)) ∧
      0 ≤ valorFinito (pesoCrudoEn expf (Flotante.finito s) n p) ∧
      valorFinito (pesoCrudoEn expf (Flotante.finito s) n p) ≤ 19) ∧
    ∃ pc, pc < n * n ∧
      1 / 20000 ≤ valorFinito (pesoCrudoEn expf (Flotante.finito s) n pc) := by
  have e2 := Int.tdiv_eq_ediv (a := (n : Int)) (b := 2) (by omega) (by omega)
  have hk0 : 0 ≤ Int.tdiv (n : Int) 2 := by rw [e2]; omega
  have hk1 : 2 * Int.tdiv (n : Int) 2 ≤ n := by rw [e2]; omega
  have hk2 : (n : Int) ≤ 2 * Int.tdiv (n : Int) 2 + 1 := by rw [e2]; omega
  constructor
  · intro p hp
    unfold pesoCrudoEn
    have hmod : p % n < n := Nat.mod_lt _ (by omega)
    have hdiv : p / n < n := Nat.div_lt_of_lt_mul hp
    generalize p % n = b at hmod ⊢
    generalize p / n = a at hdiv ⊢
    have hx1 : -25 ≤ ((b : Nat) : Int) - Int.tdiv (n : Int) 2 := by omega
    have hx2 : ((b : Nat) : Int) - Int.tdiv (n : Int) 2 ≤ 25 := by omega
    have hy1 : -25 ≤ ((a : Nat) : Int) - Int.tdiv (n : Int) 2 := by omega
    have hy2 : ((a : Nat) : Int) - Int.tdiv (n : Int) 2 ≤ 25 := by omega
    obtain ⟨v, ev, v0, v1⟩ := pesoCrudo32_cota expf s h1 h2 hexp
      (((b : Nat) : Int) - Int.tdiv (n : Int) 2) (((a : Nat) : Int) - Int.tdiv (n : Int) 2)
      (by nlinarith)
    rw [ev]
    exact ⟨rfl, v0, v1⟩
  · obtain ⟨k, hk⟩ : ∃ k : Nat, Int.tdiv (n : Int) 2 = k := ⟨(Int.tdiv (n : Int) 2).toNat, by omega⟩
    have hkn : k < n := by omega
    refine ⟨k * n + k, ?_, ?_⟩
    · have : (k + 1) * n ≤ n * n := Nat.mul_le_mul_right n (by omega)
      have e3 : (k + 1) * n = k * n + n := by ring
      omega
    · have hmod : (k * n + k) % n = k := by
        rw [Nat.add_comm, Nat.add_mul_mod_self_right]
        exact Nat.mod_eq_of_lt hkn
      have hdiv : (k * n + k) / n = k := by
        rw [Nat.add_comm, Nat.add_mul_div_right _ _ (by omega : 0 < n), Nat.div_eq_of_lt hkn]
        simp
      obtain ⟨v, ev, v0⟩ := pesoCrudo32_centro expf s h1 h2 hexp0
      have ev2 : pesoCrudoEn expf (Flotante.finito s) n (k * n + k) = Flotante.finito v := by
        unfold pesoCrudoEn
        rw [hmod, hdiv, hk, sub_self]
        exact ev
      rw [ev2]
      exact v0

/-- The normalisation of the binary32 kernel for `0.1 ≤ sigma ≤ 50` and a size of at most
51: the rounded sum `S` of the raw weights is positive and within the accumulation error
of their exact sum `T`, and the normalised weights are finite, non-negative and add up
to `T / S` within their rounding errors. -/
theorem pesos_normalizados32 (expf : Flotante → Flotante) (s : ℚ) (h1 : 1 / 10 ≤ s)
    (h2 : s ≤ 50)
    (hexp : ∀ q : ℚ, q ≤ 0 →
      ∃ e : ℚ, expf (Flotante.finito q) = Flotante.finito e ∧ 0 ≤ e ∧ e ≤ 1)
    (hexp0 : expf (Flotante.finito 0) = Flotante.finito 1) (n : Nat) (hn1 : 1 ≤ n)
    (hn : n ≤ 51) :
    ∃ S T : ℚ,
      T = ∑ p in Finset.range (n * n),
        valorFinito (pesoCrudoEn expf (Flotante.finito s) n p) ∧
      sumaCruda32 expf (Flotante.finito s) n = Flotante.finito S ∧ 0 < S ∧
      1 / 20000 ≤ T ∧
      |S - T| ≤ 2 * ((n * n : Nat) : ℚ) * (T / 16777216 + 1 / 10 ^ 40) ∧
      (∀ p, p < n * n →
        cociente binary32 (pesoCrudoEn expf (Flotante.finito s) n p) (Flotante.finito S) =
          Flotante.finito (valorFinito (cociente binary32
            (pesoCrudoEn expf (Flotante.finito s) n p) (Flotante.finito S))) ∧
        0 ≤ valorFinito (cociente binary32
            (pesoCrudoEn expf (Flotante.finito s) n p) (Flotante.finito S)) ∧
        valorFinito (cociente binary32
            (pesoCrudoEn expf (Flotante.finito s) n p) (Flotante.finito S)) ≤ 400001) ∧
      |∑ p in Finset.range (n * n), valorFinito (cociente binary32
            (pesoCrudoEn expf (Flotante.finito s) n p) (Flotante.finito S)) - T / S| ≤
        T / S / 16777216 + ((n * n : Nat) : ℚ) * (1 / 10 ^ 40) := by
  obtain ⟨hv, pc, hpc, hcen⟩ := pesoCrudoEn_cota expf s h1 h2 hexp hexp0 n hn1 hn
  have hNle : n * n ≤ 2601 := Nat.mul_le_mul hn hn
  have hNq : ((n * n : Nat) : ℚ) ≤ 2601 := by exact_mod_cast hNle
  have hNq0 : (0 : ℚ) ≤ ((n * n : Nat) : ℚ) := Nat.cast_nonneg _
  have hη150 : (1 : ℚ) / 2 ^ 150 ≤ 1 / 10 ^ 40 := by norm_num
  have hη : (0 : ℚ) < 1 / 10 ^ 40 := by norm_num
  have hη1 : (1 : ℚ) / 10 ^ 40 ≤ 1 / 1000000000000000000000000000000000000000 := by norm_num
  have h290 : (1000000000000000 : ℚ) ≤ 2 ^ 90 := by norm_num
  have h2100 : (1000000000000000 : ℚ) ≤ 2 ^ 100 := by norm_num
  -- the raw weights and their exact sum
  have hT0 : ∀ p ∈ Finset.range (n * n),
      0 ≤ valorFinito (pesoCrudoEn expf (Flotante.finito s) n p) :=
    fun p hp => (hv p (Finset.mem_range.1 hp)).2.1
  have hTc := Finset.single_le_sum hT0 (Finset.mem_range.2 hpc)
  have hTu : ∑ p in Finset.range (n * n),
      valorFinito (pesoCrudoEn expf (Flotante.finito s) n p) ≤ ((n * n : Nat) : ℚ) * 19 := by
    have := Finset.sum_le_sum (fun p hp => (hv p (Finset.mem_range.1 hp)).2.2)
    rw [Finset.sum_const, Finset.card_range, nsmul_eq_mul] at this
    exact this
  have eS : sumaCruda32 expf (Flotante.finito s) n =
      (List.range (n * n)).foldl (fun acc p => suma binary32 acc
        (Flotante.finito (valorFinito (pesoCrudoEn expf (Flotante.finito s) n p))))
        (Flotante.finito 0) := by
    unfold sumaCruda32
    apply List.foldl_ext
    intro acc p hp
    rw [← (hv p (List.mem_range.1 hp)).1]
  obtain ⟨S, eS2, hS0, hS⟩ := sumar32_cota
    (fun p => valorFinito (pesoCrudoEn expf (Flotante.finito s) n p)) (n * n) (by omega)
    (fun p hp => (hv p hp).2.1) (by linarith)
  rw [← eS] at eS2
  generalize hTdef : ∑ p in Finset.range (n * n),
    valorFinito (pesoCrudoEn expf (Flotante.finito s) n p) = T at *
  have hT : 1 / 20000 ≤ T := le_trans hcen hTc
  have hS' : |S - T| ≤ 2 * ((n * n : Nat) : ℚ) * (T / 16777216 + 1 / 10 ^ 40) := by
    refine le_trans hS ?_
    apply mul_le_mul_of_nonneg_left _ (by linarith)
    linarith
  have hS1 := abs_le.1 hS'
  have hNT : 2 * ((n * n : Nat) : ℚ) * (T / 16777216 + 1 / 10 ^ 40) ≤
      5202 * (T / 16777216 + 1 / 10 ^ 40) :=
    mul_le_mul_of_nonneg_right (by linarith) (by linarith)
  have hSl : T * (2999 / 3000) ≤ S := by linarith
  have hSpos : 0 < S := by linarith
  have hSne : S ≠ 0 := ne_of_gt hSpos
  refine ⟨S, T, rfl, eS2, hSpos, hT, hS', ?_⟩
  -- the normalised weights
  have hquot : ∀ p, p < n * n →
      0 ≤ valorFinito (pesoCrudoEn expf (Flotante.finito s) n p) / S ∧
      valorFinito (pesoCrudoEn expf (Flotante.finito s) n p) / S ≤ 400000 := by
    intro p hp
    obtain ⟨-, v0, v1⟩ := hv p hp
    refine ⟨div_nonneg v0 (le_of_lt hSpos), ?_⟩
    rw [div_le_iff₀ hSpos]
    linarith
  have hk : ∀ p, p < n * n →
      cociente binary32 (pesoCrudoEn expf (Flotante.finito s) n p) (Flotante.finito S) =
        Flotante.finito (valorFinito (cociente binary32
          (pesoCrudoEn expf (Flotante.finito s) n p) (Flotante.finito S))) ∧
      0 ≤ valorFinito (cociente binary32
          (pesoCrudoEn expf (Flotante.finito s) n p) (Flotante.finito S)) ∧
      |valorFinito (cociente binary32
          (pesoCrudoEn expf (Flotante.finito s) n p) (Flotante.finito S)) -
        valorFinito (pesoCrudoEn expf (Flotante.finito s) n p) / S| ≤
        valorFinito (pesoCrudoEn expf (Flotante.finito s) n p) / S / 16777216 + 1 / 10 ^ 40 := by
    intro p hp
    obtain ⟨q0, q1⟩ := hquot p hp
    obtain ⟨r, er, hr, hr0, -⟩ := redondear32_aprox
      (valorFinito (pesoCrudoEn expf (Flotante.finito s) n p) / S)
      (by rw [abs_of_nonneg q0]; linarith)
    have ec : cociente binary32 (pesoCrudoEn expf (Flotante.finito s) n p) (Flotante.finito S) =
        Flotante.finito r := by
      rw [(hv p hp).1]
      show (if S = 0 then _ else redondear binary32 (_ / S)) = _
      rw [if_neg hSne]
      exact er
    rw [ec]
    rw [abs_of_nonneg q0] at hr
    exact ⟨rfl, hr0 q0, hr⟩
  have hKsum := suma_errores (n * n)
    (fun p => valorFinito (cociente binary32
      (pesoCrudoEn expf (Flotante.finito s) n p) (Flotante.finito S)))
    (fun p => valorFinito (pesoCrudoEn expf (Flotante.finito s) n p) / S) (1 / 10 ^ 40)
    (fun p hpm => (hk p hpm).2.2)
  rw [← Finset.sum_div, hTdef] at hKsum
  refine ⟨?_, hKsum⟩
  intro p hp
  obtain ⟨ek, k0, kerr⟩ := hk p hp
  obtain ⟨q0, q1⟩ := hquot p hp
  have kb := abs_le.1 kerr
  exact ⟨ek, k0, by linarith⟩

/-- The blur of a constant in binary32, for `0.1 ≤ sigma ≤ 50` and a kernel of size at
most 51: the sum of the raw weights is positive, and the accumulator `acc`, which adds
the rounded products of the normalised weights with the sample `cc`, ends within `1/2`
of `cc`. -/
theorem acumulador_constante32 (expf : Flotante → Flotante) (s : ℚ) (h1 : 1 / 10 ≤ s)
    (h2 : s ≤ 50)
    (hexp : ∀ q : ℚ, q ≤ 0 →
      ∃ e : ℚ, expf (Flotante.finito q) = Flotante.finito e ∧ 0 ≤ e ∧ e ≤ 1)
    (hexp0 : expf (Flotante.finito 0) = Flotante.finito 1) (n : Nat) (hn1 : 1 ≤ n)
    (hn : n ≤ 51) (cc : UChar) :
    mayorQue (sumaCruda32 expf (Flotante.finito s) n) (Flotante.finito 0) = true ∧
    ∃ A : ℚ, (List.range (n * n)).foldl (fun acc p => suma binary32 acc
        (producto binary32
          (cociente binary32 (pesoCrudoEn expf (Flotante.finito s) n p)
            (sumaCruda32 expf (Flotante.finito s) n))
          (deEntero binary32 ((cc.val : Nat) : Int)))) (Flotante.finito 0) =
        Flotante.finito A ∧
      0 ≤ A ∧ |A - ((cc.val : Nat) : ℚ)| < 1 / 2 := by
  obtain ⟨S, T, -, eS2, hSpos, hT, hS', hk, hKsum⟩ :=
    pesos_normalizados32 expf s h1 h2 hexp hexp0 n hn1 hn
  have hNle : n * n ≤ 2601 := Nat.mul_le_mul hn hn
  have hNq : ((n * n : Nat) : ℚ) ≤ 2601 := by exact_mod_cast hNle
  have hNq0 : (0 : ℚ) ≤ ((n * n : Nat) : ℚ) := Nat.cast_nonneg _
  have hcc : ((cc.val : Nat) : ℚ) ≤ 255 := by
    have := cc.isLt
    exact_mod_cast (show cc.val ≤ 255 by omega)
  have hcc0 : (0 : ℚ) ≤ ((cc.val : Nat) : ℚ) := Nat.cast_nonneg _
  have hη150 : (1 : ℚ) / 2 ^ 150 ≤ 1 / 10 ^ 40 := by norm_num
  have hη : (0 : ℚ) < 1 / 10 ^ 40 := by norm_num
  have h290 : (1000000000000000 : ℚ) ≤ 2 ^ 90 := by norm_num
  have h2100 : (1000000000000000 : ℚ) ≤ 2 ^ 100 := by norm_num
  rw [eS2]
  refine ⟨by
    show decide ((0 : ℚ) < S) = true
    exact decide_eq_true hSpos, ?_⟩
  -- the rounded products with the sample
  have hd : deEntero binary32 ((cc.val : Nat) : Int) = Flotante.finito ((cc.val : Nat) : ℚ) :=
    deEntero32_uchar cc
  have hp : ∀ p, p < n * n →
      producto binary32
          (cociente binary32 (pesoCrudoEn expf (Flotante.finito s) n p) (Flotante.finito S))
          (Flotante.finito ((cc.val : Nat) : ℚ)) =
        Flotante.finito (valorFinito (producto binary32
          (cociente binary32 (pesoCrudoEn expf (Flotante.finito s) n p) (Flotante.finito S))
          (Flotante.finito ((cc.val : Nat) : ℚ)))) ∧
      0 ≤ valorFinito (producto binary32
          (cociente binary32 (pesoCrudoEn expf (Flotante.finito s) n p) (Flotante.finito S))
          (Flotante.finito ((cc.val : Nat) : ℚ))) ∧
      valorFinito (producto binary32
          (cociente binary32 (pesoCrudoEn expf (Flotante.finito s) n p) (Flotante.finito S))
          (Flotante.finito ((cc.val : Nat) : ℚ))) ≤ 110000000 ∧
      |valorFinito (producto binary32
          (cociente binary32 (pesoCrudoEn expf (Flotante.finito s) n p) (Flotante.finito S))
          (Flotante.finito ((cc.val : Nat) : ℚ))) -
        valorFinito (cociente binary32
          (pesoCrudoEn expf (Flotante.finito s) n p) (Flotante.finito S)) *
          ((cc.val : Nat) : ℚ)| ≤
        valorFinito (cociente binary32
          (pesoCrudoEn expf (Flotante.finito s) n p) (Flotante.finito S)) *
          ((cc.val : Nat) : ℚ) / 16777216 + 1 / 10 ^ 40 := by
    intro p hp
    obtain ⟨ek, k0, ku⟩ := hk p hp
    generalize valorFinito (cociente binary32
      (pesoCrudoEn expf (Flotante.finito s) n p) (Flotante.finito S)) = κ at *
    have hprod0 : 0 ≤ κ * ((cc.val : Nat) : ℚ) := mul_nonneg k0 hcc0
    have hprodu : κ * ((cc.val : Nat) : ℚ) ≤ 400001 * 255 :=
      mul_le_mul ku hcc hcc0 (by norm_num)
    obtain ⟨r, er, hr, hr0, -⟩ := redondear32_aprox (κ * ((cc.val : Nat) : ℚ))
      (by rw [abs_of_nonneg hprod0]; linarith)
    have ec : producto binary32
        (cociente binary32 (pesoCrudoEn expf (Flotante.finito s) n p) (Flotante.finito S))
        (Flotante.finito ((cc.val : Nat) : ℚ)) = Flotante.finito r := by
      rw [ek]
      exact er
    rw [ec]
    rw [abs_of_nonneg hprod0] at hr
    have rb := abs_le.1 hr
    exact ⟨rfl, hr0 hprod0, by
      show r ≤ 110000000
      linarith, hr⟩
  rw [hd]
  have eA : (List.range (n * n)).foldl (fun acc p => suma binary32 acc
        (producto binary32
          (cociente binary32 (pesoCrudoEn expf (Flotante.finito s) n p) (Flotante.finito S))
          (Flotante.finito ((cc.val : Nat) : ℚ)))) (Flotante.finito 0) =
      (List.range (n * n)).foldl (fun acc p => suma binary32 acc
        (Flotante.finito (valorFinito (producto binary32
          (cociente binary32 (pesoCrudoEn expf (Flotante.finito s) n p) (Flotante.finito S))
          (Flotante.finito ((cc.val : Nat) : ℚ)))))) (Flotante.finito 0) := by
    apply List.foldl_ext
    intro acc p hpm
    rw [← (hp p (List.mem_range.1 hpm)).1]
  rw [eA]
  have hPu : ∑ p in Finset.range (n * n), valorFinito (producto binary32
      (cociente binary32 (pesoCrudoEn expf (Flotante.finito s) n p) (Flotante.finito S))
      (Flotante.finito ((cc.val : Nat) : ℚ))) ≤ ((n * n : Nat) : ℚ) * 110000000 := by
    have := Finset.sum_le_sum (fun p hpm => (hp p (Finset.mem_range.1 hpm)).2.2.1)
    rw [Finset.sum_const, Finset.card_range, nsmul_eq_mul] at this
    exact this
  obtain ⟨A, eA2, hA0, hA⟩ := sumar32_cota
    (fun p => valorFinito (producto binary32
      (cociente binary32 (pesoCrudoEn expf (Flotante.finito s) n p) (Flotante.finito S))
      (Flotante.finito ((cc.val : Nat) : ℚ)))) (n * n) (by omega)
    (fun p hpm => (hp p hpm).2.1) (by
      refine le_trans hPu ?_
      have : ((n * n : Nat) : ℚ) * 110000000 ≤ 2601 * 110000000 :=
        mul_le_mul_of_nonneg_right hNq (by norm_num)
      linarith)
  refine ⟨A, eA2, hA0, ?_⟩
  have hPsum := suma_errores (n * n)
    (fun p => valorFinito (producto binary32
      (cociente binary32 (pesoCrudoEn expf (Flotante.finito s) n p) (Flotante.finito S))
      (Flotante.finito ((cc.val : Nat) : ℚ))))
    (fun p => valorFinito (cociente binary32
      (pesoCrudoEn expf (Flotante.finito s) n p) (Flotante.finito S)) * ((cc.val : Nat) : ℚ))
    (1 / 10 ^ 40) (fun p hpm => (hp p hpm).2.2.2)
  rw [← Finset.sum_mul] at hPsum
  have hP0 : 0 ≤ ∑ p in Finset.range (n * n), valorFinito (producto binary32
      (cociente binary32 (pesoCrudoEn expf (Flotante.finito s) n p) (Flotante.finito S))
      (Flotante.finito ((cc.val : Nat) : ℚ))) :=
    Finset.sum_nonneg (fun p hpm => (hp p (Finset.mem_range.1 hpm)).2.1)
  refine presupuesto_error ((n * n : Nat) : ℚ) T S _ _ A _ hNq0 hNq hT hS' hKsum hPsum ?_
    hcc0 hcc
  refine le_trans hA ?_
  apply mul_le_mul_of_nonneg_left _ (by linarith)
  linarith

/-- A non-negative accumulator within `1/2` of the sample `cc` is stored as `cc`. -/
theorem redondeo_final32 (A : ℚ) (cc : UChar) (h0 : 0 ≤ A)
    (h : |A - ((cc.val : Nat) : ℚ)| < 1 / 2) :
    clampuc (aEntero (roundf32 (Flotante.finito A))) = cc := by
  have hb := abs_lt.1 h
  have hr : roundf A = ((cc.val : Nat) : Int) := by
    unfold roundf
    rw [if_pos h0, Int.floor_eq_iff]
    push_cast
    constructor <;> linarith
  have hlt := cc.isLt
  have b1 : ((cc.val : Nat) : ℚ) < 256 := by exact_mod_cast hlt
  have b0 : (0 : ℚ) ≤ ((cc.val : Nat) : ℚ) := Nat.cast_nonneg _
  show clampuc (aEntero (Flotante.finito ((roundf A : Int) : ℚ))) = cc
  rw [hr]
  show clampuc (if -2147483649 < (((cc.val : Nat) : Int) : ℚ) ∧
      (((cc.val : Nat) : Int) : ℚ) < 2147483648 then
      (if 0 ≤ (((cc.val : Nat) : Int) : ℚ) then ⌊(((cc.val : Nat) : Int) : ℚ)⌋
        else ⌈(((cc.val : Nat) : Int) : ℚ)⌉)
      else -2147483648) = cc
  rw [Int.floor_intCast, Int.ceil_intCast, ite_self]
  push_cast
  rw [if_pos ⟨by linarith, by linarith⟩]
  exact clampuc_uchar cc

/-- The blur of a uniform image in binary32, for a kernel of odd size from 3 to 51 and
`0.1 ≤ sigma ≤ 50`: the value stored at every position is the colour of the image. -/
theorem valorConvolucion32_uniforme (expf : Flotante → Flotante) (s : ℚ) (h1 : 1 / 10 ≤ s)
    (h2 : s ≤ 50)
    (hexp : ∀ q : ℚ, q ≤ 0 →
      ∃ e : ℚ, expf (Flotante.finito q) = Flotante.finito e ∧ 0 ≤ e ∧ e ≤ 1)
    (hexp0 : expf (Flotante.finito 0) = Flotante.finito 1) (n : Nat) (hn1 : 1 ≤ n)
    (hn : n ≤ 51) (src : Matriz) (A W : Int) (y x c : Int) (cc : UChar)
    (hmu : ∀ a b : Nat, muestra src (recortar (y + ((a : Int) - Int.tdiv (n : Int) 2)) A)
      (recortar (x + ((b : Int) - Int.tdiv (n : Int) 2)) W) c = cc) :
    valorConvolucion32
      (fun a b => cociente binary32 (pesoCrudoEn expf (Flotante.finito s) n (a * n + b))
        (sumaCruda32 expf (Flotante.finito s) n)) src A W (n : Int) y x c = cc := by
  obtain ⟨-, Ac, eA, hA0, hA⟩ := acumulador_constante32 expf s h1 h2 hexp hexp0 n hn1 hn cc
  unfold valorConvolucion32 acumulador32
  simp only [hmu, Int.toNat_ofNat]
  rw [plegar_plano (fun (acc : Flotante) v => suma binary32 acc v)
    (fun a b => producto binary32
      (cociente binary32 (pesoCrudoEn expf (Flotante.finito s) n (a * n + b))
        (sumaCruda32 expf (Flotante.finito s) n))
      (deEntero binary32 ((cc.val : Nat) : Int))) n (Flotante.finito 0) n]
  simp only [Nat.div_add_mod']
  rw [eA]
  exact redondeo_final32 Ac cc hA0 hA

/-- What `generarKernelGauss32` returns for an odd size `≥ 3` when the sum of the raw
weights does not compare greater than 0 (it is 0, or a NaN): the identity kernel. -/
theorem generarKernelGauss32_identidad (expf : Flotante → Flotante) (n : Nat)
    (sigma : Flotante) (h1 : ¬ (Int.tmod (n : Int) 2 = 0 ∨ (n : Int) < 3))
    (hneg : ¬ mayorQue (sumaCruda32 expf sigma n) (Flotante.finito 0) = true) :
    ∃ ker, generarKernelGauss32 expf n sigma = some ker ∧ ker.length = n * n ∧
      ∀ a b : Nat, a < n → b < n →
        ker[a * n + b]? = some (if (a : Int) = Int.tdiv (n : Int) 2 ∧
          (b : Int) = Int.tdiv (n : Int) 2 then Flotante.finito 1 else Flotante.finito 0) := by
  obtain ⟨h3, hodd, hk2⟩ := impar_desde_tres n h1
  have hnn : ((n : Int) * n).toNat = n * n := by
    have : (n : Int) * n = ((n * n : Nat) : Int) := by push_cast; ring
    rw [this]; exact Int.toNat_ofNat _
  obtain ⟨st, e, hker, hsum⟩ := llenar_kernel_gen (pesoCrudo32 expf sigma)
    (fun (acc : Flotante) v => suma binary32 acc v) (Int.tdiv (n : Int) 2) n hodd
    (List.replicate (n * n) (Flotante.finito 0)) (by simp) (Flotante.finito 0)
  have hS : st.2 = sumaCruda32 expf sigma n := hsum
  have hl : st.1.length = n * n := by rw [hker]; simp
  unfold generarKernelGauss32
  rw [if_neg h1]
  dsimp only
  rw [hnn]
  unfold pesoCrudo32 at e
  rw [e, Option.some_bind, hS, if_neg hneg]
  have hN : ((n : Int) * n) = ((n * n : Nat) : Int) := by push_cast; ring
  generalize Int.tdiv (n : Int) 2 = k2 at *
  rw [hN, forLoop_cada_entrada (n * n) (fun _ => Flotante.finito 0) _ ?_ st.1 hl]
  · rw [Option.some_bind]
    have hc : k2 * (n : Int) + k2 = ((k2.toNat * n + k2.toNat : Nat) : Int) := by
      push_cast
      rw [Int.toNat_of_nonneg (by omega)]
    have hk2n : k2.toNat < n := by omega
    have hlt : k2.toNat * n + k2.toNat < n * n := by
      have : (k2.toNat + 1) * n ≤ n * n := Nat.mul_le_mul_right n (by omega)
      have e2 : (k2.toNat + 1) * n = k2.toNat * n + n := by ring
      omega
    rw [escribirLista_nat _ _ _ _ hc (by simp [hl]; exact hlt)]
    refine ⟨_, rfl, by simp [hl], ?_⟩
    intro a b ha hb
    have hab : a * n + b < n * n := by
      have : (a + 1) * n ≤ n * n := Nat.mul_le_mul_right n (by omega)
      have e2 : (a + 1) * n = a * n + n := by ring
      omega
    rw [List.getElem?_set]
    by_cases q : (a : Int) = k2 ∧ (b : Int) = k2
    · have qa : a = k2.toNat := by omega
      have qb : b = k2.toNat := by omega
      rw [if_pos q, if_pos (by rw [qa, qb]), if_pos (by simp [hl]; exact hlt)]
    · rw [if_neg q, if_neg, List.getElem?_map,
        List.getElem?_eq_getElem (by rw [hl]; exact hab)]
      · rfl
      · intro hidx
        apply q
        rcases lt_trichotomy a k2.toNat with h | h | h
        · have : (a + 1) * n ≤ k2.toNat * n := Nat.mul_le_mul_right n (by omega)
          have e2 : (a + 1) * n = a * n + n := by ring
          omega
        · subst h
          omega
        · have : (k2.toNat + 1) * n ≤ a * n := Nat.mul_le_mul_right n (by omega)
          have e2 : (k2.toNat + 1) * n = k2.toNat * n + n := by ring
          omega
  · intro j k w hw
    have hj : j < k.length := by
      by_contra hc
      rw [List.getElem?_eq_none (by omega)] at hw
      cases hw
    rw [escribirLista_nat _ j _ _ rfl hj]

/-! ## A sharper accumulation bound -/

/-- Partial sums of non-negative terms grow. -/
theorem suma_parcial_mono (x : Nat → ℚ) (N : Nat) (hx : ∀ p, p < N → 0 ≤ x p) (j : Nat)
    (hj : j ≤ N) : ∑ p in Finset.range j, x p ≤ ∑ p in Finset.range N, x p := by
  apply Finset.sum_le_sum_of_subset_of_nonneg
  · intro p hp
    rw [Finset.mem_range] at hp ⊢
    omega
  · intro p hp _
    exact hx p (Finset.mem_range.1 hp)

/-- The sum of the first `N` partial sums is at most `N` times the last one. -/
theorem suma_de_parciales_le (x : Nat → ℚ) (N : Nat) (hx : ∀ p, p < N → 0 ≤ x p) :
    ∑ j in Finset.range N, ∑ p in Finset.range (j + 1), x p ≤
      (N : ℚ) * ∑ p in Finset.range N, x p := by
  have := Finset.sum_le_sum (s := Finset.range N)
    (f := fun j => ∑ p in Finset.range (j + 1), x p)
    (g := fun _ => ∑ p in Finset.range N, x p)
    (fun j hj => suma_parcial_mono x N hx (j + 1) (by rw [Finset.mem_range] at hj; omega))
  rw [Finset.sum_const, Finset.card_range, nsmul_eq_mul] at this
  exact this

/-- Accumulating at most 2601 non-negative binary32 values with `+=`: the error is at
most `2^-24 * (1 + 1/6000)` times the sum of the exact partial sums, plus
`2 * N * 2^-150`. -/
theorem sumar32_fina (x : Nat → ℚ) :
    ∀ N : Nat, N ≤ 2601 → (∀ p, p < N → 0 ≤ x p) →
      ∑ p in Finset.range N, x p ≤ 2 ^ 90 →
      ∃ S : ℚ, (List.range N).foldl (fun acc p => suma binary32 acc (Flotante.finito (x p)))
          (Flotante.finito 0) = Flotante.finito S ∧ 0 ≤ S ∧
        |S - ∑ p in Finset.range N, x p| ≤
          6001 / 6000 / 16777216 *
            (∑ j in Finset.range N, ∑ p in Finset.range (j + 1), x p) +
          2 * (N : ℚ) * (1 / 2 ^ 150)
  | 0, _, _, _ => ⟨0, rfl, le_refl 0, by simp⟩
  | N + 1, hN, hx, hB => by
    have hxN : 0 ≤ x N := hx N (Nat.lt_succ_self N)
    have hsum : ∑ p in Finset.range (N + 1), x p = ∑ p in Finset.range N, x p + x N :=
      Finset.sum_range_succ _ _
    have ht0 : 0 ≤ ∑ p in Finset.range N, x p :=
      Finset.sum_nonneg (fun p hp => hx p (by rw [Finset.mem_range] at hp; omega))
    obtain ⟨S, e, hS0, hS⟩ := sumar32_fina x N (by omega) (fun p hp => hx p (by omega))
      (by rw [hsum] at hB; linarith)
    have hP := suma_de_parciales_le x N (fun p hp => hx p (by omega))
    have hP0 : 0 ≤ ∑ j in Finset.range N, ∑ p in Finset.range (j + 1), x p :=
      Finset.sum_nonneg (fun j hj => Finset.sum_nonneg (fun p hp =>
        hx p (by rw [Finset.mem_range] at hj hp; omega)))
    have hPsucc : ∑ j in Finset.range (N + 1), ∑ p in Finset.range (j + 1), x p =
        ∑ j in Finset.range N, ∑ p in Finset.range (j + 1), x p +
          (∑ p in Finset.range N, x p + x N) := by
      rw [Finset.sum_range_succ, hsum]
    rw [hPsucc]
    rw [hsum] at hB ⊢
    have hk : (N : ℚ) ≤ 2600 := by exact_mod_cast (show N ≤ 2600 by omega)
    have hk0 : (0 : ℚ) ≤ (N : ℚ) := Nat.cast_nonneg N
    have heta : (0 : ℚ) < 1 / 2 ^ 150 := one_div_pos.2 (pow_pos (by norm_num) 150)
    have heta1 : (1 : ℚ) / 2 ^ 150 ≤ 1 / 2 ^ 30 :=
      one_div_le_one_div_of_le (pow_pos (by norm_num) 30)
        (pow_le_pow_right₀ (by norm_num) (by norm_num))
    have h30 : (1 : ℚ) / 2 ^ 30 = 1 / 1073741824 := by norm_num
    rw [h30] at heta1
    have h100 : (2 : ℚ) ^ 90 * 2 + 1 ≤ 2 ^ 100 := by norm_num
    have hSbound : ∀ η t P xN : ℚ, 0 < η → η ≤ 1 / 1073741824 → 0 ≤ t → 0 ≤ xN → 0 ≤ P →
        P ≤ (N : ℚ) * t → t + xN ≤ 2 ^ 90 →
        |S - t| ≤ 6001 / 6000 / 16777216 * P + 2 * (N : ℚ) * η →
        (∀ r : ℚ, |r - (S + xN)| ≤ |S + xN| / 16777216 + η →
          |r - (t + xN)| ≤ 6001 / 6000 / 16777216 * (P + (t + xN)) +
            2 * ((N : ℚ) + 1) * η) ∧
        |S + xN| ≤ 2 ^ 90 * 2 + 1 := by
      intro η t P xN h1 h2 ht hxN hP0 hP hB hS
      have hS2 := abs_le.1 hS
      have hNη : (N : ℚ) * η ≤ 2600 * η := mul_le_mul_of_nonneg_right hk (le_of_lt h1)
      have hNη0 : 0 ≤ (N : ℚ) * η := mul_nonneg hk0 (le_of_lt h1)
      have hNt : (N : ℚ) * t ≤ 2600 * t := mul_le_mul_of_nonneg_right hk ht
      -- the second-order term: the error so far, times 2^-24
      have hsec : (6001 / 6000 / 16777216 * P + 2 * (N : ℚ) * η) / 16777216 ≤
          1 / 6000 / 16777216 * (t + xN) + η / 2 := by
        have : 6001 / 6000 / 16777216 * P ≤ 6001 / 6000 / 16777216 * (2600 * t) :=
          mul_le_mul_of_nonneg_left (le_trans hP hNt) (by norm_num)
        linarith
      constructor
      · intro r hr
        rw [abs_of_nonneg (by linarith : 0 ≤ S + xN)] at hr
        have hr2 := abs_le.1 hr
        rw [abs_le]
        constructor <;> linarith
      · rw [abs_of_nonneg (by linarith : 0 ≤ S + xN)]
        have : 6001 / 6000 / 16777216 * P ≤ 6001 / 6000 / 16777216 * (2600 * t) :=
          mul_le_mul_of_nonneg_left (le_trans hP hNt) (by norm_num)
        linarith
    obtain ⟨hstep, hq⟩ := hSbound _ _ _ (x N) heta heta1 ht0 hxN hP0 hP hB hS
    obtain ⟨r, er, hr, hr0, -⟩ := redondear32_cota (S + x N) (le_trans hq h100)
    refine ⟨r, ?_, hr0 (by linarith), ?_⟩
    · rw [List.range_succ, List.foldl_append, e]
      exact er
    · push_cast
      exact hstep r hr

/-- The sum of the first `N` partial sums, term by term. -/
theorem suma_de_parciales_eq (x : Nat → ℚ) :
    ∀ N : Nat, ∑ j in Finset.range N, ∑ p in Finset.range (j + 1), x p =
      ∑ p in Finset.range N, ((N : ℚ) - (p : ℚ)) * x p
  | 0 => by simp
  | N + 1 => by
    rw [Finset.sum_range_succ, suma_de_parciales_eq x N, Finset.sum_range_succ,
      Finset.sum_range_succ (fun p => (((N + 1 : Nat) : ℚ) - (p : ℚ)) * x p)]
    have : ∑ p in Finset.range N, (((N + 1 : Nat) : ℚ) - (p : ℚ)) * x p =
        ∑ p in Finset.range N, ((N : ℚ) - (p : ℚ)) * x p + ∑ p in Finset.range N, x p := by
      rw [← Finset.sum_add_distrib]
      apply Finset.sum_congr rfl
      intro p _
      push_cast
      ring
    rw [this]
    push_cast
    ring

/-- For terms that are symmetric under `p ↦ N - 1 - p`, the partial sums add up to
`(N + 1) / 2` times the total. -/
theorem suma_de_parciales_simetrica (x : Nat → ℚ) (N : Nat)
    (hsym : ∀ p, p < N → x (N - 1 - p) = x p) :
    ∑ j in Finset.range N, ∑ p in Finset.range (j + 1), x p =
      ((N : ℚ) + 1) / 2 * ∑ p in Finset.range N, x p := by
  rw [suma_de_parciales_eq]
  have href := Finset.sum_range_reflect (fun p => ((N : ℚ) - (p : ℚ)) * x p) N
  have h2 : ∑ p in Finset.range N, ((N : ℚ) - ((N - 1 - p : Nat) : ℚ)) * x (N - 1 - p) =
      ∑ p in Finset.range N, ((p : ℚ) + 1) * x p := by
    apply Finset.sum_congr rfl
    intro p hp
    rw [Finset.mem_range] at hp
    rw [hsym p hp, Nat.cast_sub (by omega), Nat.cast_sub (by omega)]
    push_cast
    ring
  have h3 : ∑ p in Finset.range N, ((N : ℚ) - (p : ℚ)) * x p +
      ∑ p in Finset.range N, ((p : ℚ) + 1) * x p =
      ((N : ℚ) + 1) * ∑ p in Finset.range N, x p := by
    rw [← Finset.sum_add_distrib, Finset.mul_sum]
    apply Finset.sum_congr rfl
    intro p _
    ring
  rw [h2] at href
  linarith

/-- The raw weight depends on the offset only through `x*x + y*y`. -/
theorem pesoCrudo32_neg (expf : Flotante → Flotante) (sigma : Flotante) (x y : Int) :
    pesoCrudo32 expf sigma (-x) (-y) = pesoCrudo32 expf sigma x y := by
  unfold pesoCrudo32
  rw [neg_mul_neg, neg_mul_neg]

/-- The raw weights of an odd-sized kernel are symmetric under the reflection of the
window through its centre. -/
theorem pesoCrudoEn_simetrico (expf : Flotante → Flotante) (sigma : Flotante) (n : Nat)
    (hodd : (n : Int) = 2 * Int.tdiv (n : Int) 2 + 1) (p : Nat) (hp : p < n * n) :
    pesoCrudoEn expf sigma n (n * n - 1 - p) = pesoCrudoEn expf sigma n p := by
  have hn0 : 0 < n := by
    rcases Nat.eq_zero_or_pos n with h | h
    · subst h
      simp at hp
    · exact h
  have hb : p % n < n := Nat.mod_lt _ hn0
  have ha : p / n < n := Nat.div_lt_of_lt_mul hp
  have hpe : n * (p / n) + p % n = p := Nat.div_add_mod p n
  generalize p % n = b at hb hpe
  generalize p / n = a at ha hpe
  have h1 : (n - 1 - a) * n + a * n + n = n * n := by
    have : (n - 1 - a) + a + 1 = n := by omega
    calc (n - 1 - a) * n + a * n + n = ((n - 1 - a) + a + 1) * n := by ring
      _ = n * n := by rw [this]
  have h2 : n * a = a * n := Nat.mul_comm n a
  have hq : n * n - 1 - p = (n - 1 - b) + (n - 1 - a) * n := by omega
  have hmod : (n * n - 1 - p) % n = n - 1 - b := by
    rw [hq, Nat.add_mul_mod_self_right]
    exact Nat.mod_eq_of_lt (by omega)
  have hdiv : (n * n - 1 - p) / n = n - 1 - a := by
    rw [hq, Nat.add_mul_div_right _ _ hn0, Nat.div_eq_of_lt (by omega)]
    simp
  have hpm : p % n = b := by
    rw [← hpe, Nat.add_comm, Nat.mul_comm, Nat.add_mul_mod_self_right]
    exact Nat.mod_eq_of_lt hb
  have hpd : p / n = a := by
    rw [← hpe, Nat.add_comm, Nat.mul_comm, Nat.add_mul_div_right _ _ hn0,
      Nat.div_eq_of_lt hb]
    simp
  unfold pesoCrudoEn
  rw [hmod, hdiv, hpm, hpd, ← pesoCrudo32_neg expf sigma ((b : Int) - Int.tdiv (n : Int) 2)
    ((a : Int) - Int.tdiv (n : Int) 2)]
  congr 1 <;> omega

/-- The rounded sum of the raw weights of an odd-sized kernel of at most 2601 weights,
with the sharper accumulation bound: the weights are symmetric, so their partial sums
add up to `(N + 1) / 2` times the total. -/
theorem sumaCruda32_fina (expf : Flotante → Flotante) (s : ℚ) (h1 : 1 / 10 ≤ s) (h2 : s ≤ 50)
    (hexp : ∀ q : ℚ, q ≤ 0 →
      ∃ e : ℚ, expf (Flotante.finito q) = Flotante.finito e ∧ 0 ≤ e ∧ e ≤ 1)
    (hexp0 : expf (Flotante.finito 0) = Flotante.finito 1) (n : Nat)
    (hodd : (n : Int) = 2 * Int.tdiv (n : Int) 2 + 1) (hn : n ≤ 51) (S : ℚ)
    (eS : sumaCruda32 expf (Flotante.finito s) n = Flotante.finito S) :
    |S - ∑ p in Finset.range (n * n),
        valorFinito (pesoCrudoEn expf (Flotante.finito s) n p)| ≤
      6001 / 6000 / 16777216 * ((((n * n : Nat) : ℚ) + 1) / 2 *
        ∑ p in Finset.range (n * n),
          valorFinito (pesoCrudoEn expf (Flotante.finito s) n p)) +
      2 * ((n * n : Nat) : ℚ) * (1 / 2 ^ 150) := by
  have hn1 : 1 ≤ n := by omega
  obtain ⟨hv, -⟩ := pesoCrudoEn_cota expf s h1 h2 hexp hexp0 n hn1 hn
  have hNle : n * n ≤ 2601 := Nat.mul_le_mul hn hn
  have hNq : ((n * n : Nat) : ℚ) ≤ 2601 := by exact_mod_cast hNle
  have h290 : (1000000000000000 : ℚ) ≤ 2 ^ 90 := by norm_num
  have hTu : ∑ p in Finset.range (n * n),
      valorFinito (pesoCrudoEn expf (Flotante.finito s) n p) ≤ ((n * n : Nat) : ℚ) * 19 := by
    have := Finset.sum_le_sum (fun p hp => (hv p (Finset.mem_range.1 hp)).2.2)
    rw [Finset.sum_const, Finset.card_range, nsmul_eq_mul] at this
    exact this
  have eS1 : sumaCruda32 expf (Flotante.finito s) n =
      (List.range (n * n)).foldl (fun acc p => suma binary32 acc
        (Flotante.finito (valorFinito (pesoCrudoEn expf (Flotante.finito s) n p))))
        (Flotante.finito 0) := by
    unfold sumaCruda32
    apply List.foldl_ext
    intro acc p hp
    rw [← (hv p (List.mem_range.1 hp)).1]
  obtain ⟨S1, eS2, -, hS⟩ := sumar32_fina
    (fun p => valorFinito (pesoCrudoEn expf (Flotante.finito s) n p)) (n * n) hNle
    (fun p hp => (hv p hp).2.1) (by linarith)
  rw [← eS1, eS] at eS2
  have hSS : S = S1 := by
    injection eS2
  rw [← hSS] at hS
  rw [suma_de_parciales_simetrica _ (n * n) (fun p hp => by
    rw [pesoCrudoEn_simetrico expf (Flotante.finito s) n hodd p hp])] at hS
  exact hS

/-- From the rounding-error estimates of the normalisation of a kernel of at most 2601
symmetric weights: the normalised weights add up to 1 within `1e-4`. -/
theorem presupuesto_suma_fina (N T S K : ℚ) (hN0 : 0 ≤ N) (hN : N ≤ 2601)
    (hT : 1 / 20000 ≤ T)
    (hS : |S - T| ≤ 6001 / 6000 / 16777216 * ((N + 1) / 2 * T) + 2 * N * (1 / 2 ^ 150))
    (hK : |K - T / S| ≤ T / S / 16777216 + N * (1 / 10 ^ 40)) :
    |K - 1| ≤ 1 / 10000 := by
  have hη150 : (1 : ℚ) / 2 ^ 150 ≤ 1 / 10 ^ 40 := by norm_num
  have hη1500 : (0 : ℚ) < 1 / 2 ^ 150 := one_div_pos.2 (pow_pos (by norm_num) 150)
  have hη : (0 : ℚ) < 1 / 10 ^ 40 := by norm_num
  have hη1 : (1 : ℚ) / 10 ^ 40 ≤ 1 / 1000000000000000000000000000000000000000 := by norm_num
  generalize (1 : ℚ) / 2 ^ 150 = η' at *
  generalize (1 : ℚ) / 10 ^ 40 = η at *
  have hTpos : 0 < T := by linarith
  have hS1 := abs_le.1 hS
  have hNT : (N + 1) / 2 * T ≤ 1301 * T :=
    mul_le_mul_of_nonneg_right (by linarith) (le_of_lt hTpos)
  have hNη' : N * η' ≤ 2601 * η' := mul_le_mul_of_nonneg_right hN (le_of_lt hη1500)
  have hSl : T * (9999224 / 10000000) ≤ S := by linarith
  have hSu : S ≤ T * (10000776 / 10000000) := by linarith
  have hSpos : 0 < S := by linarith
  have hRu : T / S ≤ 10000000 / 9999224 := by
    rw [div_le_iff₀ hSpos]
    linarith
  have hRl : 10000000 / 10000776 ≤ T / S := by
    rw [le_div_iff₀ hSpos]
    linarith
  generalize T / S = R at *
  have hK1 := abs_le.1 hK
  have hNη : N * η ≤ 2601 * η := mul_le_mul_of_nonneg_right hN (le_of_lt hη)
  have hNη0 : 0 ≤ N * η := mul_nonneg hN0 (le_of_lt hη)
  rw [abs_le]
  constructor <;> linarith

theorem suma_lista_rango (f : Nat → ℚ) :
    ∀ N : Nat, ((List.range N).map f).sum = ∑ p in Finset.range N, f p
  | 0 => by simp
  | N + 1 => by
    rw [List.range_succ, List.map_append, List.sum_append, suma_lista_rango f N,
      Finset.sum_range_succ]
    simp

/-- In binary32, for `0.1 ≤ sigma ≤ 50` and an odd size from 3 to 51, `generarKernelGauss`
returns finite non-negative weights whose exact sum is within `1e-4` of 1. -/
theorem kernel32_suma_cerca (expf : Flotante → Flotante) (s : ℚ) (h1 : 1 / 10 ≤ s)
    (h2 : s ≤ 50)
    (hexp : ∀ q : ℚ, q ≤ 0 →
      ∃ e : ℚ, expf (Flotante.finito q) = Flotante.finito e ∧ 0 ≤ e ∧ e ≤ 1)
    (hexp0 : expf (Flotante.finito 0) = Flotante.finito 1) (n : Nat)
    (htam : ¬ (Int.tmod (n : Int) 2 = 0 ∨ (n : Int) < 3)) (hn : n ≤ 51) :
    ∃ pesos : List ℚ,
      generarKernelGauss32 expf n (Flotante.finito s) = some (pesos.map Flotante.finito) ∧
      pesos.length = n * n ∧ (∀ w ∈ pesos, 0 ≤ w) ∧ |pesos.sum - 1| ≤ 1 / 10000 := by
  obtain ⟨-, hodd, -⟩ := impar_desde_tres n htam
  obtain ⟨S, T, hTd, eS, hSpos, hT, -, hk, hKsum⟩ :=
    pesos_normalizados32 expf s h1 h2 hexp hexp0 n (by omega) hn
  have hfina := sumaCruda32_fina expf s h1 h2 hexp hexp0 n hodd hn S eS
  rw [← hTd] at hfina
  have hpos : mayorQue (sumaCruda32 expf (Flotante.finito s) n) (Flotante.finito 0) = true := by
    rw [eS]
    show decide ((0 : ℚ) < S) = true
    exact decide_eq_true hSpos
  have eker := generarKernelGauss32_spec expf n (Flotante.finito s) htam hpos
  rw [eS] at eker
  have hNle : n * n ≤ 2601 := Nat.mul_le_mul hn hn
  have hNq : ((n * n : Nat) : ℚ) ≤ 2601 := by exact_mod_cast hNle
  refine ⟨(List.range (n * n)).map (fun p => valorFinito (cociente binary32
    (pesoCrudoEn expf (Flotante.finito s) n p) (Flotante.finito S))), ?_, by simp, ?_, ?_⟩
  · rw [eker, List.map_map]
    congr 1
    apply List.map_congr_left
    intro p hp
    exact (hk p (List.mem_range.1 hp)).1
  · intro w hw
    rw [List.mem_map] at hw
    obtain ⟨p, hp, rfl⟩ := hw
    exact (hk p (List.mem_range.1 hp)).2.1
  · rw [suma_lista_rango]
    exact presupuesto_suma_fina _ T S _ (Nat.cast_nonneg _) hNq hT hfina hKsum

/-- C6 (amended).  For every loaded image whose pixels all have the same per-channel colour
`col`, every odd `tamKernel` from 3 to 51 and every `sigma` with `0.1 ≤ sigma ≤ 50` (the
ranges accepted by the menu), `aplicarConvolucionConcurrente` computed in binary32, with
all workers started and an `expf` whose values on non-positive arguments lie in `[0, 1]`
with `expf(0) = 1`, returns an image with the same `ancho`, `alto` and `canales` in
which every pixel still has colour `col`. -/
theorem desenfoque_conserva_color_uniforme (expf : Flotante → Flotante) (info : ImagenInfo)
    (tam : Int) (s : ℚ) (numHilos : Int) (col : Int → UChar) (h : BienFormada info)
    (hunif : ∀ y x c, 0 ≤ y → y < info.alto → 0 ≤ x → x < info.ancho → 0 ≤ c →
      c < info.canales → leerImagen info y x c = some (col c))
    (hodd : ¬ Even tam) (h3 : 3 ≤ tam) (h51 : tam ≤ 51) (hs1 : 1 / 10 ≤ s) (hs2 : s ≤ 50)
    (hexp : ∀ q : ℚ, q ≤ 0 →
      ∃ e : ℚ, expf (Flotante.finito q) = Flotante.finito e ∧ 0 ≤ e ∧ e ≤ 1)
    (hexp0 : expf (Flotante.finito 0) = Flotante.finito 1) :
    ∃ r cnt, aplicarConvolucionConcurrente32 expf info tam (Flotante.finito s) numHilos
        todosArrancan = some (r, cnt) ∧
      r.ancho = info.ancho ∧ r.alto = info.alto ∧ r.canales = info.canales ∧
      BienFormada r ∧
      ∀ y x c, 0 ≤ y → y < info.alto → 0 ≤ x → x < info.ancho → 0 ≤ c → c < info.canales →
        leerImagen r y x c = some (col c) := by
  have htam : ¬ (Int.tmod tam 2 = 0 ∨ tam < 3) := by
    rw [tmod_dos_cero_iff_par]
    rintro (k | k)
    · exact hodd k
    · omega
  obtain ⟨n, rfl⟩ : ∃ n : Nat, tam = n := ⟨tam.toNat, by omega⟩
  have hn1 : 1 ≤ n := by omega
  have hn : n ≤ 51 := by omega
  have hbf := h
  obtain ⟨hA, hW, hC, hp⟩ := h
  cases hpx : info.pixeles with
  | none => rw [hpx] at hp; exact absurd hp id
  | some src =>
    have hsig : menorIgual (Flotante.finito s) (Flotante.finito 0) = false := by
      show decide (s ≤ 0) = false
      rw [decide_eq_false_iff_not]
      intro hc
      linarith
    obtain ⟨hpos, -⟩ := acumulador_constante32 expf s hs1 hs2 hexp hexp0 n hn1 hn 0
    have eker := generarKernelGauss32_spec expf n (Flotante.finito s) htam hpos
    obtain ⟨dst, cnt, e, -, -, hE⟩ := aplicarConvolucionConcurrente32_estado expf info n
      (Flotante.finito s) numHilos todosArrancan src hpx hbf htam _
      (fun a b => cociente binary32 (pesoCrudoEn expf (Flotante.finito s) n (a * n + b))
        (sumaCruda32 expf (Flotante.finito s) n))
      (by rw [hsig]; exact eker)
      (by
        intro a b ha hb
        rw [Int.toNat_ofNat] at ha hb ⊢
        have hlt : a * n + b < n * n := by
          have : (a + 1) * n ≤ n * n := Nat.mul_le_mul_right n (by omega)
          have e3 : (a + 1) * n = a * n + n := by ring
          omega
        rw [List.getElem?_map, List.getElem?_range hlt]
        rfl)
    obtain ⟨hn1', -, -⟩ := limitarHilos_rango numHilos info.alto hA
    refine ⟨_, cnt, e, rfl, rfl, rfl, ⟨hA, hW, hC, hE.1⟩, ?_⟩
    intro y x c h1 h2 h3' h4 h5 h6
    have := (hE.2 y x c h1 h2 h3' h4 h5 h6).1 (filaAtendida_todos _ _ y hA hn1' h1 h2)
    unfold leerImagen
    dsimp only
    rw [Option.some_bind, this]
    congr 1
    apply valorConvolucion32_uniforme expf s hs1 hs2 hexp hexp0 n hn1 hn
    intro a b
    have ry := recortar_rango (y + ((a : Int) - Int.tdiv (n : Int) 2)) info.alto hA
    have rx := recortar_rango (x + ((b : Int) - Int.tdiv (n : Int) 2)) info.ancho hW
    have := hunif _ _ c ry.1 ry.2 rx.1 rx.2 h5 h6
    unfold leerImagen at this
    rw [hpx, Option.some_bind] at this
    exact muestra_eq this

theorem desenfoque_conserva_color_uniforme_witness :
    BienFormada (imagenUniforme4x4 100) ∧
    ∃ r cnt, aplicarConvolucionConcurrente32 (fun _ => Flotante.finito 1)
        (imagenUniforme4x4 100) 3 (Flotante.finito 1) 4 todosArrancan = some (r, cnt) ∧
      r.ancho = (imagenUniforme4x4 100).ancho ∧ r.alto = (imagenUniforme4x4 100).alto ∧
      r.canales = (imagenUniforme4x4 100).canales ∧ BienFormada r ∧
      ∀ y x c, 0 ≤ y → y < (imagenUniforme4x4 100).alto → 0 ≤ x →
        x < (imagenUniforme4x4 100).ancho → 0 ≤ c → c < (imagenUniforme4x4 100).canales →
        leerImagen r y x c = some ((fun _ => (100 : UChar)) c) :=
  ⟨by decide,
    desenfoque_conserva_color_uniforme (fun _ => Flotante.finito 1) (imagenUniforme4x4 100) 3
      1 4 (fun _ => 100) (by decide)
      (fun y x c h1 h2 h3 h4 h5 h6 => imagenUniforme4x4_muestras 100 y x c h1 h2 h3 h4 h5 h6)
      (by decide) (by decide) (by decide) (by norm_num) (by norm_num)
      (fun _ _ => ⟨1, rfl, by norm_num, by norm_num⟩) rfl⟩

/-- C7 (amended).  For every odd `tam ≥ 3`, `generarKernelGauss` returns `tam*tam`
weights such that: in real arithmetic (every `float` operation exact), for every
`sigma > 0`, their sum is exactly 1 (hence within `1e-4` of 1), and when the raw weights
do not sum to a positive value (`sum == 0`) the result is the identity kernel, weight 1
at the centre and 0 everywhere else; in binary32, with an `expf` whose values on
non-positive arguments lie in `[0, 1]` and `expf(0) = 1`, for `tam ≤ 51` and
`0.1 ≤ sigma ≤ 50` (the ranges accepted by the menu) the weights are finite,
non-negative and their sum is within `1e-4` of 1, and for every `sigma` for which the
rounded sum of the raw weights does not compare greater than 0 the result is the
identity kernel. -/
theorem kernel_suma_uno {K : Type} [LinearOrderedField K] (expf : K → K) (pi : K)
    (expf32 : Flotante → Flotante) (tam : Int) (sigma : K) (hodd : ¬ Even tam)
    (h3 : 3 ≤ tam) (hs : 0 < sigma)
    (hexp : ∀ q : ℚ, q ≤ 0 →
      ∃ e : ℚ, expf32 (Flotante.finito q) = Flotante.finito e ∧ 0 ≤ e ∧ e ≤ 1)
    (hexp0 : expf32 (Flotante.finito 0) = Flotante.finito 1) :
    (∃ ker, generarKernelGauss expf pi tam sigma = some ker ∧
      ker.length = tam.toNat * tam.toNat ∧
      ker.sum = 1 ∧ |ker.sum - 1| ≤ 1 / 10000 ∧
      (¬ (0 < sumaCruda expf pi sigma tam) →
        ∀ a b : Nat, a < tam.toNat → b < tam.toNat →
          ker[a * tam.toNat + b]? =
            some (if (a : Int) = Int.tdiv tam 2 ∧ (b : Int) = Int.tdiv tam 2 then 1 else 0))) ∧
    (∀ s : ℚ, tam ≤ 51 → 1 / 10 ≤ s → s ≤ 50 →
      ∃ pesos : List ℚ,
        generarKernelGauss32 expf32 tam (Flotante.finito s) =
          some (pesos.map Flotante.finito) ∧
        pesos.length = tam.toNat * tam.toNat ∧ (∀ w ∈ pesos, 0 ≤ w) ∧
        |pesos.sum - 1| ≤ 1 / 10000) ∧
    (∀ sigma32 : Flotante,
      ¬ mayorQue (sumaCruda32 expf32 sigma32 tam.toNat) (Flotante.finito 0) = true →
      ∃ ker, generarKernelGauss32 expf32 tam sigma32 = some ker ∧
        ker.length = tam.toNat * tam.toNat ∧
        ∀ a b : Nat, a < tam.toNat → b < tam.toNat →
          ker[a * tam.toNat + b]? =
            some (if (a : Int) = Int.tdiv tam 2 ∧ (b : Int) = Int.tdiv tam 2
              then Flotante.finito 1 else Flotante.finito 0)) := by
  have htam : ¬ (Int.tmod tam 2 = 0 ∨ tam < 3) := by
    rw [tmod_dos_cero_iff_par]
    rintro (k | k)
    · exact hodd k
    · omega
  refine ⟨kernel_exacto_suma_uno expf pi tam sigma hodd h3 hs, ?_, ?_⟩
  · intro s h51 hs1 hs2
    obtain ⟨n, rfl⟩ : ∃ n : Nat, tam = n := ⟨tam.toNat, by omega⟩
    rw [Int.toNat_ofNat]
    exact kernel32_suma_cerca expf32 s hs1 hs2 hexp hexp0 n htam (by omega)
  · intro sigma32 hneg
    obtain ⟨n, rfl⟩ : ∃ n : Nat, tam = n := ⟨tam.toNat, by omega⟩
    rw [Int.toNat_ofNat] at hneg ⊢
    exact generarKernelGauss32_identidad expf32 n sigma32 htam hneg

/-- With `sigma = +inf` the value `denom` is `+inf`, every raw weight is `1 / inf = 0`
and their sum is 0. -/
theorem sumaCruda32_sigma_infinita :
    sumaCruda32 (fun _ => Flotante.finito 1) (Flotante.inf false) 3 = Flotante.finito 0 := by
  have hpi : (884279719003555 / 281474976710656 : ℚ) ≠ 0 := by norm_num
  have hp : ∀ x y : Int, pesoCrudo32 (fun _ => Flotante.finito 1) (Flotante.inf false) x y =
      Flotante.finito 0 := by
    intro x y
    have e1 : producto binary32 (producto binary32 (Flotante.finito 2) (Flotante.inf false))
        (Flotante.inf false) = Flotante.inf false := by
      show producto binary32 (if (2 : ℚ) = 0 then Flotante.nan
        else Flotante.inf (xor false (decide ((2 : ℚ) < 0)))) (Flotante.inf false) = _
      rw [if_neg (by norm_num)]
      rfl
    have e2 : producto binary64 M_PI (Flotante.inf false) = Flotante.inf false := by
      show (if (884279719003555 / 281474976710656 : ℚ) = 0 then Flotante.nan
        else Flotante.inf (xor false
          (decide ((884279719003555 / 281474976710656 : ℚ) < 0)))) = _
      rw [if_neg hpi]
      have : ¬ ((884279719003555 / 281474976710656 : ℚ) < 0) := by norm_num
      simp [this]
    unfold pesoCrudo32
    rw [e1, e2]
    show aFormato binary32 (Flotante.finito 0) = _
    exact redondear32_cero
  unfold sumaCruda32 pesoCrudoEn
  simp only [hp]
  have h9 : 3 * 3 = 9 := rfl
  rw [h9]
  simp [List.range_succ, suma32_cero_cero]

theorem kernel_suma_uno_witness :
    (∃ ker, generarKernelGauss (fun _ : ℚ => 1) (3 : ℚ) 3 (1 : ℚ) = some ker ∧
      ker.length = (3 : Int).toNat * (3 : Int).toNat ∧
      ker.sum = 1 ∧ |ker.sum - 1| ≤ 1 / 10000 ∧
      (¬ (0 < sumaCruda (fun _ : ℚ => 1) (3 : ℚ) (1 : ℚ) 3) →
        ∀ a b : Nat, a < (3 : Int).toNat → b < (3 : Int).toNat →
          ker[a * (3 : Int).toNat + b]? =
            some (if (a : Int) = Int.tdiv 3 2 ∧ (b : Int) = Int.tdiv 3 2 then 1 else 0))) ∧
    (∃ pesos : List ℚ,
      generarKernelGauss32 (fun _ => Flotante.finito 1) 3 (Flotante.finito 1) =
        some (pesos.map Flotante.finito) ∧
      pesos.length = (3 : Int).toNat * (3 : Int).toNat ∧ (∀ w ∈ pesos, 0 ≤ w) ∧
      |pesos.sum - 1| ≤ 1 / 10000) ∧
    ¬ mayorQue (sumaCruda32 (fun _ => Flotante.finito 1) (Flotante.inf false)
      (3 : Int).toNat) (Flotante.finito 0) = true ∧
    ∃ ker, generarKernelGauss32 (fun _ => Flotante.finito 1) 3 (Flotante.inf false) =
        some ker ∧
      ker.length = (3 : Int).toNat * (3 : Int).toNat ∧
      ∀ a b : Nat, a < (3 : Int).toNat → b < (3 : Int).toNat →
        ker[a * (3 : Int).toNat + b]? =
          some (if (a : Int) = Int.tdiv 3 2 ∧ (b : Int) = Int.tdiv 3 2
            then Flotante.finito 1 else Flotante.finito 0) :=
  have hneg : ¬ mayorQue (sumaCruda32 (fun _ => Flotante.finito 1) (Flotante.inf false)
      (3 : Int).toNat) (Flotante.finito 0) = true := by
    show ¬ mayorQue (sumaCruda32 (fun _ => Flotante.finito 1) (Flotante.inf false) 3)
      (Flotante.finito 0) = true
    rw [sumaCruda32_sigma_infinita]
    show ¬ decide ((0 : ℚ) < 0) = true
    simp
  have todo := kernel_suma_uno (fun _ : ℚ => 1) (3 : ℚ) (fun _ => Flotante.finito 1) 3 (1 : ℚ)
    (by decide) (by decide) (by norm_num) (fun _ _ => ⟨1, rfl, by norm_num, by norm_num⟩) rfl
  ⟨todo.1, todo.2.1 1 (by decide) (by norm_num) (by norm_num), hneg, todo.2.2 _ hneg⟩

end Parcial2
